import Mathlib

/-!
Planar contours to closed surface: a shallow embedding

Lean model of `vtkPlanarContourToClosedSurfaceConversionRule.cxx`
(SlicerRT, SegmentationCore).

Conventions of the embedding

* A point coordinate (`double` in the source) is an exact rational number.
* The shared point set (`vtkPoints`) is a list of points; a point id is a
  position in that list.  `GetPoint` of an id outside the list yields the
  origin, the value every coordinate buffer of the source is initialised with.
* A line (`vtkLine` / `vtkIdList`) is the list of its point ids.
* A C++ `int` used as a position or loop counter is an `Int`.
* A read of an id list, of a `std::vector` or of a table cell outside its
  bounds makes the enclosing operation return `none`.
-/

namespace PlanarContour

/-! ## Geometry primitives -/

/-- A 3D point with exact coordinates. -/
structure Point where
  x : ℚ
  y : ℚ
  z : ℚ
deriving DecidableEq

/-- The shared, append-only point set. -/
abbrev PointSet := List Point

/-- A triangle of the output cell array: three point ids. -/
abbrev Triangle := Nat × Nat × Nat

/-- The call `vtkPoints::GetPoint(id, buffer)` on a zero-initialised buffer. -/
def GetPoint (points : PointSet) (id : Nat) : Point :=
  points.getD id ⟨0, 0, 0⟩

/-- The function `vtkMath::Distance2BetweenPoints`, computed exactly; with
the rounding of `double` arithmetic it is `Rounded.Distance2BetweenPoints`. -/
def Distance2BetweenPoints (p q : Point) : ℚ :=
  (p.x - q.x) * (p.x - q.x) + (p.y - q.y) * (p.y - q.y) + (p.z - q.z) * (p.z - q.z)

/-- Bounds-checked read of a sequence at a C++ `int` position
(`vtkIdList::GetId`, `std::vector::operator[]`). -/
def readAt {α : Type} (l : List α) (i : Int) : Option α :=
  if 0 ≤ i then l.get? i.toNat else none

/-- The method `vtkIdList::GetId`. -/
def GetId (ids : List Nat) (i : Int) : Option Nat :=
  readAt ids i

/-! ## Loops -/

/-- A counted loop `for (i = start; ...; ++i)` running `count` iterations;
the body sees the loop variable and the state. -/
def forLoop {σ : Type} (body : Int → σ → Option σ) : Nat → Int → σ → Option σ
  | 0, _, s => some s
  | k + 1, i, s => (body i s).bind (forLoop body k (i + 1))

/-- A `while (cond) body` loop with an iteration budget; exceeding the budget
is a fault. -/
def whileLoop {σ : Type} (cond : σ → Bool) (body : σ → Option σ) : Nat → σ → Option σ
  | 0, s => if cond s then none else some s
  | k + 1, s => if cond s then (body s).bind (whileLoop cond body k) else some s

/-! ## Location arithmetic on a chain -/

/-- Source: `GetNextLocation`. -/
def GetNextLocation (currentLocation numberOfPoints : Int) (loopClosed : Bool) : Int :=
  if currentLocation + 1 = numberOfPoints then
    if loopClosed then 1 else 0
  else currentLocation + 1

/-- Source: `GetPreviousLocation`. -/
def GetPreviousLocation (currentLocation numberOfPoints : Int) (loopClosed : Bool) : Int :=
  if currentLocation - 1 = -1 then
    if loopClosed then numberOfPoints - 2 else numberOfPoints - 1
  else currentLocation - 1

/-- Source: `GetEndLoop`. -/
def GetEndLoop (startLoopIndex numberOfPoints : Int) (loopClosed : Bool) : Int :=
  if startLoopIndex ≠ 0 then
    if loopClosed then startLoopIndex else startLoopIndex - 1
  else numberOfPoints - 1

/-! ## Closest point on a chain -/

/-- State of the scan of `GetClosestPoint`. -/
structure ClosestState where
  minimumDistance : ℚ
  closestPointIndex : Int

/-- One iteration of the scan of `GetClosestPoint`. -/
def GetClosestPoint.body (points : PointSet) (originalPoint : Point) (linePointIds : List Nat)
    (currentPointIndex : Int) (s : ClosestState) : Option ClosestState :=
  (GetId linePointIds currentPointIndex).bind fun id =>
    let distanceBetweenPoints := Distance2BetweenPoints originalPoint (GetPoint points id)
    if distanceBetweenPoints < s.minimumDistance then
      some ⟨distanceBetweenPoints, currentPointIndex⟩
    else some s

/-- Source: `GetClosestPoint`: the position on the chain of the point closest
to `originalPoint`. -/
def GetClosestPoint (points : PointSet) (originalPoint : Point) (linePointIds : List Nat)
    (numberOfPoints : Int) : Option Int :=
  (GetId linePointIds 0).bind fun id0 =>
    (forLoop (GetClosestPoint.body points originalPoint linePointIds)
      (numberOfPoints - 1).toNat 1
      ⟨Distance2BetweenPoints originalPoint (GetPoint points id0), 0⟩).map
      fun s => s.closestPointIndex

/-! ## Contour bridging: `TriangulateContours` -/

/-- A table `std::vector<std::vector<T>>` of fixed dimensions, as a function
of its two indices. -/
abbrev Table (α : Type) := Int → Int → α

/-- Bounds-checked read of a cell of an `rows` by `cols` table. -/
def Table.read {α : Type} (t : Table α) (rows cols i j : Int) : Option α :=
  if 0 ≤ i ∧ i < rows ∧ 0 ≤ j ∧ j < cols then some (t i j) else none

/-- Bounds-checked write of a cell of an `rows` by `cols` table. -/
def Table.write {α : Type} (t : Table α) (rows cols i j : Int) (v : α) : Option (Table α) :=
  if 0 ≤ i ∧ i < rows ∧ 0 ≤ j ∧ j < cols then
    some fun a b => if a = i ∧ b = j then v else t a b
  else none

/-- The backtracking mark `left` of `TriangulateContours`. -/
def left : Int := -1

/-- The backtracking mark `up` of `TriangulateContours`. -/
def up : Int := 1

/-- The inputs of `TriangulateContours` and the values it derives from them
before the tables are filled. -/
structure BridgeInput where
  points : PointSet
  pointsInLine1 : List Nat
  pointsInLine2 : List Nat
  numberOfPointsInLine1 : Int
  numberOfPointsInLine2 : Int
  closest1 : List Int
  closest2 : List Int
  startLine1 : Int
  startLine2 : Int
  firstPointLine1 : Point
  firstPointLine2 : Point
  line1Closed : Bool
  line2Closed : Bool

/-- The mutable locals of `TriangulateContours`. -/
structure BridgeState where
  scoreTable : Table ℚ
  backtrackTable : Table Int
  previousLine1 : Int
  previousLine2 : Int
  currentPointIndexLine1 : Int
  currentPointIndexLine2 : Int
  line1PointIndex : Int
  line2PointIndex : Int
  outputPolygons : List Triangle

/-- Body of the loop "Initialize the first row in the table". -/
def firstRowBody (c : BridgeInput) (line2PointIndex : Int) (s : BridgeState) :
    Option BridgeState :=
  (GetId c.pointsInLine2 s.currentPointIndexLine2).bind fun id2 =>
  let distance := Distance2BetweenPoints c.firstPointLine1 (GetPoint c.points id2)
  (s.scoreTable.read c.numberOfPointsInLine1 c.numberOfPointsInLine2 0 (line2PointIndex - 1)).bind
    fun previousScore =>
  (s.scoreTable.write c.numberOfPointsInLine1 c.numberOfPointsInLine2 0 line2PointIndex
    (previousScore + distance)).bind fun scoreTable =>
  (s.backtrackTable.write c.numberOfPointsInLine1 c.numberOfPointsInLine2 0 line2PointIndex
    left).bind fun backtrackTable =>
  some { s with
    scoreTable := scoreTable
    backtrackTable := backtrackTable
    currentPointIndexLine2 :=
      GetNextLocation s.currentPointIndexLine2 c.numberOfPointsInLine2 c.line2Closed }

/-- Body of the inner loop of "Initialize the first column in the table":
the cells of the row right of the first column are reset. -/
def firstColumnResetBody (c : BridgeInput) (line1PointIndex line2PointIndex : Int)
    (s : BridgeState) : Option BridgeState :=
  (s.scoreTable.write c.numberOfPointsInLine1 c.numberOfPointsInLine2 line1PointIndex
    line2PointIndex 0).bind fun scoreTable =>
  (s.backtrackTable.write c.numberOfPointsInLine1 c.numberOfPointsInLine2 line1PointIndex
    line2PointIndex up).bind fun backtrackTable =>
  some { s with scoreTable := scoreTable, backtrackTable := backtrackTable }

/-- Body of the loop "Initialize the first column in the table". -/
def firstColumnBody (c : BridgeInput) (line1PointIndex : Int) (s : BridgeState) :
    Option BridgeState :=
  (GetId c.pointsInLine1 s.currentPointIndexLine1).bind fun id1 =>
  let distance := Distance2BetweenPoints (GetPoint c.points id1) c.firstPointLine2
  (s.scoreTable.read c.numberOfPointsInLine1 c.numberOfPointsInLine2 (line1PointIndex - 1) 0).bind
    fun previousScore =>
  (s.scoreTable.write c.numberOfPointsInLine1 c.numberOfPointsInLine2 line1PointIndex 0
    (previousScore + distance)).bind fun scoreTable =>
  (s.backtrackTable.write c.numberOfPointsInLine1 c.numberOfPointsInLine2 line1PointIndex 0
    up).bind fun backtrackTable =>
  (forLoop (firstColumnResetBody c line1PointIndex) (c.numberOfPointsInLine2 - 1).toNat 1
    { s with scoreTable := scoreTable, backtrackTable := backtrackTable }).bind fun s1 =>
  some { s1 with
    currentPointIndexLine1 :=
      GetNextLocation s1.currentPointIndexLine1 c.numberOfPointsInLine1 c.line1Closed }

/-- Body of the inner loop of "Fill the rest of the table": one interior cell. -/
def fillCellBody (c : BridgeInput) (line1PointIndex line2PointIndex : Int) (s : BridgeState) :
    Option BridgeState :=
  let rows := c.numberOfPointsInLine1
  let cols := c.numberOfPointsInLine2
  (GetId c.pointsInLine1 s.currentPointIndexLine1).bind fun id1 =>
  (GetId c.pointsInLine2 s.currentPointIndexLine2).bind fun id2 =>
  let distance := Distance2BetweenPoints (GetPoint c.points id1) (GetPoint c.points id2)
  (readAt c.closest2 s.previousLine2).bind fun closestOfPrevious2 =>
  (if s.currentPointIndexLine1 = closestOfPrevious2 then
    (s.scoreTable.read rows cols line1PointIndex (line2PointIndex - 1)).bind fun scoreLeft =>
      some (scoreLeft + distance, left)
  else
    (readAt c.closest1 s.previousLine1).bind fun closestOfPrevious1 =>
    if s.currentPointIndexLine2 = closestOfPrevious1 then
      (s.scoreTable.read rows cols (line1PointIndex - 1) line2PointIndex).bind fun scoreUp =>
        some (scoreUp + distance, up)
    else
      (s.scoreTable.read rows cols line1PointIndex (line2PointIndex - 1)).bind fun scoreLeft =>
      (s.scoreTable.read rows cols (line1PointIndex - 1) line2PointIndex).bind fun scoreUp =>
      if scoreLeft ≤ scoreUp then some (scoreLeft + distance, left)
      else some (scoreUp + distance, up)).bind fun cell =>
  (s.scoreTable.write rows cols line1PointIndex line2PointIndex cell.1).bind fun scoreTable =>
  (s.backtrackTable.write rows cols line1PointIndex line2PointIndex cell.2).bind
    fun backtrackTable =>
  some { s with
    scoreTable := scoreTable
    backtrackTable := backtrackTable
    previousLine2 := s.currentPointIndexLine2
    currentPointIndexLine2 :=
      GetNextLocation s.currentPointIndexLine2 cols c.line2Closed }

/-- Body of the outer loop of "Fill the rest of the table": one row.  The
inner loop variable `line2PointIndex` is left at the inner loop's exit value. -/
def fillRowBody (c : BridgeInput) (line1PointIndex : Int) (s : BridgeState) :
    Option BridgeState :=
  (forLoop (fillCellBody c line1PointIndex) (c.numberOfPointsInLine2 - 1).toNat 1 s).bind
    fun s1 =>
  some { s1 with
    line2PointIndex := 1 + ((c.numberOfPointsInLine2 - 1).toNat : Int)
    previousLine1 := s1.currentPointIndexLine1
    currentPointIndexLine1 :=
      GetNextLocation s1.currentPointIndexLine1 c.numberOfPointsInLine1 c.line1Closed }

/-- The condition of the backtracking loop. -/
def backtrackCond (s : BridgeState) : Bool :=
  decide (s.line1PointIndex > 0 ∨ s.line2PointIndex > 0)

/-- Body of the backtracking loop: one triangle is emitted. -/
def backtrackBody (c : BridgeInput) (s : BridgeState) : Option BridgeState :=
  (GetId c.pointsInLine1 s.currentPointIndexLine1).bind fun id1 =>
  (GetId c.pointsInLine2 s.currentPointIndexLine2).bind fun id2 =>
  (s.backtrackTable.read c.numberOfPointsInLine1 c.numberOfPointsInLine2 s.line1PointIndex
    s.line2PointIndex).bind fun mark =>
  if mark = left then
    let previousPointIndexLine2 :=
      GetPreviousLocation s.currentPointIndexLine2 c.numberOfPointsInLine2 c.line2Closed
    (GetId c.pointsInLine2 previousPointIndexLine2).bind fun idPrevious =>
    some { s with
      outputPolygons := s.outputPolygons ++ [(id1, id2, idPrevious)]
      line2PointIndex := s.line2PointIndex - 1
      currentPointIndexLine2 := previousPointIndexLine2 }
  else
    let previousPointIndexLine1 :=
      GetPreviousLocation s.currentPointIndexLine1 c.numberOfPointsInLine1 c.line1Closed
    (GetId c.pointsInLine1 previousPointIndexLine1).bind fun idPrevious =>
    some { s with
      outputPolygons := s.outputPolygons ++ [(id1, id2, idPrevious)]
      line1PointIndex := s.line1PointIndex - 1
      currentPointIndexLine1 := previousPointIndexLine1 }

/-- The closest-point lists of `TriangulateContours`: for every point of
`fromLine`, its closest position on `toLine`. -/
def closestList (points : PointSet) (fromLine toLine : List Nat) : Option (List Int) :=
  fromLine.mapM fun id => GetClosestPoint points (GetPoint points id) toLine toLine.length

/-- The part of `TriangulateContours` before the tables are allocated. -/
def bridgeInput (points : PointSet) (pointsInLine1 pointsInLine2 : List Nat) :
    Option BridgeInput :=
  let numberOfPointsInLine1 : Int := pointsInLine1.length
  let numberOfPointsInLine2 : Int := pointsInLine2.length
  (closestList points pointsInLine1 pointsInLine2).bind fun closest1 =>
  (closestList points pointsInLine2 pointsInLine1).bind fun closest2 =>
  let startLine1 : Int := 0
  (readAt closest1 0).bind fun startLine2 =>
  (GetId pointsInLine1 startLine1).bind fun firstId1 =>
  (GetId pointsInLine2 startLine2).bind fun firstId2 =>
  (GetId pointsInLine1 0).bind fun head1 =>
  (GetId pointsInLine1 (numberOfPointsInLine1 - 1)).bind fun last1 =>
  (GetId pointsInLine2 0).bind fun head2 =>
  (GetId pointsInLine2 (numberOfPointsInLine2 - 1)).bind fun last2 =>
  some {
    points := points
    pointsInLine1 := pointsInLine1
    pointsInLine2 := pointsInLine2
    numberOfPointsInLine1 := numberOfPointsInLine1
    numberOfPointsInLine2 := numberOfPointsInLine2
    closest1 := closest1
    closest2 := closest2
    startLine1 := startLine1
    startLine2 := startLine2
    firstPointLine1 := GetPoint points firstId1
    firstPointLine2 := GetPoint points firstId2
    line1Closed := decide (head1 = last1)
    line2Closed := decide (head2 = last2) }

/-- The locals of `TriangulateContours` when the tables have been allocated
and cell (0,0) has been set. -/
def initialState (c : BridgeInput) (outputPolygons : List Triangle) : BridgeState where
  scoreTable := fun a b =>
    if a = 0 ∧ b = 0 then Distance2BetweenPoints c.firstPointLine1 c.firstPointLine2 else 0
  backtrackTable := fun _ _ => 0
  previousLine1 := c.startLine1
  previousLine2 := c.startLine2
  currentPointIndexLine1 := 0
  currentPointIndexLine2 := 0
  line1PointIndex := 1
  line2PointIndex := 1
  outputPolygons := outputPolygons

/-- The two seeding loops and the interior fill of `TriangulateContours`. -/
def fillTables (c : BridgeInput) (outputPolygons : List Triangle) : Option BridgeState :=
  let n1 := c.numberOfPointsInLine1
  let n2 := c.numberOfPointsInLine2
  let s0 := initialState c outputPolygons
  -- Initialize the first row in the table.
  (forLoop (firstRowBody c) (n2 - 1).toNat 1
    { s0 with currentPointIndexLine2 := GetNextLocation c.startLine2 n2 c.line2Closed }).bind
    fun s1 =>
  -- Initialize the first column in the table.
  (forLoop (firstColumnBody c) (n1 - 1).toNat 1
    { s1 with currentPointIndexLine1 := GetNextLocation c.startLine1 n2 c.line1Closed }).bind
    fun s2 =>
  -- Fill the rest of the table.
  (forLoop (fillRowBody c) (n1 - 1).toNat 1
    { s2 with
      previousLine1 := c.startLine1
      previousLine2 := c.startLine2
      currentPointIndexLine1 := GetNextLocation c.startLine1 n1 c.line1Closed
      currentPointIndexLine2 := GetNextLocation c.startLine2 n2 c.line2Closed
      line1PointIndex := 1
      line2PointIndex := 1 }).bind fun s3 =>
  some { s3 with line1PointIndex := 1 + ((n1 - 1).toNat : Int) }

/-- The state in which the backtracking loop of `TriangulateContours` is
entered. -/
def backtrackStart (c : BridgeInput) (s : BridgeState) : BridgeState :=
  { s with
    currentPointIndexLine1 := GetEndLoop c.startLine1 c.numberOfPointsInLine1 c.line1Closed
    currentPointIndexLine2 := GetEndLoop c.startLine2 c.numberOfPointsInLine2 c.line2Closed
    line1PointIndex := s.line1PointIndex - 1
    line2PointIndex := s.line2PointIndex - 1 }

/-- Source: `TriangulateContours`.  The result is the output cell array
after the call. -/
def TriangulateContours (points : PointSet) (pointsInLine1 pointsInLine2 : List Nat)
    (outputPolygons : List Triangle) : Option (List Triangle) :=
  if pointsInLine1.length = 0 ∨ pointsInLine2.length = 0 then some outputPolygons
  else
    (bridgeInput points pointsInLine1 pointsInLine2).bind fun c =>
    (fillTables c outputPolygons).bind fun s =>
    (whileLoop backtrackCond (backtrackBody c)
      (pointsInLine1.length + pointsInLine2.length) (backtrackStart c s)).map
      fun s => s.outputPolygons

/-! ## The working contour set -/

/-- The working `vtkPolyData`: the shared point set and the line cells. -/
structure PolyData where
  points : PointSet
  lines : List (List Nat)
deriving DecidableEq

/-- Bounds-checked write of a `std::vector` element. -/
def writeAt {α : Type} (l : List α) (i : Int) (v : α) : Option (List α) :=
  if 0 ≤ i ∧ i < l.length then some (l.set i.toNat v) else none

/-- The coordinates of the points of a line, by position on the line
(`vtkCell::GetPoints`). -/
def linePoints (points : PointSet) (line : List Nat) : List Point :=
  line.map (GetPoint points)

/-! ## Bounding boxes and the overlap test -/

/-- The array `double bounds[6]`. -/
structure Bounds where
  xmin : ℚ
  xmax : ℚ
  ymin : ℚ
  ymax : ℚ
  zmin : ℚ
  zmax : ℚ
deriving DecidableEq

/-- One step of the scan of `vtkCell::GetBounds`. -/
def Bounds.extend (b : Bounds) (p : Point) : Bounds where
  xmin := if p.x < b.xmin then p.x else b.xmin
  xmax := if p.x > b.xmax then p.x else b.xmax
  ymin := if p.y < b.ymin then p.y else b.ymin
  ymax := if p.y > b.ymax then p.y else b.ymax
  zmin := if p.z < b.zmin then p.z else b.zmin
  zmax := if p.z > b.zmax then p.z else b.zmax

/-- The library method `vtkCell::GetBounds`: per coordinate, the least and
the greatest value over the points of the cell; a cell without points has the
uninitialised bounds `(1, -1, 1, -1, 1, -1)`. -/
def GetBounds (points : PointSet) (line : List Nat) : Bounds :=
  match linePoints points line with
  | [] => ⟨1, -1, 1, -1, 1, -1⟩
  | p :: rest => rest.foldl Bounds.extend ⟨p.x, p.x, p.y, p.y, p.z, p.z⟩

/-- Source: `DoLinesOverlap`. -/
def DoLinesOverlap (points : PointSet) (line1 line2 : List Nat) : Bool :=
  let bounds1 := GetBounds points line1
  let bounds2 := GetBounds points line2
  decide (bounds1.xmin < bounds2.xmax ∧ bounds1.xmax > bounds2.xmin ∧
    bounds1.ymin < bounds2.ymax ∧ bounds1.ymax > bounds2.ymin)

/-! ## Contour normalizer: `SortContours` -/

/-- The sort key of `SortContours`: the midpoint of the Z-extent of a line. -/
def averageZ (points : PointSet) (line : List Nat) : ℚ :=
  ((GetBounds points line).zmin + (GetBounds points line).zmax) / 2

/-- The order `operator<` of `std::pair<double, vtkIdType>`. -/
def pairLess (a b : ℚ × Nat) : Prop :=
  a.1 < b.1 ∨ (¬ b.1 < a.1 ∧ a.2 < b.2)

instance (a b : ℚ × Nat) : Decidable (pairLess a b) := by
  unfold pairLess
  exact inferInstance

/-- The vector `lineZPairs` of `SortContours` before it is sorted. -/
def lineZPairs (points : PointSet) (lines : List (List Nat)) : List (ℚ × Nat) :=
  lines.enum.map fun il => (averageZ points il.2, il.1)

/-- Not greater in the order of `std::pair`: the order in which a sorted
range lists its elements. -/
def pairLe (a b : ℚ × Nat) : Prop := ¬ pairLess b a

instance (a b : ℚ × Nat) : Decidable (pairLe a b) := by
  unfold pairLe
  exact inferInstance

/-- The call `std::sort(lineZPairs.begin(), lineZPairs.end())`: the pairs in
ascending `operator<` order. -/
def sortPairs (pairs : List (ℚ × Nat)) : List (ℚ × Nat) :=
  pairs.insertionSort pairLe

/-- Source: `SortContours`: the lines of the working set after the call. -/
def SortContours (points : PointSet) (lines : List (List Nat)) : List (List Nat) :=
  (sortPairs (lineZPairs points lines)).map fun zi => lines.getD zi.2 []

/-! ## Contour normalizer: `FixKeyholes` -/

/-- The library method `vtkPointLocator::FindPointsWithinRadius` on the
points of one line: the positions of the points at distance at most `R`,
reported in ascending order. -/
def FindPointsWithinRadius (R : ℚ) (pts : List Point) (x : Point) : List Int :=
  ((List.range pts.length).filter fun k =>
    decide (Distance2BetweenPoints x (pts.getD k ⟨0, 0, 0⟩) ≤ R * R)).map Int.ofNat

/-- The locals `keyHoleExists` and `flags` of the flagging pass. -/
structure FlagState where
  keyHoleExists : Bool
  flags : List Int
deriving DecidableEq

/-- Body of the loop over the points within radius of `point1Index`. -/
def flagPairBody (numberOfPointsInLine minimumSeperation point1Index : Int) (s : FlagState)
    (point2Index : Int) : Option FlagState :=
  let pointsOfSeperation :=
    min (point2Index - point1Index) (numberOfPointsInLine - 1 - point2Index + point1Index)
  if pointsOfSeperation > minimumSeperation then
    (writeAt s.flags point1Index point2Index).bind fun flags1 =>
    (writeAt flags1 point2Index point1Index).bind fun flags2 =>
    some ⟨true, flags2⟩
  else some s

/-- Body of the loop over `point1Index` of the flagging pass. -/
def flagPointBody (epsilon : ℚ) (minimumSeperation : Int) (originalLinePoints : List Point)
    (point1Index : Int) (s : FlagState) : Option FlagState :=
  (readAt originalLinePoints point1Index).bind fun point1 =>
  (FindPointsWithinRadius epsilon originalLinePoints point1).foldlM
    (flagPairBody originalLinePoints.length minimumSeperation point1Index) s

/-- The flagging pass of `FixKeyholes` on one line. -/
def flagLine (epsilon : ℚ) (minimumSeperation : Int) (originalLinePoints : List Point) :
    Option FlagState :=
  forLoop (flagPointBody epsilon minimumSeperation originalLinePoints)
    originalLinePoints.length 0 ⟨false, List.replicate originalLinePoints.length (-1)⟩

/-- The locals of the splitting pass of `FixKeyholes`.  The id lists of the
new lines are shared between `newLines`, `rawLinePointIds` and
`finishedLinePointIds` in the source; here they live in `newLines` and the
other two hold positions in `newLines`. -/
structure SplitState where
  currentLayer : Int
  pointInChannel : Bool
  newLines : List (List Nat)
  rawLinePointIds : List Nat
  finishedLinePointIds : List Nat
deriving DecidableEq

/-- The call `InsertNextId` on the id list held at position `handle`. -/
def insertNextIdAt (newLines : List (List Nat)) (handle : Nat) (id : Nat) :
    Option (List (List Nat)) :=
  (newLines.get? handle).map fun ids => newLines.set handle (ids ++ [id])

/-- Body of the loop over the points of a line with a keyhole. -/
def splitBody (originalLine : List Nat) (flags : List Int) (currentPointIndex : Int)
    (s0 : SplitState) : Option SplitState :=
  -- Add a new line if necessary
  let s : SplitState :=
    if s0.currentLayer = s0.rawLinePointIds.length then
      { s0 with
        newLines := s0.newLines ++ [[]]
        rawLinePointIds := s0.rawLinePointIds ++ [s0.newLines.length] }
    else s0
  (readAt flags currentPointIndex).bind fun flag =>
  if flag = -1 then
    (readAt s.rawLinePointIds s.currentLayer).bind fun handle =>
    (GetId originalLine currentPointIndex).bind fun id =>
    (insertNextIdAt s.newLines handle id).bind fun newLines =>
    some { s with newLines := newLines, pointInChannel := false }
  else if flag > currentPointIndex ∧ s.pointInChannel = false then
    (readAt s.rawLinePointIds s.currentLayer).bind fun handle =>
    (GetId originalLine currentPointIndex).bind fun id =>
    (insertNextIdAt s.newLines handle id).bind fun newLines =>
    some { s with
      newLines := newLines
      currentLayer := s.currentLayer + 1
      pointInChannel := true }
  else if flag < currentPointIndex ∧ s.pointInChannel = false then
    (readAt s.rawLinePointIds s.currentLayer).bind fun handle =>
    (GetId originalLine currentPointIndex).bind fun id =>
    (insertNextIdAt s.newLines handle id).bind fun newLines =>
    if s.rawLinePointIds = [] then none
    else
      some { s with
        newLines := newLines
        finishedLinePointIds := s.finishedLinePointIds ++ [handle]
        rawLinePointIds := s.rawLinePointIds.dropLast
        currentLayer := if s.currentLayer > 0 then s.currentLayer - 1 else s.currentLayer
        pointInChannel := true }
  else some s

/-- Body of the loop "Seal the lines": a finished line that is not closed
gets its first id appended. -/
def sealBody (newLines : List (List Nat)) (handle : Nat) : Option (List (List Nat)) :=
  (newLines.get? handle).bind fun ids =>
  match ids.head?, ids.getLast? with
  | some first, some last =>
    if first ≠ last then some (newLines.set handle (ids ++ [first])) else some newLines
  | _, _ => some newLines

/-- The splitting pass of `FixKeyholes` on one line with a keyhole: the
vector `newLines` after the pass. -/
def splitLine (originalLine : List Nat) (flags : List Int) (newLines : List (List Nat)) :
    Option (List (List Nat)) :=
  (forLoop (splitBody originalLine flags) originalLine.length 0
    ⟨0, false, newLines, [], []⟩).bind fun s =>
  -- Add the remaining line to the finished list, then seal the lines.
  (s.finishedLinePointIds ++ s.rawLinePointIds).foldlM sealBody s.newLines

/-- Body of the loop over the lines of `FixKeyholes`. -/
def fixKeyholesBody (input : PolyData) (epsilon : ℚ) (minimumSeperation : Int)
    (lineIndex : Int) (newLines : List (List Nat)) : Option (List (List Nat)) :=
  (readAt input.lines lineIndex).bind fun originalLine =>
  (flagLine epsilon minimumSeperation (linePoints input.points originalLine)).bind fun fs =>
  if fs.keyHoleExists = false then some (newLines ++ [originalLine])
  else splitLine originalLine fs.flags newLines

/-- Source: `FixKeyholes`: the lines of the working set after the call. -/
def FixKeyholes (input : PolyData) (numberOfLines : Int) (epsilon : ℚ)
    (minimumSeperation : Int) : Option (List (List Nat)) :=
  forLoop (fixKeyholesBody input epsilon minimumSeperation) numberOfLines.toNat 0 []

/-! ## Contour normalizer: winding -/

/-- The sum `areaSum` of `IsLineClockwise` over the consecutive points of a
line, computed exactly; with the rounding of `double` arithmetic it is
`Rounded.areaSum`. -/
def areaSum (points : PointSet) : List Nat → ℚ
  | id1 :: id2 :: rest =>
    ((GetPoint points id2).x - (GetPoint points id1).x) *
        ((GetPoint points id2).y + (GetPoint points id1).y) +
      areaSum points (id2 :: rest)
  | _ => 0

/-- Source: `IsLineClockwise`. -/
def IsLineClockwise (points : PointSet) (line : List Nat) : Bool :=
  decide (areaSum points line > 0)

/-- Source: `ReverseLine`: the id list of `newLine` after the call, `newLine`
being empty before. -/
def ReverseLine (originalLine : List Nat) : List Nat :=
  originalLine.reverse

/-- Source: `SetLinesCounterClockwise`: the lines of the working set after
the call. -/
def SetLinesCounterClockwise (points : PointSet) (lines : List (List Nat)) :
    List (List Nat) :=
  lines.map fun currentLine =>
    if IsLineClockwise points currentLine then ReverseLine currentLine else currentLine

/-! ## Inter-plane correspondence -/

/-- The loop of `GetNumberOfLinesOnPlane`; the index is bounded by
`numberOfLines`, which bounds the iterations. -/
def GetNumberOfLinesOnPlane.loop (input : PolyData) (numberOfLines : Int) (lineZ : ℚ) :
    Nat → Int → Option Int
  | 0, currentLineIndex => if currentLineIndex < numberOfLines then none else some currentLineIndex
  | k + 1, currentLineIndex =>
    if currentLineIndex < numberOfLines then
      (readAt input.lines currentLineIndex).bind fun line =>
        if (GetBounds input.points line).zmin = lineZ then
          GetNumberOfLinesOnPlane.loop input numberOfLines lineZ k (currentLineIndex + 1)
        else some currentLineIndex
    else some currentLineIndex

/-- Source: `GetNumberOfLinesOnPlane`. -/
def GetNumberOfLinesOnPlane (input : PolyData) (numberOfLines originalLineIndex : Int) :
    Option Int :=
  (readAt input.lines originalLineIndex).bind fun line =>
  (GetNumberOfLinesOnPlane.loop input numberOfLines (GetBounds input.points line).zmin
    (numberOfLines - originalLineIndex).toNat (originalLineIndex + 1)).map
    fun currentLineIndex => currentLineIndex - originalLineIndex

/-- The call `v[i].push_back(x)` on a vector of vectors. -/
def pushAt {α : Type} (v : List (List α)) (i : Int) (x : α) : Option (List (List α)) :=
  (readAt v i).bind fun row => writeAt v i (row ++ [x])

/-- The two overlap lists of a pair of consecutive planes. -/
structure Overlaps where
  plane1Overlaps : List (List Int)
  plane2Overlaps : List (List Int)
deriving DecidableEq

/-- Body of the inner loop of "Fill the overlaps lists". -/
def fillOverlapsBody (input : PolyData) (firstLineOnPlane1Index firstLineOnPlane2Index : Int)
    (line1 : List Nat) (line1Index line2Index : Int) (s : Overlaps) : Option Overlaps :=
  (readAt input.lines (firstLineOnPlane2Index + line2Index)).bind fun line2 =>
  if DoLinesOverlap input.points line1 line2 then
    (pushAt s.plane1Overlaps line1Index (firstLineOnPlane2Index + line2Index)).bind fun o1 =>
    (pushAt s.plane2Overlaps line2Index (firstLineOnPlane1Index + line1Index)).bind fun o2 =>
    some ⟨o1, o2⟩
  else some s

/-- The loops "Fill the overlaps lists" of `Convert`, started on empty
lists. -/
def fillOverlaps (input : PolyData) (firstLineOnPlane1Index numberOfLinesInPlane1
    firstLineOnPlane2Index numberOfLinesInPlane2 : Int) : Option Overlaps :=
  forLoop
    (fun line1Index s =>
      (readAt input.lines (firstLineOnPlane1Index + line1Index)).bind fun line1 =>
      forLoop
        (fillOverlapsBody input firstLineOnPlane1Index firstLineOnPlane2Index line1 line1Index)
        numberOfLinesInPlane2.toNat 0 s)
    numberOfLinesInPlane1.toNat 0
    ⟨List.replicate numberOfLinesInPlane1.toNat [], List.replicate numberOfLinesInPlane2.toNat []⟩

/-! ## Branch division -/

/-- The library method `vtkPointLocator::FindClosestPoint` on the points of
one line: the position of a closest point, `-1` when there is no point.  Among
equally close points the first is taken. -/
def FindClosestPoint (pts : List Point) (x : Point) : Int :=
  match pts with
  | [] => -1
  | p :: rest =>
    ((rest.foldl
      (fun (acc : (ℚ × Int) × Int) q =>
        if Distance2BetweenPoints x q < acc.1.1 then ((Distance2BetweenPoints x q, acc.2), acc.2 + 1)
        else (acc.1, acc.2 + 1))
      ((Distance2BetweenPoints x p, 0), 1)).1).2

/-- The locals of the loop of `GetClosestBranch`; `none` stands for
`VTK_DOUBLE_MAX`. -/
structure BranchState where
  minimumDistance2 : Option ℚ
  closestLineIndex : Int

/-- Body of the loop of `GetClosestBranch`. -/
def GetClosestBranch.body (points : PointSet) (originalPoint : Point)
    (overlappingLines : List Int) (pointLocators : List (List Point))
    (lineIdLists : List (List Nat)) (currentOverlapIndex : Int) (s : BranchState) :
    Option BranchState :=
  (readAt pointLocators currentOverlapIndex).bind fun locator =>
  let closestPointId := FindClosestPoint locator originalPoint
  (readAt lineIdLists currentOverlapIndex).bind fun ids =>
  (GetId ids closestPointId).bind fun id =>
  let currentLineDistance2 := Distance2BetweenPoints (GetPoint points id) originalPoint
  if (match s.minimumDistance2 with
      | none => true
      | some m => decide (currentLineDistance2 < m)) then
    (readAt overlappingLines currentOverlapIndex).bind fun line =>
      some ⟨some currentLineDistance2, line⟩
  else some s

/-- Source: `GetClosestBranch`. -/
def GetClosestBranch (points : PointSet) (originalPoint : Point) (overlappingLines : List Int)
    (pointLocators : List (List Point)) (lineIdLists : List (List Nat)) : Option Int :=
  (readAt overlappingLines 0).bind fun first =>
  if overlappingLines.length = 1 then some first
  else
    (forLoop (GetClosestBranch.body points originalPoint overlappingLines pointLocators lineIdLists)
      overlappingLines.length 0 ⟨none, first⟩).map fun s => s.closestLineIndex

/-- The locals of the loop of `Branch`. -/
structure DivideState where
  prev : Bool
  outputLinePointIds : List Nat

/-- Body of the loop of `Branch` over the points of the branching line. -/
def Branch.body (points : PointSet) (branchingLine : List Nat) (currentLineIndex : Int)
    (overlappingLines : List Int) (pointLocators : List (List Point))
    (lineIdLists : List (List Nat)) (currentPointIndex : Int) (s : DivideState) :
    Option DivideState :=
  (GetId branchingLine currentPointIndex).bind fun id =>
  (GetClosestBranch points (GetPoint points id) overlappingLines pointLocators lineIdLists).bind
    fun closest =>
  if closest = currentLineIndex then
    some ⟨true, s.outputLinePointIds ++ [id]⟩
  else if s.prev then
    -- Add one extra point to close up the surface.
    some ⟨false, s.outputLinePointIds ++ [id]⟩
  else some ⟨false, s.outputLinePointIds⟩

/-- Source: `Branch`: the id list of `outputLine` after the call. -/
def Branch (points : PointSet) (branchingLine : List Nat) (currentLineIndex : Int)
    (overlappingLines : List Int) (pointLocators : List (List Point))
    (lineIdLists : List (List Nat)) : Option (List Nat) :=
  if overlappingLines.length = 1 then some branchingLine
  else
    (forLoop
      (Branch.body points branchingLine currentLineIndex overlappingLines pointLocators
        lineIdLists)
      branchingLine.length 0 ⟨false, []⟩).bind fun s =>
    let out := s.outputLinePointIds
    if out.length > 1 then
      (GetId branchingLine 0).bind fun head =>
      (GetId branchingLine ((branchingLine.length : Int) - 1)).bind fun last =>
      (GetId out 0).bind fun outHead =>
      (GetId out ((out.length : Int) - 1)).bind fun outLast =>
      if head = last ∧ outHead ≠ outLast then
        -- Make the new one a closed contour as well.
        some (out ++ [outHead])
      else some out
    else some out

/-! ## Mesh sealer -/

/-- The VTK filters the sealer relies on, which are not part of this
repository. -/
structure External where
  /-- The pipeline stencil, erosion, `vtkMarchingSquares`, `vtkStripper` of
  `CreateExternalLine`: the poly data `line` extracted for an input line. -/
  contourLines : PointSet → List Nat → PolyData
  /-- The method `vtkPolygon::Triangulate`: positions of the triangle
  corners on the polygon, three per triangle. -/
  polygonTriangulate : List Point → List Int

/-- The loop of `GetSpacingBetweenLines`; `lineId` is bounded by the number
of lines, which bounds the iterations. -/
def GetSpacingBetweenLines.loop (input : PolyData) (z1 : ℚ) : Nat → Int → ℚ → Option ℚ
  | 0, _, distance => if distance = 0 then none else some distance
  | k + 1, lineId, distance =>
    if distance = 0 then
      if lineId + 1 ≥ input.lines.length then some 0
      else
        (readAt input.lines (lineId + 1)).bind fun line2 =>
        (GetId line2 0).bind fun id2 =>
        GetSpacingBetweenLines.loop input z1 k (lineId + 1) |z1 - (GetPoint input.points id2).z|
    else some distance

/-- Source: `GetSpacingBetweenLines`. -/
def GetSpacingBetweenLines (input : PolyData) : Option ℚ :=
  if input.lines.length < 2 then some 0
  else
    (readAt input.lines 0).bind fun line1 =>
    (GetId line1 0).bind fun id1 =>
    GetSpacingBetweenLines.loop input (GetPoint input.points id1).z input.lines.length 0 0

/-- The point set and the id list being built while an outline is copied
into the shared point set. -/
structure OutlineState where
  points : PointSet
  outputLinePointIds : List Nat

/-- Body of the loops of `CreateExternalLine` that copy the points of an
outline, raised by half the spacing, into the shared point set. -/
def copyPointBody (outlinePoints : Nat → Option Point) (lineSpacing : ℚ) (location : Int)
    (s : OutlineState) : Option OutlineState :=
  (outlinePoints location.toNat).bind fun p =>
  some ⟨s.points ++ [⟨p.x, p.y, p.z + lineSpacing / 2⟩],
    s.outputLinePointIds ++ [s.points.length]⟩

/-- The points and the external lines after one outline of the extracted
poly data has been handled by `CreateExternalLine`.  For a clockwise outline
`ReverseLine` appends the reversed ids to a fresh `vtkLine`, whose id list
holds the two ids `0, 0` with which a `vtkLine` is constructed and is not
cleared before the call. -/
def externalLineOfContour (line : PolyData) (lineSpacing : ℚ) (s : PointSet × List (List Nat))
    (l : List Nat) : Option (PointSet × List (List Nat)) :=
  let newLine := if IsLineClockwise line.points l then [0, 0] ++ ReverseLine l else l
  (forLoop
    (copyPointBody (fun k => (newLine.get? k).map (GetPoint line.points)) lineSpacing)
    ((newLine.length : Int) - 1).toNat 0 ⟨s.1, []⟩).bind fun o =>
  (GetId o.outputLinePointIds 0).bind fun first =>
  (GetId o.outputLinePointIds ((o.outputLinePointIds.length : Int) - 1)).bind fun last =>
  if first ≠ last then some (o.points, s.2 ++ [o.outputLinePointIds ++ [first]])
  else some (o.points, s.2 ++ [o.outputLinePointIds])

/-- Source: `CreateExternalLine`: the shared point set and `outputLines`
after the call, `outputLines` being empty before. -/
def CreateExternalLine (lib : External) (points : PointSet) (inputLine : List Nat)
    (lineSpacing : ℚ) : Option (PointSet × List (List Nat)) :=
  let line := lib.contourLines points inputLine
  if line.lines.length > 0 ∧ line.points.length > 0 then
    line.lines.foldlM (externalLineOfContour line lineSpacing) (points, [])
  else
    (forLoop
      (copyPointBody (fun k => (linePoints points inputLine).get? k) lineSpacing)
      ((inputLine.length : Int) - 1).toNat 0 ⟨points, []⟩).bind fun o =>
    (GetId o.outputLinePointIds 0).bind fun first =>
    some (o.points, [o.outputLinePointIds ++ [first]])

/-- Body of the loop of `TriangulateLine` over the triangulation. -/
def TriangulateLine.body (inputLine : List Nat) (polygonIds : List Int) (normalsUp : Bool)
    (k : Int) (outputPolys : List Triangle) : Option (List Triangle) :=
  (readAt polygonIds (3 * k)).bind fun c0 =>
  (readAt polygonIds (3 * k + 1)).bind fun c1 =>
  (readAt polygonIds (3 * k + 2)).bind fun c2 =>
  (GetId inputLine c0).bind fun id0 =>
  (GetId inputLine c1).bind fun id1 =>
  (GetId inputLine c2).bind fun id2 =>
  if normalsUp then some (outputPolys ++ [(id0, id1, id2)])
  else some (outputPolys ++ [(id2, id1, id0)])

/-- Source: `TriangulateLine`: the output cell array after the call. -/
def TriangulateLine (lib : External) (points : PointSet) (inputLine : List Nat)
    (outputPolys : List Triangle) (normalsUp : Bool) : Option (List Triangle) :=
  (GetId inputLine 0).bind fun first =>
  (GetId inputLine ((inputLine.length : Int) - 1)).bind fun last =>
  let numberOfIds := if first = last then inputLine.length - 1 else inputLine.length
  let polygonIds := lib.polygonTriangulate ((linePoints points inputLine).take numberOfIds)
  forLoop (TriangulateLine.body inputLine polygonIds normalsUp) ((polygonIds.length + 2) / 3) 0
    outputPolys

/-- The working set, the output triangles and the record of the sides for
which the capping step of `SealMesh` has run (`true` for the side above). -/
structure SealState where
  input : PolyData
  outputPolygons : List Triangle
  cappedSides : List (Int × Bool)

/-- The locals of one capping step of `SealMesh`. -/
structure CapState where
  input : PolyData
  outputPolygons : List Triangle
  overlaps : List Int
  pointLocators : List (List Point)
  idLists : List (List Nat)

/-- Body of the first loop of a capping step: the outline is inserted as a
line of the working set and triangulated as a polygon. -/
def capInsertBody (lib : External) (externalLines : List (List Nat)) (normalsUp : Bool)
    (lineId : Int) (s : CapState) : Option CapState :=
  (readAt externalLines lineId).bind fun lineIdList =>
  let input : PolyData := ⟨s.input.points, s.input.lines ++ [lineIdList]⟩
  (TriangulateLine lib input.points lineIdList s.outputPolygons normalsUp).bind fun polys =>
  some {
    input := input
    outputPolygons := polys
    overlaps := s.overlaps ++ [lineId]
    pointLocators := s.pointLocators ++ [linePoints input.points lineIdList]
    idLists := s.idLists ++ [lineIdList] }

/-- Body of the second loop of a capping step: the line is divided towards
the outline and bridged to it. -/
def capBridgeBody (currentLine : List Nat) (normalsUp : Bool) (i : Int) (s : CapState) :
    Option CapState :=
  (Branch s.input.points currentLine i s.overlaps s.pointLocators s.idLists).bind
    fun dividedLine =>
  (readAt s.idLists i).bind fun idList =>
  (if normalsUp then TriangulateContours s.input.points dividedLine idList s.outputPolygons
   else TriangulateContours s.input.points idList dividedLine s.outputPolygons).bind fun polys =>
  some { s with outputPolygons := polys }

/-- One capping step of `SealMesh`: the block run for a side that is not
triangulated; `normalsUp` tells the side above from the side below. -/
def capSide (lib : External) (currentLine : List Nat) (currentLineIndex : Int)
    (lineSpacing : ℚ) (normalsUp : Bool) (s : SealState) : Option SealState :=
  (CreateExternalLine lib s.input.points currentLine
    (if normalsUp then lineSpacing else -lineSpacing)).bind fun created =>
  let externalLines := created.2
  (forLoop (capInsertBody lib externalLines normalsUp) externalLines.length 0
    ⟨⟨created.1, s.input.lines⟩, s.outputPolygons, [], [], []⟩).bind fun s1 =>
  (forLoop (capBridgeBody currentLine normalsUp) externalLines.length 0 s1).bind fun s2 =>
  some {
    input := s2.input
    outputPolygons := s2.outputPolygons
    cappedSides := s.cappedSides ++ [(currentLineIndex, normalsUp)] }

/-- Body of the loop of `SealMesh` over the lines. -/
def SealMesh.body (lib : External) (lineSpacing : ℚ)
    (lineTriganulatedToAbove lineTriganulatedToBelow : List Bool) (currentLineIndex : Int)
    (s : SealState) : Option SealState :=
  (readAt s.input.lines currentLineIndex).bind fun currentLine =>
  (readAt lineTriganulatedToAbove currentLineIndex).bind fun above =>
  (if above = false then capSide lib currentLine currentLineIndex lineSpacing true s
   else some s).bind fun s1 =>
  (readAt lineTriganulatedToBelow currentLineIndex).bind fun below =>
  if below = false then capSide lib currentLine currentLineIndex lineSpacing false s1
  else some s1

/-- Source: `SealMesh`.  Of the cell array `inputLines` only the number of
cells is used. -/
def SealMesh (lib : External) (input : PolyData) (inputLines : List (List Nat))
    (outputPolygons : List Triangle) (lineTriganulatedToAbove lineTriganulatedToBelow : List Bool) :
    Option SealState :=
  (GetSpacingBetweenLines input).bind fun lineSpacing =>
  forLoop (SealMesh.body lib lineSpacing lineTriganulatedToAbove lineTriganulatedToBelow)
    inputLines.length 0 ⟨input, outputPolygons, []⟩

/-! ## The conversion -/

/-- The normalizing calls at the head of `Convert`: `SortContours`,
`FixKeyholes` with the tolerances `0.1` and `2`, `SetLinesCounterClockwise`. -/
def normalize (source : PolyData) : Option PolyData :=
  let numberOfLines : Int := source.lines.length
  let sorted : PolyData := ⟨source.points, SortContours source.points source.lines⟩
  (FixKeyholes sorted numberOfLines (1 / 10) 2).bind fun repaired =>
  some ⟨source.points, SetLinesCounterClockwise source.points repaired⟩

/-- The locals of the loop of `Convert` over the pairs of consecutive
planes. -/
structure ConvertState where
  firstLineOnPlane1Index : Int
  numberOfLinesInPlane1 : Int
  lineTriganulatedToAbove : List Bool
  lineTriganulatedToBelow : List Bool
  outputPolygons : List Triangle
deriving DecidableEq

/-- Body of the loop of `Convert` over the lines of plane 2 that overlap
with `line1`. -/
def bridgeOverlapBody (input : PolyData) (firstLineOnPlane2Index : Int) (o : Overlaps)
    (line1 : List Nat) (line1Index : Int) (overlaps1 : List Int)
    (overlapIndex : Int) (s : ConvertState) : Option ConvertState :=
  let pointLocators := input.lines.map (linePoints input.points)
  let linePointIdLists := input.lines
  (overlaps1.mapM (readAt pointLocators)).bind fun overlap1PointLocators =>
  (overlaps1.mapM (readAt linePointIdLists)).bind fun overlap1PointIds =>
  (readAt overlaps1 overlapIndex).bind fun line2Index =>
  (readAt input.lines line2Index).bind fun line2 =>
  (readAt o.plane2Overlaps (line2Index - firstLineOnPlane2Index)).bind fun overlaps2 =>
  (overlaps2.mapM (readAt pointLocators)).bind fun overlap2PointLocators =>
  (overlaps2.mapM (readAt linePointIdLists)).bind fun overlap2PointIds =>
  -- Get the portion of line 1 that is close to line 2,
  (Branch input.points line1 line2Index overlaps1 overlap1PointLocators
    overlap1PointIds).bind fun dividedPointsInLine1 =>
  -- Get the portion of line 2 that is close to line 1.
  (Branch input.points line2 line1Index overlaps2 overlap2PointLocators
    overlap2PointIds).bind fun dividedPointsInLine2 =>
  if dividedPointsInLine1.length > 1 ∧ dividedPointsInLine2.length > 1 then
    (writeAt s.lineTriganulatedToAbove line1Index true).bind fun above =>
    (writeAt s.lineTriganulatedToBelow line2Index true).bind fun below =>
    (TriangulateContours input.points dividedPointsInLine1 dividedPointsInLine2
      s.outputPolygons).bind fun polys =>
    some { s with
      lineTriganulatedToAbove := above
      lineTriganulatedToBelow := below
      outputPolygons := polys }
  else some s

/-- Body of the loop "Go over the planeOverlaps lists" of `Convert`. -/
def bridgeLineBody (input : PolyData) (firstLineOnPlane1Index firstLineOnPlane2Index : Int)
    (o : Overlaps) (line1Index : Int) (s : ConvertState) : Option ConvertState :=
  (readAt input.lines line1Index).bind fun line1 =>
  (readAt o.plane1Overlaps (line1Index - firstLineOnPlane1Index)).bind fun overlaps1 =>
  forLoop
    (bridgeOverlapBody input firstLineOnPlane2Index o line1 line1Index overlaps1)
    overlaps1.length 0 s

/-- Body of the loop of `Convert` over the pairs of consecutive planes. -/
def planePairBody (input : PolyData) (numberOfLines : Int) (s : ConvertState) :
    Option ConvertState :=
  let firstLineOnPlane2Index := s.firstLineOnPlane1Index + s.numberOfLinesInPlane1
  (GetNumberOfLinesOnPlane input numberOfLines firstLineOnPlane2Index).bind
    fun numberOfLinesInPlane2 =>
  (fillOverlaps input s.firstLineOnPlane1Index s.numberOfLinesInPlane1 firstLineOnPlane2Index
    numberOfLinesInPlane2).bind fun o =>
  (forLoop (bridgeLineBody input s.firstLineOnPlane1Index firstLineOnPlane2Index o)
    s.numberOfLinesInPlane1.toNat s.firstLineOnPlane1Index s).bind fun s1 =>
  -- Advance the points
  some { s1 with
    firstLineOnPlane1Index := firstLineOnPlane2Index
    numberOfLinesInPlane1 := numberOfLinesInPlane2 }

/-- The correspondence and bridging stage of `Convert` on the normalized
working set: the locals when the loop over the plane pairs is left. -/
def bridgePlanes (input : PolyData) : Option ConvertState :=
  let numberOfLines : Int := input.lines.length
  (GetNumberOfLinesOnPlane input numberOfLines 0).bind fun numberOfLinesInPlane1 =>
  whileLoop
    (fun s => decide (s.firstLineOnPlane1Index + s.numberOfLinesInPlane1 < numberOfLines))
    (planePairBody input numberOfLines) input.lines.length
    { firstLineOnPlane1Index := 0
      numberOfLinesInPlane1 := numberOfLinesInPlane1
      lineTriganulatedToAbove := List.replicate input.lines.length false
      lineTriganulatedToBelow := List.replicate input.lines.length false
      outputPolygons := [] }

/-- The stages of `Convert` up to and including `SealMesh`.  The cell array
handed to `SealMesh` as `inputLines` is the one obtained from the copy of the
source before the normalizing calls replace the lines of the copy. -/
def convertStages (lib : External) (source : PolyData) :
    Option (PolyData × ConvertState × SealState) :=
  let outputLines := source.lines
  (normalize source).bind fun input =>
  (bridgePlanes input).bind fun s =>
  (SealMesh lib input outputLines s.outputPolygons s.lineTriganulatedToAbove
    s.lineTriganulatedToBelow).bind fun sealed =>
  some (input, s, sealed)

/-- Source: `Convert`: the points and the polygons set on the target. -/
def Convert (lib : External) (source : PolyData) : Option (PointSet × List Triangle) :=
  (convertStages lib source).map fun r => (r.2.2.input.points, r.2.2.outputPolygons)

/-! ## Predicates used to state the facts below -/

/-- A position `p` lies on a chain of `n` points. -/
def InRange (n p : Int) : Prop := 0 ≤ p ∧ p < n

/-- The derived inputs of `TriangulateContours` are consistent with two
non-empty chains. -/
structure BridgeInput.WF (c : BridgeInput) : Prop where
  len1 : c.numberOfPointsInLine1 = c.pointsInLine1.length
  len2 : c.numberOfPointsInLine2 = c.pointsInLine2.length
  pos1 : 1 ≤ c.numberOfPointsInLine1
  pos2 : 1 ≤ c.numberOfPointsInLine2
  closest1_len : (c.closest1.length : Int) = c.numberOfPointsInLine1
  closest2_len : (c.closest2.length : Int) = c.numberOfPointsInLine2
  start1 : c.startLine1 = 0
  start2 : InRange c.numberOfPointsInLine2 c.startLine2

/-- The seeded border of the backtracking table: `left` along row 0 and `up`
along column 0. -/
def BorderOK (rows cols : Int) (t : Table Int) : Prop :=
  (∀ j, 1 ≤ j → j < cols → t 0 j = left) ∧ (∀ i, 1 ≤ i → i < rows → t i 0 = up)

/-- What the interior fill keeps fixed or in range while it runs. -/
structure FillInv (c : BridgeInput) (s t : BridgeState) : Prop where
  out : t.outputPolygons = s.outputPolygons
  cur1 : InRange c.numberOfPointsInLine1 t.currentPointIndexLine1
  prev1 : InRange c.numberOfPointsInLine1 t.previousLine1
  cur2 : 2 ≤ c.numberOfPointsInLine2 → InRange c.numberOfPointsInLine2 t.currentPointIndexLine2
  prev2 : InRange c.numberOfPointsInLine2 t.previousLine2
  border : ∀ a b, (a = 0 ∨ b = 0) → t.backtrackTable a b = s.backtrackTable a b

/-- Every vertex of the triangle is an id of one of the two chains: the
first of chain 1, the second of chain 2, the third of either. -/
def Triangle.OnChains (t : Triangle) (l1 l2 : List Nat) : Prop :=
  t.1 ∈ l1 ∧ t.2.1 ∈ l2 ∧ (t.2.2 ∈ l1 ∨ t.2.2 ∈ l2)

/-- Invariant of the backtracking loop. -/
structure BackInv (c : BridgeInput) (B : Table Int) (out : List Triangle) (total : Int)
    (t : BridgeState) : Prop where
  table : t.backtrackTable = B
  idx1 : InRange c.numberOfPointsInLine1 t.line1PointIndex
  idx2 : InRange c.numberOfPointsInLine2 t.line2PointIndex
  cur1 : InRange c.numberOfPointsInLine1 t.currentPointIndexLine1
  cur2 : InRange c.numberOfPointsInLine2 t.currentPointIndexLine2
  emitted : ∃ new, t.outputPolygons = out ++ new ∧
    (new.length : Int) + t.line1PointIndex + t.line2PointIndex = total ∧
    ∀ tri ∈ new, Triangle.OnChains tri c.pointsInLine1 c.pointsInLine2

/-- The doubled signed area of the XY projection of a line by the standard
shoelace formula, the sum of `x1 * y2 - x2 * y1` over the consecutive points;
it is positive for a counter-clockwise loop. -/
def shoelace2 (points : PointSet) : List Nat → ℚ
  | id1 :: id2 :: rest =>
    ((GetPoint points id1).x * (GetPoint points id2).y -
        (GetPoint points id2).x * (GetPoint points id1).y) +
      shoelace2 points (id2 :: rest)
  | _ => 0

/-- The bounding boxes of two lines overlap strictly in X and in Y: on each
of the two axes some point of each line lies strictly below some point of the
other line. -/
def StrictOverlapXY (points : PointSet) (l1 l2 : List Nat) : Prop :=
  (∃ a ∈ l1, ∃ b ∈ l2, (GetPoint points a).x < (GetPoint points b).x) ∧
  (∃ a ∈ l1, ∃ b ∈ l2, (GetPoint points b).x < (GetPoint points a).x) ∧
  (∃ a ∈ l1, ∃ b ∈ l2, (GetPoint points a).y < (GetPoint points b).y) ∧
  (∃ a ∈ l1, ∃ b ∈ l2, (GetPoint points b).y < (GetPoint points a).y)

/-- The bounding boxes of two lines intersect in X and in Y: their
X-intervals share a value and their Y-intervals share a value. -/
def BoxesShareXY (points : PointSet) (l1 l2 : List Nat) : Prop :=
  (∃ x, (GetBounds points l1).xmin ≤ x ∧ x ≤ (GetBounds points l1).xmax ∧
    (GetBounds points l2).xmin ≤ x ∧ x ≤ (GetBounds points l2).xmax) ∧
  (∃ y, (GetBounds points l1).ymin ≤ y ∧ y ≤ (GetBounds points l1).ymax ∧
    (GetBounds points l2).ymin ≤ y ∧ y ≤ (GetBounds points l2).ymax)

/-- Two point sets agree on the X and Y coordinates of every point. -/
def SameXY (points points' : PointSet) : Prop :=
  ∀ id, (GetPoint points' id).x = (GetPoint points id).x ∧
    (GetPoint points' id).y = (GetPoint points id).y

/-- The row of a vector of vectors at a C++ `int` position, empty outside
the vector. -/
def rowAt {α : Type} (v : List (List α)) (i : Int) : List α :=
  (readAt v i).getD []

/-- The line of the working set at a C++ `int` position, empty outside the
set. -/
def lineAt (input : PolyData) (i : Int) : List Nat :=
  (readAt input.lines i).getD []

/-- Invariant of the loops "Fill the overlaps lists": the pairs `(a, b)` for
which `done a b` holds have been entered in both lists when they overlap, and
no other pair has. -/
structure OverlapsInv (input : PolyData) (f1 n1 f2 n2 : Int) (done : Int → Int → Bool)
    (o : Overlaps) : Prop where
  len1 : (o.plane1Overlaps.length : Int) = n1
  len2 : (o.plane2Overlaps.length : Int) = n2
  count1 : ∀ a b, 0 ≤ a → a < n1 → 0 ≤ b → b < n2 →
    (rowAt o.plane1Overlaps a).count (f2 + b) =
      if done a b = true ∧
        DoLinesOverlap input.points (lineAt input (f1 + a)) (lineAt input (f2 + b)) = true
      then 1 else 0
  count2 : ∀ a b, 0 ≤ a → a < n1 → 0 ≤ b → b < n2 →
    (rowAt o.plane2Overlaps b).count (f1 + a) =
      if done a b = true ∧
        DoLinesOverlap input.points (lineAt input (f1 + a)) (lineAt input (f2 + b)) = true
      then 1 else 0

/-- The overlap lists of a pair of planes are symmetric: line `f2 + m` is a
partner of line `f1 + l` exactly when `f1 + l` is a partner of `f2 + m`, each
is entered at most once, and they are partners exactly when `DoLinesOverlap`
holds of the two lines. -/
def OverlapsSymmetric (input : PolyData) (f1 n1 f2 n2 : Int) (o : Overlaps) : Prop :=
  ∀ l m, 0 ≤ l → l < n1 → 0 ≤ m → m < n2 →
    (f2 + m ∈ rowAt o.plane1Overlaps l ↔ f1 + l ∈ rowAt o.plane2Overlaps m) ∧
    (rowAt o.plane1Overlaps l).count (f2 + m) ≤ 1 ∧
    (rowAt o.plane2Overlaps m).count (f1 + l) ≤ 1 ∧
    (f2 + m ∈ rowAt o.plane1Overlaps l ↔
      DoLinesOverlap input.points (lineAt input (f1 + l)) (lineAt input (f2 + m)) = true)

/-- The positions of the input in the order in which `SortContours` lists
the lines. -/
def sortedPositions (points : PointSet) (lines : List (List Nat)) : List Nat :=
  (sortPairs (lineZPairs points lines)).map Prod.snd

/-- The order in which `SortContours` must list two positions of the input:
by ascending midpoint of the Z-extent and, for equal midpoints, by ascending
position in the input. -/
def StableOrder (points : PointSet) (lines : List (List Nat)) (i j : Nat) : Prop :=
  averageZ points (lines.getD i []) < averageZ points (lines.getD j []) ∨
    (averageZ points (lines.getD i []) = averageZ points (lines.getD j []) ∧ i < j)

/-- No pair of points of a line qualifies as a keyhole crossing: two points
within `epsilon` of each other are never more than `minimumSeperation`
positions apart, counted the shorter way around the loop. -/
def NoKeyhole (epsilon : ℚ) (minimumSeperation : Int) (pts : List Point) : Prop :=
  ∀ p1 < pts.length, ∀ p2 < pts.length,
    Distance2BetweenPoints (pts.getD p1 ⟨0, 0, 0⟩) (pts.getD p2 ⟨0, 0, 0⟩) ≤ epsilon * epsilon →
    min ((p2 : Int) - p1) ((pts.length : Int) - 1 - p2 + p1) ≤ minimumSeperation

instance (epsilon : ℚ) (minimumSeperation : Int) (pts : List Point) :
    Decidable (NoKeyhole epsilon minimumSeperation pts) := by
  unfold NoKeyhole
  exact inferInstance

/-! ## The table of `TriangulateContours`, cell by cell -/

/-- The position reached from `start` after `k` calls of `GetNextLocation`. -/
def walk (n : Int) (closed : Bool) (start : Int) (k : Nat) : Int :=
  (fun p => GetNextLocation p n closed)^[k] start

/-- The id at a position of a chain; `0` outside the chain. -/
def idAt (l : List Nat) (p : Int) : Nat :=
  (GetId l p).getD 0

/-- The position on chain 1 of row `i` of the table: `i` steps from the
start. -/
def BridgeInput.position1 (c : BridgeInput) (i : Int) : Int :=
  walk c.numberOfPointsInLine1 c.line1Closed c.startLine1 i.toNat

/-- The position on chain 2 of column `j` of the table: `j` steps from the
start. -/
def BridgeInput.position2 (c : BridgeInput) (j : Int) : Int :=
  walk c.numberOfPointsInLine2 c.line2Closed c.startLine2 j.toNat

/-- The number of steps chain 2 has been advanced from its start when the
interior cell `(i, j)` is filled: the walk along chain 2 is not restarted at
the head of a row. -/
def BridgeInput.fillSteps2 (c : BridgeInput) (i j : Int) : Nat :=
  ((i - 1) * (c.numberOfPointsInLine2 - 1) + j).toNat

/-- The value of `currentPointIndexLine2` when the interior cell `(i, j)` is
filled. -/
def BridgeInput.fillPosition2 (c : BridgeInput) (i j : Int) : Int :=
  walk c.numberOfPointsInLine2 c.line2Closed c.startLine2 (c.fillSteps2 i j)

/-- The value of `previousLine2` when the interior cell `(i, j)` is filled. -/
def BridgeInput.fillPrevious2 (c : BridgeInput) (i j : Int) : Int :=
  walk c.numberOfPointsInLine2 c.line2Closed c.startLine2 (c.fillSteps2 i j - 1)

/-- The distance added in cell `(0, j)` of the first row. -/
def BridgeInput.rowDistance (c : BridgeInput) (j : Int) : ℚ :=
  Distance2BetweenPoints c.firstPointLine1
    (GetPoint c.points (idAt c.pointsInLine2 (c.position2 j)))

/-- The distance added in cell `(i, 0)` of the first column. -/
def BridgeInput.columnDistance (c : BridgeInput) (i : Int) : ℚ :=
  Distance2BetweenPoints (GetPoint c.points (idAt c.pointsInLine1 (c.position1 i)))
    c.firstPointLine2

/-- The distance added in the interior cell `(i, j)`. -/
def BridgeInput.fillDistance (c : BridgeInput) (i j : Int) : ℚ :=
  Distance2BetweenPoints (GetPoint c.points (idAt c.pointsInLine1 (c.position1 i)))
    (GetPoint c.points (idAt c.pointsInLine2 (c.fillPosition2 i j)))

/-- The first test of the interior fill holds in cell `(i, j)`: the current
point of chain 1 is the closest match of the previous point of chain 2, which
forces the transition `left`. -/
def BridgeInput.ForcedLeft (c : BridgeInput) (i j : Int) : Prop :=
  readAt c.closest2 (c.fillPrevious2 i j) = some (c.position1 i)

/-- The second test of the interior fill holds in cell `(i, j)`: the current
point of chain 2 is the closest match of the previous point of chain 1. -/
def BridgeInput.ClosestUp (c : BridgeInput) (i j : Int) : Prop :=
  readAt c.closest1 (c.position1 (i - 1)) = some (c.fillPosition2 i j)

/-- The transition `up` is forced in cell `(i, j)`: the first test fails and
the second holds. -/
def BridgeInput.ForcedUp (c : BridgeInput) (i j : Int) : Prop :=
  ¬ c.ForcedLeft i j ∧ c.ClosestUp i j

instance (c : BridgeInput) (i j : Int) : Decidable (c.ForcedLeft i j) := by
  unfold BridgeInput.ForcedLeft
  exact inferInstance

instance (c : BridgeInput) (i j : Int) : Decidable (c.ClosestUp i j) := by
  unfold BridgeInput.ClosestUp
  exact inferInstance

instance (c : BridgeInput) (i j : Int) : Decidable (c.ForcedUp i j) := by
  unfold BridgeInput.ForcedUp
  exact inferInstance

/-- Cell `(a, b)` of the tables holds what the fill of `TriangulateContours`
puts there: the seed in cell `(0, 0)`, the running sums with the marks `left`
and `up` along the first row and the first column, and in an interior cell
the forced transition if a test forces one, else the cheaper predecessor,
`left` on a tie. -/
def CellOK (c : BridgeInput) (S : Table ℚ) (B : Table Int) (a b : Int) : Prop :=
  if a = 0 then
    if b = 0 then S a b = Distance2BetweenPoints c.firstPointLine1 c.firstPointLine2
    else S a b = S a (b - 1) + c.rowDistance b ∧ B a b = left
  else if b = 0 then S a b = S (a - 1) b + c.columnDistance a ∧ B a b = up
  else if c.ForcedLeft a b then S a b = S a (b - 1) + c.fillDistance a b ∧ B a b = left
  else if c.ClosestUp a b then S a b = S (a - 1) b + c.fillDistance a b ∧ B a b = up
  else if S a (b - 1) ≤ S (a - 1) b then S a b = S a (b - 1) + c.fillDistance a b ∧ B a b = left
  else S a b = S (a - 1) b + c.fillDistance a b ∧ B a b = up

/-- The distance that the fill adds in cell `(a, b)`. -/
def BridgeInput.fillCost (c : BridgeInput) (cell : Int × Int) : ℚ :=
  if cell.1 = 0 then
    if cell.2 = 0 then Distance2BetweenPoints c.firstPointLine1 c.firstPointLine2
    else c.rowDistance cell.2
  else if cell.2 = 0 then c.columnDistance cell.1
  else c.fillDistance cell.1 cell.2

/-- The cells visited by the backtracking loop, from the cell where it is
entered to the cell where it stops. -/
def backtrackCells (c : BridgeInput) : Nat → BridgeState → Option (List (Int × Int))
  | 0, s => if backtrackCond s then none else some [(s.line1PointIndex, s.line2PointIndex)]
  | k + 1, s =>
    if backtrackCond s then
      (backtrackBody c s).bind fun s' =>
        (backtrackCells c k s').map fun cells =>
          (s.line1PointIndex, s.line2PointIndex) :: cells
    else some [(s.line1PointIndex, s.line2PointIndex)]

/-- The staircase path that `TriangulateContours` backtracks on two chains:
the table cells it visits, the last cell first. -/
def backtrackedPath (points : PointSet) (pointsInLine1 pointsInLine2 : List Nat) :
    Option (List (Int × Int)) :=
  (bridgeInput points pointsInLine1 pointsInLine2).bind fun c =>
  (fillTables c []).bind fun s =>
  backtrackCells c (pointsInLine1.length + pointsInLine2.length) (backtrackStart c s)

/-- The cost of a table cell: the squared distance between the point of
chain 1 at the cell's row and the point of chain 2 at the cell's column. -/
def BridgeInput.cellCost (c : BridgeInput) (cell : Int × Int) : ℚ :=
  Distance2BetweenPoints (GetPoint c.points (idAt c.pointsInLine1 (c.position1 cell.1)))
    (GetPoint c.points (idAt c.pointsInLine2 (c.position2 cell.2)))

/-- The total cost of a path: the sum of the costs of its cells. -/
def BridgeInput.pathCost (c : BridgeInput) (cells : List (Int × Int)) : ℚ :=
  (cells.map c.cellCost).sum

/-- A monotone path through the table from `(0, 0)` to `(i, j)`, listed from
its first cell, that enters no interior cell against a forced transition. -/
inductive AdmissiblePath (c : BridgeInput) : Int → Int → List (Int × Int) → Prop
  | origin : AdmissiblePath c 0 0 [(0, 0)]
  | alongChain2 {i j : Int} {p : List (Int × Int)} (h : AdmissiblePath c i j p)
      (hok : i = 0 ∨ ¬ c.ForcedUp i (j + 1)) : AdmissiblePath c i (j + 1) (p ++ [(i, j + 1)])
  | alongChain1 {i j : Int} {p : List (Int × Int)} (h : AdmissiblePath c i j p)
      (hok : j = 0 ∨ ¬ c.ForcedLeft (i + 1) j) : AdmissiblePath c (i + 1) j (p ++ [(i + 1, j)])

/-- A monotone path through the table from `(0, 0)` to `(i, j)`, listed from
its first cell: each step advances one of the two chains by one position. -/
inductive MonotonePath : Int → Int → List (Int × Int) → Prop
  | origin : MonotonePath 0 0 [(0, 0)]
  | alongChain2 {i j : Int} {p : List (Int × Int)} (h : MonotonePath i j p) :
      MonotonePath i (j + 1) (p ++ [(i, j + 1)])
  | alongChain1 {i j : Int} {p : List (Int × Int)} (h : MonotonePath i j p) :
      MonotonePath (i + 1) j (p ++ [(i + 1, j)])

/-- The points and the flags that `TriangulateContours` derives are those of
the chains: the first points are the points at the two start positions, and a
chain is closed when its first id is its last id. -/
structure BridgeInput.Anchored (c : BridgeInput) : Prop where
  first1 : c.firstPointLine1 = GetPoint c.points (idAt c.pointsInLine1 c.startLine1)
  first2 : c.firstPointLine2 = GetPoint c.points (idAt c.pointsInLine2 c.startLine2)
  closed1 : c.line1Closed = decide (c.pointsInLine1.head? = c.pointsInLine1.getLast?)
  closed2 : c.line2Closed = decide (c.pointsInLine2.head? = c.pointsInLine2.getLast?)

/-- The walk positions and the cells settled so far while the interior of the
table is filled: `(i, j)` is the next cell to fill. -/
structure CellsInv (c : BridgeInput) (i j : Int) (t : BridgeState) : Prop where
  cur1 : t.currentPointIndexLine1 = c.position1 i
  prev1 : t.previousLine1 = c.position1 (i - 1)
  cur2 : t.currentPointIndexLine2 = c.fillPosition2 i j
  prev2 : t.previousLine2 = c.fillPrevious2 i j
  cells : ∀ a b, 0 ≤ a → a < c.numberOfPointsInLine1 → 0 ≤ b → b < c.numberOfPointsInLine2 →
    (a = 0 ∨ b = 0 ∨ a < i ∨ (a = i ∧ b < j)) → CellOK c t.scoreTable t.backtrackTable a b

/-! ## The ribbon of triangles between two chains -/

/-- The three directed edges of a triangle, in the order of its vertices. -/
def Triangle.edges (t : Triangle) : List (Nat × Nat) :=
  [(t.1, t.2.1), (t.2.1, t.2.2), (t.2.2, t.1)]

/-- The three vertex ids of the triangle are pairwise distinct. -/
def Triangle.Distinct (t : Triangle) : Prop :=
  t.1 ≠ t.2.1 ∧ t.2.1 ≠ t.2.2 ∧ t.2.2 ≠ t.1

/-- Two triangles share the cross edge on which the second one is emitted,
between its first vertex `u`, a point of chain 1, and its second vertex `v`, a
point of chain 2: the first triangle traverses it from `v` to `u` and the
second from `u` to `v`. -/
def OppositeAcross (l1 l2 : List Nat) (t1 t2 : Triangle) : Prop :=
  t2.1 ∈ l1 ∧ t2.2.1 ∈ l2 ∧ (t2.2.1, t2.1) ∈ t1.edges ∧ (t2.1, t2.2.1) ∈ t2.edges

/-- A simple chain: its ids are pairwise distinct, or it is closed (the first
id is repeated as the last), has at least three ids and its ids apart from the
closing repeat are pairwise distinct. -/
def SimpleChain (l : List Nat) : Prop :=
  l.Nodup ∨ (l.head? = l.getLast? ∧ l.dropLast.Nodup ∧ 3 ≤ l.length)

/-- A triangle of the ribbon: its first vertex is a point of chain 1, its
second a point of chain 2 and its third the point before one of them on its
chain. -/
def RibbonTriangle (c : BridgeInput) (tri : Triangle) : Prop :=
  ∃ p1 p2, InRange c.numberOfPointsInLine1 p1 ∧ InRange c.numberOfPointsInLine2 p2 ∧
    tri.1 = idAt c.pointsInLine1 p1 ∧ tri.2.1 = idAt c.pointsInLine2 p2 ∧
    (tri.2.2 = idAt c.pointsInLine2
        (GetPreviousLocation p2 c.numberOfPointsInLine2 c.line2Closed) ∨
      tri.2.2 = idAt c.pointsInLine1
        (GetPreviousLocation p1 c.numberOfPointsInLine1 c.line1Closed))

/-- Invariant of the backtracking loop on the triangles emitted so far: each
is a triangle of the ribbon, consecutive ones share a cross edge traversed in
opposite directions, and the last one ends on the cross edge of the current
cell. -/
structure RibbonInv (c : BridgeInput) (new : List Triangle) (t : BridgeState) : Prop where
  shape : ∀ tri ∈ new, RibbonTriangle c tri
  chain : List.Chain' (OppositeAcross c.pointsInLine1 c.pointsInLine2) new
  last : ∀ tri, new.getLast? = some tri →
    (idAt c.pointsInLine2 t.currentPointIndexLine2,
      idAt c.pointsInLine1 t.currentPointIndexLine1) ∈ tri.edges

/-! ## The division of a branching line -/

/-- The loop of `Branch` over the points of the branching line: the id list
of `outputLine` when the loop is left, before the closing test. -/
def Branch.divide (points : PointSet) (branchingLine : List Nat) (currentLineIndex : Int)
    (overlappingLines : List Int) (pointLocators : List (List Point))
    (lineIdLists : List (List Nat)) : Option (List Nat) :=
  (forLoop
    (Branch.body points branchingLine currentLineIndex overlappingLines pointLocators
      lineIdLists)
    branchingLine.length 0 ⟨false, []⟩).map fun s => s.outputLinePointIds

/-- The partner that `GetClosestBranch` assigns to the point at position `p`
of the branching line. -/
def assignedBranch (points : PointSet) (branchingLine : List Nat) (overlappingLines : List Int)
    (pointLocators : List (List Point)) (lineIdLists : List (List Nat)) (p : Nat) : Option Int :=
  GetClosestBranch points (GetPoint points (idAt branchingLine p)) overlappingLines
    pointLocators lineIdLists

/-- Position `p` is kept for the partner `target`: its point is assigned to
`target`, or the point before it is. -/
def Kept (assign : Nat → Option Int) (target : Int) (p : Nat) : Bool :=
  decide (assign p = some target) || (decide (0 < p) && decide (assign (p - 1) = some target))

/-- The positions below `n` kept for the partner `target`, in ascending
order. -/
def keptPositions (assign : Nat → Option Int) (target : Int) (n : Nat) : List Nat :=
  (List.range n).filter (Kept assign target)

/-- The ids of a line at a list of positions. -/
def idsAt (line : List Nat) (positions : List Nat) : List Nat :=
  positions.map fun (p : Nat) => idAt line (p : Int)

/-- The id that the closing test of `Branch` appends to a divided chain:
the first id of the chain when the chain has more than one id, the branching
line is closed and the ends of the chain differ; nothing otherwise. -/
def closingIds (branchingLine core : List Nat) : List Nat :=
  if 1 < core.length ∧ branchingLine.head? = branchingLine.getLast? ∧
      core.head? ≠ core.getLast? then core.head?.toList
  else []

/-- Invariant of the loop of `Branch` before the point at position `k` is
visited. -/
structure DivideInv (assign : Nat → Option Int) (branchingLine : List Nat) (target : Int)
    (k : Nat) (s : DivideState) : Prop where
  assigned : ∀ p < k, ∃ r, assign p = some r
  out : s.outputLinePointIds = idsAt branchingLine (keptPositions assign target k)
  prev : s.prev = (decide (0 < k) && decide (assign (k - 1) = some target))

/-! ## The frame of the point set -/

/-- The point set `after` is the point set `before` with points appended:
no point of `before` is removed or altered. -/
def Extends (before after : PointSet) : Prop :=
  ∃ added, after = before ++ added

/-- Every id of the lines refers to a point appended to `before`. -/
def RefersToAppended (before after : PointSet) (lines : List (List Nat)) : Prop :=
  ∀ l ∈ lines, ∀ id ∈ l, before.length ≤ id ∧ id < after.length

/-! ## The bridge flags of `Convert` -/

/-- The first half of the body of the loop of `Convert` over the overlaps of
`line1`: the partner `line2Index` at position `overlapIndex` of the overlap
list and the two chains that `Branch` divides off for the pair. -/
def dividedChains (input : PolyData) (firstLineOnPlane2Index : Int) (o : Overlaps)
    (line1 : List Nat) (line1Index : Int) (overlaps1 : List Int) (overlapIndex : Int) :
    Option (Int × List Nat × List Nat) :=
  let pointLocators := input.lines.map (linePoints input.points)
  let linePointIdLists := input.lines
  (overlaps1.mapM (readAt pointLocators)).bind fun overlap1PointLocators =>
  (overlaps1.mapM (readAt linePointIdLists)).bind fun overlap1PointIds =>
  (readAt overlaps1 overlapIndex).bind fun line2Index =>
  (readAt input.lines line2Index).bind fun line2 =>
  (readAt o.plane2Overlaps (line2Index - firstLineOnPlane2Index)).bind fun overlaps2 =>
  (overlaps2.mapM (readAt pointLocators)).bind fun overlap2PointLocators =>
  (overlaps2.mapM (readAt linePointIdLists)).bind fun overlap2PointIds =>
  (Branch input.points line1 line2Index overlaps1 overlap1PointLocators
    overlap1PointIds).bind fun dividedPointsInLine1 =>
  (Branch input.points line2 line1Index overlaps2 overlap2PointLocators
    overlap2PointIds).bind fun dividedPointsInLine2 =>
  some (line2Index, dividedPointsInLine1, dividedPointsInLine2)

/-- The attempt at position `k` of the overlap list of line `l` bridges `l`
to `l2`: `l2` is the partner at that position and both divided chains have
more than one point. -/
def BridgedAt (input : PolyData) (f1 f2 : Int) (o : Overlaps) (l l2 k : Int) : Prop :=
  ∃ line1 r, readAt input.lines l = some line1 ∧
    dividedChains input f2 o line1 l (rowAt o.plane1Overlaps (l - f1)) k = some r ∧
    r.1 = l2 ∧ 1 < r.2.1.length ∧ 1 < r.2.2.length

/-- Line `l` of the plane `(f1, n1)` is bridged to line `l2` of the next
plane `(f2, n2)`: `l2` is an overlap partner of `l` and both chains that
`Branch` divides off for the pair have more than one point. -/
def Bridged (input : PolyData) (f1 n1 f2 n2 l l2 : Int) : Prop :=
  ∃ (o : Overlaps) (k : Int), fillOverlaps input f1 n1 f2 n2 = some o ∧ 0 ≤ k ∧
    k < ((rowAt o.plane1Overlaps (l - f1)).length : Int) ∧ BridgedAt input f1 f2 o l l2 k

/-- The two flag vectors mark the lines related by `R`: a line is marked
above exactly when `R` relates it to some line, and marked below exactly when
`R` relates some line to it. -/
structure FlagsInv (n : Nat) (above below : List Bool) (R : Int → Int → Prop) : Prop where
  lenAbove : above.length = n
  lenBelow : below.length = n
  above_iff : ∀ l, readAt above l = some true ↔ ∃ l2, R l l2
  below_iff : ∀ l2, readAt below l2 = some true ↔ ∃ l, R l l2

/-- The walk of `Convert` over the planes: the plane it stands on, as its
first line and its number of lines, and the pairs of consecutive planes it has
visited, each as the first line and the number of lines of its two planes. -/
structure PlaneWalk where
  first : Int
  count : Int
  pairs : List (Int × Int × Int × Int)
deriving DecidableEq

/-- The planes that the loop of `Convert` over the pairs of consecutive
planes visits: the same loop, keeping only the plane indices.  The walk starts
on the lowest plane and is left on the highest. -/
def planePairs (input : PolyData) : Option PlaneWalk :=
  let numberOfLines : Int := input.lines.length
  (GetNumberOfLinesOnPlane input numberOfLines 0).bind fun numberOfLinesInPlane1 =>
  whileLoop
    (fun t => decide (t.first + t.count < numberOfLines))
    (fun t =>
      (GetNumberOfLinesOnPlane input numberOfLines (t.first + t.count)).map fun n2 =>
        ⟨t.first + t.count, n2, t.pairs ++ [(t.first, t.count, t.first + t.count, n2)]⟩)
    input.lines.length ⟨0, numberOfLinesInPlane1, []⟩

/-- Line `l` is bridged to line `l2` across one of the pairs of consecutive
planes: `l` lies on the first plane of the pair and is bridged to `l2` on the
second. -/
def BridgedIn (input : PolyData) (pairs : List (Int × Int × Int × Int)) (l l2 : Int) : Prop :=
  ∃ pr ∈ pairs, pr.1 ≤ l ∧ l < pr.1 + pr.2.1 ∧
    Bridged input pr.1 pr.2.1 pr.2.2.1 pr.2.2.2 l l2

/-- The pairs of a walk lie below the plane the walk stands on, and their
second planes lie above the lowest plane, of `lowest` lines. -/
structure PlaneWalk.Ordered (lowest : Int) (t : PlaneWalk) : Prop where
  count_pos : 1 ≤ t.count
  lowest_le : lowest ≤ t.first + t.count
  pairs_ok : ∀ pr ∈ t.pairs, pr.2.2.1 = pr.1 + pr.2.1 ∧ lowest ≤ pr.2.2.1 ∧
    pr.2.2.1 ≤ t.first

/-! ## The spacing between the planes, as the specification words it -/

/-- The Z coordinate of the first point of line `k` of the contour set. -/
def firstPointZ (input : PolyData) (k : Nat) : ℚ :=
  (GetPoint input.points (idAt (input.lines.getD k []) 0)).z

/-- The spacing as the specification words it: the absolute Z difference
between line 0 and the first later line whose first point lies on a different
Z; `0` when there is no such line. -/
def spacingSpec (input : PolyData) : ℚ :=
  match (List.range' 1 (input.lines.length - 1)).find?
      (fun k => decide (firstPointZ input k ≠ firstPointZ input 0)) with
  | some k => |firstPointZ input 0 - firstPointZ input k|
  | none => 0

/-! ## The backward walk along a chain -/

/-- The position reached from `start` after `k` calls of
`GetPreviousLocation`. -/
def walkBack (n : Int) (closed : Bool) (start : Int) (k : Nat) : Int :=
  (fun p => GetPreviousLocation p n closed)^[k] start

/-- The ids visited by the forward walk that fills the table: the ids at the
start position `s` and at the positions of the `n - 1` successive
`GetNextLocation` steps from it. -/
def forwardIds (l : List Nat) (closed : Bool) (s : Int) : List Nat :=
  (List.range l.length).map fun (k : Nat) => idAt l (walk l.length closed s k)

/-- The ids visited by the backward walk that emits the triangles: the ids
at the end-of-loop position and at the positions of the `n - 1` successive
`GetPreviousLocation` steps from it. -/
def backwardIds (l : List Nat) (closed : Bool) (s : Int) : List Nat :=
  (List.range l.length).map fun (k : Nat) =>
    idAt l (walkBack l.length closed (GetEndLoop s l.length closed) k)

/-! ## The triangles of the ribbon, step by step -/

/-- The id of the point of chain 1 at row `i` of the table. -/
def BridgeInput.id1 (c : BridgeInput) (i : Int) : Nat :=
  idAt c.pointsInLine1 (c.position1 i)

/-- The id of the point of chain 2 at column `j` of the table. -/
def BridgeInput.id2 (c : BridgeInput) (j : Int) : Nat :=
  idAt c.pointsInLine2 (c.position2 j)

/-- The triangle of one backtracking step from the cell `cell` to the cell
`next`: a `left` triangle, with two vertices on chain 2, when the step stays
on the row, an `up` triangle, with two vertices on chain 1, otherwise. -/
def stepTriangle (c : BridgeInput) (cell next : Int × Int) : Triangle :=
  if next.1 = cell.1 then (c.id1 cell.1, c.id2 cell.2, c.id2 next.2)
  else (c.id1 cell.1, c.id2 cell.2, c.id1 next.1)

/-- The triangles of the steps of a path of cells, in the order of the
path. -/
def ribbonOf (c : BridgeInput) : List (Int × Int) → List Triangle
  | cell :: next :: rest => stepTriangle c cell next :: ribbonOf c (next :: rest)
  | _ => []

/-- The triangles of the `up` steps of a path of cells, those that leave a
row, in the order of the path. -/
def upTriangles (c : BridgeInput) : List (Int × Int) → List Triangle
  | cell :: next :: rest =>
    if next.1 = cell.1 then upTriangles c (next :: rest)
    else stepTriangle c cell next :: upTriangles c (next :: rest)
  | _ => []

/-- The triangles of the `left` steps of a path of cells, those that stay on
the row and leave a column, in the order of the path. -/
def leftTriangles (c : BridgeInput) : List (Int × Int) → List Triangle
  | cell :: next :: rest =>
    if next.1 = cell.1 then stepTriangle c cell next :: leftTriangles c (next :: rest)
    else leftTriangles c (next :: rest)
  | _ => []

/-- The chain edge of an `up` triangle: its two vertices on chain 1. -/
def Triangle.edge1 (t : Triangle) : Nat × Nat := (t.1, t.2.2)

/-- The chain edge of a `left` triangle: its two vertices on chain 2. -/
def Triangle.edge2 (t : Triangle) : Nat × Nat := (t.2.1, t.2.2)

/-- The path of cells that follows the marks of a backtracking table from a
cell: a `left` mark leads to the cell of the column before, any other mark to
the cell of the row before, until cell `(0, 0)` is reached or `fuel` steps
have been made. -/
def markedPath (B : Table Int) : Nat → Int × Int → List (Int × Int)
  | 0, cell => [cell]
  | fuel + 1, cell =>
    if cell.1 > 0 ∨ cell.2 > 0 then
      cell :: markedPath B fuel
        (if B cell.1 cell.2 = left then (cell.1, cell.2 - 1) else (cell.1 - 1, cell.2))
    else [cell]

/-- The list `n, n - 1, ..., 1`. -/
def countdown : Nat → List Int
  | 0 => []
  | n + 1 => ((n : Int) + 1) :: countdown n

/-- The walk positions of the backtracking loop follow its table indices:
the position on each chain is the one reached by stepping back from the
end-of-loop position once for every row, or column, already left. -/
structure TrackInv (c : BridgeInput) (t : BridgeState) : Prop where
  cur1 : t.currentPointIndexLine1 =
    walkBack c.numberOfPointsInLine1 c.line1Closed
      (GetEndLoop c.startLine1 c.numberOfPointsInLine1 c.line1Closed)
      (c.numberOfPointsInLine1 - 1 - t.line1PointIndex).toNat
  cur2 : t.currentPointIndexLine2 =
    walkBack c.numberOfPointsInLine2 c.line2Closed
      (GetEndLoop c.startLine2 c.numberOfPointsInLine2 c.line2Closed)
      (c.numberOfPointsInLine2 - 1 - t.line2PointIndex).toNat

/-! ## Two squares, one above the other -/

/-- The corners of a square on the plane `z = 0`, with first corner `(x, y)`
and side vectors `(a, b)` and `(c, d)`, followed by the corners of the same
square on the plane `z = 1`: corner `k` of the upper square lies directly
above corner `k` of the lower one. -/
def squarePoints (x y a b c d : ℚ) : PointSet :=
  [⟨x, y, 0⟩, ⟨x + a, y + b, 0⟩, ⟨x + a + c, y + b + d, 0⟩, ⟨x + c, y + d, 0⟩,
    ⟨x, y, 1⟩, ⟨x + a, y + b, 1⟩, ⟨x + a + c, y + b + d, 1⟩, ⟨x + c, y + d, 1⟩]

/-- The four corners of wall `k` of the box over the two squares: the corners
`k` and `k + 1` (cyclically) of the lower square and the corners above
them. -/
def wallCorners (k : Nat) : List Nat :=
  [k % 4, (k + 1) % 4, k % 4 + 4, (k + 1) % 4 + 4]

/-- The triangle lies on wall `k` of the box: its vertices are three distinct
corners of the wall, so that it joins an edge of one square, on the wall, to
the corner of the other square that lies above or below an end of that
edge. -/
def Triangle.OnWall (k : Nat) (t : Triangle) : Prop :=
  t.Distinct ∧ t.1 ∈ wallCorners k ∧ t.2.1 ∈ wallCorners k ∧ t.2.2 ∈ wallCorners k

instance (k : Nat) (t : Triangle) : Decidable (t.OnWall k) := by
  unfold Triangle.OnWall Triangle.Distinct
  exact inferInstance

/-- The triangle joins an edge of one of the two squares to the corresponding
corner of the other: two of its vertices are consecutive corners of one
square, the third is the corner of the other square directly above or below
one of the two. -/
def Triangle.JoinsEdgeToCorner (t : Triangle) : Prop :=
  ∃ k, k < 4 ∧ t.OnWall k

instance (t : Triangle) : Decidable t.JoinsEdgeToCorner := by
  unfold Triangle.JoinsEdgeToCorner
  exact inferInstance

/-! ## The flags of `FixKeyholes` -/

/-- The pair of positions `(p1, p2)` of a line qualifies as a keyhole
crossing when the flagging pass stands on `p1`: the two points are within
`epsilon` of each other and the separation that the pass computes for the
pair, `min (p2 - p1) (n - 1 - p2 + p1)`, exceeds `minimumSeperation`. -/
def Crossing (epsilon : ℚ) (minimumSeperation : Int) (pts : List Point) (p1 p2 : Nat) : Prop :=
  p1 < pts.length ∧ p2 < pts.length ∧
    Distance2BetweenPoints (pts.getD p1 ⟨0, 0, 0⟩) (pts.getD p2 ⟨0, 0, 0⟩) ≤ epsilon * epsilon ∧
    min ((p2 : Int) - p1) ((pts.length : Int) - 1 - p2 + p1) > minimumSeperation

instance (epsilon : ℚ) (minimumSeperation : Int) (pts : List Point) (p1 p2 : Nat) :
    Decidable (Crossing epsilon minimumSeperation pts p1 p2) := by
  unfold Crossing
  exact inferInstance

/-- Two positions are crossing partners: one of the two ordered pairs
qualifies as a keyhole crossing. -/
def Partners (epsilon : ℚ) (minimumSeperation : Int) (pts : List Point) (i j : Nat) : Prop :=
  Crossing epsilon minimumSeperation pts i j ∨ Crossing epsilon minimumSeperation pts j i

instance (epsilon : ℚ) (minimumSeperation : Int) (pts : List Point) (i j : Nat) :
    Decidable (Partners epsilon minimumSeperation pts i j) := by
  unfold Partners
  exact inferInstance

/-- No position of the line has more than one crossing partner. -/
def SinglePartner (epsilon : ℚ) (minimumSeperation : Int) (pts : List Point) : Prop :=
  ∀ i < pts.length, ∀ j < pts.length, ∀ k < pts.length,
    Partners epsilon minimumSeperation pts i j → Partners epsilon minimumSeperation pts i k →
      j = k

instance (epsilon : ℚ) (minimumSeperation : Int) (pts : List Point) :
    Decidable (SinglePartner epsilon minimumSeperation pts) := by
  unfold SinglePartner
  exact inferInstance

/-- What holds of the flags throughout the flagging pass: every flag other
than `-1` is a position of the line, the flagged position and its flag are
crossing partners, and the position named by a flag is itself flagged. -/
structure FlagsOK (epsilon : ℚ) (minimumSeperation : Int) (pts : List Point)
    (flags : List Int) : Prop where
  len : flags.length = pts.length
  entry : ∀ i j : Int, readAt flags i = some j → j ≠ -1 →
    0 ≤ j ∧ Partners epsilon minimumSeperation pts i.toNat j.toNat ∧
      ∃ k, readAt flags j = some k ∧ k ≠ -1

/-! ## The splitting pass of `FixKeyholes`, step by step -/

/-- The step "Add a new line if necessary" at the head of an iteration of the
splitting pass. -/
def openLine (s0 : SplitState) : SplitState :=
  if s0.currentLayer = s0.rawLinePointIds.length then
    { s0 with
      newLines := s0.newLines ++ [[]]
      rawLinePointIds := s0.rawLinePointIds ++ [s0.newLines.length] }
  else s0

/-- The rest of an iteration of the splitting pass, after the step "Add a new
line if necessary": the current point is inserted, or skipped. -/
def splitPoint (originalLine : List Nat) (flags : List Int) (currentPointIndex : Int)
    (s : SplitState) : Option SplitState :=
  (readAt flags currentPointIndex).bind fun flag =>
  if flag = -1 then
    (readAt s.rawLinePointIds s.currentLayer).bind fun handle =>
    (GetId originalLine currentPointIndex).bind fun id =>
    (insertNextIdAt s.newLines handle id).bind fun newLines =>
    some { s with newLines := newLines, pointInChannel := false }
  else if flag > currentPointIndex ∧ s.pointInChannel = false then
    (readAt s.rawLinePointIds s.currentLayer).bind fun handle =>
    (GetId originalLine currentPointIndex).bind fun id =>
    (insertNextIdAt s.newLines handle id).bind fun newLines =>
    some { s with
      newLines := newLines
      currentLayer := s.currentLayer + 1
      pointInChannel := true }
  else if flag < currentPointIndex ∧ s.pointInChannel = false then
    (readAt s.rawLinePointIds s.currentLayer).bind fun handle =>
    (GetId originalLine currentPointIndex).bind fun id =>
    (insertNextIdAt s.newLines handle id).bind fun newLines =>
    if s.rawLinePointIds = [] then none
    else
      some { s with
        newLines := newLines
        finishedLinePointIds := s.finishedLinePointIds ++ [handle]
        rawLinePointIds := s.rawLinePointIds.dropLast
        currentLayer := if s.currentLayer > 0 then s.currentLayer - 1 else s.currentLayer
        pointInChannel := true }
  else some s

/-- The state of the splitting pass after the first `k` points of the line. -/
def splitWalk (originalLine : List Nat) (flags : List Int) (newLines : List (List Nat))
    (k : Nat) : Option SplitState :=
  forLoop (splitBody originalLine flags) k 0 ⟨0, false, newLines, [], []⟩

/-- A sub-loop after the step "Seal the lines": its first id is appended when
it is not empty and its first id differs from its last id. -/
def reclose (ids : List Nat) : List Nat :=
  match ids.head?, ids.getLast? with
  | some first, some last => if first ≠ last then ids ++ [first] else ids
  | _, _ => ids

/-- Invariant of the splitting pass before the point at position `i` is
visited; `p` lists, for every sub-loop opened so far, the positions of the
original line whose ids it holds. -/
structure SplitInv (originalLine : List Nat) (flags : List Int) (init : List (List Nat))
    (i : Int) (s : SplitState) (p : List (List Nat)) : Prop where
  layer_nonneg : 0 ≤ s.currentLayer
  layer : s.currentLayer = s.rawLinePointIds.length ∨
    s.currentLayer + 1 = s.rawLinePointIds.length
  lines : s.newLines = init ++ p.map (idsAt originalLine)
  handles : (s.finishedLinePointIds ++ s.rawLinePointIds).Perm
    (List.range' init.length p.length)
  sorted : ∀ a, (p.getD a []).Pairwise (fun x y => x < y)
  below : ∀ a k, k ∈ p.getD a [] → (k : Int) < i
  disjoint : ∀ a b k, k ∈ p.getD a [] → k ∈ p.getD b [] → a = b
  covered : ∀ k : Nat, (k : Int) < i → readAt flags k = some (-1) → ∃ a, k ∈ p.getD a []

/-! ## The planes of a contour set -/

/-- The planes of a walk of `Convert`, each as its first line and its number
of lines: the first planes of the pairs it has visited, then the plane it
stands on. -/
def planesOf (w : PlaneWalk) : List (Int × Int) :=
  w.pairs.map (fun pr => (pr.1, pr.2.1)) ++ [(w.first, w.count)]

/-- The planes tile the lines from `a` up to `b`: every plane has at least one
line, the first plane starts at `a`, every other plane starts where the plane
before it ends, and the last plane ends at `b`. -/
def Tiles : Int → List (Int × Int) → Int → Prop
  | a, [], b => a = b
  | a, plane :: rest, b => plane.1 = a ∧ 1 ≤ plane.2 ∧ Tiles (a + plane.2) rest b

/-! ## The partners of a branching line -/

/-- The squared distance that `GetClosestBranch` measures for the partner at
position `k` of the overlap list: from the given point to the point of the
partner that the partner's locator finds. -/
def partnerDistance2 (points : PointSet) (originalPoint : Point)
    (pointLocators : List (List Point)) (lineIdLists : List (List Nat)) (k : Nat) : ℚ :=
  Distance2BetweenPoints
    (GetPoint points
      (idAt (lineIdLists.getD k []) (FindClosestPoint (pointLocators.getD k []) originalPoint)))
    originalPoint

/-- The locals of the loop of `Branch` after its first `k` iterations. -/
def Branch.walk (points : PointSet) (branchingLine : List Nat) (currentLineIndex : Int)
    (overlappingLines : List Int) (pointLocators : List (List Point))
    (lineIdLists : List (List Nat)) (k : Nat) : Option DivideState :=
  forLoop
    (Branch.body points branchingLine currentLineIndex overlappingLines pointLocators
      lineIdLists)
    k 0 ⟨false, []⟩

/-- The overlap partners as `Convert` and `SealMesh` hand them to `Branch`:
at least one partner, one locator and one id list for each partner, every
partner a line of at least one point, and every locator built on the points of
its line. -/
structure PartnersWF (points : PointSet) (overlappingLines : List Int)
    (pointLocators : List (List Point)) (lineIdLists : List (List Nat)) : Prop where
  nonempty : overlappingLines ≠ []
  locators : pointLocators.length = overlappingLines.length
  idLists : lineIdLists.length = overlappingLines.length
  built : ∀ k < overlappingLines.length, lineIdLists.getD k [] ≠ [] ∧
    pointLocators.getD k [] = linePoints points (lineIdLists.getD k [])

/-! ## The loop of `Convert` over the plane pairs, iteration by iteration -/

/-- The state of a `while` loop after `k` iterations of its body. -/
def iterLoop {σ : Type} (body : σ → Option σ) : Nat → σ → Option σ
  | 0, s => some s
  | k + 1, s => (body s).bind (iterLoop body k)

/-- The locals of the loop of `Convert` over the pairs of consecutive planes
after its first `k` iterations; `bridgeWalk input 0` holds the locals with
which the loop is entered. -/
def bridgeWalk (input : PolyData) (k : Nat) : Option ConvertState :=
  let numberOfLines : Int := input.lines.length
  (GetNumberOfLinesOnPlane input numberOfLines 0).bind fun numberOfLinesInPlane1 =>
  iterLoop (planePairBody input numberOfLines) k
    { firstLineOnPlane1Index := 0
      numberOfLinesInPlane1 := numberOfLinesInPlane1
      lineTriganulatedToAbove := List.replicate input.lines.length false
      lineTriganulatedToBelow := List.replicate input.lines.length false
      outputPolygons := [] }

/-! ## Double-precision arithmetic

The source computes with `double`.  The definitions above compute with exact
rationals; the definitions of this section compute the same expressions with
every arithmetic operation followed by a rounding `fl`, which is
`roundDouble` for the arithmetic of the source and the identity for exact
arithmetic. -/

/-- The power `2 ^ e` for an integer exponent. -/
def pow2 (e : Int) : ℚ :=
  if 0 ≤ e then ((2 ^ e.toNat : Nat) : ℚ) else 1 / ((2 ^ (-e).toNat : Nat) : ℚ)

/-- The number of halvings that bring `n` below 2, at most `fuel` of them. -/
def halvings : Nat → Nat → Nat
  | 0, _ => 0
  | fuel + 1, n => if n < 2 then 0 else halvings fuel (n / 2) + 1

/-- The binary logarithm of a positive natural number, rounded down. -/
def log2Floor (n : Nat) : Nat := halvings n n

/-- The binary exponent of a positive rational `q`: the integer `e` with
`2 ^ e ≤ q < 2 ^ (e + 1)`. -/
def exponentOf (q : ℚ) : Int :=
  let e0 : Int := (log2Floor q.num.natAbs : Int) - (log2Floor q.den : Int)
  if q < pow2 e0 then e0 - 1 else e0

/-- Rounding of a non-negative rational to the nearest integer, ties to the
even one. -/
def roundHalfEven (m : ℚ) : Int :=
  let f : Int := m.num / (m.den : Int)
  let r : ℚ := m - (f : ℚ)
  if r < 1 / 2 then f
  else if 1 / 2 < r then f + 1
  else if f % 2 = 0 then f else f + 1

/-- The `double` nearest to a rational, ties to even (IEEE 754 binary64,
the default rounding): 53 significant bits for the normal numbers, multiples of
`2 ^ -1074` below `2 ^ -1022`.  Overflow to infinity is not modelled. -/
def roundDouble (q : ℚ) : ℚ :=
  if q = 0 then 0
  else
    let a : ℚ := if q < 0 then -q else q
    let e : Int := if exponentOf a < -1022 then -1022 else exponentOf a
    let ulp : ℚ := pow2 (e - 52)
    let r : ℚ := (roundHalfEven (a / ulp) : ℚ) * ulp
    if q < 0 then -r else r

/-- The function `vtkMath::Distance2BetweenPoints` with every operation
rounded by `fl`. -/
def Rounded.Distance2BetweenPoints (fl : ℚ → ℚ) (p q : Point) : ℚ :=
  fl (fl (fl (fl (p.x - q.x) * fl (p.x - q.x)) + fl (fl (p.y - q.y) * fl (p.y - q.y))) +
    fl (fl (p.z - q.z) * fl (p.z - q.z)))

/-- The sum `areaSum` of `IsLineClockwise` with every operation rounded by
`fl`, accumulated in the order of the loop. -/
def Rounded.areaSum (fl : ℚ → ℚ) (points : PointSet) (line : List Nat) : ℚ :=
  (line.zip line.tail).foldl
    (fun areaSum pr =>
      fl (areaSum +
        fl (fl ((GetPoint points pr.2).x - (GetPoint points pr.1).x) *
          fl ((GetPoint points pr.2).y + (GetPoint points pr.1).y))))
    0

/-- Source: `IsLineClockwise`, with every operation rounded by `fl`. -/
def Rounded.IsLineClockwise (fl : ℚ → ℚ) (points : PointSet) (line : List Nat) : Bool :=
  decide (Rounded.areaSum fl points line > 0)

/-- Source: `SetLinesCounterClockwise`, with every operation rounded by
`fl`. -/
def Rounded.SetLinesCounterClockwise (fl : ℚ → ℚ) (points : PointSet)
    (lines : List (List Nat)) : List (List Nat) :=
  lines.map fun currentLine =>
    if Rounded.IsLineClockwise fl points currentLine then ReverseLine currentLine
    else currentLine

/-- One iteration of the scan of `GetClosestPoint`, with every operation
rounded by `fl`. -/
def Rounded.GetClosestPoint.body (fl : ℚ → ℚ) (points : PointSet) (originalPoint : Point)
    (linePointIds : List Nat) (currentPointIndex : Int) (s : ClosestState) :
    Option ClosestState :=
  (GetId linePointIds currentPointIndex).bind fun id =>
    let distanceBetweenPoints :=
      Rounded.Distance2BetweenPoints fl originalPoint (GetPoint points id)
    if distanceBetweenPoints < s.minimumDistance then
      some ⟨distanceBetweenPoints, currentPointIndex⟩
    else some s

/-- Source: `GetClosestPoint`, with every operation rounded by `fl`. -/
def Rounded.GetClosestPoint (fl : ℚ → ℚ) (points : PointSet) (originalPoint : Point)
    (linePointIds : List Nat) (numberOfPoints : Int) : Option Int :=
  (GetId linePointIds 0).bind fun id0 =>
    (forLoop (Rounded.GetClosestPoint.body fl points originalPoint linePointIds)
      (numberOfPoints - 1).toNat 1
      ⟨Rounded.Distance2BetweenPoints fl originalPoint (GetPoint points id0), 0⟩).map
      fun s => s.closestPointIndex

/-- Body of the loop "Initialize the first row in the table", with every
operation rounded by `fl`. -/
def Rounded.firstRowBody (fl : ℚ → ℚ) (c : BridgeInput) (line2PointIndex : Int)
    (s : BridgeState) : Option BridgeState :=
  (GetId c.pointsInLine2 s.currentPointIndexLine2).bind fun id2 =>
  let distance := Rounded.Distance2BetweenPoints fl c.firstPointLine1 (GetPoint c.points id2)
  (s.scoreTable.read c.numberOfPointsInLine1 c.numberOfPointsInLine2 0 (line2PointIndex - 1)).bind
    fun previousScore =>
  (s.scoreTable.write c.numberOfPointsInLine1 c.numberOfPointsInLine2 0 line2PointIndex
    (fl (previousScore + distance))).bind fun scoreTable =>
  (s.backtrackTable.write c.numberOfPointsInLine1 c.numberOfPointsInLine2 0 line2PointIndex
    left).bind fun backtrackTable =>
  some { s with
    scoreTable := scoreTable
    backtrackTable := backtrackTable
    currentPointIndexLine2 :=
      GetNextLocation s.currentPointIndexLine2 c.numberOfPointsInLine2 c.line2Closed }

/-- Body of the loop "Initialize the first column in the table", with every
operation rounded by `fl`. -/
def Rounded.firstColumnBody (fl : ℚ → ℚ) (c : BridgeInput) (line1PointIndex : Int)
    (s : BridgeState) : Option BridgeState :=
  (GetId c.pointsInLine1 s.currentPointIndexLine1).bind fun id1 =>
  let distance := Rounded.Distance2BetweenPoints fl (GetPoint c.points id1) c.firstPointLine2
  (s.scoreTable.read c.numberOfPointsInLine1 c.numberOfPointsInLine2 (line1PointIndex - 1) 0).bind
    fun previousScore =>
  (s.scoreTable.write c.numberOfPointsInLine1 c.numberOfPointsInLine2 line1PointIndex 0
    (fl (previousScore + distance))).bind fun scoreTable =>
  (s.backtrackTable.write c.numberOfPointsInLine1 c.numberOfPointsInLine2 line1PointIndex 0
    up).bind fun backtrackTable =>
  (forLoop (firstColumnResetBody c line1PointIndex) (c.numberOfPointsInLine2 - 1).toNat 1
    { s with scoreTable := scoreTable, backtrackTable := backtrackTable }).bind fun s1 =>
  some { s1 with
    currentPointIndexLine1 :=
      GetNextLocation s1.currentPointIndexLine1 c.numberOfPointsInLine1 c.line1Closed }

/-- Body of the inner loop of "Fill the rest of the table", with every
operation rounded by `fl`. -/
def Rounded.fillCellBody (fl : ℚ → ℚ) (c : BridgeInput) (line1PointIndex line2PointIndex : Int)
    (s : BridgeState) : Option BridgeState :=
  let rows := c.numberOfPointsInLine1
  let cols := c.numberOfPointsInLine2
  (GetId c.pointsInLine1 s.currentPointIndexLine1).bind fun id1 =>
  (GetId c.pointsInLine2 s.currentPointIndexLine2).bind fun id2 =>
  let distance :=
    Rounded.Distance2BetweenPoints fl (GetPoint c.points id1) (GetPoint c.points id2)
  (readAt c.closest2 s.previousLine2).bind fun closestOfPrevious2 =>
  (if s.currentPointIndexLine1 = closestOfPrevious2 then
    (s.scoreTable.read rows cols line1PointIndex (line2PointIndex - 1)).bind fun scoreLeft =>
      some (fl (scoreLeft + distance), left)
  else
    (readAt c.closest1 s.previousLine1).bind fun closestOfPrevious1 =>
    if s.currentPointIndexLine2 = closestOfPrevious1 then
      (s.scoreTable.read rows cols (line1PointIndex - 1) line2PointIndex).bind fun scoreUp =>
        some (fl (scoreUp + distance), up)
    else
      (s.scoreTable.read rows cols line1PointIndex (line2PointIndex - 1)).bind fun scoreLeft =>
      (s.scoreTable.read rows cols (line1PointIndex - 1) line2PointIndex).bind fun scoreUp =>
      if scoreLeft ≤ scoreUp then some (fl (scoreLeft + distance), left)
      else some (fl (scoreUp + distance), up)).bind fun cell =>
  (s.scoreTable.write rows cols line1PointIndex line2PointIndex cell.1).bind fun scoreTable =>
  (s.backtrackTable.write rows cols line1PointIndex line2PointIndex cell.2).bind
    fun backtrackTable =>
  some { s with
    scoreTable := scoreTable
    backtrackTable := backtrackTable
    previousLine2 := s.currentPointIndexLine2
    currentPointIndexLine2 :=
      GetNextLocation s.currentPointIndexLine2 cols c.line2Closed }

/-- Body of the outer loop of "Fill the rest of the table", with every
operation rounded by `fl`. -/
def Rounded.fillRowBody (fl : ℚ → ℚ) (c : BridgeInput) (line1PointIndex : Int)
    (s : BridgeState) : Option BridgeState :=
  (forLoop (Rounded.fillCellBody fl c line1PointIndex) (c.numberOfPointsInLine2 - 1).toNat 1
    s).bind fun s1 =>
  some { s1 with
    line2PointIndex := 1 + ((c.numberOfPointsInLine2 - 1).toNat : Int)
    previousLine1 := s1.currentPointIndexLine1
    currentPointIndexLine1 :=
      GetNextLocation s1.currentPointIndexLine1 c.numberOfPointsInLine1 c.line1Closed }

/-- The closest-point lists of `TriangulateContours`, with every operation
rounded by `fl`. -/
def Rounded.closestList (fl : ℚ → ℚ) (points : PointSet) (fromLine toLine : List Nat) :
    Option (List Int) :=
  fromLine.mapM fun id =>
    Rounded.GetClosestPoint fl points (GetPoint points id) toLine toLine.length

/-- The part of `TriangulateContours` before the tables are allocated, with
every operation rounded by `fl`. -/
def Rounded.bridgeInput (fl : ℚ → ℚ) (points : PointSet) (pointsInLine1 pointsInLine2 : List Nat) :
    Option BridgeInput :=
  let numberOfPointsInLine1 : Int := pointsInLine1.length
  let numberOfPointsInLine2 : Int := pointsInLine2.length
  (Rounded.closestList fl points pointsInLine1 pointsInLine2).bind fun closest1 =>
  (Rounded.closestList fl points pointsInLine2 pointsInLine1).bind fun closest2 =>
  let startLine1 : Int := 0
  (readAt closest1 0).bind fun startLine2 =>
  (GetId pointsInLine1 startLine1).bind fun firstId1 =>
  (GetId pointsInLine2 startLine2).bind fun firstId2 =>
  (GetId pointsInLine1 0).bind fun head1 =>
  (GetId pointsInLine1 (numberOfPointsInLine1 - 1)).bind fun last1 =>
  (GetId pointsInLine2 0).bind fun head2 =>
  (GetId pointsInLine2 (numberOfPointsInLine2 - 1)).bind fun last2 =>
  some {
    points := points
    pointsInLine1 := pointsInLine1
    pointsInLine2 := pointsInLine2
    numberOfPointsInLine1 := numberOfPointsInLine1
    numberOfPointsInLine2 := numberOfPointsInLine2
    closest1 := closest1
    closest2 := closest2
    startLine1 := startLine1
    startLine2 := startLine2
    firstPointLine1 := GetPoint points firstId1
    firstPointLine2 := GetPoint points firstId2
    line1Closed := decide (head1 = last1)
    line2Closed := decide (head2 = last2) }

/-- The locals of `TriangulateContours` when the tables have been allocated
and cell (0,0) has been set, with every operation rounded by `fl`. -/
def Rounded.initialState (fl : ℚ → ℚ) (c : BridgeInput) (outputPolygons : List Triangle) :
    BridgeState where
  scoreTable := fun a b =>
    if a = 0 ∧ b = 0 then Rounded.Distance2BetweenPoints fl c.firstPointLine1 c.firstPointLine2
    else 0
  backtrackTable := fun _ _ => 0
  previousLine1 := c.startLine1
  previousLine2 := c.startLine2
  currentPointIndexLine1 := 0
  currentPointIndexLine2 := 0
  line1PointIndex := 1
  line2PointIndex := 1
  outputPolygons := outputPolygons

/-- The two seeding loops and the interior fill of `TriangulateContours`,
with every operation rounded by `fl`. -/
def Rounded.fillTables (fl : ℚ → ℚ) (c : BridgeInput) (outputPolygons : List Triangle) :
    Option BridgeState :=
  let n1 := c.numberOfPointsInLine1
  let n2 := c.numberOfPointsInLine2
  let s0 := Rounded.initialState fl c outputPolygons
  -- Initialize the first row in the table.
  (forLoop (Rounded.firstRowBody fl c) (n2 - 1).toNat 1
    { s0 with currentPointIndexLine2 := GetNextLocation c.startLine2 n2 c.line2Closed }).bind
    fun s1 =>
  -- Initialize the first column in the table.
  (forLoop (Rounded.firstColumnBody fl c) (n1 - 1).toNat 1
    { s1 with currentPointIndexLine1 := GetNextLocation c.startLine1 n2 c.line1Closed }).bind
    fun s2 =>
  -- Fill the rest of the table.
  (forLoop (Rounded.fillRowBody fl c) (n1 - 1).toNat 1
    { s2 with
      previousLine1 := c.startLine1
      previousLine2 := c.startLine2
      currentPointIndexLine1 := GetNextLocation c.startLine1 n1 c.line1Closed
      currentPointIndexLine2 := GetNextLocation c.startLine2 n2 c.line2Closed
      line1PointIndex := 1
      line2PointIndex := 1 }).bind fun s3 =>
  some { s3 with line1PointIndex := 1 + ((n1 - 1).toNat : Int) }

/-- Source: `TriangulateContours`, with every operation rounded by `fl`. -/
def Rounded.TriangulateContours (fl : ℚ → ℚ) (points : PointSet)
    (pointsInLine1 pointsInLine2 : List Nat) (outputPolygons : List Triangle) :
    Option (List Triangle) :=
  if pointsInLine1.length = 0 ∨ pointsInLine2.length = 0 then some outputPolygons
  else
    (Rounded.bridgeInput fl points pointsInLine1 pointsInLine2).bind fun c =>
    (Rounded.fillTables fl c outputPolygons).bind fun s =>
    (whileLoop backtrackCond (backtrackBody c)
      (pointsInLine1.length + pointsInLine2.length) (backtrackStart c s)).map
      fun s => s.outputPolygons

/-! ## Predicates on coordinates -/

/-- Every coordinate of the point set is a `double`. -/
def DoubleCoordinates (points : PointSet) : Prop :=
  ∀ p ∈ points, roundDouble p.x = p.x ∧ roundDouble p.y = p.y ∧ roundDouble p.z = p.z

instance (points : PointSet) : Decidable (DoubleCoordinates points) := by
  unfold DoubleCoordinates
  exact inferInstance

/-- Twice the signed area of the triangle `a b c` in the XY plane: positive
when `c` lies to the left of the line from `a` to `b`. -/
def orient (a b c : Point) : ℚ :=
  (b.x - a.x) * (c.y - a.y) - (b.y - a.y) * (c.x - a.x)

/-- The segments from `a` to `b` and from `c` to `d` have no common point in
the XY plane, since both ends of one of them lie strictly on the same side of
the line through the other. -/
def SegmentsApart (a b c d : Point) : Prop :=
  0 < orient a b c * orient a b d ∨ 0 < orient c d a * orient c d b

instance (a b c d : Point) : Decidable (SegmentsApart a b c d) := by
  unfold SegmentsApart
  exact inferInstance

/-! ## The cap of a side when no outline is found -/

/-- The points that `CreateExternalLine` inserts when the filters find no
outline: the points of the line but the last, moved along Z by half the
spacing. -/
def raisedPoints (points : PointSet) (inputLine : List Nat) (lineSpacing : ℚ) : List Point :=
  ((linePoints points inputLine).take (inputLine.length - 1)).map
    fun p => ⟨p.x, p.y, p.z + lineSpacing / 2⟩

/-- The outline that `CreateExternalLine` returns when the filters find no
outline, for a line of `n` ids and a point set of `base` points before the
call: the ids of the inserted points, closed on the first of them. -/
def copiedOutline (base n : Nat) : List Nat :=
  (List.range (n - 1)).map (fun k => base + k) ++ [base]

/-- The positions returned by a polygon triangulation are corners of a
polygon of `n` points, three for each triangle. -/
def PolygonIdsOK (n : Nat) (polygonIds : List Int) : Prop :=
  polygonIds.length % 3 = 0 ∧ ∀ c ∈ polygonIds, 0 ≤ c ∧ c < (n : Int)

/-! ## Integer coordinates -/

/-- The rational `q` is an integer of magnitude at most `B`. -/
def BoundedInteger (B : Nat) (q : ℚ) : Prop :=
  q.den = 1 ∧ q.num.natAbs ≤ B

instance (B : Nat) (q : ℚ) : Decidable (BoundedInteger B q) := by
  unfold BoundedInteger
  exact inferInstance

/-- The coordinates of the point are integers of magnitude at most `B`. -/
def IntegerPoint (B : Nat) (p : Point) : Prop :=
  BoundedInteger B p.x ∧ BoundedInteger B p.y ∧ BoundedInteger B p.z

instance (B : Nat) (p : Point) : Decidable (IntegerPoint B p) := by
  unfold IntegerPoint
  exact inferInstance

/-- Every coordinate of the point set is an integer of magnitude at most
`B`. -/
def IntegerCoordinates (B : Nat) (points : PointSet) : Prop :=
  ∀ p ∈ points, IntegerPoint B p

instance (B : Nat) (points : PointSet) : Decidable (IntegerCoordinates B points) := by
  unfold IntegerCoordinates
  exact inferInstance

/-- The rounding `fl` leaves every integer of magnitude at most `L` as it
is. -/
def ExactOnIntegers (fl : ℚ → ℚ) (L : Int) : Prop :=
  ∀ z : Int, |z| ≤ L → fl (z : ℚ) = z

/-- The largest squared distance between two points whose coordinates are
integers of magnitude at most `B`. -/
def distanceBound (B : Nat) : Int := 12 * (B : Int) * (B : Int)

/-- Every cell `(a, b)` of the score table holds a non-negative integer of at
most `(a + b + 1) * M`. -/
def ScoresBounded (M : Int) (t : Table ℚ) : Prop :=
  ∀ a b : Int, 0 ≤ a → 0 ≤ b → ∃ z : Int, t a b = z ∧ 0 ≤ z ∧ z ≤ (a + b + 1) * M

/-- The points that the fill of `TriangulateContours` measures have integer
coordinates of magnitude at most `B`. -/
structure BridgeInput.IntegerPoints (B : Nat) (c : BridgeInput) : Prop where
  points : IntegerCoordinates B c.points
  first1 : IntegerPoint B c.firstPointLine1
  first2 : IntegerPoint B c.firstPointLine2

/-! ## Example data -/

/-- Four points: two on the plane `z = 0`, two on the plane `z = 1`. -/
def segmentPoints : PointSet := [⟨0, 0, 0⟩, ⟨1, 0, 0⟩, ⟨0, 0, 1⟩, ⟨1, 0, 1⟩]

/-- Two unit squares side by side: the boxes of the lines `[0, 1]` and
`[2, 3]` touch along `x = 1`. -/
def touchingPoints : PointSet := [⟨0, 0, 0⟩, ⟨1, 1, 0⟩, ⟨1, 0, 0⟩, ⟨2, 1, 0⟩]

/-- A keyhole contour on the plane `z = 0`: two lobes joined at the point
`(1, 1, 0)`, which the contour passes twice, as point 1 and as point 5. -/
def keyholePoints : PointSet :=
  [⟨0, 0, 0⟩, ⟨1, 1, 0⟩, ⟨2, 2, 0⟩, ⟨3, 1, 0⟩, ⟨2, 0, 0⟩, ⟨1, 1, 0⟩, ⟨0, 2, 0⟩, ⟨-1, 1, 0⟩]

/-- The keyhole contour as a contour set of one closed line. -/
def keyholeData : PolyData := ⟨keyholePoints, [[0, 1, 2, 3, 4, 5, 6, 7, 0]]⟩

/-- Filters that find no outline, so that `CreateExternalLine` falls back on
the copy of the contour, and a triangulation of no triangle. -/
def noOutline : External := ⟨fun _ _ => ⟨[], []⟩, fun _ => []⟩

/-- Four points of two closed chains `[0, 1, 0]` and `[2, 3, 2]`, one on the
plane `z = 0`, one on `z = 1`. -/
def ribbonPoints : PointSet := [⟨4, 1, 0⟩, ⟨3, 0, 0⟩, ⟨1, 4, 1⟩, ⟨0, 1, 1⟩]

/-- Four points of two closed chains `[0, 1, 0]` and `[2, 3, 2]` that run
apart from each other, so that no table cell has a forced transition. -/
def spreadPoints : PointSet := [⟨0, 0, 0⟩, ⟨10, 0, 0⟩, ⟨0, 0, 1⟩, ⟨-10, 0, 1⟩]

/-- Two unit squares, one on the plane `z = 0`, one above it on `z = 1`. -/
def squaresPoints : PointSet :=
  [⟨0, 0, 0⟩, ⟨1, 0, 0⟩, ⟨1, 1, 0⟩, ⟨0, 1, 0⟩, ⟨0, 0, 1⟩, ⟨1, 0, 1⟩, ⟨1, 1, 1⟩, ⟨0, 1, 1⟩]

/-- The two squares as closed contours, the lower one first. -/
def squaresData : PolyData := ⟨squaresPoints, [[0, 1, 2, 3, 0], [4, 5, 6, 7, 4]]⟩

/-- A trunk around the points 0 to 3 on the plane `z = 0` and two branches on
the plane `z = 1`: the points 4 and 5 above the trunk points 1 and 2, the
points 6 and 7 above the trunk points 0 and 3. -/
def branchPoints : PointSet :=
  [⟨0, 0, 0⟩, ⟨10, 0, 0⟩, ⟨10, 1, 0⟩, ⟨0, 1, 0⟩, ⟨10, 0, 1⟩, ⟨10, 1, 1⟩, ⟨0, 0, 1⟩, ⟨0, 1, 1⟩]

/-- The id lists of the two branches over `branchPoints`, lines 1 and 2 of
the contour set. -/
def branchIdLists : List (List Nat) := [[4, 5], [6, 7]]

/-- The point locators of the two branches. -/
def branchLocators : List (List Point) := branchIdLists.map (linePoints branchPoints)

/-- A single triangular contour on the plane `z = 0`. -/
def triangleData : PolyData := ⟨[⟨0, 0, 0⟩, ⟨1, 0, 0⟩, ⟨0, 1, 0⟩], [[0, 1, 2, 0]]⟩

/-- Five points of the open chains `[0, 1, 2]` on the plane `z = 0` and
`[3, 4]` on the plane `z = 1`. -/
def driftPoints : PointSet := [⟨0, 0, 0⟩, ⟨1, 0, 0⟩, ⟨2, 0, 0⟩, ⟨0, 0, 1⟩, ⟨3, 0, 1⟩]

/-- The fan triangulation of a polygon: the positions `0, k + 1, k + 2` of the
corners of its triangles. -/
def fanTriangulate (polygon : List Point) : List Int :=
  (List.range (polygon.length - 2)).flatMap fun (k : Nat) => [0, (k : Int) + 1, (k : Int) + 2]

/-- Filters that find no outline, so that `CreateExternalLine` falls back on
the copy of the contour, and the fan triangulation of a polygon. -/
def fanFilters : External := ⟨fun _ _ => ⟨[], []⟩, fanTriangulate⟩

/-- A contour of ten points that passes three times through the origin, as
its points 0, 3 and 6. -/
def triplePoints : List Point :=
  [⟨0, 0, 0⟩, ⟨1, 0, 0⟩, ⟨1, 1, 0⟩, ⟨0, 0, 0⟩, ⟨-1, 1, 0⟩, ⟨-1, -1, 0⟩, ⟨0, 0, 0⟩, ⟨1, -1, 0⟩,
    ⟨2, -1, 0⟩, ⟨2, -2, 0⟩]

/-- The trunk and the two branches of `branchPoints` as a contour set: line 0
on the plane `z = 0`, lines 1 and 2 on the plane `z = 1`. -/
def branchData : PolyData := ⟨branchPoints, [0, 1, 2, 3, 0] :: branchIdLists⟩

/-- A thin quadrilateral along the segment from `(2 ^ 30, 0)` to
`(0, 2 ^ 29)`, listed clockwise; every coordinate is an integer below
`2 ^ 31`. -/
def sliverPoints : PointSet :=
  [⟨1073741818, -1, 0⟩, ⟨536870913, 268435455, 0⟩, ⟨-4, 536870914, 0⟩,
    ⟨536870917, 268435453, 0⟩]

/-- Two squares of side `2 ^ -27`, one on the plane `z = 0` and one on the
plane `z = 1`, corner `k + 4` above corner `k`. -/
def tinySquaresPoints : PointSet :=
  [⟨0, 0, 0⟩, ⟨1 / 134217728, 0, 0⟩, ⟨1 / 134217728, 1 / 134217728, 0⟩,
    ⟨0, 1 / 134217728, 0⟩, ⟨0, 0, 1⟩, ⟨1 / 134217728, 0, 1⟩,
    ⟨1 / 134217728, 1 / 134217728, 1⟩, ⟨0, 1 / 134217728, 1⟩]

/-! ## Generic facts about reads and loops -/

theorem readAt_of_inRange {α : Type} (l : List α) (i : Int) (h : InRange l.length i) :
    ∃ v, readAt l i = some v ∧ v ∈ l := by
  obtain ⟨h0, h1⟩ := h
  have hlt : i.toNat < l.length := by omega
  refine ⟨l.get ⟨i.toNat, hlt⟩, ?_, List.get_mem _ _ _⟩
  simp [readAt, h0, List.get?_eq_get hlt]

theorem readAt_mem {α : Type} (l : List α) (i : Int) (v : α) (h : readAt l i = some v) :
    v ∈ l := by
  unfold readAt at h
  split at h
  · exact List.get?_mem h
  · cases h

theorem GetId_of_inRange (l : List Nat) (i : Int) (h : InRange l.length i) :
    ∃ v, GetId l i = some v ∧ v ∈ l :=
  readAt_of_inRange l i h

theorem Table.read_eq {α : Type} (t : Table α) (rows cols i j : Int)
    (hi : InRange rows i) (hj : InRange cols j) :
    t.read rows cols i j = some (t i j) := by
  simp [Table.read, hi.1, hi.2, hj.1, hj.2]

theorem Table.write_eq {α : Type} (t : Table α) (rows cols i j : Int) (v : α)
    (hi : InRange rows i) (hj : InRange cols j) :
    t.write rows cols i j v = some fun a b => if a = i ∧ b = j then v else t a b := by
  simp [Table.write, hi.1, hi.2, hj.1, hj.2]

/-- Invariant rule for a counted loop: an invariant that every iteration
re-establishes holds after the loop, and the loop does not fault. -/
theorem forLoop_inv {σ : Type} (body : Int → σ → Option σ) (P : Int → σ → Prop)
    (count : Nat) (start : Int)
    (hstep : ∀ i s, start ≤ i → i < start + count → P i s →
      ∃ s', body i s = some s' ∧ P (i + 1) s')
    (s : σ) (h0 : P start s) :
    ∃ s', forLoop body count start s = some s' ∧ P (start + count) s' := by
  induction count generalizing start s with
  | zero => exact ⟨s, rfl, by simpa using h0⟩
  | succ k ih =>
    obtain ⟨s1, hb, hP⟩ := hstep start s (le_refl _) (by push_cast; omega) h0
    obtain ⟨s2, hl, hP2⟩ := ih (start + 1)
      (fun i t h1 h2 hp => hstep i t (by omega) (by push_cast; omega) hp) s1 hP
    refine ⟨s2, ?_, ?_⟩
    · simp [forLoop, hb, hl]
    · have : start + ((k + 1 : Nat) : Int) = start + 1 + (k : Int) := by push_cast; ring
      rw [this]; exact hP2

/-- Invariant rule for a budgeted while loop: with an invariant and a measure
that every iteration decreases, a budget of at least the measure suffices. -/
theorem whileLoop_inv {σ : Type} (cond : σ → Bool) (body : σ → Option σ) (P : σ → Prop)
    (m : σ → Nat)
    (hstep : ∀ s, P s → cond s = true → ∃ s', body s = some s' ∧ P s' ∧ m s' < m s)
    (fuel : Nat) (s : σ) (h0 : P s) (hm : m s ≤ fuel) :
    ∃ s', whileLoop cond body fuel s = some s' ∧ P s' ∧ cond s' = false := by
  induction fuel generalizing s with
  | zero =>
    cases hc : cond s with
    | false => exact ⟨s, by simp [whileLoop, hc], h0, hc⟩
    | true =>
      obtain ⟨s1, _, _, hlt⟩ := hstep s h0 hc
      omega
  | succ k ih =>
    cases hc : cond s with
    | false => exact ⟨s, by simp [whileLoop, hc], h0, hc⟩
    | true =>
      obtain ⟨s1, hb, hP, hlt⟩ := hstep s h0 hc
      obtain ⟨s2, hl, hP2, hc2⟩ := ih s1 hP (by omega)
      exact ⟨s2, by simp [whileLoop, hc, hb, hl], hP2, hc2⟩

theorem GetNextLocation_inRange (p n : Int) (closed : Bool) (hn : 2 ≤ n) (hp : InRange n p) :
    InRange n (GetNextLocation p n closed) := by
  unfold GetNextLocation InRange at *
  split
  · cases closed <;> simp <;> omega
  · omega

theorem GetPreviousLocation_inRange (p n : Int) (closed : Bool) (hn : 2 ≤ n)
    (hp : InRange n p) : InRange n (GetPreviousLocation p n closed) := by
  unfold GetPreviousLocation InRange at *
  split
  · cases closed <;> simp <;> omega
  · omega

theorem GetEndLoop_inRange (p n : Int) (closed : Bool) (hp : InRange n p) :
    InRange n (GetEndLoop p n closed) := by
  unfold GetEndLoop InRange at *
  split
  · cases closed <;> simp <;> omega
  · omega

/-- On a non-empty chain `GetClosestPoint` returns a position of the chain. -/
theorem GetClosestPoint_inRange (points : PointSet) (q : Point) (l : List Nat)
    (hl : l ≠ []) : ∃ k, GetClosestPoint points q l l.length = some k ∧ InRange l.length k := by
  have hpos : 0 < l.length := List.length_pos.mpr hl
  obtain ⟨id0, h0, _⟩ := GetId_of_inRange l 0 ⟨le_refl _, by exact_mod_cast hpos⟩
  obtain ⟨s', hs, hP⟩ := forLoop_inv (GetClosestPoint.body points q l)
    (fun _ s => InRange l.length s.closestPointIndex) ((l.length : Int) - 1).toNat 1
    (by
      intro i s h1 h2 hP
      obtain ⟨id, hid, _⟩ := GetId_of_inRange l i ⟨by omega, by omega⟩
      simp only [GetClosestPoint.body, hid, Option.some_bind]
      split
      · exact ⟨_, rfl, ⟨by show 0 ≤ i; omega, by show i < _; omega⟩⟩
      · exact ⟨_, rfl, hP⟩)
    ⟨Distance2BetweenPoints q (GetPoint points id0), 0⟩
    ⟨le_refl _, by show (0 : Int) < _; exact_mod_cast hpos⟩
  exact ⟨s'.closestPointIndex,
    by simp only [GetClosestPoint, h0, Option.some_bind, hs, Option.map_some'], hP⟩

theorem mapM_option_spec {α β : Type} (f : α → Option β) (P : β → Prop) (l : List α)
    (h : ∀ x ∈ l, ∃ y, f x = some y ∧ P y) :
    ∃ ys, l.mapM f = some ys ∧ ys.length = l.length ∧ ∀ y ∈ ys, P y := by
  induction l with
  | nil => exact ⟨[], by rw [List.mapM_nil]; rfl, rfl, by simp⟩
  | cons a l ih =>
    obtain ⟨y, hy, hPy⟩ := h a (List.mem_cons_self _ _)
    obtain ⟨ys, hys, hlen, hall⟩ := ih (fun x hx => h x (List.mem_cons_of_mem _ hx))
    refine ⟨y :: ys, ?_, by simp [hlen], ?_⟩
    · rw [List.mapM_cons, hy, hys]; rfl
    · intro z hz
      rcases List.mem_cons.mp hz with rfl | hz
      · exact hPy
      · exact hall z hz

/-! ## Facts about `TriangulateContours` -/

theorem closestList_spec (points : PointSet) (l1 l2 : List Nat) (h2 : l2 ≠ []) :
    ∃ ys, closestList points l1 l2 = some ys ∧ ys.length = l1.length ∧
      ∀ y ∈ ys, InRange l2.length y :=
  mapM_option_spec _ _ l1 fun x _ => GetClosestPoint_inRange points (GetPoint points x) l2 h2

theorem bridgeInput_spec (points : PointSet) (l1 l2 : List Nat) (h1 : l1 ≠ []) (h2 : l2 ≠ []) :
    ∃ c, bridgeInput points l1 l2 = some c ∧ c.WF ∧ c.points = points ∧
      c.pointsInLine1 = l1 ∧ c.pointsInLine2 = l2 := by
  have hp1 : 0 < l1.length := List.length_pos.mpr h1
  have hp2 : 0 < l2.length := List.length_pos.mpr h2
  obtain ⟨c1, hc1, hlen1, hall1⟩ := closestList_spec points l1 l2 h2
  obtain ⟨c2, hc2, hlen2, _⟩ := closestList_spec points l2 l1 h1
  obtain ⟨st2, hst2, hmem⟩ := readAt_of_inRange c1 0 ⟨le_refl _, by omega⟩
  have hst2r : InRange l2.length st2 := hall1 st2 hmem
  obtain ⟨f1, hf1, _⟩ := GetId_of_inRange l1 0 ⟨le_refl _, by omega⟩
  obtain ⟨f2, hf2, _⟩ := GetId_of_inRange l2 st2 hst2r
  obtain ⟨e1, he1, _⟩ := GetId_of_inRange l1 ((l1.length : Int) - 1) ⟨by omega, by omega⟩
  obtain ⟨g2, hg2, _⟩ := GetId_of_inRange l2 0 ⟨le_refl _, by omega⟩
  obtain ⟨e2, he2, _⟩ := GetId_of_inRange l2 ((l2.length : Int) - 1) ⟨by omega, by omega⟩
  refine ⟨{
    points := points
    pointsInLine1 := l1
    pointsInLine2 := l2
    numberOfPointsInLine1 := l1.length
    numberOfPointsInLine2 := l2.length
    closest1 := c1
    closest2 := c2
    startLine1 := 0
    startLine2 := st2
    firstPointLine1 := GetPoint points f1
    firstPointLine2 := GetPoint points f2
    line1Closed := decide (f1 = e1)
    line2Closed := decide (g2 = e2) }, ?_, ?_, rfl, rfl, rfl⟩
  · simp only [bridgeInput, hc1, hc2, hst2, hf1, hf2, he1, hg2, he2, Option.some_bind]
  · exact ⟨rfl, rfl, by show (1 : Int) ≤ (l1.length : Int); omega,
      by show (1 : Int) ≤ (l2.length : Int); omega,
      by show (c1.length : Int) = (l1.length : Int); omega,
      by show (c2.length : Int) = (l2.length : Int); omega, rfl, hst2r⟩

theorem toNat_pred_cast (n : Int) (h : 1 ≤ n) : (((n - 1).toNat : Nat) : Int) = n - 1 := by
  omega

theorem firstRow_spec (c : BridgeInput) (hc : c.WF) (s : BridgeState)
    (hcur : 2 ≤ c.numberOfPointsInLine2 →
      InRange c.numberOfPointsInLine2 s.currentPointIndexLine2) :
    ∃ s', forLoop (firstRowBody c) (c.numberOfPointsInLine2 - 1).toNat 1 s = some s' ∧
      s'.outputPolygons = s.outputPolygons ∧
      ∀ j, 1 ≤ j → j < c.numberOfPointsInLine2 → s'.backtrackTable 0 j = left := by
  by_cases hn : 2 ≤ c.numberOfPointsInLine2
  · have hcast := toNat_pred_cast _ hc.pos2
    obtain ⟨s', hs, hout, _, hrow⟩ := forLoop_inv (firstRowBody c)
      (fun j t => t.outputPolygons = s.outputPolygons ∧
        InRange c.numberOfPointsInLine2 t.currentPointIndexLine2 ∧
        ∀ j', 1 ≤ j' → j' < j → t.backtrackTable 0 j' = left)
      (c.numberOfPointsInLine2 - 1).toNat 1
      (by
        intro j t h1 h2 ⟨hout, hr, hrow⟩
        obtain ⟨id2, hid2, _⟩ := GetId_of_inRange c.pointsInLine2 t.currentPointIndexLine2
          (by rw [← hc.len2]; exact hr)
        have hi0 : InRange c.numberOfPointsInLine1 0 := ⟨le_refl _, by have := hc.pos1; omega⟩
        have hj : InRange c.numberOfPointsInLine2 j := ⟨by omega, by omega⟩
        have hj1 : InRange c.numberOfPointsInLine2 (j - 1) := ⟨by omega, by omega⟩
        simp only [firstRowBody, hid2, Option.some_bind, Table.read_eq _ _ _ _ _ hi0 hj1,
          Table.write_eq _ _ _ _ _ _ hi0 hj]
        refine ⟨_, rfl, hout, GetNextLocation_inRange _ _ _ hn hr, ?_⟩
        intro j' h1' h2'
        show (if (0 : Int) = 0 ∧ j' = j then left else t.backtrackTable 0 j') = left
        by_cases hjj : j' = j
        · simp [hjj]
        · simp only [hjj, and_false, if_false]
          exact hrow j' h1' (by omega))
      s ⟨rfl, hcur hn, by intro j' h1 h2; omega⟩
    exact ⟨s', hs, hout, fun j h1 h2 => hrow j h1 (by omega)⟩
  · have h0 : (c.numberOfPointsInLine2 - 1).toNat = 0 := by omega
    rw [h0]
    exact ⟨s, rfl, rfl, by intro j h1 h2; omega⟩

theorem write_border {α : Type} (t : Table α) (i j a b : Int) (v : α) (hi : 1 ≤ i)
    (hj : 1 ≤ j) (hab : a = 0 ∨ b = 0) : (if a = i ∧ b = j then v else t a b) = t a b := by
  have : ¬ (a = i ∧ b = j) := by omega
  simp [this]

theorem firstColumnReset_spec (c : BridgeInput) (hc : c.WF) (i : Int) (hi1 : 1 ≤ i)
    (hi2 : i < c.numberOfPointsInLine1) (s : BridgeState) :
    ∃ s', forLoop (firstColumnResetBody c i) (c.numberOfPointsInLine2 - 1).toNat 1 s = some s' ∧
      s'.outputPolygons = s.outputPolygons ∧
      s'.currentPointIndexLine1 = s.currentPointIndexLine1 ∧
      ∀ a b, (a = 0 ∨ b = 0) → s'.backtrackTable a b = s.backtrackTable a b := by
  have hcast := toNat_pred_cast _ hc.pos2
  obtain ⟨s', hs, hP⟩ := forLoop_inv (firstColumnResetBody c i)
    (fun _ t => t.outputPolygons = s.outputPolygons ∧
      t.currentPointIndexLine1 = s.currentPointIndexLine1 ∧
      ∀ a b, (a = 0 ∨ b = 0) → t.backtrackTable a b = s.backtrackTable a b)
    (c.numberOfPointsInLine2 - 1).toNat 1
    (by
      intro j t h1 h2 ⟨hout, hcur, hfr⟩
      have hir : InRange c.numberOfPointsInLine1 i := ⟨by omega, hi2⟩
      have hj : InRange c.numberOfPointsInLine2 j := ⟨by omega, by omega⟩
      simp only [firstColumnResetBody, Option.some_bind, Table.write_eq _ _ _ _ _ _ hir hj]
      refine ⟨_, rfl, hout, hcur, ?_⟩
      intro a b hab
      show (if a = i ∧ b = j then up else t.backtrackTable a b) = _
      rw [write_border _ _ _ _ _ _ hi1 h1 hab]
      exact hfr a b hab)
    s ⟨rfl, rfl, fun _ _ _ => rfl⟩
  exact ⟨s', hs, hP⟩

theorem firstColumn_spec (c : BridgeInput) (hc : c.WF) (s : BridgeState)
    (hcur : 2 ≤ c.numberOfPointsInLine1 →
      InRange c.numberOfPointsInLine1 s.currentPointIndexLine1)
    (hrow : ∀ j, 1 ≤ j → j < c.numberOfPointsInLine2 → s.backtrackTable 0 j = left) :
    ∃ s', forLoop (firstColumnBody c) (c.numberOfPointsInLine1 - 1).toNat 1 s = some s' ∧
      s'.outputPolygons = s.outputPolygons ∧
      BorderOK c.numberOfPointsInLine1 c.numberOfPointsInLine2 s'.backtrackTable := by
  by_cases hn : 2 ≤ c.numberOfPointsInLine1
  · have hcast := toNat_pred_cast _ hc.pos1
    obtain ⟨s', hs, hout, _, hrow', hcol⟩ := forLoop_inv (firstColumnBody c)
      (fun i t => t.outputPolygons = s.outputPolygons ∧
        InRange c.numberOfPointsInLine1 t.currentPointIndexLine1 ∧
        (∀ j, 1 ≤ j → j < c.numberOfPointsInLine2 → t.backtrackTable 0 j = left) ∧
        ∀ i', 1 ≤ i' → i' < i → t.backtrackTable i' 0 = up)
      (c.numberOfPointsInLine1 - 1).toNat 1
      (by
        intro i t h1 h2 ⟨hout, hr, hrow', hcol⟩
        obtain ⟨id1, hid1, _⟩ := GetId_of_inRange c.pointsInLine1 t.currentPointIndexLine1
          (by rw [← hc.len1]; exact hr)
        have hj0 : InRange c.numberOfPointsInLine2 0 := ⟨le_refl _, by have := hc.pos2; omega⟩
        have hi : InRange c.numberOfPointsInLine1 i := ⟨by omega, by omega⟩
        have hi1 : InRange c.numberOfPointsInLine1 (i - 1) := ⟨by omega, by omega⟩
        simp only [firstColumnBody, hid1, Option.some_bind, Table.read_eq _ _ _ _ _ hi1 hj0,
          Table.write_eq _ _ _ _ _ _ hi hj0]
        obtain ⟨t1, ht1, hout1, hcur1, hfr⟩ := firstColumnReset_spec c hc i h1 hi.2
          { t with
            scoreTable := fun a b =>
              if a = i ∧ b = 0 then
                t.scoreTable (i - 1) 0 +
                  Distance2BetweenPoints (GetPoint c.points id1) c.firstPointLine2
              else t.scoreTable a b
            backtrackTable := fun a b => if a = i ∧ b = 0 then up else t.backtrackTable a b }
        simp only [ht1, Option.some_bind]
        refine ⟨_, rfl, hout1.trans hout, ?_, ?_, ?_⟩
        · show InRange _ (GetNextLocation t1.currentPointIndexLine1 _ _)
          rw [hcur1]
          exact GetNextLocation_inRange _ _ _ hn hr
        · intro j hj1 hj2
          show t1.backtrackTable 0 j = left
          rw [hfr 0 j (Or.inl rfl)]
          show (if (0 : Int) = i ∧ j = 0 then up else t.backtrackTable 0 j) = left
          have : ¬ ((0 : Int) = i ∧ j = 0) := by omega
          simp only [this, if_false]
          exact hrow' j hj1 hj2
        · intro i' hi1' hi2'
          show t1.backtrackTable i' 0 = up
          rw [hfr i' 0 (Or.inr rfl)]
          show (if i' = i ∧ (0 : Int) = 0 then up else t.backtrackTable i' 0) = up
          by_cases hii : i' = i
          · simp [hii]
          · simp only [hii, false_and, if_false]
            exact hcol i' hi1' (by omega))
      s ⟨rfl, hcur hn, hrow, by intro i' h1 h2; omega⟩
    exact ⟨s', hs, hout, hrow', fun i h1 h2 => hcol i h1 (by omega)⟩
  · have h0 : (c.numberOfPointsInLine1 - 1).toNat = 0 := by omega
    rw [h0]
    exact ⟨s, rfl, rfl, hrow, by intro i h1 h2; omega⟩

theorem fillCell_step (c : BridgeInput) (hc : c.WF) (i j : Int) (hi1 : 1 ≤ i)
    (hi2 : i < c.numberOfPointsInLine1) (hj1 : 1 ≤ j) (hj2 : j < c.numberOfPointsInLine2)
    (s t : BridgeState) (h : FillInv c s t) :
    ∃ t', fillCellBody c i j t = some t' ∧ FillInv c s t' ∧
      t'.currentPointIndexLine1 = t.currentPointIndexLine1 ∧
      t'.previousLine1 = t.previousLine1 := by
  have hn2 : 2 ≤ c.numberOfPointsInLine2 := by omega
  obtain ⟨id1, hid1, _⟩ := GetId_of_inRange c.pointsInLine1 t.currentPointIndexLine1
    (by rw [← hc.len1]; exact h.cur1)
  obtain ⟨id2, hid2, _⟩ := GetId_of_inRange c.pointsInLine2 t.currentPointIndexLine2
    (by rw [← hc.len2]; exact h.cur2 hn2)
  obtain ⟨k2, hk2, _⟩ := readAt_of_inRange c.closest2 t.previousLine2
    (by rw [hc.closest2_len]; exact h.prev2)
  obtain ⟨k1, hk1, _⟩ := readAt_of_inRange c.closest1 t.previousLine1
    (by rw [hc.closest1_len]; exact h.prev1)
  have hi : InRange c.numberOfPointsInLine1 i := ⟨by omega, hi2⟩
  have hj : InRange c.numberOfPointsInLine2 j := ⟨by omega, hj2⟩
  have hi' : InRange c.numberOfPointsInLine1 (i - 1) := ⟨by omega, by omega⟩
  have hj' : InRange c.numberOfPointsInLine2 (j - 1) := ⟨by omega, by omega⟩
  simp only [fillCellBody, hid1, hid2, hk2, hk1, Option.some_bind,
    Table.read_eq _ _ _ _ _ hi hj', Table.read_eq _ _ _ _ _ hi' hj]
  split_ifs
  all_goals
    simp only [Option.some_bind, Table.write_eq _ _ _ _ _ _ hi hj]
    refine ⟨_, rfl, ⟨h.out, h.cur1, h.prev1, fun _ => GetNextLocation_inRange _ _ _ hn2 (h.cur2 hn2),
      h.cur2 hn2, ?_⟩, rfl, rfl⟩
    intro a b hab
    show (if a = i ∧ b = j then _ else t.backtrackTable a b) = _
    rw [write_border _ _ _ _ _ _ hi1 hj1 hab]
    exact h.border a b hab

theorem fillRow_step (c : BridgeInput) (hc : c.WF) (i : Int) (hi1 : 1 ≤ i)
    (hi2 : i < c.numberOfPointsInLine1) (s t : BridgeState) (h : FillInv c s t) :
    ∃ t', fillRowBody c i t = some t' ∧ FillInv c s t' ∧
      t'.line2PointIndex = c.numberOfPointsInLine2 := by
  have hcast := toNat_pred_cast _ hc.pos2
  have hn1 : 2 ≤ c.numberOfPointsInLine1 := by omega
  obtain ⟨t1, ht1, hP, hc1, hp1⟩ := forLoop_inv (fillCellBody c i)
    (fun _ u => FillInv c s u ∧ u.currentPointIndexLine1 = t.currentPointIndexLine1 ∧
      u.previousLine1 = t.previousLine1)
    (c.numberOfPointsInLine2 - 1).toNat 1
    (by
      intro j u h1 h2 ⟨hu, hu1, hu2⟩
      obtain ⟨u', hu', hinv, e1, e2⟩ := fillCell_step c hc i j hi1 hi2 h1 (by omega) s u hu
      exact ⟨u', hu', hinv, e1.trans hu1, e2.trans hu2⟩)
    t ⟨h, rfl, rfl⟩
  simp only [fillRowBody, ht1, Option.some_bind]
  refine ⟨_, rfl, ⟨hP.out, GetNextLocation_inRange _ _ _ hn1 hP.cur1, hP.cur1, hP.cur2,
    hP.prev2, hP.border⟩, ?_⟩
  show 1 + (((c.numberOfPointsInLine2 - 1).toNat : Nat) : Int) = c.numberOfPointsInLine2
  omega

/-- The table fill of `TriangulateContours` never faults on two non-empty
chains; it seeds the border of the backtracking table and leaves the loop
variables at `(n1, n2)`, or at `(1, 1)` when chain 1 has a single point. -/
theorem fillTables_spec (c : BridgeInput) (hc : c.WF) (out : List Triangle) :
    ∃ s, fillTables c out = some s ∧ s.outputPolygons = out ∧
      BorderOK c.numberOfPointsInLine1 c.numberOfPointsInLine2 s.backtrackTable ∧
      s.line1PointIndex = c.numberOfPointsInLine1 ∧
      s.line2PointIndex = if 2 ≤ c.numberOfPointsInLine1 then c.numberOfPointsInLine2 else 1 := by
  have hcast1 := toNat_pred_cast _ hc.pos1
  have hst2 := hc.start2
  obtain ⟨s1, hs1, hout1, hrow1⟩ := firstRow_spec c hc
    { initialState c out with
      currentPointIndexLine2 :=
        GetNextLocation c.startLine2 c.numberOfPointsInLine2 c.line2Closed }
    (fun hn => GetNextLocation_inRange _ _ _ hn hst2)
  obtain ⟨s2, hs2, hout2, hb2⟩ := firstColumn_spec c hc
    { s1 with
      currentPointIndexLine1 :=
        GetNextLocation c.startLine1 c.numberOfPointsInLine2 c.line1Closed }
    (by
      intro hn
      show InRange _ (GetNextLocation c.startLine1 c.numberOfPointsInLine2 c.line1Closed)
      rw [hc.start1]
      unfold GetNextLocation InRange
      split
      · cases c.line1Closed <;> simp <;> omega
      · omega)
    hrow1
  simp only [fillTables, hs1, hs2, Option.some_bind]
  by_cases hn : 2 ≤ c.numberOfPointsInLine1
  · obtain ⟨s3, hs3, hinv, _, hl2⟩ := forLoop_inv (fillRowBody c)
      (fun i t => FillInv c s2 t ∧ (i = 1 → t.line2PointIndex = 1) ∧
        (1 < i → t.line2PointIndex = c.numberOfPointsInLine2))
      (c.numberOfPointsInLine1 - 1).toNat 1
      (by
        intro i t h1 h2 ⟨hinv, _, _⟩
        obtain ⟨t', ht', hinv', hl⟩ := fillRow_step c hc i h1 (by omega) s2 t hinv
        exact ⟨t', ht', hinv', by intro h; omega, fun _ => hl⟩)
      { s2 with
        previousLine1 := c.startLine1
        previousLine2 := c.startLine2
        currentPointIndexLine1 :=
          GetNextLocation c.startLine1 c.numberOfPointsInLine1 c.line1Closed
        currentPointIndexLine2 :=
          GetNextLocation c.startLine2 c.numberOfPointsInLine2 c.line2Closed
        line1PointIndex := 1
        line2PointIndex := 1 }
      ⟨⟨rfl, GetNextLocation_inRange _ _ _ hn (by rw [hc.start1]; exact ⟨le_refl _, by omega⟩),
        by show InRange _ c.startLine1; rw [hc.start1]; exact ⟨le_refl _, by omega⟩,
        fun hn2 => GetNextLocation_inRange _ _ _ hn2 hst2, hst2, fun _ _ _ => rfl⟩,
        fun _ => rfl, by intro h; omega⟩
    simp only [hs3, Option.some_bind]
    refine ⟨_, rfl, ?_, ?_, ?_, ?_⟩
    · show s3.outputPolygons = out
      rw [hinv.out, hout2, hout1]; rfl
    · show BorderOK _ _ s3.backtrackTable
      exact ⟨fun j h1 h2 => by rw [hinv.border 0 j (Or.inl rfl)]; exact hb2.1 j h1 h2,
        fun i h1 h2 => by rw [hinv.border i 0 (Or.inr rfl)]; exact hb2.2 i h1 h2⟩
    · show 1 + (((c.numberOfPointsInLine1 - 1).toNat : Nat) : Int) = c.numberOfPointsInLine1
      omega
    · show s3.line2PointIndex = _
      rw [if_pos hn]
      exact hl2 (by omega)
  · have h0 : (c.numberOfPointsInLine1 - 1).toNat = 0 := by omega
    simp only [h0, forLoop, Option.some_bind]
    refine ⟨_, rfl, ?_, hb2, ?_, ?_⟩
    · show s2.outputPolygons = out
      rw [hout2, hout1]; rfl
    · show (1 : Int) + ((0 : Nat) : Int) = c.numberOfPointsInLine1
      have := hc.pos1
      omega
    · rw [if_neg hn]

theorem backtrack_step (c : BridgeInput) (hc : c.WF) (B : Table Int)
    (hB : BorderOK c.numberOfPointsInLine1 c.numberOfPointsInLine2 B) (out : List Triangle)
    (total : Int) (t : BridgeState) (h : BackInv c B out total t)
    (hcond : backtrackCond t = true) :
    ∃ t', backtrackBody c t = some t' ∧ BackInv c B out total t' ∧
      (t'.line1PointIndex + t'.line2PointIndex).toNat <
        (t.line1PointIndex + t.line2PointIndex).toNat ∧
      ((B t.line1PointIndex t.line2PointIndex = left ∧
          t'.line1PointIndex = t.line1PointIndex ∧
          t'.line2PointIndex = t.line2PointIndex - 1) ∨
        (B t.line1PointIndex t.line2PointIndex ≠ left ∧
          t'.line1PointIndex = t.line1PointIndex - 1 ∧
          t'.line2PointIndex = t.line2PointIndex)) := by
  obtain ⟨htab, hi, hj, hc1, hc2, new, hnew, hlen, hall⟩ := h
  have hpos : t.line1PointIndex > 0 ∨ t.line2PointIndex > 0 := by
    simpa [backtrackCond] using hcond
  obtain ⟨id1, hid1, hm1⟩ := GetId_of_inRange c.pointsInLine1 t.currentPointIndexLine1
    (by rw [← hc.len1]; exact hc1)
  obtain ⟨id2, hid2, hm2⟩ := GetId_of_inRange c.pointsInLine2 t.currentPointIndexLine2
    (by rw [← hc.len2]; exact hc2)
  simp only [backtrackBody, hid1, hid2, Option.some_bind, Table.read_eq _ _ _ _ _ hi hj, htab]
  by_cases hmark : B t.line1PointIndex t.line2PointIndex = left
  · -- a `left` mark can only stand right of column 0
    have hj0 : 0 < t.line2PointIndex := by
      by_contra hneg
      have hz : t.line2PointIndex = 0 := by have := hj.1; omega
      have hup := hB.2 t.line1PointIndex (by omega) hi.2
      rw [hz] at hmark
      rw [hmark] at hup
      exact absurd hup (by decide)
    have hn2 : 2 ≤ c.numberOfPointsInLine2 := by have := hj.2; omega
    have hprev := GetPreviousLocation_inRange _ _ c.line2Closed hn2 hc2
    obtain ⟨idp, hidp, hmp⟩ := GetId_of_inRange c.pointsInLine2 _
      (by rw [← hc.len2]; exact hprev)
    rw [if_pos hmark]
    simp only [hidp, Option.some_bind]
    refine ⟨_, rfl, ⟨rfl, hi, ⟨by show 0 ≤ t.line2PointIndex - 1; omega,
      by show t.line2PointIndex - 1 < _; have := hj.2; omega⟩, hc1, hprev,
      new ++ [(id1, id2, idp)], ?_, ?_, ?_⟩, ?_, Or.inl ⟨hmark, rfl, rfl⟩⟩
    · show t.outputPolygons ++ [(id1, id2, idp)] = out ++ (new ++ [(id1, id2, idp)])
      rw [hnew, List.append_assoc]
    · show ((new ++ [(id1, id2, idp)]).length : Int) + t.line1PointIndex +
        (t.line2PointIndex - 1) = total
      simp only [List.length_append, List.length_singleton]
      push_cast
      omega
    · intro tri htri
      rcases List.mem_append.mp htri with htri | htri
      · exact hall tri htri
      · rw [List.mem_singleton.mp htri]
        exact ⟨hm1, hm2, Or.inr hmp⟩
    · show (t.line1PointIndex + (t.line2PointIndex - 1)).toNat < _
      have := hi.1
      omega
  · -- any other mark can only stand below row 0
    have hi0 : 0 < t.line1PointIndex := by
      by_contra hneg
      have hz : t.line1PointIndex = 0 := by have := hi.1; omega
      have hleft := hB.1 t.line2PointIndex (by omega) hj.2
      rw [hz] at hmark
      exact hmark hleft
    have hn1 : 2 ≤ c.numberOfPointsInLine1 := by have := hi.2; omega
    have hprev := GetPreviousLocation_inRange _ _ c.line1Closed hn1 hc1
    obtain ⟨idp, hidp, hmp⟩ := GetId_of_inRange c.pointsInLine1 _
      (by rw [← hc.len1]; exact hprev)
    rw [if_neg hmark]
    simp only [hidp, Option.some_bind]
    refine ⟨_, rfl, ⟨rfl, ⟨by show 0 ≤ t.line1PointIndex - 1; omega,
      by show t.line1PointIndex - 1 < _; have := hi.2; omega⟩, hj, hprev, hc2,
      new ++ [(id1, id2, idp)], ?_, ?_, ?_⟩, ?_, Or.inr ⟨hmark, rfl, rfl⟩⟩
    · show t.outputPolygons ++ [(id1, id2, idp)] = out ++ (new ++ [(id1, id2, idp)])
      rw [hnew, List.append_assoc]
    · show ((new ++ [(id1, id2, idp)]).length : Int) + (t.line1PointIndex - 1) +
        t.line2PointIndex = total
      simp only [List.length_append, List.length_singleton]
      push_cast
      omega
    · intro tri htri
      rcases List.mem_append.mp htri with htri | htri
      · exact hall tri htri
      · rw [List.mem_singleton.mp htri]
        exact ⟨hm1, hm2, Or.inl hmp⟩
    · show ((t.line1PointIndex - 1) + t.line2PointIndex).toNat < _
      have := hj.1
      omega

theorem backtrackStart_inv (c : BridgeInput) (hc : c.WF) (out : List Triangle)
    (s : BridgeState) (hout : s.outputPolygons = out)
    (hidx1 : s.line1PointIndex = c.numberOfPointsInLine1)
    (hidx2 : s.line2PointIndex =
      if 2 ≤ c.numberOfPointsInLine1 then c.numberOfPointsInLine2 else 1) :
    BackInv c s.backtrackTable out
      ((c.numberOfPointsInLine1 - 1) +
        ((if 2 ≤ c.numberOfPointsInLine1 then c.numberOfPointsInLine2 else 1) - 1))
      (backtrackStart c s) := by
  have hp1 := hc.pos1
  have hp2 := hc.pos2
  refine ⟨rfl, ?_, ?_, ?_, ?_, [], ?_, ?_, ?_⟩
  · show InRange _ (s.line1PointIndex - 1)
    rw [hidx1]; exact ⟨by omega, by omega⟩
  · show InRange _ (s.line2PointIndex - 1)
    rw [hidx2]
    split <;> exact ⟨by omega, by omega⟩
  · show InRange _ (GetEndLoop c.startLine1 _ _)
    exact GetEndLoop_inRange _ _ _ (by rw [hc.start1]; exact ⟨le_refl _, by omega⟩)
  · show InRange _ (GetEndLoop c.startLine2 _ _)
    exact GetEndLoop_inRange _ _ _ hc.start2
  · show s.outputPolygons = out ++ []
    rw [hout, List.append_nil]
  · show (([] : List Triangle).length : Int) + (s.line1PointIndex - 1) +
      (s.line2PointIndex - 1) = _
    rw [hidx1, hidx2]
    simp
  · intro tri htri
    cases htri

/-- Total correctness frame of `TriangulateContours`: on two non-empty chains
the call returns, appends to the output, every new triangle has its vertices
on the chains, and the number of new triangles is `n1 + n2 - 2`, or `0` when
chain 1 has a single point. -/
theorem TriangulateContours_spec (points : PointSet) (l1 l2 : List Nat)
    (out : List Triangle) (h1 : l1 ≠ []) (h2 : l2 ≠ []) :
    ∃ new, TriangulateContours points l1 l2 out = some (out ++ new) ∧
      new.length = (if 2 ≤ l1.length then l1.length + l2.length - 2 else 0) ∧
      ∀ tri ∈ new, Triangle.OnChains tri l1 l2 := by
  have hp1 : 0 < l1.length := List.length_pos.mpr h1
  have hp2 : 0 < l2.length := List.length_pos.mpr h2
  obtain ⟨c, hcin, hc, _, hl1, hl2⟩ := bridgeInput_spec points l1 l2 h1 h2
  obtain ⟨s, hs, hout, hB, hidx1, hidx2⟩ := fillTables_spec c hc out
  have hn1 : c.numberOfPointsInLine1 = l1.length := by rw [hc.len1, hl1]
  have hn2 : c.numberOfPointsInLine2 = l2.length := by rw [hc.len2, hl2]
  have hstart := backtrackStart_inv c hc out s hout hidx1 hidx2
  obtain ⟨s', hs', hinv, hcond⟩ := whileLoop_inv backtrackCond (backtrackBody c)
    (BackInv c s.backtrackTable out _)
    (fun t => (t.line1PointIndex + t.line2PointIndex).toNat)
    (fun t ht hcnd => by
      obtain ⟨t', h1, h2, h3, _⟩ := backtrack_step c hc _ hB out _ t ht hcnd
      exact ⟨t', h1, h2, h3⟩)
    (l1.length + l2.length) (backtrackStart c s) hstart
    (by
      show ((s.line1PointIndex - 1) + (s.line2PointIndex - 1)).toNat ≤ _
      rw [hidx1, hidx2]
      split <;> omega)
  obtain ⟨_, hi, hj, _, _, new, hnew, hlen, hall⟩ := hinv
  have hzero : ¬ (s'.line1PointIndex > 0 ∨ s'.line2PointIndex > 0) := by
    simpa [backtrackCond] using hcond
  refine ⟨new, ?_, ?_, ?_⟩
  · have hne : ¬ (l1.length = 0 ∨ l2.length = 0) := by omega
    simp only [TriangulateContours, hne, if_false, hcin, hs, hs', Option.some_bind,
      Option.map_some', hnew]
  · have hi0 := hi.1
    have hj0 := hj.1
    split at hlen <;> split <;> omega
  · rw [← hl1, ← hl2]
    exact hall

/-! ## Facts about the walk along a chain -/

theorem walk_zero (n : Int) (closed : Bool) (s : Int) : walk n closed s 0 = s := rfl

theorem walk_succ (n : Int) (closed : Bool) (s : Int) (k : Nat) :
    walk n closed s (k + 1) = GetNextLocation (walk n closed s k) n closed := by
  unfold walk
  exact Function.iterate_succ_apply' _ _ _

theorem walk_add (n : Int) (closed : Bool) (s : Int) (a b : Nat) :
    walk n closed s (a + b) = walk n closed (walk n closed s b) a := by
  unfold walk
  exact Function.iterate_add_apply _ _ _ _

/-- Before the end of the chain a step advances the position by one. -/
theorem walk_linear (n : Int) (closed : Bool) (p : Int) (k : Nat) (h : p + k ≤ n - 1) :
    walk n closed p k = p + k := by
  induction k with
  | zero => simp [walk_zero]
  | succ k ih =>
    rw [walk_succ, ih (by push_cast at h; omega)]
    unfold GetNextLocation
    push_cast at h ⊢
    rw [if_neg (by omega)]
    ring

/-- On a closed chain of `n` points the walk returns to a position other
than `0` after `n - 1` steps. -/
theorem walk_closed_period (n : Int) (p : Int) (hn : 2 ≤ n) (h1 : 1 ≤ p) (h2 : p ≤ n - 1) :
    walk n true p (n - 1).toNat = p := by
  have hsplit : (n - 1).toNat = (p - 1).toNat + (1 + (n - 1 - p).toNat) := by omega
  rw [hsplit, walk_add, Nat.add_comm 1, walk_succ, walk_linear n true p _ (by omega)]
  have hlast : p + ((n - 1 - p).toNat : Int) = n - 1 := by omega
  rw [hlast]
  have hnext : GetNextLocation (n - 1) n true = 1 := by simp [GetNextLocation]
  rw [hnext, walk_linear n true 1 _ (by omega)]
  omega

theorem walk_closed_shift (n : Int) (s : Int) (hn : 2 ≤ n) (hs : InRange n s) (k : Nat)
    (hk : 1 ≤ k) : walk n true s (k + (n - 1).toNat) = walk n true s k := by
  obtain ⟨k', rfl⟩ : ∃ k', k = k' + 1 := ⟨k - 1, by omega⟩
  have hq : 1 ≤ walk n true s 1 ∧ walk n true s 1 ≤ n - 1 := by
    rw [show (1 : Nat) = 0 + 1 from rfl, walk_succ, walk_zero]
    unfold GetNextLocation
    have := hs.1; have := hs.2
    split <;> simp <;> omega
  have e1 : k' + 1 + (n - 1).toNat = (k' + (n - 1).toNat) + 1 := by omega
  rw [e1, walk_add n true s _ 1, walk_add n true s k' 1, walk_add n true _ k' _,
    walk_closed_period n _ hn hq.1 hq.2]

/-- On a closed chain the walk is at the same position in every row of the
table: `r` further rounds of `n - 1` steps do not move it. -/
theorem walk_closed_rows (n : Int) (s : Int) (hn : 2 ≤ n) (hs : InRange n s) (r j : Nat)
    (hj : 1 ≤ j) : walk n true s (r * (n - 1).toNat + j) = walk n true s j := by
  induction r with
  | zero => simp
  | succ r ih =>
    have : (r + 1) * (n - 1).toNat + j = (r * (n - 1).toNat + j) + (n - 1).toNat := by ring
    rw [this, walk_closed_shift n s hn hs _ (by omega), ih]

theorem walk_inRange (n : Int) (closed : Bool) (s : Int) (hn : 2 ≤ n) (hs : InRange n s)
    (k : Nat) : InRange n (walk n closed s k) := by
  induction k with
  | zero => exact hs
  | succ k ih =>
    rw [walk_succ]
    exact GetNextLocation_inRange _ _ _ hn ih

theorem idAt_of_GetId (l : List Nat) (p : Int) (id : Nat) (h : GetId l p = some id) :
    idAt l p = id := by
  simp [idAt, h]

/-! ## Facts about the cells of the table -/

/-- Whether a cell is as the fill leaves it depends on the cell, on its left
neighbour and on its upper neighbour only. -/
theorem CellOK_congr (c : BridgeInput) (S S' : Table ℚ) (B B' : Table Int) (a b : Int)
    (hS : S' a b = S a b) (hB : B' a b = B a b) (hL : b ≠ 0 → S' a (b - 1) = S a (b - 1))
    (hU : a ≠ 0 → S' (a - 1) b = S (a - 1) b) (h : CellOK c S B a b) : CellOK c S' B' a b := by
  unfold CellOK at *
  by_cases ha : a = 0
  · by_cases hb : b = 0
    · simp only [ha, hb, if_true] at h ⊢
      rw [ha, hb] at hS
      rw [hS]; exact h
    · simp only [ha, hb, if_true, if_false] at h ⊢
      rw [ha] at hS hB
      have hL' := hL hb
      rw [ha] at hL'
      rw [hS, hB, hL']; exact h
  · by_cases hb : b = 0
    · simp only [ha, hb, if_true, if_false] at h ⊢
      rw [hb] at hS hB
      have hU' := hU ha
      rw [hb] at hU'
      rw [hS, hB, hU']; exact h
    · simp only [ha, hb, if_false] at h ⊢
      rw [hS, hB, hL hb, hU ha]; exact h

/-- Writing a cell that is neither the cell `(a, b)` nor its left or upper
neighbour leaves the cell `(a, b)` as the fill left it. -/
theorem CellOK_write (c : BridgeInput) (S : Table ℚ) (B : Table Int) (a b i j : Int) (v : ℚ)
    (m : Int) (h1 : ¬ (a = i ∧ b = j)) (h2 : ¬ (a = i ∧ b - 1 = j))
    (h3 : ¬ (a - 1 = i ∧ b = j)) (h : CellOK c S B a b) :
    CellOK c (fun x y => if x = i ∧ y = j then v else S x y)
      (fun x y => if x = i ∧ y = j then m else B x y) a b :=
  CellOK_congr c S _ B _ a b (if_neg h1) (if_neg h1) (fun _ => if_neg h2) (fun _ => if_neg h3) h

theorem CellOK_row (c : BridgeInput) (S : Table ℚ) (B : Table Int) (b : Int) (hb : b ≠ 0)
    (h1 : S 0 b = S 0 (b - 1) + c.rowDistance b) (h2 : B 0 b = left) : CellOK c S B 0 b := by
  unfold CellOK
  rw [if_pos rfl, if_neg hb]
  exact ⟨h1, h2⟩

theorem CellOK_column (c : BridgeInput) (S : Table ℚ) (B : Table Int) (a : Int) (ha : a ≠ 0)
    (h1 : S a 0 = S (a - 1) 0 + c.columnDistance a) (h2 : B a 0 = up) : CellOK c S B a 0 := by
  unfold CellOK
  rw [if_neg ha, if_pos rfl]
  exact ⟨h1, h2⟩

/-- The interior cell just written holds what the fill computed from the
cells before the write. -/
theorem CellOK_interior (c : BridgeInput) (S S' : Table ℚ) (B' : Table Int) (a b : Int) (v : ℚ)
    (m : Int) (ha : a ≠ 0) (hb : b ≠ 0) (e1 : S' a b = v) (e4 : B' a b = m)
    (e2 : S' a (b - 1) = S a (b - 1)) (e3 : S' (a - 1) b = S (a - 1) b)
    (hv : if c.ForcedLeft a b then v = S a (b - 1) + c.fillDistance a b ∧ m = left
      else if c.ClosestUp a b then v = S (a - 1) b + c.fillDistance a b ∧ m = up
      else if S a (b - 1) ≤ S (a - 1) b then v = S a (b - 1) + c.fillDistance a b ∧ m = left
      else v = S (a - 1) b + c.fillDistance a b ∧ m = up) :
    CellOK c S' B' a b := by
  unfold CellOK
  rw [if_neg ha, if_neg hb, e1, e2, e3, e4]
  exact hv

theorem position2_succ (c : BridgeInput) (j : Int) (hj : 0 ≤ j) :
    GetNextLocation (c.position2 j) c.numberOfPointsInLine2 c.line2Closed =
      c.position2 (j + 1) := by
  unfold BridgeInput.position2
  have : (j + 1).toNat = j.toNat + 1 := by omega
  rw [this, walk_succ]

theorem position1_succ (c : BridgeInput) (i : Int) (hi : 0 ≤ i) :
    GetNextLocation (c.position1 i) c.numberOfPointsInLine1 c.line1Closed =
      c.position1 (i + 1) := by
  unfold BridgeInput.position1
  have : (i + 1).toNat = i.toNat + 1 := by omega
  rw [this, walk_succ]

theorem position2_inRange (c : BridgeInput) (hc : c.WF) (hn2 : 2 ≤ c.numberOfPointsInLine2)
    (j : Int) : InRange c.numberOfPointsInLine2 (c.position2 j) :=
  walk_inRange _ _ _ hn2 hc.start2 _

theorem position1_inRange (c : BridgeInput) (hc : c.WF) (hn1 : 2 ≤ c.numberOfPointsInLine1)
    (i : Int) : InRange c.numberOfPointsInLine1 (c.position1 i) :=
  walk_inRange _ _ _ hn1 (by rw [hc.start1]; exact ⟨le_refl _, by omega⟩) _

theorem firstRow_cells (c : BridgeInput) (hc : c.WF) (hn2 : 2 ≤ c.numberOfPointsInLine2)
    (s : BridgeState) (hcur : s.currentPointIndexLine2 = c.position2 1)
    (h00 : CellOK c s.scoreTable s.backtrackTable 0 0) :
    ∃ s', forLoop (firstRowBody c) (c.numberOfPointsInLine2 - 1).toNat 1 s = some s' ∧
      ∀ b, 0 ≤ b → b < c.numberOfPointsInLine2 →
        CellOK c s'.scoreTable s'.backtrackTable 0 b := by
  have hcast := toNat_pred_cast _ hc.pos2
  obtain ⟨s', hs, _, hcells⟩ := forLoop_inv (firstRowBody c)
    (fun j t => t.currentPointIndexLine2 = c.position2 j ∧
      ∀ b, 0 ≤ b → b < j → CellOK c t.scoreTable t.backtrackTable 0 b)
    (c.numberOfPointsInLine2 - 1).toNat 1
    (by
      intro j t h1 h2 ⟨hcur, hcells⟩
      have hr := position2_inRange c hc hn2 j
      obtain ⟨id2, hid2, _⟩ := GetId_of_inRange c.pointsInLine2 (c.position2 j)
        (by rw [← hc.len2]; exact hr)
      have hi0 : InRange c.numberOfPointsInLine1 0 := ⟨le_refl _, by have := hc.pos1; omega⟩
      have hj : InRange c.numberOfPointsInLine2 j := ⟨by omega, by omega⟩
      have hj1 : InRange c.numberOfPointsInLine2 (j - 1) := ⟨by omega, by omega⟩
      simp only [firstRowBody, hcur, hid2, Option.some_bind, Table.read_eq _ _ _ _ _ hi0 hj1,
        Table.write_eq _ _ _ _ _ _ hi0 hj]
      refine ⟨_, rfl, position2_succ c j (by omega), ?_⟩
      intro b hb0 hb1
      by_cases hbj : b = j
      · rw [hbj]
        have hne : ¬ ((0 : Int) = 0 ∧ j - 1 = j) := by omega
        refine CellOK_row c _ _ j (by omega) ?_ (if_pos ⟨rfl, rfl⟩)
        show (if (0 : Int) = 0 ∧ j = j then _ else _) = (if (0 : Int) = 0 ∧ j - 1 = j then _ else _) + _
        rw [if_pos ⟨rfl, rfl⟩, if_neg hne, BridgeInput.rowDistance, idAt_of_GetId _ _ _ hid2]
      · exact CellOK_write c _ _ 0 b 0 j _ _ (by omega) (by omega) (by omega)
          (hcells b hb0 (by omega)))
    s ⟨hcur, by
      intro b hb0 hb1
      have : b = 0 := by omega
      rw [this]; exact h00⟩
  exact ⟨s', hs, fun b hb0 hb1 => hcells b hb0 (by omega)⟩

theorem firstColumnReset_frame (c : BridgeInput) (hc : c.WF) (i : Int) (hi1 : 1 ≤ i)
    (hi2 : i < c.numberOfPointsInLine1) (s : BridgeState) :
    ∃ s', forLoop (firstColumnResetBody c i) (c.numberOfPointsInLine2 - 1).toNat 1 s = some s' ∧
      s'.currentPointIndexLine1 = s.currentPointIndexLine1 ∧
      ∀ x y, (x ≠ i ∨ y = 0) →
        s'.scoreTable x y = s.scoreTable x y ∧ s'.backtrackTable x y = s.backtrackTable x y := by
  have hcast := toNat_pred_cast _ hc.pos2
  obtain ⟨s', hs, hP⟩ := forLoop_inv (firstColumnResetBody c i)
    (fun _ t => t.currentPointIndexLine1 = s.currentPointIndexLine1 ∧
      ∀ x y, (x ≠ i ∨ y = 0) →
        t.scoreTable x y = s.scoreTable x y ∧ t.backtrackTable x y = s.backtrackTable x y)
    (c.numberOfPointsInLine2 - 1).toNat 1
    (by
      intro j t h1 h2 ⟨hcur, hfr⟩
      have hir : InRange c.numberOfPointsInLine1 i := ⟨by omega, hi2⟩
      have hj : InRange c.numberOfPointsInLine2 j := ⟨by omega, by omega⟩
      simp only [firstColumnResetBody, Option.some_bind, Table.write_eq _ _ _ _ _ _ hir hj]
      refine ⟨_, rfl, hcur, ?_⟩
      intro x y hxy
      have hne : ¬ (x = i ∧ y = j) := by omega
      exact ⟨(if_neg hne).trans (hfr x y hxy).1, (if_neg hne).trans (hfr x y hxy).2⟩)
    s ⟨rfl, fun _ _ _ => ⟨rfl, rfl⟩⟩
  exact ⟨s', hs, hP⟩

theorem firstColumn_cells (c : BridgeInput) (hc : c.WF) (hn1 : 2 ≤ c.numberOfPointsInLine1)
    (s : BridgeState) (hcur : s.currentPointIndexLine1 = c.position1 1)
    (hrow : ∀ b, 0 ≤ b → b < c.numberOfPointsInLine2 →
      CellOK c s.scoreTable s.backtrackTable 0 b) :
    ∃ s', forLoop (firstColumnBody c) (c.numberOfPointsInLine1 - 1).toNat 1 s = some s' ∧
      (∀ b, 0 ≤ b → b < c.numberOfPointsInLine2 →
        CellOK c s'.scoreTable s'.backtrackTable 0 b) ∧
      (∀ a, 1 ≤ a → a < c.numberOfPointsInLine1 →
        CellOK c s'.scoreTable s'.backtrackTable a 0) := by
  have hcast := toNat_pred_cast _ hc.pos1
  obtain ⟨s', hs, _, hrow', hcol⟩ := forLoop_inv (firstColumnBody c)
    (fun i t => t.currentPointIndexLine1 = c.position1 i ∧
      (∀ b, 0 ≤ b → b < c.numberOfPointsInLine2 →
        CellOK c t.scoreTable t.backtrackTable 0 b) ∧
      ∀ a, 1 ≤ a → a < i → CellOK c t.scoreTable t.backtrackTable a 0)
    (c.numberOfPointsInLine1 - 1).toNat 1
    (by
      intro i t h1 h2 ⟨hcur, hrow', hcol⟩
      have hr := position1_inRange c hc hn1 i
      obtain ⟨id1, hid1, _⟩ := GetId_of_inRange c.pointsInLine1 (c.position1 i)
        (by rw [← hc.len1]; exact hr)
      have hj0 : InRange c.numberOfPointsInLine2 0 := ⟨le_refl _, by have := hc.pos2; omega⟩
      have hi : InRange c.numberOfPointsInLine1 i := ⟨by omega, by omega⟩
      have hi1 : InRange c.numberOfPointsInLine1 (i - 1) := ⟨by omega, by omega⟩
      simp only [firstColumnBody, hcur, hid1, Option.some_bind, Table.read_eq _ _ _ _ _ hi1 hj0,
        Table.write_eq _ _ _ _ _ _ hi hj0]
      obtain ⟨t1, ht1, hcur1, hfr⟩ := firstColumnReset_frame c hc i h1 hi.2
        { t with
          scoreTable := fun a b =>
            if a = i ∧ b = 0 then
              t.scoreTable (i - 1) 0 +
                Distance2BetweenPoints (GetPoint c.points id1) c.firstPointLine2
            else t.scoreTable a b
          backtrackTable := fun a b => if a = i ∧ b = 0 then up else t.backtrackTable a b
          currentPointIndexLine1 := c.position1 i }
      simp only [ht1, Option.some_bind]
      -- the cells other than `(i, 0)` on the border are as before the iteration
      have hold : ∀ x y, (x ≠ i ∨ y = 0) → ¬ (x = i ∧ y = 0) →
          t1.scoreTable x y = t.scoreTable x y ∧ t1.backtrackTable x y = t.backtrackTable x y := by
        intro x y hxy hne
        exact ⟨(hfr x y hxy).1.trans (if_neg hne), (hfr x y hxy).2.trans (if_neg hne)⟩
      have hnew : t1.scoreTable i 0 = t.scoreTable (i - 1) 0 +
            Distance2BetweenPoints (GetPoint c.points id1) c.firstPointLine2 ∧
          t1.backtrackTable i 0 = up :=
        ⟨(hfr i 0 (Or.inr rfl)).1.trans (if_pos ⟨rfl, rfl⟩),
          (hfr i 0 (Or.inr rfl)).2.trans (if_pos ⟨rfl, rfl⟩)⟩
      refine ⟨_, rfl, ?_, ?_, ?_⟩
      · show GetNextLocation t1.currentPointIndexLine1 _ _ = _
        rw [hcur1]
        exact position1_succ c i (by omega)
      · intro b hb0 hb1
        exact CellOK_congr c t.scoreTable _ t.backtrackTable _ 0 b
          (hold 0 b (Or.inl (by omega)) (by omega)).1
          (hold 0 b (Or.inl (by omega)) (by omega)).2
          (fun _ => (hold 0 (b - 1) (Or.inl (by omega)) (by omega)).1)
          (fun h => absurd rfl h) (hrow' b hb0 hb1)
      · intro a ha1 ha2
        by_cases hai : a = i
        · rw [hai]
          refine CellOK_column c _ _ i (by omega) ?_ hnew.2
          show t1.scoreTable i 0 = t1.scoreTable (i - 1) 0 + _
          rw [hnew.1, (hold (i - 1) 0 (Or.inr rfl) (by omega)).1, BridgeInput.columnDistance,
            idAt_of_GetId _ _ _ hid1]
        · exact CellOK_congr c t.scoreTable _ t.backtrackTable _ a 0
            (hold a 0 (Or.inr rfl) (by omega)).1 (hold a 0 (Or.inr rfl) (by omega)).2
            (fun h => absurd rfl h)
            (fun _ => (hold (a - 1) 0 (Or.inr rfl) (by omega)).1)
            (hcol a ha1 (by omega)))
    s ⟨hcur, hrow, by intro a h1 h2; omega⟩
  exact ⟨s', hs, hrow', fun a h1 h2 => hcol a h1 (by omega)⟩

theorem fillSteps2_succ (c : BridgeInput) (hc : c.WF) (i j : Int) (hi : 1 ≤ i) (hj : 0 ≤ j) :
    c.fillSteps2 i (j + 1) = c.fillSteps2 i j + 1 := by
  unfold BridgeInput.fillSteps2
  have hm : 0 ≤ (i - 1) * (c.numberOfPointsInLine2 - 1) :=
    mul_nonneg (by omega) (by have := hc.pos2; omega)
  generalize (i - 1) * (c.numberOfPointsInLine2 - 1) = m at hm
  omega

theorem fillSteps2_next_row (c : BridgeInput) (i : Int) :
    c.fillSteps2 (i + 1) 1 = c.fillSteps2 i c.numberOfPointsInLine2 := by
  unfold BridgeInput.fillSteps2
  have e : (i + 1 - 1) * (c.numberOfPointsInLine2 - 1) + 1 =
      (i - 1) * (c.numberOfPointsInLine2 - 1) + c.numberOfPointsInLine2 := by ring
  rw [e]

theorem fillSteps2_pos (c : BridgeInput) (hc : c.WF) (i j : Int) (hi : 1 ≤ i) (hj : 1 ≤ j) :
    1 ≤ c.fillSteps2 i j := by
  unfold BridgeInput.fillSteps2
  have hm : 0 ≤ (i - 1) * (c.numberOfPointsInLine2 - 1) :=
    mul_nonneg (by omega) (by have := hc.pos2; omega)
  generalize (i - 1) * (c.numberOfPointsInLine2 - 1) = m at hm
  omega

theorem fillCell_cells (c : BridgeInput) (hc : c.WF) (hn1 : 2 ≤ c.numberOfPointsInLine1)
    (hn2 : 2 ≤ c.numberOfPointsInLine2) (i j : Int) (hi1 : 1 ≤ i)
    (hi2 : i < c.numberOfPointsInLine1) (hj1 : 1 ≤ j) (hj2 : j < c.numberOfPointsInLine2)
    (t : BridgeState) (h : CellsInv c i j t) :
    ∃ t', fillCellBody c i j t = some t' ∧ CellsInv c i (j + 1) t' := by
  obtain ⟨hcur1, hprev1, hcur2, hprev2, hcells⟩ := h
  have hr1 := position1_inRange c hc hn1 i
  have hr1' := position1_inRange c hc hn1 (i - 1)
  have hr2 : InRange c.numberOfPointsInLine2 (c.fillPosition2 i j) :=
    walk_inRange _ _ _ hn2 hc.start2 _
  have hr2' : InRange c.numberOfPointsInLine2 (c.fillPrevious2 i j) :=
    walk_inRange _ _ _ hn2 hc.start2 _
  obtain ⟨id1, hid1, _⟩ := GetId_of_inRange c.pointsInLine1 _ (by rw [← hc.len1]; exact hr1)
  obtain ⟨id2, hid2, _⟩ := GetId_of_inRange c.pointsInLine2 _ (by rw [← hc.len2]; exact hr2)
  obtain ⟨k2, hk2, _⟩ := readAt_of_inRange c.closest2 _ (by rw [hc.closest2_len]; exact hr2')
  obtain ⟨k1, hk1, _⟩ := readAt_of_inRange c.closest1 _ (by rw [hc.closest1_len]; exact hr1')
  have hi : InRange c.numberOfPointsInLine1 i := ⟨by omega, hi2⟩
  have hj : InRange c.numberOfPointsInLine2 j := ⟨by omega, hj2⟩
  have hi' : InRange c.numberOfPointsInLine1 (i - 1) := ⟨by omega, by omega⟩
  have hj' : InRange c.numberOfPointsInLine2 (j - 1) := ⟨by omega, by omega⟩
  have hFL : c.ForcedLeft i j ↔ c.position1 i = k2 := by
    unfold BridgeInput.ForcedLeft
    rw [hk2]
    exact ⟨fun h => (Option.some.inj h).symm, fun h => by rw [h]⟩
  have hCU : c.ClosestUp i j ↔ c.fillPosition2 i j = k1 := by
    unfold BridgeInput.ClosestUp
    rw [hk1]
    exact ⟨fun h => (Option.some.inj h).symm, fun h => by rw [h]⟩
  have hdist : Distance2BetweenPoints (GetPoint c.points id1) (GetPoint c.points id2) =
      c.fillDistance i j := by
    rw [BridgeInput.fillDistance, idAt_of_GetId _ _ _ hid1, idAt_of_GetId _ _ _ hid2]
  have hs2 := fillSteps2_succ c hc i j hi1 (by omega)
  have hpos := fillSteps2_pos c hc i j hi1 hj1
  have hnext2 : GetNextLocation (c.fillPosition2 i j) c.numberOfPointsInLine2 c.line2Closed =
      c.fillPosition2 i (j + 1) := by
    unfold BridgeInput.fillPosition2
    rw [hs2, walk_succ]
  have hprev2' : c.fillPosition2 i j = c.fillPrevious2 i (j + 1) := by
    unfold BridgeInput.fillPosition2 BridgeInput.fillPrevious2
    rw [hs2]
    rfl
  -- the cells settled before stay settled when the cell `(i, j)` is written
  have hkeep : ∀ (v : ℚ) (m : Int) (a b : Int), 0 ≤ a → a < c.numberOfPointsInLine1 → 0 ≤ b →
      b < c.numberOfPointsInLine2 → (a = 0 ∨ b = 0 ∨ a < i ∨ (a = i ∧ b < j + 1)) →
      ¬ (a = i ∧ b = j) →
      CellOK c (fun x y => if x = i ∧ y = j then v else t.scoreTable x y)
        (fun x y => if x = i ∧ y = j then m else t.backtrackTable x y) a b := by
    intro v m a b ha0 ha1 hb0 hb1 hdone hne
    exact CellOK_write c _ _ a b i j v m hne (by omega) (by omega)
      (hcells a b ha0 ha1 hb0 hb1 (by omega))
  simp only [fillCellBody, hcur1, hprev1, hcur2, hprev2, hid1, hid2, hk2, hk1, Option.some_bind,
    Table.read_eq _ _ _ _ _ hi hj', Table.read_eq _ _ _ _ _ hi' hj, hdist]
  have hfinish : ∀ (t' : BridgeState) (v : ℚ) (m : Int),
      t'.scoreTable = (fun a b => if a = i ∧ b = j then v else t.scoreTable a b) →
      t'.backtrackTable = (fun a b => if a = i ∧ b = j then m else t.backtrackTable a b) →
      t'.currentPointIndexLine1 = c.position1 i →
      t'.previousLine1 = c.position1 (i - 1) →
      t'.currentPointIndexLine2 =
        GetNextLocation (c.fillPosition2 i j) c.numberOfPointsInLine2 c.line2Closed →
      t'.previousLine2 = c.fillPosition2 i j →
      (if c.ForcedLeft i j then v = t.scoreTable i (j - 1) + c.fillDistance i j ∧ m = left
        else if c.ClosestUp i j then v = t.scoreTable (i - 1) j + c.fillDistance i j ∧ m = up
        else if t.scoreTable i (j - 1) ≤ t.scoreTable (i - 1) j then
          v = t.scoreTable i (j - 1) + c.fillDistance i j ∧ m = left
        else v = t.scoreTable (i - 1) j + c.fillDistance i j ∧ m = up) →
      CellsInv c i (j + 1) t' := by
    intro t' v m eS eB e1 e2 e3 e4 hv
    refine ⟨e1, e2, e3.trans hnext2, e4.trans hprev2', ?_⟩
    intro a b ha0 ha1 hb0 hb1 hdone
    rw [eS, eB]
    by_cases hab : a = i ∧ b = j
    · rw [hab.1, hab.2]
      exact CellOK_interior c t.scoreTable _ _ i j v m (by omega) (by omega)
        (if_pos ⟨rfl, rfl⟩) (if_pos ⟨rfl, rfl⟩) (if_neg (by omega)) (if_neg (by omega)) hv
    · exact hkeep v m a b ha0 ha1 hb0 hb1 hdone hab
  by_cases h1 : c.position1 i = k2
  · have hfl := hFL.mpr h1
    rw [if_pos h1]
    simp only [Option.some_bind, Table.write_eq _ _ _ _ _ _ hi hj]
    exact ⟨_, rfl, hfinish _ _ _ rfl rfl rfl rfl rfl rfl (by rw [if_pos hfl]; exact ⟨rfl, rfl⟩)⟩
  · have hfl : ¬ c.ForcedLeft i j := fun h => h1 (hFL.mp h)
    rw [if_neg h1]
    by_cases h2 : c.fillPosition2 i j = k1
    · have hcu := hCU.mpr h2
      rw [if_pos h2]
      simp only [Option.some_bind, Table.write_eq _ _ _ _ _ _ hi hj]
      exact ⟨_, rfl, hfinish _ _ _ rfl rfl rfl rfl rfl rfl
        (by rw [if_neg hfl, if_pos hcu]; exact ⟨rfl, rfl⟩)⟩
    · have hcu : ¬ c.ClosestUp i j := fun h => h2 (hCU.mp h)
      rw [if_neg h2]
      by_cases h3 : t.scoreTable i (j - 1) ≤ t.scoreTable (i - 1) j
      · rw [if_pos h3]
        simp only [Option.some_bind, Table.write_eq _ _ _ _ _ _ hi hj]
        exact ⟨_, rfl, hfinish _ _ _ rfl rfl rfl rfl rfl rfl (by
          rw [if_neg hfl, if_neg hcu, if_pos h3]; exact ⟨rfl, rfl⟩)⟩
      · rw [if_neg h3]
        simp only [Option.some_bind, Table.write_eq _ _ _ _ _ _ hi hj]
        exact ⟨_, rfl, hfinish _ _ _ rfl rfl rfl rfl rfl rfl (by
          rw [if_neg hfl, if_neg hcu, if_neg h3]; exact ⟨rfl, rfl⟩)⟩

theorem fillRow_cells (c : BridgeInput) (hc : c.WF) (hn1 : 2 ≤ c.numberOfPointsInLine1)
    (hn2 : 2 ≤ c.numberOfPointsInLine2) (i : Int) (hi1 : 1 ≤ i)
    (hi2 : i < c.numberOfPointsInLine1) (t : BridgeState) (h : CellsInv c i 1 t) :
    ∃ t', fillRowBody c i t = some t' ∧ CellsInv c (i + 1) 1 t' := by
  have hcast := toNat_pred_cast _ hc.pos2
  obtain ⟨t1, ht1, hP⟩ := forLoop_inv (fillCellBody c i) (fun j u => CellsInv c i j u)
    (c.numberOfPointsInLine2 - 1).toNat 1
    (fun j u h1 h2 hu => fillCell_cells c hc hn1 hn2 i j hi1 hi2 h1 (by omega) u hu) t h
  have hend : (1 : Int) + ((c.numberOfPointsInLine2 - 1).toNat : Int) = c.numberOfPointsInLine2 := by
    omega
  rw [hend] at hP
  simp only [fillRowBody, ht1, Option.some_bind]
  refine ⟨_, rfl, ⟨?_, ?_, ?_, ?_, ?_⟩⟩
  · show GetNextLocation t1.currentPointIndexLine1 _ _ = _
    rw [hP.cur1]
    exact position1_succ c i (by omega)
  · show t1.currentPointIndexLine1 = c.position1 (i + 1 - 1)
    rw [hP.cur1, show i + 1 - 1 = i by ring]
  · show t1.currentPointIndexLine2 = _
    rw [hP.cur2]
    unfold BridgeInput.fillPosition2
    rw [fillSteps2_next_row]
  · show t1.previousLine2 = _
    rw [hP.prev2]
    unfold BridgeInput.fillPrevious2
    rw [fillSteps2_next_row]
  · intro a b ha0 ha1 hb0 hb1 hdone
    exact hP.cells a b ha0 ha1 hb0 hb1 (by omega)

/-- After the fill of `TriangulateContours` on two chains of at least two
points every cell of the two tables is as the fill rule prescribes. -/
theorem fillTables_cells (c : BridgeInput) (hc : c.WF) (hn1 : 2 ≤ c.numberOfPointsInLine1)
    (hn2 : 2 ≤ c.numberOfPointsInLine2) (out : List Triangle) :
    ∃ s, fillTables c out = some s ∧
      ∀ a b, 0 ≤ a → a < c.numberOfPointsInLine1 → 0 ≤ b → b < c.numberOfPointsInLine2 →
        CellOK c s.scoreTable s.backtrackTable a b := by
  have hcast1 := toNat_pred_cast _ hc.pos1
  have hw1 : ∀ n : Int, 2 ≤ n → GetNextLocation c.startLine1 n c.line1Closed = c.position1 1 := by
    intro n hn
    unfold BridgeInput.position1
    rw [show (1 : Int).toNat = 0 + 1 from rfl, walk_succ, walk_zero, hc.start1]
    unfold GetNextLocation
    rw [if_neg (by omega), if_neg (by omega)]
  have hw2 : GetNextLocation c.startLine2 c.numberOfPointsInLine2 c.line2Closed =
      c.position2 1 := by
    unfold BridgeInput.position2
    rw [show (1 : Int).toNat = 0 + 1 from rfl, walk_succ, walk_zero]
  obtain ⟨s1, hs1, hrow1⟩ := firstRow_cells c hc hn2
    { initialState c out with
      currentPointIndexLine2 :=
        GetNextLocation c.startLine2 c.numberOfPointsInLine2 c.line2Closed }
    hw2
    (by
      unfold CellOK
      rw [if_pos rfl, if_pos rfl]
      show (if (0 : Int) = 0 ∧ (0 : Int) = 0 then
        Distance2BetweenPoints c.firstPointLine1 c.firstPointLine2 else (0 : ℚ)) = _
      rw [if_pos ⟨rfl, rfl⟩])
  obtain ⟨s2, hs2, hrow2, hcol2⟩ := firstColumn_cells c hc hn1
    { s1 with
      currentPointIndexLine1 :=
        GetNextLocation c.startLine1 c.numberOfPointsInLine2 c.line1Closed }
    (hw1 _ hn2) hrow1
  simp only [fillTables, hs1, hs2, Option.some_bind]
  obtain ⟨s3, hs3, hinv⟩ := forLoop_inv (fillRowBody c) (fun i t => CellsInv c i 1 t)
    (c.numberOfPointsInLine1 - 1).toNat 1
    (fun i t h1 h2 ht => fillRow_cells c hc hn1 hn2 i h1 (by omega) t ht)
    { s2 with
      previousLine1 := c.startLine1
      previousLine2 := c.startLine2
      currentPointIndexLine1 :=
        GetNextLocation c.startLine1 c.numberOfPointsInLine1 c.line1Closed
      currentPointIndexLine2 :=
        GetNextLocation c.startLine2 c.numberOfPointsInLine2 c.line2Closed
      line1PointIndex := 1
      line2PointIndex := 1 }
    (by
      refine CellsInv.mk (hw1 _ hn1) rfl ?_ ?_ ?_
      · show GetNextLocation c.startLine2 _ _ = c.fillPosition2 1 1
        rw [hw2]
        unfold BridgeInput.fillPosition2 BridgeInput.position2 BridgeInput.fillSteps2
        simp
      · show c.startLine2 = c.fillPrevious2 1 1
        unfold BridgeInput.fillPrevious2 BridgeInput.fillSteps2
        simp [walk_zero]
      · intro a b ha0 ha1 hb0 hb1 hdone
        by_cases ha : a = 0
        · rw [ha]; exact hrow2 b hb0 hb1
        · have hb : b = 0 := by omega
          rw [hb]; exact hcol2 a (by omega) ha1)
  simp only [hs3, Option.some_bind]
  refine ⟨_, rfl, ?_⟩
  intro a b ha0 ha1 hb0 hb1
  exact hinv.cells a b ha0 ha1 hb0 hb1 (by omega)

/-! ## The backtracked path and its cost -/

/-- A cell other than `(0, 0)` continues one of its two neighbours, as its
mark tells, and is not entered against a forced transition. -/
theorem CellOK_mark (c : BridgeInput) (S : Table ℚ) (B : Table Int) (a b : Int)
    (h : CellOK c S B a b) (hne : ¬ (a = 0 ∧ b = 0)) :
    (B a b = left ∧ b ≠ 0 ∧ S a b = S a (b - 1) + c.fillCost (a, b) ∧
        (a = 0 ∨ ¬ c.ForcedUp a b)) ∨
      (B a b ≠ left ∧ a ≠ 0 ∧ S a b = S (a - 1) b + c.fillCost (a, b) ∧
        (b = 0 ∨ ¬ c.ForcedLeft a b)) := by
  unfold CellOK at h
  unfold BridgeInput.fillCost
  have hup : up ≠ left := by decide
  by_cases ha : a = 0
  · have hb : b ≠ 0 := fun hb => hne ⟨ha, hb⟩
    simp only [ha, hb, if_true, if_false] at h ⊢
    exact Or.inl ⟨h.2, hb, h.1, Or.inl trivial⟩
  · by_cases hb : b = 0
    · simp only [ha, hb, if_true, if_false] at h ⊢
      exact Or.inr ⟨by rw [h.2]; exact hup, ha, h.1, Or.inl trivial⟩
    · simp only [ha, hb, if_false] at h ⊢
      by_cases hfl : c.ForcedLeft a b
      · rw [if_pos hfl] at h
        exact Or.inl ⟨h.2, hb, h.1, Or.inr fun hfu => hfu.1 hfl⟩
      · rw [if_neg hfl] at h
        by_cases hcu : c.ClosestUp a b
        · rw [if_pos hcu] at h
          exact Or.inr ⟨by rw [h.2]; exact hup, ha, h.1, Or.inr hfl⟩
        · rw [if_neg hcu] at h
          by_cases hle : S a (b - 1) ≤ S (a - 1) b
          · rw [if_pos hle] at h
            exact Or.inl ⟨h.2, hb, h.1, Or.inr fun hfu => hcu hfu.2⟩
          · rw [if_neg hle] at h
            exact Or.inr ⟨by rw [h.2]; exact hup, ha, h.1, Or.inr hfl⟩

/-- A cell costs no more than continuing its left neighbour, unless the
transition `up` is forced in it. -/
theorem CellOK_le_left (c : BridgeInput) (S : Table ℚ) (B : Table Int) (a b : Int)
    (h : CellOK c S B a b) (hb : b ≠ 0) (hok : a = 0 ∨ ¬ c.ForcedUp a b) :
    S a b ≤ S a (b - 1) + c.fillCost (a, b) := by
  unfold CellOK at h
  unfold BridgeInput.fillCost
  by_cases ha : a = 0
  · simp only [ha, hb, if_true, if_false] at h ⊢
    exact le_of_eq h.1
  · have hfu : ¬ c.ForcedUp a b := hok.resolve_left ha
    simp only [ha, hb, if_false] at h ⊢
    by_cases hfl : c.ForcedLeft a b
    · rw [if_pos hfl] at h
      exact le_of_eq h.1
    · rw [if_neg hfl] at h
      have hcu : ¬ c.ClosestUp a b := fun hcu => hfu ⟨hfl, hcu⟩
      rw [if_neg hcu] at h
      by_cases hle : S a (b - 1) ≤ S (a - 1) b
      · rw [if_pos hle] at h
        exact le_of_eq h.1
      · rw [if_neg hle] at h
        rw [h.1]
        have := le_of_lt (not_le.mp hle)
        linarith

/-- A cell costs no more than continuing its upper neighbour, unless the
transition `left` is forced in it. -/
theorem CellOK_le_up (c : BridgeInput) (S : Table ℚ) (B : Table Int) (a b : Int)
    (h : CellOK c S B a b) (ha : a ≠ 0) (hok : b = 0 ∨ ¬ c.ForcedLeft a b) :
    S a b ≤ S (a - 1) b + c.fillCost (a, b) := by
  unfold CellOK at h
  unfold BridgeInput.fillCost
  by_cases hb : b = 0
  · simp only [ha, hb, if_true, if_false] at h ⊢
    exact le_of_eq h.1
  · have hfl : ¬ c.ForcedLeft a b := hok.resolve_left hb
    simp only [ha, hb, if_false] at h ⊢
    rw [if_neg hfl] at h
    by_cases hcu : c.ClosestUp a b
    · rw [if_pos hcu] at h
      exact le_of_eq h.1
    · rw [if_neg hcu] at h
      by_cases hle : S a (b - 1) ≤ S (a - 1) b
      · rw [if_pos hle] at h
        rw [h.1]
        linarith
      · rw [if_neg hle] at h
        exact le_of_eq h.1

theorem AdmissiblePath.end_nonneg {c : BridgeInput} {i j : Int} {p : List (Int × Int)}
    (h : AdmissiblePath c i j p) : 0 ≤ i ∧ 0 ≤ j := by
  induction h with
  | origin => exact ⟨le_refl _, le_refl _⟩
  | alongChain2 _ _ ih => exact ⟨ih.1, by omega⟩
  | alongChain1 _ _ ih => exact ⟨by omega, ih.2⟩

theorem AdmissiblePath.cells_le {c : BridgeInput} {i j : Int} {p : List (Int × Int)}
    (h : AdmissiblePath c i j p) :
    ∀ cell ∈ p, 0 ≤ cell.1 ∧ cell.1 ≤ i ∧ 0 ≤ cell.2 ∧ cell.2 ≤ j := by
  induction h with
  | origin =>
    intro cell hcell
    rw [List.mem_singleton.mp hcell]
    exact ⟨le_refl _, le_refl _, le_refl _, le_refl _⟩
  | alongChain2 h _ ih =>
    intro cell hcell
    rcases List.mem_append.mp hcell with hc | hc
    · obtain ⟨h1, h2, h3, h4⟩ := ih cell hc
      exact ⟨h1, h2, h3, by omega⟩
    · rw [List.mem_singleton.mp hc]
      have := h.end_nonneg
      exact ⟨this.1, le_refl _, by show (0:Int) ≤ _ + 1; omega, le_refl _⟩
  | alongChain1 h _ ih =>
    intro cell hcell
    rcases List.mem_append.mp hcell with hc | hc
    · obtain ⟨h1, h2, h3, h4⟩ := ih cell hc
      exact ⟨h1, by omega, h3, h4⟩
    · rw [List.mem_singleton.mp hc]
      have := h.end_nonneg
      exact ⟨by show (0:Int) ≤ _ + 1; omega, le_refl _, this.2, le_refl _⟩

/-- The score of a cell is a lower bound of the cost, by the distances the
fill adds, of every admissible path to the cell. -/
theorem score_le_of_admissible (c : BridgeInput) (S : Table ℚ) (B : Table Int)
    (hcells : ∀ a b, 0 ≤ a → a < c.numberOfPointsInLine1 → 0 ≤ b →
      b < c.numberOfPointsInLine2 → CellOK c S B a b)
    {i j : Int} {p : List (Int × Int)} (h : AdmissiblePath c i j p)
    (hi : i < c.numberOfPointsInLine1) (hj : j < c.numberOfPointsInLine2) :
    S i j ≤ (p.map c.fillCost).sum := by
  induction h with
  | origin =>
    have h00 := hcells 0 0 (le_refl _) hi (le_refl _) hj
    unfold CellOK at h00
    simp only [if_true] at h00
    simp [BridgeInput.fillCost, h00]
  | @alongChain2 i j p h hok ih =>
    have hnn := h.end_nonneg
    have hcell := hcells i (j + 1) hnn.1 hi (by omega) hj
    have hle := CellOK_le_left c S B i (j + 1) hcell (by omega) hok
    have hprev := ih hi (by omega)
    rw [show j + 1 - 1 = j by ring] at hle
    rw [List.map_append, List.sum_append, List.map_singleton, List.sum_singleton]
    linarith
  | @alongChain1 i j p h hok ih =>
    have hnn := h.end_nonneg
    have hcell := hcells (i + 1) j (by omega) hi hnn.2 hj
    have hle := CellOK_le_up c S B (i + 1) j hcell (by omega) hok
    have hprev := ih (by omega) hj
    rw [show i + 1 - 1 = i by ring] at hle
    rw [List.map_append, List.sum_append, List.map_singleton, List.sum_singleton]
    linarith

/-- From a state of the backtracking loop on a filled table, the loop visits
an admissible path, read backwards, whose cost by the distances the fill adds
is the score of the cell it starts from. -/
theorem backtrackCells_spec (c : BridgeInput) (hc : c.WF) (S : Table ℚ) (B : Table Int)
    (hB : BorderOK c.numberOfPointsInLine1 c.numberOfPointsInLine2 B)
    (hcells : ∀ a b, 0 ≤ a → a < c.numberOfPointsInLine1 → 0 ≤ b →
      b < c.numberOfPointsInLine2 → CellOK c S B a b)
    (out : List Triangle) (total : Int) (fuel : Nat) (t : BridgeState)
    (h : BackInv c B out total t)
    (hfuel : (t.line1PointIndex + t.line2PointIndex).toNat ≤ fuel) :
    ∃ cells, backtrackCells c fuel t = some cells ∧
      AdmissiblePath c t.line1PointIndex t.line2PointIndex cells.reverse ∧
      (cells.map c.fillCost).sum = S t.line1PointIndex t.line2PointIndex := by
  induction fuel generalizing t with
  | zero =>
    have hi := h.idx1.1
    have hj := h.idx2.1
    have hi0 : t.line1PointIndex = 0 := by omega
    have hj0 : t.line2PointIndex = 0 := by omega
    have hcond : backtrackCond t = false := by simp [backtrackCond, hi0, hj0]
    refine ⟨[(t.line1PointIndex, t.line2PointIndex)], by simp [backtrackCells, hcond], ?_, ?_⟩
    · rw [hi0, hj0]; exact AdmissiblePath.origin
    · have h00 := hcells 0 0 (le_refl _) (by have := hc.pos1; omega) (le_refl _)
        (by have := hc.pos2; omega)
      unfold CellOK at h00
      simp only [if_true] at h00
      rw [hi0, hj0]
      simp [BridgeInput.fillCost, h00]
  | succ k ih =>
    cases hcond : backtrackCond t with
    | false =>
      have hnot : ¬ (t.line1PointIndex > 0 ∨ t.line2PointIndex > 0) := by
        simpa [backtrackCond] using hcond
      have hi := h.idx1.1
      have hj := h.idx2.1
      have hi0 : t.line1PointIndex = 0 := by omega
      have hj0 : t.line2PointIndex = 0 := by omega
      refine ⟨[(t.line1PointIndex, t.line2PointIndex)], by simp [backtrackCells, hcond], ?_, ?_⟩
      · rw [hi0, hj0]; exact AdmissiblePath.origin
      · have h00 := hcells 0 0 (le_refl _) (by have := hc.pos1; omega) (le_refl _)
          (by have := hc.pos2; omega)
        unfold CellOK at h00
        simp only [if_true] at h00
        rw [hi0, hj0]
        simp [BridgeInput.fillCost, h00]
    | true =>
      have hpos : t.line1PointIndex > 0 ∨ t.line2PointIndex > 0 := by
        simpa [backtrackCond] using hcond
      obtain ⟨t', hb, hinv', hlt, hidx⟩ := backtrack_step c hc B hB out total t h hcond
      obtain ⟨cells, hcs, hadm, hcost⟩ := ih t' hinv' (by omega)
      have hcell := hcells t.line1PointIndex t.line2PointIndex h.idx1.1 h.idx1.2 h.idx2.1
        h.idx2.2
      have hmark := CellOK_mark c S B _ _ hcell (by omega)
      refine ⟨(t.line1PointIndex, t.line2PointIndex) :: cells,
        by simp [backtrackCells, hcond, hb, hcs], ?_, ?_⟩
      · rw [List.reverse_cons]
        rcases hidx with ⟨hm, e1, e2⟩ | ⟨hm, e1, e2⟩
        · rcases hmark with ⟨_, _, _, hok⟩ | ⟨hm', _⟩
          · rw [e1, e2] at hadm
            have := AdmissiblePath.alongChain2 hadm
              (by rw [show t.line2PointIndex - 1 + 1 = t.line2PointIndex by ring]; exact hok)
            rw [show t.line2PointIndex - 1 + 1 = t.line2PointIndex by ring] at this
            exact this
          · exact absurd hm hm'
        · rcases hmark with ⟨hm', _⟩ | ⟨_, _, _, hok⟩
          · exact absurd hm' hm
          · rw [e1, e2] at hadm
            have := AdmissiblePath.alongChain1 hadm
              (by rw [show t.line1PointIndex - 1 + 1 = t.line1PointIndex by ring]; exact hok)
            rw [show t.line1PointIndex - 1 + 1 = t.line1PointIndex by ring] at this
            exact this
      · rw [List.map_cons, List.sum_cons, hcost]
        rcases hidx with ⟨hm, e1, e2⟩ | ⟨hm, e1, e2⟩
        · rcases hmark with ⟨_, _, hS, _⟩ | ⟨hm', _⟩
          · rw [e1, e2, hS]; ring
          · exact absurd hm hm'
        · rcases hmark with ⟨hm', _⟩ | ⟨_, _, hS, _⟩
          · exact absurd hm' hm
          · rw [e1, e2, hS]; ring

theorem GetId_zero (l : List Nat) : GetId l 0 = l.head? := by
  cases l <;> rfl

theorem GetId_last (l : List Nat) (h : l ≠ []) :
    GetId l ((l.length : Int) - 1) = l.getLast? := by
  have hpos : 0 < l.length := List.length_pos.mpr h
  have h0 : (0 : Int) ≤ (l.length : Int) - 1 := by omega
  have hn : ((l.length : Int) - 1).toNat = l.length - 1 := by omega
  simp only [GetId, readAt, h0, if_true, hn, List.get?_eq_getElem?]
  exact List.getLast?_eq_getElem? l |>.symm

theorem bridgeInput_anchored (points : PointSet) (l1 l2 : List Nat) (c : BridgeInput)
    (h1 : l1 ≠ []) (h2 : l2 ≠ []) (h : bridgeInput points l1 l2 = some c) : c.Anchored := by
  simp only [bridgeInput, Option.bind_eq_some] at h
  obtain ⟨c1, _, c2, _, st2, _, f1, hf1, f2, hf2, g1, hg1, e1, he1, g2, hg2, e2, he2, hc⟩ := h
  have hc' := Option.some.inj hc
  subst hc'
  rw [GetId_zero] at hg1 hg2
  rw [GetId_last l1 h1] at he1
  rw [GetId_last l2 h2] at he2
  refine ⟨?_, ?_, ?_, ?_⟩
  · show GetPoint points f1 = GetPoint points (idAt l1 0)
    rw [idAt_of_GetId _ _ _ hf1]
  · show GetPoint points f2 = GetPoint points (idAt l2 st2)
    rw [idAt_of_GetId _ _ _ hf2]
  · show decide (g1 = e1) = decide (l1.head? = l1.getLast?)
    rw [hg1, he1]
    simp
  · show decide (g2 = e2) = decide (l2.head? = l2.getLast?)
    rw [hg2, he2]
    simp

theorem fillSteps2_eq (c : BridgeInput) (hc : c.WF) (a b : Int) (ha : 1 ≤ a) (hb : 0 ≤ b) :
    c.fillSteps2 a b = (a - 1).toNat * (c.numberOfPointsInLine2 - 1).toNat + b.toNat := by
  unfold BridgeInput.fillSteps2
  have h1 : (0 : Int) ≤ a - 1 := by omega
  have h2 : (0 : Int) ≤ c.numberOfPointsInLine2 - 1 := by have := hc.pos2; omega
  have e : (a - 1) * (c.numberOfPointsInLine2 - 1) + b =
      (((a - 1).toNat * (c.numberOfPointsInLine2 - 1).toNat + b.toNat : Nat) : Int) := by
    push_cast
    rw [Int.toNat_of_nonneg h1, Int.toNat_of_nonneg h2, Int.toNat_of_nonneg hb]
  rw [e, Int.toNat_natCast]

/-- When chain 2 is closed, the distance the fill adds in a cell is the
squared distance between the point of chain 1 at the cell's row and the point
of chain 2 at the cell's column. -/
theorem fillCost_eq_cellCost (c : BridgeInput) (hc : c.WF) (hanch : c.Anchored)
    (hn2 : 2 ≤ c.numberOfPointsInLine2) (hcl : c.line2Closed = true) (cell : Int × Int)
    (h1 : 0 ≤ cell.1) (h2 : 0 ≤ cell.2) : c.fillCost cell = c.cellCost cell := by
  unfold BridgeInput.fillCost BridgeInput.cellCost
  have hp1 : c.position1 0 = c.startLine1 := rfl
  have hp2 : c.position2 0 = c.startLine2 := rfl
  by_cases ha : cell.1 = 0
  · by_cases hb : cell.2 = 0
    · rw [if_pos ha, if_pos hb, ha, hb, hp1, hp2, ← hanch.first1, ← hanch.first2]
    · rw [if_pos ha, if_neg hb, ha, hp1, ← hanch.first1]
      rfl
  · by_cases hb : cell.2 = 0
    · rw [if_neg ha, if_pos hb, hb, hp2, ← hanch.first2]
      rfl
    · rw [if_neg ha, if_neg hb]
      unfold BridgeInput.fillDistance
      have hpos : c.fillPosition2 cell.1 cell.2 = c.position2 cell.2 := by
        unfold BridgeInput.fillPosition2 BridgeInput.position2
        rw [fillSteps2_eq c hc _ _ (by omega) h2, hcl]
        exact walk_closed_rows _ _ hn2 hc.start2 _ _ (by omega)
      rw [hpos]

theorem MonotonePath.last_nonneg {i j : Int} {p : List (Int × Int)} (h : MonotonePath i j p) :
    0 ≤ i ∧ 0 ≤ j := by
  induction h with
  | origin => exact ⟨le_refl _, le_refl _⟩
  | alongChain2 _ ih => exact ⟨ih.1, by omega⟩
  | alongChain1 _ ih => exact ⟨by omega, ih.2⟩

/-- Where no transition is forced, every monotone path is admissible. -/
theorem MonotonePath.admissible (c : BridgeInput) {i j : Int} {p : List (Int × Int)}
    (h : MonotonePath i j p) (hi : i < c.numberOfPointsInLine1)
    (hj : j < c.numberOfPointsInLine2)
    (hfree : ∀ a b, 1 ≤ a → a < c.numberOfPointsInLine1 → 1 ≤ b →
      b < c.numberOfPointsInLine2 → ¬ c.ForcedLeft a b ∧ ¬ c.ForcedUp a b) :
    AdmissiblePath c i j p := by
  induction h with
  | origin => exact AdmissiblePath.origin
  | @alongChain2 i j p h ih =>
    have hnn := h.last_nonneg
    refine AdmissiblePath.alongChain2 (ih hi (by omega)) ?_
    by_cases hi0 : i = 0
    · exact Or.inl hi0
    · exact Or.inr (hfree i (j + 1) (by omega) hi (by omega) hj).2
  | @alongChain1 i j p h ih =>
    have hnn := h.last_nonneg
    refine AdmissiblePath.alongChain1 (ih (by omega) hj) ?_
    by_cases hj0 : j = 0
    · exact Or.inl hj0
    · exact Or.inr (hfree (i + 1) j (by omega) hi (by omega) hj).1

/-- On two chains of at least two points, chain 2 closed, the path that
`TriangulateContours` backtracks is an admissible path from `(0, 0)` to the
last cell whose total cost is minimal among the admissible paths. -/
theorem backtrackedPath_minimal (points : PointSet) (l1 l2 : List Nat) (h1 : 2 ≤ l1.length)
    (h2 : 2 ≤ l2.length) (hclosed : l2.head? = l2.getLast?) :
    ∃ c path, bridgeInput points l1 l2 = some c ∧ backtrackedPath points l1 l2 = some path ∧
      AdmissiblePath c ((l1.length : Int) - 1) ((l2.length : Int) - 1) path.reverse ∧
      ∀ p, AdmissiblePath c ((l1.length : Int) - 1) ((l2.length : Int) - 1) p →
        c.pathCost path ≤ c.pathCost p := by
  have hne1 : l1 ≠ [] := by intro h; rw [h] at h1; simp at h1
  have hne2 : l2 ≠ [] := by intro h; rw [h] at h2; simp at h2
  obtain ⟨c, hcin, hc, _, hl1, hl2⟩ := bridgeInput_spec points l1 l2 hne1 hne2
  have hanch := bridgeInput_anchored points l1 l2 c hne1 hne2 hcin
  have hn1 : c.numberOfPointsInLine1 = l1.length := by rw [hc.len1, hl1]
  have hn2 : c.numberOfPointsInLine2 = l2.length := by rw [hc.len2, hl2]
  have hn1' : 2 ≤ c.numberOfPointsInLine1 := by rw [hn1]; exact_mod_cast h1
  have hn2' : 2 ≤ c.numberOfPointsInLine2 := by rw [hn2]; exact_mod_cast h2
  have hcl : c.line2Closed = true := by
    rw [hanch.closed2, hl2]
    exact decide_eq_true hclosed
  obtain ⟨s, hs, hout, hB, hidx1, hidx2⟩ := fillTables_spec c hc []
  obtain ⟨s', hs', hcells⟩ := fillTables_cells c hc hn1' hn2' []
  have hss : s' = s := Option.some.inj (hs'.symm.trans hs)
  rw [hss] at hcells
  have hstart := backtrackStart_inv c hc [] s hout hidx1 hidx2
  have hi : (backtrackStart c s).line1PointIndex = (l1.length : Int) - 1 := by
    show s.line1PointIndex - 1 = _
    rw [hidx1, hn1]
  have hj : (backtrackStart c s).line2PointIndex = (l2.length : Int) - 1 := by
    show s.line2PointIndex - 1 = _
    rw [hidx2, if_pos hn1', hn2]
  obtain ⟨path, hpath, hadm, hcost⟩ := backtrackCells_spec c hc s.scoreTable s.backtrackTable hB
    hcells [] _ (l1.length + l2.length) (backtrackStart c s) hstart (by rw [hi, hj]; omega)
  rw [hi, hj] at hadm hcost
  have hcostEq : ∀ p : List (Int × Int), (∀ cell ∈ p, 0 ≤ cell.1 ∧ 0 ≤ cell.2) →
      c.pathCost p = (p.map c.fillCost).sum := by
    intro p hp
    unfold BridgeInput.pathCost
    congr 1
    apply List.map_congr_left
    intro cell hcell
    exact (fillCost_eq_cellCost c hc hanch hn2' hcl cell (hp cell hcell).1 (hp cell hcell).2).symm
  refine ⟨c, path, hcin, ?_, hadm, ?_⟩
  · simp only [backtrackedPath, hcin, hs, Option.some_bind, hpath]
  · intro p hp
    have hp_cells := hp.cells_le
    have hpath_cells := hadm.cells_le
    rw [hcostEq path (fun cell hcell => by
        have := hpath_cells cell (List.mem_reverse.mpr hcell)
        exact ⟨this.1, this.2.2.1⟩),
      hcostEq p (fun cell hcell => ⟨(hp_cells cell hcell).1, (hp_cells cell hcell).2.2.1⟩), hcost]
    exact score_le_of_admissible c s.scoreTable s.backtrackTable hcells hp
      (by rw [hn1]; omega) (by rw [hn2]; omega)

/-! ## Facts about the winding of a line -/

theorem areaSum_cons_cons (points : PointSet) (a b : Nat) (rest : List Nat) :
    areaSum points (a :: b :: rest) =
      ((GetPoint points b).x - (GetPoint points a).x) *
          ((GetPoint points b).y + (GetPoint points a).y) +
        areaSum points (b :: rest) := rfl

theorem areaSum_append_two (points : PointSet) (l : List Nat) (z a : Nat) :
    areaSum points (l ++ [z] ++ [a]) =
      areaSum points (l ++ [z]) +
        ((GetPoint points a).x - (GetPoint points z).x) *
          ((GetPoint points a).y + (GetPoint points z).y) := by
  induction l with
  | nil => simp [areaSum]
  | cons x l ih =>
    cases l with
    | nil => simp [areaSum]
    | cons y l =>
      have ih' : areaSum points (y :: (l ++ [z] ++ [a])) =
          areaSum points (y :: (l ++ [z])) +
            ((GetPoint points a).x - (GetPoint points z).x) *
              ((GetPoint points a).y + (GetPoint points z).y) := ih
      show areaSum points (x :: y :: (l ++ [z] ++ [a])) =
        areaSum points (x :: y :: (l ++ [z])) + _
      rw [areaSum_cons_cons, areaSum_cons_cons, ih']
      ring

/-- Reversing the order of the points negates the sum of `IsLineClockwise`. -/
theorem areaSum_reverse (points : PointSet) (l : List Nat) :
    areaSum points l.reverse = - areaSum points l := by
  induction l with
  | nil => simp [areaSum]
  | cons a l ih =>
    cases l with
    | nil => simp [areaSum]
    | cons b rest =>
      have h : (a :: b :: rest).reverse = rest.reverse ++ [b] ++ [a] := by simp
      rw [h, areaSum_append_two]
      have h2 : rest.reverse ++ [b] = (b :: rest).reverse := by simp
      rw [h2, ih]
      simp only [areaSum]
      ring

/-- The sum of `IsLineClockwise` and the shoelace sum telescope to the
difference of `x * y` between the last and the first point. -/
theorem areaSum_add_shoelace2 (points : PointSet) (a : Nat) (l : List Nat) :
    areaSum points (a :: l) + shoelace2 points (a :: l) =
      (GetPoint points ((a :: l).getLast (List.cons_ne_nil a l))).x *
          (GetPoint points ((a :: l).getLast (List.cons_ne_nil a l))).y -
        (GetPoint points a).x * (GetPoint points a).y := by
  induction l generalizing a with
  | nil => simp [areaSum, shoelace2]
  | cons b l ih =>
    have hlast : (a :: b :: l).getLast (List.cons_ne_nil a (b :: l)) =
        (b :: l).getLast (List.cons_ne_nil b l) := by simp
    rw [hlast]
    have := ih b
    simp only [areaSum, shoelace2] at this ⊢
    linarith

/-- On a closed line the sum of `IsLineClockwise` is the negated doubled
signed area. -/
theorem areaSum_eq_neg_shoelace2 (points : PointSet) (l : List Nat)
    (hclosed : l.head? = l.getLast?) : areaSum points l = - shoelace2 points l := by
  cases l with
  | nil => simp [areaSum, shoelace2]
  | cons a l =>
    have h := areaSum_add_shoelace2 points a l
    rw [List.getLast?_eq_getLast _ (List.cons_ne_nil a l)] at hclosed
    simp only [List.head?_cons, Option.some.injEq] at hclosed
    rw [← hclosed] at h
    linarith

/-- Every line left by `SetLinesCounterClockwise` has a non-positive sum. -/
theorem areaSum_nonpos_of_mem (points : PointSet) (lines : List (List Nat)) (line : List Nat)
    (hmem : line ∈ SetLinesCounterClockwise points lines) : areaSum points line ≤ 0 := by
  simp only [SetLinesCounterClockwise, List.mem_map] at hmem
  obtain ⟨l, _, rfl⟩ := hmem
  by_cases hcw : IsLineClockwise points l = true
  · simp only [hcw, if_true, ReverseLine, areaSum_reverse]
    have : areaSum points l > 0 := by simpa [IsLineClockwise] using hcw
    linarith
  · simp only [hcw]
    have : ¬ areaSum points l > 0 := by simpa [IsLineClockwise] using hcw
    simpa using this

/-! ## Facts about bounding boxes -/

/-- A field of the bounds that `Bounds.extend` lowers to the coordinate of a
new point is, after the scan, a lower bound of the scanned coordinates and is
attained. -/
theorem foldl_extend_min (f : Bounds → ℚ) (g : Point → ℚ)
    (hf : ∀ b p, f (b.extend p) = if g p < f b then g p else f b) (rest : List Point)
    (b : Bounds) :
    f (rest.foldl Bounds.extend b) ≤ f b ∧
      (∀ p ∈ rest, f (rest.foldl Bounds.extend b) ≤ g p) ∧
      (f (rest.foldl Bounds.extend b) = f b ∨
        ∃ p ∈ rest, f (rest.foldl Bounds.extend b) = g p) := by
  induction rest generalizing b with
  | nil => simp
  | cons q rest ih =>
    obtain ⟨h1, h2, h3⟩ := ih (b.extend q)
    have hq : f (b.extend q) ≤ f b ∧ f (b.extend q) ≤ g q ∧
        (f (b.extend q) = f b ∨ f (b.extend q) = g q) := by
      rw [hf]
      split
      · exact ⟨by linarith, le_refl _, Or.inr rfl⟩
      · exact ⟨le_refl _, by linarith, Or.inl rfl⟩
    simp only [List.foldl_cons]
    refine ⟨le_trans h1 hq.1, ?_, ?_⟩
    · intro p hp
      rcases List.mem_cons.mp hp with rfl | hp
      · exact le_trans h1 hq.2.1
      · exact h2 p hp
    · rcases h3 with h3 | ⟨p, hp, h3⟩
      · rcases hq.2.2 with h4 | h4
        · exact Or.inl (h3.trans h4)
        · exact Or.inr ⟨q, List.mem_cons_self _ _, h3.trans h4⟩
      · exact Or.inr ⟨p, List.mem_cons_of_mem _ hp, h3⟩

/-- The mirror image of `foldl_extend_min` for a field that `Bounds.extend`
raises. -/
theorem foldl_extend_max (f : Bounds → ℚ) (g : Point → ℚ)
    (hf : ∀ b p, f (b.extend p) = if g p > f b then g p else f b) (rest : List Point)
    (b : Bounds) :
    f b ≤ f (rest.foldl Bounds.extend b) ∧
      (∀ p ∈ rest, g p ≤ f (rest.foldl Bounds.extend b)) ∧
      (f (rest.foldl Bounds.extend b) = f b ∨
        ∃ p ∈ rest, f (rest.foldl Bounds.extend b) = g p) := by
  induction rest generalizing b with
  | nil => simp
  | cons q rest ih =>
    obtain ⟨h1, h2, h3⟩ := ih (b.extend q)
    have hq : f b ≤ f (b.extend q) ∧ g q ≤ f (b.extend q) ∧
        (f (b.extend q) = f b ∨ f (b.extend q) = g q) := by
      rw [hf]
      split
      · exact ⟨by linarith, le_refl _, Or.inr rfl⟩
      · exact ⟨le_refl _, by linarith, Or.inl rfl⟩
    simp only [List.foldl_cons]
    refine ⟨le_trans hq.1 h1, ?_, ?_⟩
    · intro p hp
      rcases List.mem_cons.mp hp with rfl | hp
      · exact le_trans hq.2.1 h1
      · exact h2 p hp
    · rcases h3 with h3 | ⟨p, hp, h3⟩
      · rcases hq.2.2 with h4 | h4
        · exact Or.inl (h3.trans h4)
        · exact Or.inr ⟨q, List.mem_cons_self _ _, h3.trans h4⟩
      · exact Or.inr ⟨p, List.mem_cons_of_mem _ hp, h3⟩

/-- A lowered field of the bounds of a non-empty line is the least of the
coordinates of its points. -/
theorem GetBounds_min (points : PointSet) (l : List Nat) (hl : l ≠ []) (f : Bounds → ℚ)
    (g : Point → ℚ) (hf : ∀ b p, f (b.extend p) = if g p < f b then g p else f b)
    (h0 : ∀ p : Point, f ⟨p.x, p.x, p.y, p.y, p.z, p.z⟩ = g p) :
    (∀ id ∈ l, f (GetBounds points l) ≤ g (GetPoint points id)) ∧
      ∃ id ∈ l, f (GetBounds points l) = g (GetPoint points id) := by
  cases l with
  | nil => exact absurd rfl hl
  | cons a l =>
    obtain ⟨h1, h2, h3⟩ := foldl_extend_min f g hf (linePoints points l)
      ⟨(GetPoint points a).x, (GetPoint points a).x, (GetPoint points a).y,
        (GetPoint points a).y, (GetPoint points a).z, (GetPoint points a).z⟩
    rw [h0] at h1 h3
    have hb : GetBounds points (a :: l) = (linePoints points l).foldl Bounds.extend
        ⟨(GetPoint points a).x, (GetPoint points a).x, (GetPoint points a).y,
          (GetPoint points a).y, (GetPoint points a).z, (GetPoint points a).z⟩ := rfl
    rw [hb]
    constructor
    · intro id hid
      rcases List.mem_cons.mp hid with rfl | hid
      · exact h1
      · exact h2 _ (List.mem_map_of_mem _ hid)
    · rcases h3 with h3 | ⟨p, hp, h3⟩
      · exact ⟨a, List.mem_cons_self _ _, h3⟩
      · obtain ⟨id, hid, rfl⟩ := List.mem_map.mp hp
        exact ⟨id, List.mem_cons_of_mem _ hid, h3⟩

/-- A raised field of the bounds of a non-empty line is the greatest of the
coordinates of its points. -/
theorem GetBounds_max (points : PointSet) (l : List Nat) (hl : l ≠ []) (f : Bounds → ℚ)
    (g : Point → ℚ) (hf : ∀ b p, f (b.extend p) = if g p > f b then g p else f b)
    (h0 : ∀ p : Point, f ⟨p.x, p.x, p.y, p.y, p.z, p.z⟩ = g p) :
    (∀ id ∈ l, g (GetPoint points id) ≤ f (GetBounds points l)) ∧
      ∃ id ∈ l, f (GetBounds points l) = g (GetPoint points id) := by
  cases l with
  | nil => exact absurd rfl hl
  | cons a l =>
    obtain ⟨h1, h2, h3⟩ := foldl_extend_max f g hf (linePoints points l)
      ⟨(GetPoint points a).x, (GetPoint points a).x, (GetPoint points a).y,
        (GetPoint points a).y, (GetPoint points a).z, (GetPoint points a).z⟩
    rw [h0] at h1 h3
    have hb : GetBounds points (a :: l) = (linePoints points l).foldl Bounds.extend
        ⟨(GetPoint points a).x, (GetPoint points a).x, (GetPoint points a).y,
          (GetPoint points a).y, (GetPoint points a).z, (GetPoint points a).z⟩ := rfl
    rw [hb]
    constructor
    · intro id hid
      rcases List.mem_cons.mp hid with rfl | hid
      · exact h1
      · exact h2 _ (List.mem_map_of_mem _ hid)
    · rcases h3 with h3 | ⟨p, hp, h3⟩
      · exact ⟨a, List.mem_cons_self _ _, h3⟩
      · obtain ⟨id, hid, rfl⟩ := List.mem_map.mp hp
        exact ⟨id, List.mem_cons_of_mem _ hid, h3⟩

/-- The minimum of one coordinate over a non-empty line is strictly below the
maximum of the same coordinate over another exactly when some point of the
first lies strictly below some point of the second. -/
theorem min_lt_max_iff (points : PointSet) (l1 l2 : List Nat) (g : Point → ℚ) (m M : ℚ)
    (hm : (∀ id ∈ l1, m ≤ g (GetPoint points id)) ∧ ∃ id ∈ l1, m = g (GetPoint points id))
    (hM : (∀ id ∈ l2, g (GetPoint points id) ≤ M) ∧ ∃ id ∈ l2, M = g (GetPoint points id)) :
    m < M ↔ ∃ a ∈ l1, ∃ b ∈ l2, g (GetPoint points a) < g (GetPoint points b) := by
  constructor
  · intro h
    obtain ⟨a, ha, hma⟩ := hm.2
    obtain ⟨b, hb, hMb⟩ := hM.2
    exact ⟨a, ha, b, hb, by rw [← hma, ← hMb]; exact h⟩
  · rintro ⟨a, ha, b, hb, h⟩
    exact lt_of_le_of_lt (hm.1 a ha) (lt_of_lt_of_le h (hM.1 b hb))

theorem DoLinesOverlap_iff_bounds (points : PointSet) (l1 l2 : List Nat) :
    DoLinesOverlap points l1 l2 = true ↔
      (GetBounds points l1).xmin < (GetBounds points l2).xmax ∧
      (GetBounds points l2).xmin < (GetBounds points l1).xmax ∧
      (GetBounds points l1).ymin < (GetBounds points l2).ymax ∧
      (GetBounds points l2).ymin < (GetBounds points l1).ymax := by
  simp [DoLinesOverlap]

/-- For non-empty lines `DoLinesOverlap` is the strict overlap of the
bounding boxes in X and Y, stated on the points of the lines. -/
theorem DoLinesOverlap_iff_strict (points : PointSet) (l1 l2 : List Nat) (h1 : l1 ≠ [])
    (h2 : l2 ≠ []) : DoLinesOverlap points l1 l2 = true ↔ StrictOverlapXY points l1 l2 := by
  have x1 := GetBounds_min points l1 h1 (fun b => b.xmin) (fun p => p.x)
    (fun _ _ => rfl) (fun _ => rfl)
  have x2 := GetBounds_min points l2 h2 (fun b => b.xmin) (fun p => p.x)
    (fun _ _ => rfl) (fun _ => rfl)
  have X1 := GetBounds_max points l1 h1 (fun b => b.xmax) (fun p => p.x)
    (fun _ _ => rfl) (fun _ => rfl)
  have X2 := GetBounds_max points l2 h2 (fun b => b.xmax) (fun p => p.x)
    (fun _ _ => rfl) (fun _ => rfl)
  have y1 := GetBounds_min points l1 h1 (fun b => b.ymin) (fun p => p.y)
    (fun _ _ => rfl) (fun _ => rfl)
  have y2 := GetBounds_min points l2 h2 (fun b => b.ymin) (fun p => p.y)
    (fun _ _ => rfl) (fun _ => rfl)
  have Y1 := GetBounds_max points l1 h1 (fun b => b.ymax) (fun p => p.y)
    (fun _ _ => rfl) (fun _ => rfl)
  have Y2 := GetBounds_max points l2 h2 (fun b => b.ymax) (fun p => p.y)
    (fun _ _ => rfl) (fun _ => rfl)
  rw [DoLinesOverlap_iff_bounds, StrictOverlapXY,
    min_lt_max_iff points l1 l2 (fun p => p.x) _ _ x1 X2,
    min_lt_max_iff points l2 l1 (fun p => p.x) _ _ x2 X1,
    min_lt_max_iff points l1 l2 (fun p => p.y) _ _ y1 Y2,
    min_lt_max_iff points l2 l1 (fun p => p.y) _ _ y2 Y1]
  constructor
  · rintro ⟨a, ⟨b, hb, a', ha', h⟩, c, ⟨d, hd, c', hc', h'⟩⟩
    exact ⟨a, ⟨a', ha', b, hb, h⟩, c, ⟨c', hc', d, hd, h'⟩⟩
  · rintro ⟨a, ⟨a', ha', b, hb, h⟩, c, ⟨c', hc', d, hd, h'⟩⟩
    exact ⟨a, ⟨b, hb, a', ha', h⟩, c, ⟨d, hd, c', hc', h'⟩⟩

/-- The overlap test does not depend on the order of its arguments. -/
theorem DoLinesOverlap_symm (points : PointSet) (a b : List Nat) :
    DoLinesOverlap points a b = DoLinesOverlap points b a := by
  rw [Bool.eq_iff_iff, DoLinesOverlap_iff_bounds, DoLinesOverlap_iff_bounds]
  constructor <;> (rintro ⟨h1, h2, h3, h4⟩; exact ⟨h2, h1, h4, h3⟩)

/-! ## Facts about the overlap lists -/

theorem readAt_eq_get {α : Type} (l : List α) (i : Int) (h0 : 0 ≤ i) :
    readAt l i = l[i.toNat]? := by
  simp [readAt, h0]

theorem pushAt_spec {α : Type} (v : List (List α)) (i : Int) (x : α) (h0 : 0 ≤ i)
    (h1 : i < v.length) :
    ∃ v', pushAt v i x = some v' ∧ v'.length = v.length ∧
      rowAt v' i = rowAt v i ++ [x] ∧ ∀ j, j ≠ i → rowAt v' j = rowAt v j := by
  have hlt : i.toNat < v.length := by omega
  have hread : readAt v i = some v[i.toNat] := by
    rw [readAt_eq_get v i h0, List.getElem?_eq_getElem hlt]
  refine ⟨v.set i.toNat (v[i.toNat] ++ [x]), ?_, by simp, ?_, ?_⟩
  · simp [pushAt, hread, writeAt, h0, h1]
  · simp [rowAt, hread, readAt, h0, hlt]
  · intro j hj
    by_cases hj0 : 0 ≤ j
    · have hne : i.toNat ≠ j.toNat := by omega
      simp [rowAt, readAt, hj0, List.getElem?_set, hne]
    · simp [rowAt, readAt, hj0]

theorem lineAt_eq (input : PolyData) (i : Int) (h0 : 0 ≤ i) (h1 : i < input.lines.length) :
    ∃ l, readAt input.lines i = some l ∧ lineAt input i = l := by
  obtain ⟨l, hl, _⟩ := readAt_of_inRange input.lines i ⟨h0, h1⟩
  exact ⟨l, hl, by simp [lineAt, hl]⟩

theorem fillOverlapsBody_step (input : PolyData) (f1 n1 f2 n2 : Int) (hf2 : 0 ≤ f2)
    (hl2 : f2 + n2 ≤ input.lines.length) (l m : Int) (hl0 : 0 ≤ l) (hl1 : l < n1)
    (hm0 : 0 ≤ m) (hm1 : m < n2) (o : Overlaps)
    (h : OverlapsInv input f1 n1 f2 n2 (fun a b => decide (a < l ∨ (a = l ∧ b < m))) o) :
    ∃ o', fillOverlapsBody input f1 f2 (lineAt input (f1 + l)) l m o = some o' ∧
      OverlapsInv input f1 n1 f2 n2 (fun a b => decide (a < l ∨ (a = l ∧ b < m + 1))) o' := by
  obtain ⟨line2, hline2, hat2⟩ := lineAt_eq input (f2 + m) (by omega) (by omega)
  simp only [fillOverlapsBody, hline2, Option.some_bind]
  by_cases hov : DoLinesOverlap input.points (lineAt input (f1 + l)) line2 = true
  · have hov' : DoLinesOverlap input.points (lineAt input (f1 + l)) (lineAt input (f2 + m)) =
        true := by rw [hat2]; exact hov
    obtain ⟨v1, hv1, hlen1, hrow1, hoth1⟩ := pushAt_spec o.plane1Overlaps l (f2 + m) hl0
      (by rw [h.len1]; exact hl1)
    obtain ⟨v2, hv2, hlen2, hrow2, hoth2⟩ := pushAt_spec o.plane2Overlaps m (f1 + l) hm0
      (by rw [h.len2]; exact hm1)
    simp only [hov, if_true, hv1, hv2, Option.some_bind]
    refine ⟨_, rfl, ⟨by rw [hlen1]; exact h.len1, by rw [hlen2]; exact h.len2, ?_, ?_⟩⟩
    · intro a b ha0 ha1 hb0 hb1
      show (rowAt v1 a).count (f2 + b) = _
      have hold := h.count1 a b ha0 ha1 hb0 hb1
      by_cases hal : a = l
      · rw [hal] at hold ⊢
        rw [hrow1, List.count_append, hold]
        by_cases hbm : b = m
        · rw [hbm]
          simp [hov']
        · have hc : List.count (f2 + b) [f2 + m] = 0 :=
            List.count_eq_zero.mpr (by simp only [List.mem_singleton]; omega)
          have hiff : (b < m + 1) ↔ (b < m) := by omega
          simp [hc, hiff]
      · rw [hoth1 a hal, hold]
        simp [hal]
    · intro a b ha0 ha1 hb0 hb1
      show (rowAt v2 b).count (f1 + a) = _
      have hold := h.count2 a b ha0 ha1 hb0 hb1
      by_cases hbm : b = m
      · rw [hbm] at hold ⊢
        rw [hrow2, List.count_append, hold]
        by_cases hal : a = l
        · rw [hal]
          simp [hov']
        · have hc : List.count (f1 + a) [f1 + l] = 0 :=
            List.count_eq_zero.mpr (by simp only [List.mem_singleton]; omega)
          simp [hc, hal]
      · rw [hoth2 b hbm, hold]
        have hiff : (a = l ∧ b < m + 1) ↔ (a = l ∧ b < m) := by omega
        simp [hiff]
  · have hov' : ¬ DoLinesOverlap input.points (lineAt input (f1 + l))
        (lineAt input (f2 + m)) = true := by rw [hat2]; exact hov
    simp only [hov]
    refine ⟨_, rfl, ⟨h.len1, h.len2, ?_, ?_⟩⟩
    · intro a b ha0 ha1 hb0 hb1
      rw [h.count1 a b ha0 ha1 hb0 hb1]
      by_cases hab : a = l ∧ b = m
      · rw [hab.1, hab.2]
        simp [hov']
      · have hiff : (a < l ∨ (a = l ∧ b < m + 1)) ↔ (a < l ∨ (a = l ∧ b < m)) := by omega
        simp [hiff]
    · intro a b ha0 ha1 hb0 hb1
      rw [h.count2 a b ha0 ha1 hb0 hb1]
      by_cases hab : a = l ∧ b = m
      · rw [hab.1, hab.2]
        simp [hov']
      · have hiff : (a < l ∨ (a = l ∧ b < m + 1)) ↔ (a < l ∨ (a = l ∧ b < m)) := by omega
        simp [hiff]

theorem rowAt_replicate_nil {α : Type} (n : Nat) (a : Int) :
    rowAt (List.replicate n ([] : List α)) a = [] := by
  unfold rowAt
  cases h : readAt (List.replicate n ([] : List α)) a with
  | none => rfl
  | some v =>
    have := readAt_mem _ _ _ h
    rw [List.eq_of_mem_replicate this]
    rfl

theorem OverlapsInv.congr {input : PolyData} {f1 n1 f2 n2 : Int} {done done' : Int → Int → Bool}
    {o : Overlaps} (h : OverlapsInv input f1 n1 f2 n2 done o)
    (heq : ∀ a b, 0 ≤ a → a < n1 → 0 ≤ b → b < n2 → done a b = done' a b) :
    OverlapsInv input f1 n1 f2 n2 done' o :=
  ⟨h.len1, h.len2,
    fun a b ha0 ha1 hb0 hb1 => by rw [← heq a b ha0 ha1 hb0 hb1]; exact h.count1 a b ha0 ha1 hb0 hb1,
    fun a b ha0 ha1 hb0 hb1 => by rw [← heq a b ha0 ha1 hb0 hb1]; exact h.count2 a b ha0 ha1 hb0 hb1⟩

/-- The loops "Fill the overlaps lists" do not fault on two planes that lie
within the working set, and they enter exactly the overlapping pairs, each
once, in both lists. -/
theorem fillOverlaps_spec (input : PolyData) (f1 n1 f2 n2 : Int) (hf1 : 0 ≤ f1) (hn1 : 0 ≤ n1)
    (hl1 : f1 + n1 ≤ input.lines.length) (hf2 : 0 ≤ f2) (hn2 : 0 ≤ n2)
    (hl2 : f2 + n2 ≤ input.lines.length) :
    ∃ o, fillOverlaps input f1 n1 f2 n2 = some o ∧
      OverlapsInv input f1 n1 f2 n2 (fun _ _ => true) o := by
  have hc1 : ((n1.toNat : Nat) : Int) = n1 := by omega
  have hc2 : ((n2.toNat : Nat) : Int) = n2 := by omega
  obtain ⟨o, ho, hinv⟩ := forLoop_inv
    (fun line1Index s =>
      (readAt input.lines (f1 + line1Index)).bind fun line1 =>
        forLoop (fillOverlapsBody input f1 f2 line1 line1Index) n2.toNat 0 s)
    (fun l o => OverlapsInv input f1 n1 f2 n2 (fun a _ => decide (a < l)) o)
    n1.toNat 0
    (by
      intro l o h1 h2 hP
      obtain ⟨line1, hline1, hat1⟩ := lineAt_eq input (f1 + l) (by omega) (by omega)
      simp only [hline1, Option.some_bind]
      obtain ⟨o', ho', hP'⟩ := forLoop_inv (fillOverlapsBody input f1 f2 line1 l)
        (fun m o => OverlapsInv input f1 n1 f2 n2
          (fun a b => decide (a < l ∨ (a = l ∧ b < m))) o)
        n2.toNat 0
        (by
          intro m o'' hm1 hm2 hQ
          rw [← hat1]
          exact fillOverlapsBody_step input f1 n1 f2 n2 hf2 hl2 l m h1 (by omega) hm1
            (by omega) o'' hQ)
        o
        (hP.congr (by
          intro a b _ _ hb0 _
          have : a < l ↔ (a < l ∨ (a = l ∧ b < 0)) := by omega
          exact decide_eq_decide.mpr this))
      refine ⟨o', ho', hP'.congr ?_⟩
      intro a b _ _ _ hb1
      have : (a < l ∨ (a = l ∧ b < 0 + (n2.toNat : Int))) ↔ a < l + 1 := by omega
      exact decide_eq_decide.mpr this)
    ⟨List.replicate n1.toNat [], List.replicate n2.toNat []⟩
    ⟨by simp [hc1], by simp [hc2],
      fun a b ha0 _ _ _ => by
        have hlt : ¬ a < 0 := by omega
        simp [rowAt_replicate_nil, hlt],
      fun a b ha0 _ _ _ => by
        have hlt : ¬ a < 0 := by omega
        simp [rowAt_replicate_nil, hlt]⟩
  refine ⟨o, ho, hinv.congr ?_⟩
  intro a b _ ha1 _ _
  have : a < 0 + (n1.toNat : Int) := by omega
  exact decide_eq_true this

/-! ## Facts about `SortContours` -/

theorem pairLe_iff (a b : ℚ × Nat) : pairLe a b ↔ a.1 < b.1 ∨ (a.1 = b.1 ∧ a.2 ≤ b.2) := by
  unfold pairLe pairLess
  constructor
  · intro h
    rcases lt_trichotomy a.1 b.1 with hlt | heq | hgt
    · exact Or.inl hlt
    · refine Or.inr ⟨heq, ?_⟩
      by_contra hn
      exact h (Or.inr ⟨by rw [heq]; exact lt_irrefl _, not_le.mp hn⟩)
    · exact absurd (Or.inl hgt) h
  · rintro (hlt | ⟨heq, hle⟩) (h1 | ⟨h1, h2⟩)
    · exact lt_asymm hlt h1
    · exact h1 hlt
    · rw [heq] at h1
      exact lt_irrefl _ h1
    · exact absurd h2 (not_lt.mpr hle)

instance : IsTotal (ℚ × Nat) pairLe where
  total a b := by
    rw [pairLe_iff, pairLe_iff]
    rcases lt_trichotomy a.1 b.1 with hlt | heq | hgt
    · exact Or.inl (Or.inl hlt)
    · rcases le_total a.2 b.2 with h | h
      · exact Or.inl (Or.inr ⟨heq, h⟩)
      · exact Or.inr (Or.inr ⟨heq.symm, h⟩)
    · exact Or.inr (Or.inl hgt)

instance : IsTrans (ℚ × Nat) pairLe where
  trans a b c := by
    rw [pairLe_iff, pairLe_iff, pairLe_iff]
    rintro (h1 | ⟨h1, h1'⟩) (h2 | ⟨h2, h2'⟩)
    · exact Or.inl (lt_trans h1 h2)
    · exact Or.inl (by rw [← h2]; exact h1)
    · exact Or.inl (by rw [h1]; exact h2)
    · exact Or.inr ⟨h1.trans h2, le_trans h1' h2'⟩

theorem sortPairs_eq (pairs : List (ℚ × Nat)) : sortPairs pairs = pairs.insertionSort pairLe :=
  rfl

theorem lineZPairs_snd (points : PointSet) (lines : List (List Nat)) :
    (lineZPairs points lines).map Prod.snd = List.range lines.length := by
  unfold lineZPairs
  rw [List.map_map]
  exact List.enum_map_fst lines

theorem lineZPairs_key (points : PointSet) (lines : List (List Nat)) (p : ℚ × Nat)
    (hp : p ∈ lineZPairs points lines) : p.1 = averageZ points (lines.getD p.2 []) := by
  unfold lineZPairs at hp
  obtain ⟨il, hil, rfl⟩ := List.mem_map.mp hp
  have := List.mem_enum_iff_getElem?.mp hil
  simp [List.getD, this]

theorem map_getD_range {α : Type} (l : List α) (d : α) :
    (List.range l.length).map (fun i => l.getD i d) = l := by
  apply List.ext_getElem
  · simp
  · intro i h1 h2
    simp [List.getD, List.getElem?_eq_getElem h2]

theorem sortedPositions_perm (points : PointSet) (lines : List (List Nat)) :
    (sortedPositions points lines).Perm (List.range lines.length) := by
  unfold sortedPositions
  rw [← lineZPairs_snd points lines, sortPairs_eq]
  exact (List.perm_insertionSort pairLe _).map _

theorem SortContours_eq_map (points : PointSet) (lines : List (List Nat)) :
    SortContours points lines =
      (sortedPositions points lines).map fun i => lines.getD i [] := by
  unfold SortContours sortedPositions
  rw [List.map_map]
  rfl

theorem sortedPositions_pairwise (points : PointSet) (lines : List (List Nat)) :
    (sortedPositions points lines).Pairwise (StableOrder points lines) := by
  have hsorted : (sortPairs (lineZPairs points lines)).Pairwise pairLe := by
    rw [sortPairs_eq]
    exact List.sorted_insertionSort pairLe _
  have hnodup : (sortPairs (lineZPairs points lines)).Pairwise fun p q => p.2 ≠ q.2 := by
    have h : (sortedPositions points lines).Nodup :=
      (sortedPositions_perm points lines).nodup_iff.mpr (List.nodup_range _)
    exact List.pairwise_map.mp h
  have hmem : ∀ p ∈ sortPairs (lineZPairs points lines), p ∈ lineZPairs points lines := by
    intro p hp
    rw [sortPairs_eq] at hp
    exact (List.perm_insertionSort pairLe _).subset hp
  unfold sortedPositions
  rw [List.pairwise_map]
  refine List.Pairwise.imp_of_mem ?_ (hsorted.and hnodup)
  rintro p q hp hq ⟨hle, hne⟩
  have kp := lineZPairs_key points lines p (hmem p hp)
  have kq := lineZPairs_key points lines q (hmem q hq)
  unfold StableOrder
  rw [← kp, ← kq]
  rcases (pairLe_iff p q).mp hle with h | ⟨h1, h2⟩
  · exact Or.inl h
  · exact Or.inr ⟨h1, lt_of_le_of_ne h2 hne⟩

instance : IsAntisymm (ℚ × Nat) pairLe where
  antisymm a b := by
    rw [pairLe_iff, pairLe_iff]
    rintro (h1 | ⟨h1, h1'⟩) (h2 | ⟨h2, h2'⟩)
    · exact absurd h2 (lt_asymm h1)
    · rw [h2] at h1
      exact absurd h1 (lt_irrefl _)
    · rw [h1] at h2
      exact absurd h2 (lt_irrefl _)
    · exact Prod.ext h1 (le_antisymm h1' h2')

/-- The sorted sequence is determined by the pairs: every arrangement of the
pairs that is ascending in the order of `std::pair` is the one `sortPairs`
returns, whatever the sorting algorithm. -/
theorem sortPairs_unique (pairs sorted : List (ℚ × Nat)) (hperm : sorted.Perm pairs)
    (hsorted : sorted.Pairwise pairLe) : sorted = sortPairs pairs :=
  List.eq_of_perm_of_sorted (hperm.trans (List.perm_insertionSort pairLe pairs).symm) hsorted
    (List.sorted_insertionSort pairLe pairs)

/-! ## Facts about `FixKeyholes` -/

theorem foldlM_fixed {α σ : Type} (f : σ → α → Option σ) (s : σ) (l : List α)
    (h : ∀ x ∈ l, f s x = some s) : l.foldlM f s = some s := by
  induction l with
  | nil => rfl
  | cons a l ih =>
    rw [List.foldlM_cons, h a (List.mem_cons_self _ _)]
    exact ih fun x hx => h x (List.mem_cons_of_mem _ hx)

theorem readAt_eq_getD {α : Type} (l : List α) (i : Int) (d : α) (h : InRange l.length i) :
    readAt l i = some (l.getD i.toNat d) := by
  have hlt : i.toNat < l.length := by have := h.1; have := h.2; omega
  simp [readAt, h.1, List.getD, List.getElem?_eq_getElem hlt]

/-- Without a qualifying pair the flagging pass leaves `keyHoleExists` false
and every flag at `-1`. -/
theorem flagLine_of_noKeyhole (epsilon : ℚ) (minimumSeperation : Int) (pts : List Point)
    (h : NoKeyhole epsilon minimumSeperation pts) :
    flagLine epsilon minimumSeperation pts = some ⟨false, List.replicate pts.length (-1)⟩ := by
  obtain ⟨s, hs, hP⟩ := forLoop_inv (flagPointBody epsilon minimumSeperation pts)
    (fun _ s => s = ⟨false, List.replicate pts.length (-1)⟩) pts.length 0
    (by
      intro i s h1 h2 hP
      subst hP
      refine ⟨_, ?_, rfl⟩
      have hir : InRange pts.length i := ⟨h1, by omega⟩
      simp only [flagPointBody, readAt_eq_getD pts i ⟨0, 0, 0⟩ hir, Option.some_bind]
      apply foldlM_fixed
      intro p2 hp2
      simp only [FindPointsWithinRadius, List.mem_map, List.mem_filter, List.mem_range,
        decide_eq_true_eq] at hp2
      obtain ⟨k, ⟨hk, hd⟩, rfl⟩ := hp2
      have hsep := h i.toNat (by omega) k hk hd
      have hi : ((i.toNat : Nat) : Int) = i := by omega
      rw [hi] at hsep
      have hnot : ¬ (min (Int.ofNat k - i) ((pts.length : Int) - 1 - Int.ofNat k + i) >
          minimumSeperation) := not_lt.mpr hsep
      simp only [flagPairBody, hnot, if_false])
    _ rfl
  rw [flagLine, hs, hP]

/-- `FixKeyholes` passes a contour set without keyhole through unchanged. -/
theorem FixKeyholes_of_noKeyhole (input : PolyData) (epsilon : ℚ) (minimumSeperation : Int)
    (h : ∀ line ∈ input.lines, NoKeyhole epsilon minimumSeperation (linePoints input.points line)) :
    FixKeyholes input input.lines.length epsilon minimumSeperation = some input.lines := by
  obtain ⟨s, hs, hP⟩ := forLoop_inv (fixKeyholesBody input epsilon minimumSeperation)
    (fun i newLines => newLines = input.lines.take i.toNat) input.lines.length 0
    (by
      intro i newLines h1 h2 hP
      have hlt : i.toNat < input.lines.length := by omega
      have hir : InRange input.lines.length i := ⟨h1, by omega⟩
      have hread := readAt_eq_getD input.lines i [] hir
      have hget : input.lines.getD i.toNat [] = input.lines[i.toNat] :=
        List.getD_eq_getElem _ _ hlt
      have hmem : input.lines.getD i.toNat [] ∈ input.lines := by
        rw [hget]
        exact List.getElem_mem _
      simp only [fixKeyholesBody, hread, Option.some_bind,
        flagLine_of_noKeyhole _ _ _ (h _ hmem), if_true]
      refine ⟨_, rfl, ?_⟩
      have hi : (i + 1).toNat = i.toNat + 1 := by omega
      rw [hP, hi, List.take_succ, hget]
      simp [List.getElem?_eq_getElem hlt])
    [] (by simp)
  have hn : ((0 : Int) + (input.lines.length : Int)).toNat = input.lines.length := by omega
  rw [hn, List.take_length] at hP
  have hcount : ((input.lines.length : Int)).toNat = input.lines.length := by omega
  rw [FixKeyholes, hcount, hs, hP]

/-- An admissible path is a monotone path. -/
theorem AdmissiblePath.monotone {c : BridgeInput} {i j : Int} {p : List (Int × Int)}
    (h : AdmissiblePath c i j p) : MonotonePath i j p := by
  induction h with
  | origin => exact MonotonePath.origin
  | alongChain2 _ _ ih => exact MonotonePath.alongChain2 ih
  | alongChain1 _ _ ih => exact MonotonePath.alongChain1 ih

/-! ## The sides capped by `SealMesh` -/

/-- Partial-correctness rule for a counted loop: a property that every
iteration that returns carries over holds of the result of the loop. -/
theorem forLoop_some_inv {σ : Type} (body : Int → σ → Option σ) (P : σ → Prop)
    (count : Nat) (start : Int)
    (hstep : ∀ i s s', start ≤ i → i < start + count → P s → body i s = some s' → P s')
    (s s' : σ) (h0 : P s) (h : forLoop body count start s = some s') : P s' := by
  induction count generalizing start s with
  | zero =>
    have hs : s = s' := Option.some.inj h
    rw [← hs]
    exact h0
  | succ k ih =>
    simp only [forLoop, Option.bind_eq_some] at h
    obtain ⟨s1, hb, hl⟩ := h
    exact ih (start + 1)
      (fun i t t' h1 h2 hp hbody => hstep i t t' (by omega) (by push_cast; omega) hp hbody)
      s1 (hstep start s s1 (le_refl _) (by push_cast; omega) h0 hb) hl

/-- A capping step records its own line and side, and nothing else. -/
theorem capSide_cappedSides (lib : External) (currentLine : List Nat) (currentLineIndex : Int)
    (lineSpacing : ℚ) (normalsUp : Bool) (s s' : SealState)
    (h : capSide lib currentLine currentLineIndex lineSpacing normalsUp s = some s') :
    s'.cappedSides = s.cappedSides ++ [(currentLineIndex, normalsUp)] := by
  simp only [capSide, Option.bind_eq_some] at h
  obtain ⟨_, _, _, _, _, _, hs'⟩ := h
  rw [← Option.some.inj hs']

/-- One iteration of the loop of `SealMesh` caps sides of its own line only. -/
theorem SealMesh.body_cappedSides (lib : External) (lineSpacing : ℚ)
    (above below : List Bool) (currentLineIndex : Int) (s s' : SealState)
    (h : SealMesh.body lib lineSpacing above below currentLineIndex s = some s') :
    ∀ side ∈ s'.cappedSides, side ∈ s.cappedSides ∨ side.1 = currentLineIndex := by
  simp only [SealMesh.body, Option.bind_eq_some] at h
  obtain ⟨currentLine, _, a, _, s1, h1, b, _, h2⟩ := h
  have hs1 : ∀ side ∈ s1.cappedSides, side ∈ s.cappedSides ∨ side.1 = currentLineIndex := by
    intro side hside
    by_cases ha : a = false
    · rw [if_pos ha] at h1
      rw [capSide_cappedSides _ _ _ _ _ _ _ h1, List.mem_append, List.mem_singleton] at hside
      rcases hside with hside | hside
      · exact Or.inl hside
      · exact Or.inr (by rw [hside])
    · rw [if_neg ha] at h1
      rw [← Option.some.inj h1] at hside
      exact Or.inl hside
  intro side hside
  by_cases hb : b = false
  · rw [if_pos hb] at h2
    rw [capSide_cappedSides _ _ _ _ _ _ _ h2, List.mem_append, List.mem_singleton] at hside
    rcases hside with hside | hside
    · exact hs1 side hside
    · exact Or.inr (by rw [hside])
  · rw [if_neg hb] at h2
    rw [← Option.some.inj h2] at hside
    exact hs1 side hside

/-- The sides that `SealMesh` caps are sides of lines whose index is below
the number of cells of `inputLines`. -/
theorem SealMesh_cappedSides_lt (lib : External) (input : PolyData)
    (inputLines : List (List Nat)) (outputPolygons : List Triangle) (above below : List Bool)
    (r : SealState)
    (h : SealMesh lib input inputLines outputPolygons above below = some r) :
    ∀ side ∈ r.cappedSides, 0 ≤ side.1 ∧ side.1 < inputLines.length := by
  simp only [SealMesh, Option.bind_eq_some] at h
  obtain ⟨lineSpacing, _, hloop⟩ := h
  refine forLoop_some_inv (SealMesh.body lib lineSpacing above below)
    (fun t => ∀ side ∈ t.cappedSides, 0 ≤ side.1 ∧ side.1 < inputLines.length)
    inputLines.length 0 ?_ _ r ?_ hloop
  · intro i t t' hi1 hi2 ht hbody side hside
    rcases SealMesh.body_cappedSides _ _ _ _ _ _ _ hbody side hside with hold | hnew
    · exact ht side hold
    · rw [hnew]
      exact ⟨hi1, by omega⟩
  · intro side hside
    cases hside

/-! ## Facts about the ribbon of triangles -/

/-- What an iteration of the backtracking loop that returns has done: one
triangle on the current cross edge is appended, and one of the two walks steps
back. -/
theorem backtrackBody_some (c : BridgeInput) (t t' : BridgeState)
    (h : backtrackBody c t = some t') :
    ∃ id1 id2 idp, GetId c.pointsInLine1 t.currentPointIndexLine1 = some id1 ∧
      GetId c.pointsInLine2 t.currentPointIndexLine2 = some id2 ∧
      t'.outputPolygons = t.outputPolygons ++ [(id1, id2, idp)] ∧
      ((GetId c.pointsInLine2
            (GetPreviousLocation t.currentPointIndexLine2 c.numberOfPointsInLine2
              c.line2Closed) = some idp ∧
          t'.currentPointIndexLine2 =
            GetPreviousLocation t.currentPointIndexLine2 c.numberOfPointsInLine2
              c.line2Closed ∧
          t'.currentPointIndexLine1 = t.currentPointIndexLine1) ∨
        (GetId c.pointsInLine1
            (GetPreviousLocation t.currentPointIndexLine1 c.numberOfPointsInLine1
              c.line1Closed) = some idp ∧
          t'.currentPointIndexLine1 =
            GetPreviousLocation t.currentPointIndexLine1 c.numberOfPointsInLine1
              c.line1Closed ∧
          t'.currentPointIndexLine2 = t.currentPointIndexLine2)) := by
  simp only [backtrackBody, Option.bind_eq_some] at h
  obtain ⟨id1, hid1, id2, hid2, mark, _, hrest⟩ := h
  by_cases hmark : mark = left
  · rw [if_pos hmark] at hrest
    simp only [Option.bind_eq_some] at hrest
    obtain ⟨idp, hidp, ht'⟩ := hrest
    have ht := Option.some.inj ht'
    subst ht
    exact ⟨id1, id2, idp, hid1, hid2, rfl, Or.inl ⟨hidp, rfl, rfl⟩⟩
  · rw [if_neg hmark] at hrest
    simp only [Option.bind_eq_some] at hrest
    obtain ⟨idp, hidp, ht'⟩ := hrest
    have ht := Option.some.inj ht'
    subst ht
    exact ⟨id1, id2, idp, hid1, hid2, rfl, Or.inr ⟨hidp, rfl, rfl⟩⟩

theorem idAt_mem (l : List Nat) (p : Int) (id : Nat) (h : GetId l p = some id) : id ∈ l :=
  readAt_mem l p id h

/-- An iteration of the backtracking loop carries the ribbon invariant over. -/
theorem backtrack_ribbon_step (c : BridgeInput) (B : Table Int) (out : List Triangle)
    (total : Int) (t t' : BridgeState) (new : List Triangle)
    (hinv : BackInv c B out total t) (hnew : t.outputPolygons = out ++ new)
    (hrib : RibbonInv c new t) (h : backtrackBody c t = some t') :
    ∃ tri, t'.outputPolygons = out ++ (new ++ [tri]) ∧ RibbonInv c (new ++ [tri]) t' := by
  obtain ⟨id1, id2, idp, hid1, hid2, hout, hcase⟩ := backtrackBody_some c t t' h
  have e1 : idAt c.pointsInLine1 t.currentPointIndexLine1 = id1 := idAt_of_GetId _ _ _ hid1
  have e2 : idAt c.pointsInLine2 t.currentPointIndexLine2 = id2 := idAt_of_GetId _ _ _ hid2
  have hchain : List.Chain' (OppositeAcross c.pointsInLine1 c.pointsInLine2)
      (new ++ [(id1, id2, idp)]) := by
    refine List.Chain'.append hrib.chain (List.chain'_singleton _) ?_
    intro x hx y hy
    have hlast := hrib.last x (by simpa using hx)
    have hy' : y = (id1, id2, idp) := by simpa using hy.symm
    rw [hy']
    refine ⟨idAt_mem _ _ _ hid1, idAt_mem _ _ _ hid2, ?_, ?_⟩
    · rw [e1, e2] at hlast
      exact hlast
    · simp [Triangle.edges]
  refine ⟨(id1, id2, idp), by rw [hout, hnew, List.append_assoc], ?_, hchain, ?_⟩
  · intro tri htri
    rcases List.mem_append.mp htri with hold | hnew'
    · exact hrib.shape tri hold
    · have htri' : tri = (id1, id2, idp) := by simpa using hnew'
      rw [htri']
      refine ⟨t.currentPointIndexLine1, t.currentPointIndexLine2, hinv.cur1, hinv.cur2,
        e1.symm, e2.symm, ?_⟩
      rcases hcase with ⟨hidp, _, _⟩ | ⟨hidp, _, _⟩
      · exact Or.inl (idAt_of_GetId _ _ _ hidp).symm
      · exact Or.inr (idAt_of_GetId _ _ _ hidp).symm
  · intro tri htri
    have htri' : tri = (id1, id2, idp) := by simpa using htri.symm
    rw [htri']
    rcases hcase with ⟨hidp, hc2, hc1⟩ | ⟨hidp, hc1, hc2⟩
    · rw [hc2, hc1, idAt_of_GetId _ _ _ hidp, e1]
      simp [Triangle.edges]
    · rw [hc2, hc1, idAt_of_GetId _ _ _ hidp, e2]
      simp [Triangle.edges]

theorem idAt_natCast (l : List Nat) (k : Nat) (hk : k < l.length) :
    idAt l (k : Int) = l[k] := by
  have h0 : (0 : Int) ≤ (k : Int) := Int.natCast_nonneg k
  simp only [idAt, GetId, readAt, if_pos h0, Int.toNat_natCast, List.get?_eq_getElem?,
    List.getElem?_eq_getElem hk, Option.getD_some]

theorem head?_ne_getLast?_of_nodup (l : List Nat) (h : l.Nodup) (hlen : 2 ≤ l.length) :
    l.head? ≠ l.getLast? := by
  rw [List.head?_eq_getElem?, List.getLast?_eq_getElem?,
    List.getElem?_eq_getElem (by omega : 0 < l.length),
    List.getElem?_eq_getElem (by omega : l.length - 1 < l.length)]
  intro heq
  have := (h.getElem_inj_iff).mp (Option.some.inj heq)
  omega

/-- On a simple chain of at least two points, a point and the point before
it on the walk have different ids. -/
theorem simple_previous_ne (l : List Nat) (hs : SimpleChain l) (hlen : 2 ≤ l.length)
    (p : Int) (hp : InRange l.length p) :
    idAt l p ≠
      idAt l (GetPreviousLocation p l.length (decide (l.head? = l.getLast?))) := by
  obtain ⟨hp0, hp1⟩ := hp
  obtain ⟨k, rfl⟩ := Int.eq_ofNat_of_zero_le hp0
  have hk : k < l.length := by exact_mod_cast hp1
  rcases hs with hnd | ⟨hcl, hnd, h3⟩
  · have hopen : decide (l.head? = l.getLast?) = false :=
      decide_eq_false (head?_ne_getLast?_of_nodup l hnd hlen)
    rw [hopen]
    unfold GetPreviousLocation
    by_cases hk0 : k = 0
    · subst hk0
      have e : ((l.length : Int) - 1) = ((l.length - 1 : Nat) : Int) := by omega
      simp only [Nat.cast_zero, zero_sub, if_true, Bool.false_eq_true, if_false]
      have h00 : idAt l (0 : Int) = l[0] := by simpa using idAt_natCast l 0 (by omega)
      rw [e, idAt_natCast l _ (by omega), h00]
      intro heq
      have := (hnd.getElem_inj_iff).mp heq
      omega
    · have hne : ¬ ((k : Int) - 1 = -1) := by omega
      have e : ((k : Int) - 1) = ((k - 1 : Nat) : Int) := by omega
      rw [if_neg hne, e, idAt_natCast l _ hk, idAt_natCast l _ (by omega)]
      intro heq
      have := (hnd.getElem_inj_iff).mp heq
      omega
  · have hclosed : decide (l.head? = l.getLast?) = true := decide_eq_true hcl
    rw [hclosed]
    have hdl : l.dropLast.length = l.length - 1 := List.length_dropLast l
    have hget : ∀ i (hi : i < l.length - 1), l[i] = l.dropLast[i] := by
      intro i hi
      rw [List.getElem_dropLast]
    have hlast : l[l.length - 1] = l[0] := by
      rw [List.head?_eq_getElem?, List.getLast?_eq_getElem?,
        List.getElem?_eq_getElem (by omega : 0 < l.length),
        List.getElem?_eq_getElem (by omega : l.length - 1 < l.length)] at hcl
      exact (Option.some.inj hcl).symm
    unfold GetPreviousLocation
    by_cases hk0 : k = 0
    · subst hk0
      have e : ((l.length : Int) - 2) = ((l.length - 2 : Nat) : Int) := by omega
      simp only [Nat.cast_zero, zero_sub, if_true]
      have h00 : idAt l (0 : Int) = l[0] := by simpa using idAt_natCast l 0 (by omega)
      rw [e, idAt_natCast l _ (by omega), h00,
        hget 0 (by omega), hget (l.length - 2) (by omega)]
      intro heq
      have := (hnd.getElem_inj_iff).mp heq
      omega
    · have hne : ¬ ((k : Int) - 1 = -1) := by omega
      have e : ((k : Int) - 1) = ((k - 1 : Nat) : Int) := by omega
      rw [if_neg hne, e, idAt_natCast l _ hk, idAt_natCast l _ (by omega)]
      by_cases hkl : k = l.length - 1
      · subst hkl
        rw [hlast, hget 0 (by omega), hget (l.length - 1 - 1) (by omega)]
        intro heq
        have := (hnd.getElem_inj_iff).mp heq
        omega
      · rw [hget k (by omega), hget (k - 1) (by omega)]
        intro heq
        have := (hnd.getElem_inj_iff).mp heq
        omega

/-- The ribbon that `TriangulateContours` emits on two non-empty chains:
every new triangle is a triangle of the ribbon and consecutive triangles share
a cross edge that they traverse in opposite directions. -/
theorem TriangulateContours_ribbon (points : PointSet) (l1 l2 : List Nat)
    (out : List Triangle) (h1 : l1 ≠ []) (h2 : l2 ≠ []) :
    ∃ c new, bridgeInput points l1 l2 = some c ∧
      TriangulateContours points l1 l2 out = some (out ++ new) ∧
      (∀ tri ∈ new, RibbonTriangle c tri) ∧
      List.Chain' (OppositeAcross l1 l2) new := by
  have hp1 : 0 < l1.length := List.length_pos.mpr h1
  have hp2 : 0 < l2.length := List.length_pos.mpr h2
  obtain ⟨c, hcin, hc, _, hl1, hl2⟩ := bridgeInput_spec points l1 l2 h1 h2
  obtain ⟨s, hs, hout, hB, hidx1, hidx2⟩ := fillTables_spec c hc out
  have hstart := backtrackStart_inv c hc out s hout hidx1 hidx2
  obtain ⟨s', hs', ⟨_, new, hnew, hrib⟩, _⟩ := whileLoop_inv backtrackCond (backtrackBody c)
    (fun t => BackInv c s.backtrackTable out
        ((c.numberOfPointsInLine1 - 1) +
          ((if 2 ≤ c.numberOfPointsInLine1 then c.numberOfPointsInLine2 else 1) - 1)) t ∧
      ∃ new, t.outputPolygons = out ++ new ∧ RibbonInv c new t)
    (fun t => (t.line1PointIndex + t.line2PointIndex).toNat)
    (fun t ht hcnd => by
      obtain ⟨hback, new, hnew, hrib⟩ := ht
      obtain ⟨t', hbody, hback', hlt, _⟩ := backtrack_step c hc _ hB out _ t hback hcnd
      obtain ⟨tri, hout', hrib'⟩ :=
        backtrack_ribbon_step c _ out _ t t' new hback hnew hrib hbody
      exact ⟨t', hbody, ⟨hback', new ++ [tri], hout', hrib'⟩, hlt⟩)
    (l1.length + l2.length) (backtrackStart c s)
    ⟨hstart, [], (by show s.outputPolygons = out ++ []; rw [hout, List.append_nil]),
      RibbonInv.mk (fun _ h => (List.not_mem_nil _ h).elim) List.chain'_nil
        (fun _ h => by simp at h)⟩
    (by
      show ((s.line1PointIndex - 1) + (s.line2PointIndex - 1)).toNat ≤ _
      have := hc.pos1
      have := hc.pos2
      have hn1 : c.numberOfPointsInLine1 = l1.length := by rw [hc.len1, hl1]
      have hn2 : c.numberOfPointsInLine2 = l2.length := by rw [hc.len2, hl2]
      rw [hidx1, hidx2]
      split <;> omega)
  refine ⟨c, new, hcin, ?_, hrib.shape, ?_⟩
  · have hne : ¬ (l1.length = 0 ∨ l2.length = 0) := by omega
    simp only [TriangulateContours, hne, if_false, hcin, hs, hs', Option.some_bind,
      Option.map_some', hnew]
  · rw [← hl1, ← hl2]
    exact hrib.chain

/-- On simple chains that share no id, a triangle of the ribbon has three
different vertices. -/
theorem RibbonTriangle.distinct (c : BridgeInput) (hc : c.WF) (hanch : c.Anchored)
    (hs1 : SimpleChain c.pointsInLine1) (hs2 : SimpleChain c.pointsInLine2)
    (hdisj : ∀ a ∈ c.pointsInLine1, a ∉ c.pointsInLine2)
    (hn1 : 2 ≤ c.pointsInLine1.length) (hn2 : 2 ≤ c.pointsInLine2.length)
    (tri : Triangle) (h : RibbonTriangle c tri) : tri.Distinct := by
  obtain ⟨p1, p2, hp1, hp2, e1, e2, e3⟩ := h
  have hmem : ∀ (l : List Nat) (p : Int), InRange l.length p → idAt l p ∈ l := by
    intro l p hp
    obtain ⟨id, hid, _⟩ := GetId_of_inRange l p hp
    rw [idAt_of_GetId _ _ _ hid]
    exact readAt_mem l p id hid
  have hr1 : InRange c.pointsInLine1.length p1 := by rw [← hc.len1]; exact hp1
  have hr2 : InRange c.pointsInLine2.length p2 := by rw [← hc.len2]; exact hp2
  have m1 := hmem _ _ hr1
  have m2 := hmem _ _ hr2
  have hpos1 : 0 < c.numberOfPointsInLine1 := hc.pos1
  have hpos2 : 0 < c.numberOfPointsInLine2 := hc.pos2
  refine ⟨?_, ?_, ?_⟩
  · rw [e1, e2]
    intro heq
    exact hdisj _ m1 (heq ▸ m2)
  · rcases e3 with e3 | e3
    · rw [e2, e3, hanch.closed2, hc.len2]
      exact simple_previous_ne _ hs2 hn2 p2 hr2
    · rw [e2, e3]
      intro heq
      have hprev : InRange c.pointsInLine1.length
          (GetPreviousLocation p1 c.numberOfPointsInLine1 c.line1Closed) := by
        rw [hc.len1]
        exact GetPreviousLocation_inRange _ _ _ (by exact_mod_cast hn1) hr1
      exact hdisj _ (hmem _ _ hprev) (heq ▸ m2)
  · rcases e3 with e3 | e3
    · rw [e1, e3]
      intro heq
      have hprev : InRange c.pointsInLine2.length
          (GetPreviousLocation p2 c.numberOfPointsInLine2 c.line2Closed) := by
        rw [hc.len2]
        exact GetPreviousLocation_inRange _ _ _ (by exact_mod_cast hn2) hr2
      exact hdisj _ m1 (heq ▸ hmem _ _ hprev)
    · rw [e1, e3, hanch.closed1, hc.len1]
      exact (simple_previous_ne _ hs1 hn1 p1 hr1).symm

/-! ## Facts about `Branch` -/

/-- Partial-correctness rule for a counted loop with an invariant that
depends on the loop variable. -/
theorem forLoop_some_ind {σ : Type} (body : Int → σ → Option σ) (P : Int → σ → Prop)
    (count : Nat) (start : Int)
    (hstep : ∀ i s s', start ≤ i → i < start + count → P i s → body i s = some s' →
      P (i + 1) s')
    (s s' : σ) (h0 : P start s) (h : forLoop body count start s = some s') :
    P (start + count) s' := by
  induction count generalizing start s with
  | zero =>
    have hs : s = s' := Option.some.inj h
    rw [← hs]
    simpa using h0
  | succ k ih =>
    simp only [forLoop, Option.bind_eq_some] at h
    obtain ⟨s1, hb, hl⟩ := h
    have := ih (start + 1)
      (fun i t t' h1 h2 hp hbody => hstep i t t' (by omega) (by push_cast; omega) hp hbody)
      s1 (hstep start s s1 (le_refl _) (by push_cast; omega) h0 hb) hl
    have e : start + ((k + 1 : Nat) : Int) = start + 1 + (k : Int) := by push_cast; ring
    rw [e]
    exact this

theorem keptPositions_succ (assign : Nat → Option Int) (target : Int) (k : Nat) :
    keptPositions assign target (k + 1) =
      keptPositions assign target k ++ (if Kept assign target k = true then [k] else []) := by
  unfold keptPositions
  rw [List.range_succ, List.filter_append]
  congr 1
  by_cases h : Kept assign target k = true
  · simp [h]
  · simp [h]

theorem idsAt_append_singleton (line : List Nat) (positions : List Nat) (k : Nat) :
    idsAt line (positions ++ [k]) = idsAt line positions ++ [idAt line (k : Int)] := by
  simp [idsAt]

theorem Branch.body_step (points : PointSet) (branchingLine : List Nat) (target : Int)
    (overlappingLines : List Int) (pointLocators : List (List Point))
    (lineIdLists : List (List Nat)) (k : Nat) (s s' : DivideState)
    (hinv : DivideInv
      (assignedBranch points branchingLine overlappingLines pointLocators lineIdLists)
      branchingLine target k s)
    (h : Branch.body points branchingLine target overlappingLines pointLocators lineIdLists k s =
      some s') :
    DivideInv (assignedBranch points branchingLine overlappingLines pointLocators lineIdLists)
      branchingLine target (k + 1) s' := by
  simp only [Branch.body, Option.bind_eq_some] at h
  obtain ⟨id, hid, closest, hclosest, hs'⟩ := h
  have hidk : idAt branchingLine (k : Int) = id := idAt_of_GetId _ _ _ hid
  have hassign : assignedBranch points branchingLine overlappingLines pointLocators lineIdLists k =
      some closest := by
    unfold assignedBranch
    rw [hidk]
    exact hclosest
  have hall : ∀ p < k + 1, ∃ r,
      assignedBranch points branchingLine overlappingLines pointLocators lineIdLists p =
        some r := by
    intro p hp
    by_cases hpk : p = k
    · rw [hpk]; exact ⟨closest, hassign⟩
    · exact hinv.assigned p (by omega)
  have hprev' : ∀ b : Bool, b = decide (closest = target) →
      b = (decide (0 < k + 1) &&
        decide (assignedBranch points branchingLine overlappingLines pointLocators lineIdLists
          (k + 1 - 1) = some target)) := by
    intro b hb
    rw [Nat.add_sub_cancel, hassign, hb]
    simp
  by_cases hct : closest = target
  · rw [if_pos hct] at hs'
    rw [← Option.some.inj hs']
    refine ⟨hall, ?_, hprev' true (by simp [hct])⟩
    have hk : Kept (assignedBranch points branchingLine overlappingLines pointLocators
        lineIdLists) target k = true := by
      simp [Kept, hassign, hct]
    show s.outputLinePointIds ++ [id] = _
    rw [keptPositions_succ, if_pos hk, idsAt_append_singleton, hinv.out, hidk]
  · rw [if_neg hct] at hs'
    by_cases hp : s.prev = true
    · rw [if_pos hp] at hs'
      rw [← Option.some.inj hs']
      refine ⟨hall, ?_, hprev' false (by simp [hct])⟩
      have hk : Kept (assignedBranch points branchingLine overlappingLines pointLocators
          lineIdLists) target k = true := by
        have := hinv.prev
        rw [hp] at this
        simp only [Kept, Bool.or_eq_true]
        exact Or.inr this.symm
      show s.outputLinePointIds ++ [id] = _
      rw [keptPositions_succ, if_pos hk, idsAt_append_singleton, hinv.out, hidk]
    · rw [if_neg hp] at hs'
      rw [← Option.some.inj hs']
      refine ⟨hall, ?_, hprev' false (by simp [hct])⟩
      have hk : ¬ Kept (assignedBranch points branchingLine overlappingLines pointLocators
          lineIdLists) target k = true := by
        have := hinv.prev
        simp only [Kept, Bool.or_eq_true, not_or]
        refine ⟨by simp [hassign, hct], ?_⟩
        rw [← this]
        exact hp
      show s.outputLinePointIds = _
      rw [keptPositions_succ, if_neg hk, List.append_nil, hinv.out]

/-- When the loop of `Branch` returns, every point of the branching line has
been assigned a partner and the divided chain lists the ids at the kept
positions, in ascending order of position. -/
theorem Branch.divide_spec (points : PointSet) (branchingLine : List Nat) (target : Int)
    (overlappingLines : List Int) (pointLocators : List (List Point))
    (lineIdLists : List (List Nat)) (core : List Nat)
    (h : Branch.divide points branchingLine target overlappingLines pointLocators lineIdLists =
      some core) :
    (∀ p < branchingLine.length, ∃ r,
      assignedBranch points branchingLine overlappingLines pointLocators lineIdLists p =
        some r) ∧
    core = idsAt branchingLine (keptPositions
      (assignedBranch points branchingLine overlappingLines pointLocators lineIdLists) target
      branchingLine.length) := by
  simp only [Branch.divide, Option.map_eq_some'] at h
  obtain ⟨s, hloop, hs⟩ := h
  have := forLoop_some_ind
    (Branch.body points branchingLine target overlappingLines pointLocators lineIdLists)
    (fun i t => ∃ k : Nat, i = (k : Int) ∧ DivideInv
      (assignedBranch points branchingLine overlappingLines pointLocators lineIdLists)
      branchingLine target k t)
    branchingLine.length 0
    (by
      intro i t t' hi1 _ hP hbody
      obtain ⟨k, hk, hinv⟩ := hP
      subst hk
      exact ⟨k + 1, by push_cast; rfl, Branch.body_step _ _ _ _ _ _ k t t' hinv hbody⟩)
    ⟨false, []⟩ s
    ⟨0, rfl, ⟨fun p hp => by omega, rfl, rfl⟩⟩ hloop
  obtain ⟨k, hk, hinv⟩ := this
  have hkn : k = branchingLine.length := by omega
  subst hkn
  exact ⟨hinv.assigned, by rw [← hs]; exact hinv.out⟩

theorem mem_keptPositions (assign : Nat → Option Int) (target : Int) (n p : Nat) :
    p ∈ keptPositions assign target n ↔
      p < n ∧ (assign p = some target ∨ (0 < p ∧ assign (p - 1) = some target)) := by
  simp [keptPositions, Kept]

theorem keptPositions_sublist (assign : Nat → Option Int) (target : Int) (n : Nat) :
    (keptPositions assign target n).Sublist (List.range n) :=
  List.filter_sublist _

theorem idsAt_range (line : List Nat) : idsAt line (List.range line.length) = line := by
  apply List.ext_getElem
  · simp [idsAt]
  · intro i h1 h2
    simp only [idsAt, List.getElem_map, List.getElem_range]
    exact idAt_natCast line i h2

/-- The ids at the kept positions are listed in the walking order of the
line. -/
theorem idsAt_keptPositions_sublist (assign : Nat → Option Int) (target : Int)
    (line : List Nat) :
    (idsAt line (keptPositions assign target line.length)).Sublist line := by
  have h := (keptPositions_sublist assign target line.length).map
    (fun (p : Nat) => idAt line (p : Int))
  have e := idsAt_range line
  unfold idsAt at e
  rw [e] at h
  exact h

theorem closingIds_cases (line core : List Nat) :
    closingIds line core = [] ∨
      (line.head? = line.getLast? ∧ ∃ first, core.head? = some first ∧
        core.getLast? ≠ some first ∧ closingIds line core = [first]) := by
  unfold closingIds
  split
  · rename_i h
    obtain ⟨hlen, hcl, hends⟩ := h
    cases hcore : core with
    | nil => rw [hcore] at hlen; simp at hlen
    | cons x rest =>
      rw [hcore] at hends
      exact Or.inr ⟨hcl, x, rfl, fun h => hends (by rw [h]; rfl), rfl⟩
  · exact Or.inl rfl

/-- With several partners, `Branch` returns the divided chain of its loop
followed by the id of the closing test. -/
theorem Branch_of_divide (points : PointSet) (branchingLine : List Nat) (target : Int)
    (overlappingLines : List Int) (pointLocators : List (List Point))
    (lineIdLists : List (List Nat)) (core : List Nat) (hov : overlappingLines.length ≠ 1)
    (h : Branch.divide points branchingLine target overlappingLines pointLocators lineIdLists =
      some core) :
    Branch points branchingLine target overlappingLines pointLocators lineIdLists =
      some (core ++ closingIds branchingLine core) := by
  obtain ⟨_, hcore⟩ := Branch.divide_spec _ _ _ _ _ _ _ h
  simp only [Branch.divide, Option.map_eq_some'] at h
  obtain ⟨s, hloop, hs⟩ := h
  simp only [Branch, if_neg hov, hloop, Option.some_bind, hs]
  by_cases hlen : core.length > 1
  · have hsub := idsAt_keptPositions_sublist
      (assignedBranch points branchingLine overlappingLines pointLocators lineIdLists) target
      branchingLine
    rw [← hcore] at hsub
    have hn : 1 < branchingLine.length := lt_of_lt_of_le hlen hsub.length_le
    have hne : branchingLine ≠ [] := by intro h0; rw [h0] at hn; simp at hn
    have hcne : core ≠ [] := by intro h0; rw [h0] at hlen; simp at hlen
    obtain ⟨x, hx⟩ := Option.isSome_iff_exists.mp
      (by rw [List.head?_isSome]; exact hne : branchingLine.head?.isSome)
    obtain ⟨y, hy⟩ := Option.isSome_iff_exists.mp
      (by rw [List.getLast?_isSome]; exact hne : branchingLine.getLast?.isSome)
    obtain ⟨u, hu⟩ := Option.isSome_iff_exists.mp
      (by rw [List.head?_isSome]; exact hcne : core.head?.isSome)
    obtain ⟨v, hv⟩ := Option.isSome_iff_exists.mp
      (by rw [List.getLast?_isSome]; exact hcne : core.getLast?.isSome)
    rw [if_pos hlen, GetId_zero, GetId_last _ hne, GetId_zero, GetId_last _ hcne, hx, hy, hu, hv]
    simp only [Option.some_bind]
    unfold closingIds
    rw [hx, hy, hu, hv]
    by_cases hc : x = y ∧ u ≠ v
    · rw [if_pos hc, if_pos ⟨hlen, by rw [hc.1], fun h => hc.2 (Option.some.inj h)⟩]
      rfl
    · rw [if_neg hc, if_neg (fun h => hc ⟨Option.some.inj h.2.1, fun huv => h.2.2 (by rw [huv])⟩),
        List.append_nil]
  · rw [if_neg hlen]
    unfold closingIds
    rw [if_neg (fun h => hlen h.1), List.append_nil]

/-- With several partners, a call of `Branch` that returns has run the
dividing loop, and its result is the divided chain followed by the id of the
closing test. -/
theorem Branch_some (points : PointSet) (branchingLine : List Nat) (target : Int)
    (overlappingLines : List Int) (pointLocators : List (List Point))
    (lineIdLists : List (List Nat)) (out : List Nat) (hov : overlappingLines.length ≠ 1)
    (h : Branch points branchingLine target overlappingLines pointLocators lineIdLists =
      some out) :
    ∃ core, Branch.divide points branchingLine target overlappingLines pointLocators
        lineIdLists = some core ∧ out = core ++ closingIds branchingLine core := by
  cases hd : Branch.divide points branchingLine target overlappingLines pointLocators
      lineIdLists with
  | none =>
    simp only [Branch.divide, Option.map_eq_none'] at hd
    simp only [Branch, if_neg hov, hd, Option.none_bind] at h
    cases h
  | some core =>
    rw [Branch_of_divide _ _ _ _ _ _ core hov hd] at h
    exact ⟨core, rfl, (Option.some.inj h).symm⟩

/-- The partner that `GetClosestBranch` returns is one of the overlapping
lines. -/
theorem GetClosestBranch_mem (points : PointSet) (originalPoint : Point)
    (overlappingLines : List Int) (pointLocators : List (List Point))
    (lineIdLists : List (List Nat)) (r : Int)
    (h : GetClosestBranch points originalPoint overlappingLines pointLocators lineIdLists =
      some r) : r ∈ overlappingLines := by
  simp only [GetClosestBranch, Option.bind_eq_some] at h
  obtain ⟨first, hfirst, hrest⟩ := h
  have hmem : first ∈ overlappingLines := readAt_mem _ _ _ hfirst
  by_cases hlen : overlappingLines.length = 1
  · rw [if_pos hlen] at hrest
    rw [← Option.some.inj hrest]
    exact hmem
  · rw [if_neg hlen] at hrest
    simp only [Option.map_eq_some'] at hrest
    obtain ⟨s, hloop, hs⟩ := hrest
    rw [← hs]
    refine forLoop_some_inv _ (fun t : BranchState => t.closestLineIndex ∈ overlappingLines)
      _ 0 ?_ _ s hmem hloop
    intro i t t' _ _ ht hbody
    simp only [GetClosestBranch.body, Option.bind_eq_some] at hbody
    obtain ⟨locator, _, idl, _, id, _, hif⟩ := hbody
    split at hif
    · simp only [Option.bind_eq_some] at hif
      obtain ⟨line, hline, ht'⟩ := hif
      rw [← Option.some.inj ht']
      exact readAt_mem _ _ _ hline
    · rw [← Option.some.inj hif]
      exact ht

/-! ## Facts about the point set -/

theorem Extends.refl (points : PointSet) : Extends points points := ⟨[], by simp⟩

theorem Extends.trans {a b c : PointSet} (h1 : Extends a b) (h2 : Extends b c) :
    Extends a c := by
  obtain ⟨x, hx⟩ := h1
  obtain ⟨y, hy⟩ := h2
  exact ⟨x ++ y, by rw [hy, hx, List.append_assoc]⟩

theorem Extends.length_le {a b : PointSet} (h : Extends a b) : a.length ≤ b.length := by
  obtain ⟨x, hx⟩ := h
  rw [hx, List.length_append]
  omega

/-- Partial-correctness rule for a fold that may fault. -/
theorem foldlM_some_inv {α β : Type} (f : β → α → Option β) (P : β → Prop)
    (hstep : ∀ b a b', P b → f b a = some b' → P b') (l : List α) (b b' : β) (h0 : P b)
    (h : l.foldlM f b = some b') : P b' := by
  induction l generalizing b with
  | nil =>
    have hb : b = b' := Option.some.inj h
    rw [← hb]
    exact h0
  | cons a rest ih =>
    rw [List.foldlM_cons] at h
    cases hf : f b a with
    | none => rw [hf] at h; cases h
    | some b1 =>
      rw [hf] at h
      exact ih b1 (hstep b a b1 h0 hf) h

/-- The loop that copies an outline appends points, and the ids it collects
refer to the points it appended. -/
theorem copyLoop_spec (outlinePoints : Nat → Option Point) (lineSpacing : ℚ) (count : Nat)
    (base : PointSet) (o : OutlineState)
    (h : forLoop (copyPointBody outlinePoints lineSpacing) count 0 ⟨base, []⟩ = some o) :
    Extends base o.points ∧
      ∀ id ∈ o.outputLinePointIds, base.length ≤ id ∧ id < o.points.length := by
  refine forLoop_some_inv (copyPointBody outlinePoints lineSpacing)
    (fun t => Extends base t.points ∧
      ∀ id ∈ t.outputLinePointIds, base.length ≤ id ∧ id < t.points.length)
    count 0 ?_ _ o ⟨Extends.refl base, fun id hid => by cases hid⟩ h
  intro i t t' _ _ ht hbody
  simp only [copyPointBody, Option.bind_eq_some] at hbody
  obtain ⟨p, _, ht'⟩ := hbody
  rw [← Option.some.inj ht']
  obtain ⟨hext, hids⟩ := ht
  have hlen := hext.length_le
  refine ⟨hext.trans ⟨[_], rfl⟩, ?_⟩
  intro id hid
  show base.length ≤ id ∧ id < (t.points ++ [_]).length
  rw [List.length_append, List.length_singleton]
  rcases List.mem_append.mp hid with hold | hnew
  · have := hids id hold
    omega
  · have : id = t.points.length := by simpa using hnew
    omega

theorem externalLineOfContour_spec (line : PolyData) (lineSpacing : ℚ)
    (s s' : PointSet × List (List Nat)) (l : List Nat)
    (h : externalLineOfContour line lineSpacing s l = some s') :
    Extends s.1 s'.1 ∧ ∃ newLine, s'.2 = s.2 ++ [newLine] ∧
      ∀ id ∈ newLine, s.1.length ≤ id ∧ id < s'.1.length := by
  simp only [externalLineOfContour, Option.bind_eq_some] at h
  obtain ⟨o, hloop, first, hfirst, last, _, hres⟩ := h
  obtain ⟨hext, hids⟩ := copyLoop_spec _ _ _ _ _ hloop
  have hfirstmem : first ∈ o.outputLinePointIds := readAt_mem _ _ _ hfirst
  split at hres
  · rw [← Option.some.inj hres]
    refine ⟨hext, _, rfl, ?_⟩
    intro id hid
    rcases List.mem_append.mp hid with hold | hnew
    · exact hids id hold
    · have : id = first := by simpa using hnew
      rw [this]
      exact hids first hfirstmem
  · rw [← Option.some.inj hres]
    exact ⟨hext, _, rfl, hids⟩

/-- The points that `CreateExternalLine` leaves are the points it was given
followed by the points it inserted, and every id of the external lines refers
to an inserted point. -/
theorem CreateExternalLine_spec (lib : External) (points : PointSet) (inputLine : List Nat)
    (lineSpacing : ℚ) (r : PointSet × List (List Nat))
    (h : CreateExternalLine lib points inputLine lineSpacing = some r) :
    Extends points r.1 ∧ RefersToAppended points r.1 r.2 := by
  unfold CreateExternalLine at h
  simp only at h
  split at h
  · refine foldlM_some_inv (externalLineOfContour (lib.contourLines points inputLine) lineSpacing)
      (fun s => Extends points s.1 ∧ RefersToAppended points s.1 s.2) ?_ _ (points, []) r
      ⟨Extends.refl points, fun l hl => by cases hl⟩ h
    intro s l s' hs hstep
    obtain ⟨hext, newLine, hlines, hids⟩ := externalLineOfContour_spec _ _ _ _ _ hstep
    obtain ⟨hext0, href⟩ := hs
    have hlen0 := hext0.length_le
    have hlen := hext.length_le
    refine ⟨hext0.trans hext, ?_⟩
    intro l' hl' id hid
    rw [hlines] at hl'
    rcases List.mem_append.mp hl' with hold | hnew
    · have := href l' hold id hid
      omega
    · have hl'' : l' = newLine := by simpa using hnew
      rw [hl''] at hid
      have := hids id hid
      omega
  · simp only [Option.bind_eq_some] at h
    obtain ⟨o, hloop, first, hfirst, hres⟩ := h
    obtain ⟨hext, hids⟩ := copyLoop_spec _ _ _ _ _ hloop
    have hfirstmem : first ∈ o.outputLinePointIds := readAt_mem _ _ _ hfirst
    rw [← Option.some.inj hres]
    refine ⟨hext, ?_⟩
    intro l hl id hid
    have hl' : l = o.outputLinePointIds ++ [first] := by simpa using hl
    rw [hl'] at hid
    rcases List.mem_append.mp hid with hold | hnew
    · exact hids id hold
    · have : id = first := by simpa using hnew
      rw [this]
      exact hids first hfirstmem

/-- A capping step only appends points. -/
theorem capSide_points (lib : External) (currentLine : List Nat) (currentLineIndex : Int)
    (lineSpacing : ℚ) (normalsUp : Bool) (s s' : SealState)
    (h : capSide lib currentLine currentLineIndex lineSpacing normalsUp s = some s') :
    Extends s.input.points s'.input.points := by
  simp only [capSide, Option.bind_eq_some] at h
  obtain ⟨created, hcreated, s1, hloop1, s2, hloop2, hs'⟩ := h
  obtain ⟨hext, _⟩ := CreateExternalLine_spec _ _ _ _ _ hcreated
  have h1 : s1.input.points = created.1 :=
    forLoop_some_inv (capInsertBody lib created.2 normalsUp)
      (fun t : CapState => t.input.points = created.1) _ 0
      (by
        intro i t t' _ _ ht hbody
        simp only [capInsertBody, Option.bind_eq_some] at hbody
        obtain ⟨lineIdList, _, polys, _, ht'⟩ := hbody
        rw [← Option.some.inj ht']
        exact ht)
      _ s1 rfl hloop1
  have h2 : s2.input.points = created.1 :=
    forLoop_some_inv (capBridgeBody currentLine normalsUp)
      (fun t : CapState => t.input.points = created.1) _ 0
      (by
        intro i t t' _ _ ht hbody
        simp only [capBridgeBody, Option.bind_eq_some] at hbody
        obtain ⟨divided, _, idList, _, polys, _, ht'⟩ := hbody
        rw [← Option.some.inj ht']
        exact ht)
      _ s2 h1 hloop2
  rw [← Option.some.inj hs']
  show Extends s.input.points s2.input.points
  rw [h2]
  exact hext

/-- The sealer only appends points. -/
theorem SealMesh_points (lib : External) (input : PolyData) (inputLines : List (List Nat))
    (outputPolygons : List Triangle) (above below : List Bool) (r : SealState)
    (h : SealMesh lib input inputLines outputPolygons above below = some r) :
    Extends input.points r.input.points := by
  simp only [SealMesh, Option.bind_eq_some] at h
  obtain ⟨lineSpacing, _, hloop⟩ := h
  refine forLoop_some_inv (SealMesh.body lib lineSpacing above below)
    (fun t => Extends input.points t.input.points) inputLines.length 0 ?_ _ r
    (Extends.refl _) hloop
  intro i t t' _ _ ht hbody
  simp only [SealMesh.body, Option.bind_eq_some] at hbody
  obtain ⟨currentLine, _, a, _, s1, h1, b, _, h2⟩ := hbody
  have hs1 : Extends input.points s1.input.points := by
    by_cases ha : a = false
    · rw [if_pos ha] at h1
      exact ht.trans (capSide_points _ _ _ _ _ _ _ h1)
    · rw [if_neg ha] at h1
      rw [← Option.some.inj h1]
      exact ht
  by_cases hb : b = false
  · rw [if_pos hb] at h2
    exact hs1.trans (capSide_points _ _ _ _ _ _ _ h2)
  · rw [if_neg hb] at h2
    rw [← Option.some.inj h2]
    exact hs1

/-- The conversion only appends points to the points of its source. -/
theorem Convert_points (lib : External) (source : PolyData) (r : PointSet × List Triangle)
    (h : Convert lib source = some r) : Extends source.points r.1 := by
  simp only [Convert, Option.map_eq_some'] at h
  obtain ⟨st, hstages, hr⟩ := h
  simp only [convertStages, Option.bind_eq_some] at hstages
  obtain ⟨input, hnorm, s, _, closed, hseal, hst⟩ := hstages
  simp only [normalize, Option.bind_eq_some] at hnorm
  obtain ⟨repaired, _, hinput⟩ := hnorm
  have hpoints : input.points = source.points := by
    rw [← Option.some.inj hinput]
  have := SealMesh_points _ _ _ _ _ _ _ hseal
  rw [hpoints] at this
  rw [← hr, ← Option.some.inj hst]
  exact this

/-! ## Facts about the bridge flags -/

theorem writeAt_spec {α : Type} (v v' : List α) (i : Int) (x : α)
    (h : writeAt v i x = some v') :
    v'.length = v.length ∧ readAt v' i = some x ∧ ∀ j, j ≠ i → readAt v' j = readAt v j := by
  unfold writeAt at h
  split at h
  · rename_i hi
    rw [← Option.some.inj h]
    have hlt : i.toNat < v.length := by omega
    refine ⟨by simp, ?_, ?_⟩
    · simp [readAt, hi.1, hlt]
    · intro j hj
      by_cases hj0 : 0 ≤ j
      · have hne : i.toNat ≠ j.toNat := by omega
        simp [readAt, hj0, List.getElem?_set, hne]
      · simp [readAt, hj0]
  · cases h

theorem FlagsInv.of_iff {n : Nat} {above below : List Bool} {R R' : Int → Int → Prop}
    (h : FlagsInv n above below R) (hR : ∀ a b, R a b ↔ R' a b) :
    FlagsInv n above below R' :=
  ⟨h.lenAbove, h.lenBelow,
    fun l => (h.above_iff l).trans ⟨fun ⟨b, hb⟩ => ⟨b, (hR l b).mp hb⟩,
      fun ⟨b, hb⟩ => ⟨b, (hR l b).mpr hb⟩⟩,
    fun l => (h.below_iff l).trans ⟨fun ⟨a, ha⟩ => ⟨a, (hR a l).mp ha⟩,
      fun ⟨a, ha⟩ => ⟨a, (hR a l).mpr ha⟩⟩⟩

/-- Marking a pair of lines adds the pair to the marked relation. -/
theorem FlagsInv.mark {n : Nat} {above below above' below' : List Bool}
    {R : Int → Int → Prop} (h : FlagsInv n above below R) (l l2 : Int)
    (ha : writeAt above l true = some above') (hb : writeAt below l2 true = some below') :
    FlagsInv n above' below' (fun a b => R a b ∨ (a = l ∧ b = l2)) := by
  obtain ⟨ha1, ha2, ha3⟩ := writeAt_spec _ _ _ _ ha
  obtain ⟨hb1, hb2, hb3⟩ := writeAt_spec _ _ _ _ hb
  refine ⟨by rw [ha1, h.lenAbove], by rw [hb1, h.lenBelow], ?_, ?_⟩
  · intro a
    by_cases hal : a = l
    · rw [hal, ha2]
      exact ⟨fun _ => ⟨l2, Or.inr ⟨rfl, rfl⟩⟩, fun _ => rfl⟩
    · rw [ha3 a hal, h.above_iff a]
      constructor
      · rintro ⟨b, hb⟩
        exact ⟨b, Or.inl hb⟩
      · rintro ⟨b, hb | ⟨hb, _⟩⟩
        · exact ⟨b, hb⟩
        · exact absurd hb hal
  · intro b
    by_cases hbl : b = l2
    · rw [hbl, hb2]
      exact ⟨fun _ => ⟨l, Or.inr ⟨rfl, rfl⟩⟩, fun _ => rfl⟩
    · rw [hb3 b hbl, h.below_iff b]
      constructor
      · rintro ⟨a, ha⟩
        exact ⟨a, Or.inl ha⟩
      · rintro ⟨a, ha | ⟨_, ha⟩⟩
        · exact ⟨a, ha⟩
        · exact absurd ha hbl

/-- The body of the loop over the overlaps of `line1` divides the two
chains, and only when both have more than one point does it mark the two
lines and bridge the chains; otherwise it leaves the state as it is. -/
theorem bridgeOverlapBody_eq (input : PolyData) (firstLineOnPlane2Index : Int) (o : Overlaps)
    (line1 : List Nat) (line1Index : Int) (overlaps1 : List Int) (overlapIndex : Int)
    (s : ConvertState) :
    bridgeOverlapBody input firstLineOnPlane2Index o line1 line1Index overlaps1 overlapIndex s =
      (dividedChains input firstLineOnPlane2Index o line1 line1Index overlaps1
        overlapIndex).bind fun r =>
        if r.2.1.length > 1 ∧ r.2.2.length > 1 then
          (writeAt s.lineTriganulatedToAbove line1Index true).bind fun above =>
          (writeAt s.lineTriganulatedToBelow r.1 true).bind fun below =>
          (TriangulateContours input.points r.2.1 r.2.2 s.outputPolygons).bind fun polys =>
          some { s with
            lineTriganulatedToAbove := above
            lineTriganulatedToBelow := below
            outputPolygons := polys }
        else some s := by
  simp only [bridgeOverlapBody, dividedChains, Option.bind_assoc, Option.some_bind]

/-- One attempt of the loop over the overlaps of line `l`: the flags mark
one pair more when the attempt bridges, and the plane indices are left as they
are. -/
theorem bridgeOverlapBody_flags (input : PolyData) (f1 f2 : Int) (o : Overlaps)
    (line1 : List Nat) (l k : Int) (s s' : ConvertState) (n : Nat) (R : Int → Int → Prop)
    (hline : readAt input.lines l = some line1)
    (h : bridgeOverlapBody input f2 o line1 l (rowAt o.plane1Overlaps (l - f1)) k s = some s')
    (hinv : FlagsInv n s.lineTriganulatedToAbove s.lineTriganulatedToBelow R) :
    FlagsInv n s'.lineTriganulatedToAbove s'.lineTriganulatedToBelow
        (fun a b => R a b ∨ (a = l ∧ BridgedAt input f1 f2 o l b k)) ∧
      s'.firstLineOnPlane1Index = s.firstLineOnPlane1Index ∧
      s'.numberOfLinesInPlane1 = s.numberOfLinesInPlane1 := by
  rw [bridgeOverlapBody_eq] at h
  simp only [Option.bind_eq_some] at h
  obtain ⟨r, hr, hif⟩ := h
  by_cases hlen : r.2.1.length > 1 ∧ r.2.2.length > 1
  · rw [if_pos hlen] at hif
    simp only [Option.bind_eq_some] at hif
    obtain ⟨above, ha, below, hb, polys, _, hs'⟩ := hif
    rw [← Option.some.inj hs']
    refine ⟨(hinv.mark l r.1 ha hb).of_iff ?_, rfl, rfl⟩
    intro a b
    constructor
    · rintro (h | ⟨h1, h2⟩)
      · exact Or.inl h
      · exact Or.inr ⟨h1, line1, r, hline, hr, h2.symm, hlen.1, hlen.2⟩
    · rintro (h | ⟨h1, line1', r', hline', hr', h2, _, _⟩)
      · exact Or.inl h
      · have hl : line1' = line1 := Option.some.inj (hline'.symm.trans hline)
        rw [hl, hr] at hr'
        have hrr : r = r' := Option.some.inj hr'
        exact Or.inr ⟨h1, by rw [← h2, hrr]⟩
  · rw [if_neg hlen] at hif
    rw [← Option.some.inj hif]
    refine ⟨hinv.of_iff ?_, rfl, rfl⟩
    intro a b
    constructor
    · exact fun h => Or.inl h
    · rintro (h | ⟨_, line1', r', hline', hr', _, h1, h2⟩)
      · exact h
      · have hl : line1' = line1 := Option.some.inj (hline'.symm.trans hline)
        rw [hl, hr] at hr'
        have hrr : r = r' := Option.some.inj hr'
        rw [← hrr] at h1 h2
        exact absurd ⟨h1, h2⟩ hlen

/-- The attempts of line `l` that bridge it to `l2`, among the first `k`
positions of its overlap list. -/
theorem bridgeLineBody_flags (input : PolyData) (f1 f2 : Int) (o : Overlaps) (l : Int)
    (s s' : ConvertState) (n : Nat) (R : Int → Int → Prop)
    (h : bridgeLineBody input f1 f2 o l s = some s')
    (hinv : FlagsInv n s.lineTriganulatedToAbove s.lineTriganulatedToBelow R) :
    FlagsInv n s'.lineTriganulatedToAbove s'.lineTriganulatedToBelow
        (fun a b => R a b ∨ (a = l ∧ ∃ k : Int, 0 ≤ k ∧
          k < ((rowAt o.plane1Overlaps (l - f1)).length : Int) ∧
          BridgedAt input f1 f2 o l b k)) ∧
      s'.firstLineOnPlane1Index = s.firstLineOnPlane1Index ∧
      s'.numberOfLinesInPlane1 = s.numberOfLinesInPlane1 := by
  simp only [bridgeLineBody, Option.bind_eq_some] at h
  obtain ⟨line1, hline, overlaps1, hov, hloop⟩ := h
  have hrow : rowAt o.plane1Overlaps (l - f1) = overlaps1 := by
    simp [rowAt, hov]
  rw [← hrow] at hloop
  have := forLoop_some_ind
    (bridgeOverlapBody input f2 o line1 l (rowAt o.plane1Overlaps (l - f1)))
    (fun k t => FlagsInv n t.lineTriganulatedToAbove t.lineTriganulatedToBelow
        (fun a b => R a b ∨ (a = l ∧ ∃ k', 0 ≤ k' ∧ k' < k ∧
          BridgedAt input f1 f2 o l b k')) ∧
      t.firstLineOnPlane1Index = s.firstLineOnPlane1Index ∧
      t.numberOfLinesInPlane1 = s.numberOfLinesInPlane1)
    (rowAt o.plane1Overlaps (l - f1)).length 0
    (by
      intro k t t' hk0 hk1 hP hbody
      obtain ⟨hflags, hf, hm⟩ := hP
      obtain ⟨hflags', hf', hm'⟩ :=
        bridgeOverlapBody_flags input f1 f2 o line1 l k t t' n _ hline hbody hflags
      refine ⟨hflags'.of_iff ?_, hf'.trans hf, hm'.trans hm⟩
      intro a b
      constructor
      · rintro ((h | ⟨h1, k', hk', hk'', hb⟩) | ⟨h1, hb⟩)
        · exact Or.inl h
        · exact Or.inr ⟨h1, k', hk', by omega, hb⟩
        · exact Or.inr ⟨h1, k, hk0, by omega, hb⟩
      · rintro (h | ⟨h1, k', hk', hk'', hb⟩)
        · exact Or.inl (Or.inl h)
        · by_cases hkk : k' = k
          · rw [hkk] at hb
            exact Or.inr ⟨h1, hb⟩
          · exact Or.inl (Or.inr ⟨h1, k', hk', by omega, hb⟩))
    s s'
    ⟨hinv.of_iff (fun a b => ⟨fun h => Or.inl h, fun h => by
        rcases h with h | ⟨_, k', hk', hk'', _⟩
        · exact h
        · omega⟩), rfl, rfl⟩
    hloop
  obtain ⟨hflags, hf, hm⟩ := this
  refine ⟨hflags.of_iff ?_, hf, hm⟩
  intro a b
  constructor
  · rintro (h | ⟨h1, k', hk', hk'', hb⟩)
    · exact Or.inl h
    · exact Or.inr ⟨h1, k', hk', by omega, hb⟩
  · rintro (h | ⟨h1, k', hk', hk'', hb⟩)
    · exact Or.inl h
    · exact Or.inr ⟨h1, k', hk', by omega, hb⟩

/-- Once the overlap lists of a pair of planes are known, the attempts that
bridge a line are the bridges of the pair. -/
theorem Bridged_iff (input : PolyData) (f1 n1 f2 n2 : Int) (o : Overlaps)
    (ho : fillOverlaps input f1 n1 f2 n2 = some o) (l l2 : Int) :
    Bridged input f1 n1 f2 n2 l l2 ↔
      ∃ k : Int, 0 ≤ k ∧ k < ((rowAt o.plane1Overlaps (l - f1)).length : Int) ∧
        BridgedAt input f1 f2 o l l2 k := by
  constructor
  · rintro ⟨o', k, ho', hk0, hk1, hb⟩
    have hoo : o' = o := Option.some.inj (ho'.symm.trans ho)
    rw [hoo] at hk1 hb
    exact ⟨k, hk0, hk1, hb⟩
  · rintro ⟨k, hk0, hk1, hb⟩
    exact ⟨o, k, ho, hk0, hk1, hb⟩

/-- One pair of consecutive planes: the flags mark the bridges of the pair
in addition, and the walk advances to the second plane. -/
theorem planePairBody_flags (input : PolyData) (numberOfLines : Int) (s s' : ConvertState)
    (n : Nat) (R : Int → Int → Prop) (hm : 0 ≤ s.numberOfLinesInPlane1)
    (h : planePairBody input numberOfLines s = some s')
    (hinv : FlagsInv n s.lineTriganulatedToAbove s.lineTriganulatedToBelow R) :
    ∃ n2, GetNumberOfLinesOnPlane input numberOfLines
        (s.firstLineOnPlane1Index + s.numberOfLinesInPlane1) = some n2 ∧
      s'.firstLineOnPlane1Index = s.firstLineOnPlane1Index + s.numberOfLinesInPlane1 ∧
      s'.numberOfLinesInPlane1 = n2 ∧
      FlagsInv n s'.lineTriganulatedToAbove s'.lineTriganulatedToBelow
        (fun a b => R a b ∨ (s.firstLineOnPlane1Index ≤ a ∧
          a < s.firstLineOnPlane1Index + s.numberOfLinesInPlane1 ∧
          Bridged input s.firstLineOnPlane1Index s.numberOfLinesInPlane1
            (s.firstLineOnPlane1Index + s.numberOfLinesInPlane1) n2 a b)) := by
  simp only [planePairBody, Option.bind_eq_some] at h
  obtain ⟨n2, hn2, o, ho, s1, hloop, hs'⟩ := h
  have := forLoop_some_ind
    (bridgeLineBody input s.firstLineOnPlane1Index
      (s.firstLineOnPlane1Index + s.numberOfLinesInPlane1) o)
    (fun l t => FlagsInv n t.lineTriganulatedToAbove t.lineTriganulatedToBelow
      (fun a b => R a b ∨ (s.firstLineOnPlane1Index ≤ a ∧ a < l ∧
        Bridged input s.firstLineOnPlane1Index s.numberOfLinesInPlane1
          (s.firstLineOnPlane1Index + s.numberOfLinesInPlane1) n2 a b)))
    s.numberOfLinesInPlane1.toNat s.firstLineOnPlane1Index
    (by
      intro l t t' hl0 hl1 hP hbody
      obtain ⟨hflags, _, _⟩ := bridgeLineBody_flags input _ _ o l t t' n _ hbody hP
      refine hflags.of_iff ?_
      intro a b
      constructor
      · rintro ((h | ⟨h1, h2, hb⟩) | ⟨h1, hb⟩)
        · exact Or.inl h
        · exact Or.inr ⟨h1, by omega, hb⟩
        · rw [h1]
          exact Or.inr ⟨hl0, by omega, (Bridged_iff input _ _ _ _ o ho l b).mpr hb⟩
      · rintro (h | ⟨h1, h2, hb⟩)
        · exact Or.inl (Or.inl h)
        · by_cases hal : a = l
          · rw [hal] at hb
            exact Or.inr ⟨hal, (Bridged_iff input _ _ _ _ o ho l b).mp hb⟩
          · exact Or.inl (Or.inr ⟨h1, by omega, hb⟩))
    s s1
    (hinv.of_iff (fun a b => ⟨fun h => Or.inl h, fun h => by
        rcases h with h | ⟨h1, h2, _⟩
        · exact h
        · omega⟩))
    hloop
  have hcast : s.firstLineOnPlane1Index + ((s.numberOfLinesInPlane1.toNat : Nat) : Int) =
      s.firstLineOnPlane1Index + s.numberOfLinesInPlane1 := by
    rw [Int.toNat_of_nonneg hm]
  rw [hcast] at this
  rw [← Option.some.inj hs']
  exact ⟨n2, hn2, rfl, rfl, this⟩

theorem GetNumberOfLinesOnPlane.loop_le (input : PolyData) (numberOfLines : Int) (lineZ : ℚ)
    (fuel : Nat) (currentLineIndex r : Int)
    (h : GetNumberOfLinesOnPlane.loop input numberOfLines lineZ fuel currentLineIndex = some r) :
    currentLineIndex ≤ r := by
  induction fuel generalizing currentLineIndex with
  | zero =>
    simp only [GetNumberOfLinesOnPlane.loop] at h
    split at h
    · cases h
    · rw [← Option.some.inj h]
  | succ k ih =>
    simp only [GetNumberOfLinesOnPlane.loop] at h
    split at h
    · simp only [Option.bind_eq_some] at h
      obtain ⟨line, _, hif⟩ := h
      split at hif
      · have := ih _ hif
        omega
      · rw [← Option.some.inj hif]
    · rw [← Option.some.inj h]

/-- A plane counted by `GetNumberOfLinesOnPlane` has at least one line. -/
theorem GetNumberOfLinesOnPlane_pos (input : PolyData) (numberOfLines originalLineIndex r : Int)
    (h : GetNumberOfLinesOnPlane input numberOfLines originalLineIndex = some r) : 1 ≤ r := by
  simp only [GetNumberOfLinesOnPlane, Option.bind_eq_some, Option.map_eq_some'] at h
  obtain ⟨line, _, cur, hloop, hr⟩ := h
  have := GetNumberOfLinesOnPlane.loop_le _ _ _ _ _ _ hloop
  omega

theorem pushAt_mem {α : Type} (v v' : List (List α)) (i : Int) (x : α)
    (h : pushAt v i x = some v') (j : Int) (y : α) (hy : y ∈ rowAt v' j) :
    y ∈ rowAt v j ∨ y = x := by
  simp only [pushAt, Option.bind_eq_some] at h
  obtain ⟨row, hrow, hw⟩ := h
  obtain ⟨_, hi, hother⟩ := writeAt_spec _ _ _ _ hw
  by_cases hji : j = i
  · rw [hji] at hy ⊢
    simp only [rowAt, hi, hrow, Option.getD_some] at hy ⊢
    rcases List.mem_append.mp hy with h | h
    · exact Or.inl h
    · exact Or.inr (by simpa using h)
  · simp only [rowAt, hother j hji] at hy ⊢
    exact Or.inl hy

/-- Every entry of an overlap list of the first plane is a line from the
first line of the second plane on. -/
theorem fillOverlaps_entries (input : PolyData) (f1 n1 f2 n2 : Int) (o : Overlaps)
    (h : fillOverlaps input f1 n1 f2 n2 = some o) (a x : Int)
    (hx : x ∈ rowAt o.plane1Overlaps a) : f2 ≤ x := by
  have := forLoop_some_inv
    (fun line1Index s =>
      (readAt input.lines (f1 + line1Index)).bind fun line1 =>
        forLoop (fillOverlapsBody input f1 f2 line1 line1Index) n2.toNat 0 s)
    (fun t : Overlaps => ∀ a x, x ∈ rowAt t.plane1Overlaps a → f2 ≤ x)
    n1.toNat 0
    (by
      intro i t t' _ _ ht hbody
      simp only [Option.bind_eq_some] at hbody
      obtain ⟨line1, _, hloop⟩ := hbody
      refine forLoop_some_ind (fillOverlapsBody input f1 f2 line1 i)
        (fun _ u => ∀ a x, x ∈ rowAt u.plane1Overlaps a → f2 ≤ x) n2.toNat 0 ?_ t t' ht hloop
      intro m u u' hm0 _ hu hstep a x hx
      simp only [fillOverlapsBody, Option.bind_eq_some] at hstep
      obtain ⟨line2, _, hif⟩ := hstep
      split at hif
      · simp only [Option.bind_eq_some] at hif
        obtain ⟨o1, ho1, o2, _, hu'⟩ := hif
        rw [← Option.some.inj hu'] at hx
        rcases pushAt_mem _ _ _ _ ho1 a x hx with hold | hnew
        · exact hu a x hold
        · omega
      · rw [← Option.some.inj hif] at hx
        exact hu a x hx)
    _ o
    (by
      intro a x hx
      rw [rowAt_replicate_nil] at hx
      cases hx)
    h
  exact this a x hx

/-- A bridge of a pair of planes ends on a line of the second plane or
beyond. -/
theorem Bridged.second_le {input : PolyData} {f1 n1 f2 n2 l l2 : Int}
    (h : Bridged input f1 n1 f2 n2 l l2) : f2 ≤ l2 := by
  obtain ⟨o, k, ho, _, _, line1, r, _, hr, hl2, _, _⟩ := h
  simp only [dividedChains, Option.bind_eq_some] at hr
  obtain ⟨_, _, _, _, line2Index, hread, _, _, _, _, _, _, _, _, _, _, _, _, hres⟩ := hr
  have hmem : line2Index ∈ rowAt o.plane1Overlaps (l - f1) := readAt_mem _ _ _ hread
  have := fillOverlaps_entries input f1 n1 f2 n2 o ho _ _ hmem
  rw [← hl2, ← Option.some.inj hres]
  exact this

/-- Simulation rule for two budgeted while loops: when the conditions agree
on related states and an iteration of the first loop that returns is matched
by one of the second, a run of the first loop that returns is matched by a run
of the second. -/
theorem whileLoop_sim {σ τ : Type} (c1 : σ → Bool) (b1 : σ → Option σ) (c2 : τ → Bool)
    (b2 : τ → Option τ) (Rel : σ → τ → Prop) (hc : ∀ s t, Rel s t → c1 s = c2 t)
    (hb : ∀ s t s', Rel s t → c1 s = true → b1 s = some s' → ∃ t', b2 t = some t' ∧ Rel s' t')
    (fuel : Nat) (s : σ) (t : τ) (s' : σ) (h0 : Rel s t)
    (h : whileLoop c1 b1 fuel s = some s') :
    ∃ t', whileLoop c2 b2 fuel t = some t' ∧ Rel s' t' ∧ c1 s' = false := by
  induction fuel generalizing s t with
  | zero =>
    simp only [whileLoop] at h ⊢
    cases hcs : c1 s with
    | true => rw [hcs] at h; simp at h
    | false =>
      rw [hcs] at h
      have hs : s = s' := by simpa using h
      rw [← hc s t h0, hcs, ← hs]
      exact ⟨t, by simp, h0, hcs⟩
  | succ k ih =>
    simp only [whileLoop] at h ⊢
    cases hcs : c1 s with
    | true =>
      rw [hcs] at h
      simp only [if_true, Option.bind_eq_some] at h
      obtain ⟨s1, hb1, hrest⟩ := h
      obtain ⟨t1, hb2, hrel⟩ := hb s t s1 h0 hcs hb1
      obtain ⟨t', ht', hrel', hcs'⟩ := ih s1 t1 hrel hrest
      rw [← hc s t h0, hcs]
      exact ⟨t', by simp [hb2, ht'], hrel', hcs'⟩
    | false =>
      rw [hcs] at h
      have hs : s = s' := by simpa using h
      rw [← hc s t h0, hcs, ← hs]
      exact ⟨t, by simp, h0, hcs⟩

/-- The correspondence stage of `Convert`: when it returns, it has walked
the planes that `planePairs` lists, from the lowest plane to the highest, and
the flags mark exactly the bridges across the pairs it visited. -/
theorem bridgePlanes_flags (input : PolyData) (s : ConvertState)
    (h : bridgePlanes input = some s) :
    ∃ lowest w, GetNumberOfLinesOnPlane input input.lines.length 0 = some lowest ∧
      planePairs input = some w ∧
      w.first = s.firstLineOnPlane1Index ∧ w.count = s.numberOfLinesInPlane1 ∧
      (input.lines.length : Int) ≤ w.first + w.count ∧
      w.Ordered lowest ∧
      FlagsInv input.lines.length s.lineTriganulatedToAbove s.lineTriganulatedToBelow
        (BridgedIn input w.pairs) := by
  simp only [bridgePlanes, Option.bind_eq_some] at h
  obtain ⟨lowest, hlowest, hloop⟩ := h
  have hpos := GetNumberOfLinesOnPlane_pos _ _ _ _ hlowest
  have hord0 : (⟨0, lowest, []⟩ : PlaneWalk).Ordered lowest := by
    refine ⟨hpos, ?_, ?_⟩
    · show lowest ≤ 0 + lowest
      omega
    · intro pr hpr
      cases hpr
  have hinit : FlagsInv input.lines.length (List.replicate input.lines.length false)
      (List.replicate input.lines.length false) (BridgedIn input []) := by
    refine ⟨by simp, by simp, ?_, ?_⟩
    · intro l
      constructor
      · intro hl
        have := readAt_mem _ _ _ hl
        simp at this
      · rintro ⟨_, pr, hpr, _⟩
        cases hpr
    · intro l
      constructor
      · intro hl
        have := readAt_mem _ _ _ hl
        simp at this
      · rintro ⟨_, pr, hpr, _⟩
        cases hpr
  obtain ⟨w, hw, ⟨hf, hm, hord, hflags⟩, hexit⟩ := whileLoop_sim
    (fun s : ConvertState =>
      decide (s.firstLineOnPlane1Index + s.numberOfLinesInPlane1 < (input.lines.length : Int)))
    (planePairBody input input.lines.length)
    (fun t : PlaneWalk => decide (t.first + t.count < (input.lines.length : Int)))
    (fun t =>
      (GetNumberOfLinesOnPlane input input.lines.length (t.first + t.count)).map fun n2 =>
        (⟨t.first + t.count, n2, t.pairs ++ [(t.first, t.count, t.first + t.count, n2)]⟩ :
          PlaneWalk))
    (fun s t => t.first = s.firstLineOnPlane1Index ∧ t.count = s.numberOfLinesInPlane1 ∧
      t.Ordered lowest ∧
      FlagsInv input.lines.length s.lineTriganulatedToAbove s.lineTriganulatedToBelow
        (BridgedIn input t.pairs))
    (by
      intro s t hrel
      show decide (s.firstLineOnPlane1Index + s.numberOfLinesInPlane1 < _) =
        decide (t.first + t.count < _)
      rw [hrel.1, hrel.2.1])
    (by
      intro s t s' hrel _ hbody
      obtain ⟨hf, hm, hord, hflags⟩ := hrel
      have hcount := hord.count_pos
      obtain ⟨n2, hn2, hf', hm', hflags'⟩ :=
        planePairBody_flags input _ s s' _ _ (by rw [← hm]; omega) hbody hflags
      have hn2pos := GetNumberOfLinesOnPlane_pos _ _ _ _ hn2
      refine ⟨⟨t.first + t.count, n2,
        t.pairs ++ [(t.first, t.count, t.first + t.count, n2)]⟩, ?_, ?_, ?_, ?_, ?_⟩
      · show Option.map _ (GetNumberOfLinesOnPlane input _ (t.first + t.count)) = _
        rw [hf, hm, hn2]
        rfl
      · show t.first + t.count = _
        rw [hf', hf, hm]
      · show n2 = _
        rw [hm']
      · refine ⟨hn2pos, ?_, ?_⟩
        · show lowest ≤ t.first + t.count + n2
          have := hord.lowest_le
          omega
        · intro pr hpr
          show _ ∧ _ ∧ pr.2.2.1 ≤ t.first + t.count
          rcases List.mem_append.mp hpr with hold | hnew
          · have := hord.pairs_ok pr hold
            exact ⟨this.1, this.2.1, by omega⟩
          · have hpr' : pr = (t.first, t.count, t.first + t.count, n2) := by simpa using hnew
            rw [hpr']
            exact ⟨rfl, hord.lowest_le, le_refl _⟩
      · refine hflags'.of_iff ?_
        intro a b
        show _ ↔ BridgedIn input (t.pairs ++ [(t.first, t.count, t.first + t.count, n2)]) a b
        rw [← hf, ← hm]
        constructor
        · rintro (⟨pr, hpr, h1, h2, hb⟩ | ⟨h1, h2, hb⟩)
          · exact ⟨pr, List.mem_append_left _ hpr, h1, h2, hb⟩
          · exact ⟨_, List.mem_append_right _ (List.mem_singleton_self _), h1, h2, hb⟩
        · rintro ⟨pr, hpr, h1, h2, hb⟩
          rcases List.mem_append.mp hpr with hold | hnew
          · exact Or.inl ⟨pr, hold, h1, h2, hb⟩
          · have hpr' : pr = (t.first, t.count, t.first + t.count, n2) := by simpa using hnew
            rw [hpr'] at h1 h2 hb
            exact Or.inr ⟨h1, h2, hb⟩)
    input.lines.length _ ⟨0, lowest, []⟩ s
    ⟨rfl, rfl, hord0, hinit⟩
    hloop
  refine ⟨lowest, w, hlowest, ?_, hf, hm, ?_, hord, hflags⟩
  · simp only [planePairs, hlowest, Option.some_bind]
    exact hw
  · rw [hf, hm]
    simpa using hexit

/-! ## Facts about `GetSpacingBetweenLines` -/

theorem GetSpacingBetweenLines.loop_nonzero (input : PolyData) (z1 : ℚ) (fuel : Nat)
    (lineId : Int) (distance : ℚ) (h : distance ≠ 0) :
    GetSpacingBetweenLines.loop input z1 fuel lineId distance = some distance := by
  cases fuel with
  | zero => simp [GetSpacingBetweenLines.loop, h]
  | succ k => simp [GetSpacingBetweenLines.loop, h]

theorem firstPointZ_of_read (input : PolyData) (k : Nat) (line : List Nat) (id : Nat)
    (hline : readAt input.lines (k : Int) = some line) (hid : GetId line 0 = some id) :
    firstPointZ input k = (GetPoint input.points id).z := by
  have h0 : (0 : Int) ≤ (k : Int) := Int.natCast_nonneg k
  simp only [readAt, if_pos h0, Int.toNat_natCast, List.get?_eq_getElem?] at hline
  unfold firstPointZ
  rw [List.getD_eq_getElem?_getD, hline, Option.getD_some, idAt_of_GetId _ _ _ hid]

/-- The search loop of `GetSpacingBetweenLines`: started at line `j` with the
distance `0` and a budget of at least the lines left, it returns the distance
to the first later line whose first point lies on a different Z, or `0`. -/
theorem GetSpacingBetweenLines.loop_spec (input : PolyData)
    (hne : ∀ l ∈ input.lines, l ≠ []) (fuel : Nat) (j : Nat) (hj : j < input.lines.length)
    (hfuel : input.lines.length - j ≤ fuel) :
    GetSpacingBetweenLines.loop input (firstPointZ input 0) fuel (j : Int) 0 =
      some (match (List.range' (j + 1) (input.lines.length - (j + 1))).find?
          (fun k => decide (firstPointZ input k ≠ firstPointZ input 0)) with
        | some k => |firstPointZ input 0 - firstPointZ input k|
        | none => 0) := by
  induction fuel generalizing j with
  | zero => omega
  | succ k ih =>
    simp only [GetSpacingBetweenLines.loop, if_true]
    by_cases hlast : (j : Int) + 1 ≥ (input.lines.length : Int)
    · have hlen : input.lines.length - (j + 1) = 0 := by omega
      rw [if_pos hlast, hlen]
      rfl
    · rw [if_neg hlast]
      have hlt : j + 1 < input.lines.length := by omega
      obtain ⟨line2, hline2, hmem⟩ := readAt_of_inRange input.lines ((j : Int) + 1)
        ⟨by omega, by omega⟩
      have hline2ne := hne line2 hmem
      obtain ⟨id2, hid2, _⟩ := GetId_of_inRange line2 0
        ⟨le_refl _, by
          have := List.length_pos.mpr hline2ne
          omega⟩
      have hz : firstPointZ input (j + 1) = (GetPoint input.points id2).z :=
        firstPointZ_of_read input (j + 1) line2 id2 (by push_cast; exact hline2) hid2
      have hsplit : input.lines.length - (j + 1) = (input.lines.length - (j + 1 + 1)) + 1 := by
        omega
      simp only [hline2, hid2, Option.some_bind]
      rw [hsplit, List.range'_succ, List.find?_cons, ← hz]
      by_cases hsame : firstPointZ input (j + 1) = firstPointZ input 0
      · have hd : |firstPointZ input 0 - firstPointZ input (j + 1)| = 0 := by
          rw [hsame, sub_self, abs_zero]
        have hdec : decide (firstPointZ input (j + 1) ≠ firstPointZ input 0) = false := by
          simp [hsame]
        rw [hd, hdec]
        have := ih (j + 1) hlt (by omega)
        push_cast at this
        exact this
      · have hd : |firstPointZ input 0 - firstPointZ input (j + 1)| ≠ 0 := by
          rw [abs_ne_zero, sub_ne_zero]
          exact fun h => hsame h.symm
        have hdec : decide (firstPointZ input (j + 1) ≠ firstPointZ input 0) = true := by
          simp [hsame]
        rw [hdec, GetSpacingBetweenLines.loop_nonzero _ _ _ _ _ hd]

/-- On a contour set without empty lines `GetSpacingBetweenLines` returns the
spacing as the specification words it. -/
theorem GetSpacingBetweenLines_eq (input : PolyData) (hne : ∀ l ∈ input.lines, l ≠ []) :
    GetSpacingBetweenLines input = some (spacingSpec input) := by
  unfold GetSpacingBetweenLines
  by_cases hlen : input.lines.length < 2
  · rw [if_pos hlen]
    unfold spacingSpec
    have : input.lines.length - 1 = 0 := by omega
    rw [this]
    rfl
  · rw [if_neg hlen]
    obtain ⟨line1, hline1, hmem⟩ := readAt_of_inRange input.lines 0 ⟨le_refl _, by omega⟩
    obtain ⟨id1, hid1, _⟩ := GetId_of_inRange line1 0
      ⟨le_refl _, by
        have := List.length_pos.mpr (hne line1 hmem)
        omega⟩
    have hz : firstPointZ input 0 = (GetPoint input.points id1).z :=
      firstPointZ_of_read input 0 line1 id1 (by simpa using hline1) hid1
    simp only [hline1, hid1, Option.some_bind]
    rw [← hz]
    have := GetSpacingBetweenLines.loop_spec input hne input.lines.length 0 (by omega)
      (by omega)
    simpa [spacingSpec] using this

theorem find?_range_first (p : Nat → Bool) (s len k : Nat) (hk : s ≤ k) (hk2 : k < s + len)
    (hp : p k = true) (hfirst : ∀ m, s ≤ m → m < k → p m = false) :
    (List.range' s len).find? p = some k := by
  induction len generalizing s with
  | zero => omega
  | succ len ih =>
    rw [List.range'_succ, List.find?_cons]
    by_cases hsk : s = k
    · rw [hsk, hp]
    · rw [hfirst s (le_refl _) (by omega)]
      exact ih (s + 1) (by omega) (by omega) (fun m h1 h2 => hfirst m (by omega) h2)

theorem find?_range_none (p : Nat → Bool) (s len : Nat)
    (h : ∀ m, s ≤ m → m < s + len → p m = false) : (List.range' s len).find? p = none := by
  induction len generalizing s with
  | zero => rfl
  | succ len ih =>
    rw [List.range'_succ, List.find?_cons, h s (le_refl _) (by omega)]
    exact ih (s + 1) (fun m h1 h2 => h m (by omega) (by omega))

/-- The spacing of the specification is the distance to line `k` when `k`
is the first later line on a different Z. -/
theorem spacingSpec_first (input : PolyData) (k : Nat) (hk1 : 1 ≤ k)
    (hk : k < input.lines.length) (hdiff : firstPointZ input k ≠ firstPointZ input 0)
    (hfirst : ∀ m, 1 ≤ m → m < k → firstPointZ input m = firstPointZ input 0) :
    spacingSpec input = |firstPointZ input 0 - firstPointZ input k| := by
  unfold spacingSpec
  rw [find?_range_first _ 1 _ k hk1 (by omega) (by simpa using hdiff)
    (fun m h1 h2 => by simpa using hfirst m h1 h2)]

/-- The spacing of the specification is `0` when the first points of all
lines lie on one Z. -/
theorem spacingSpec_coplanar (input : PolyData)
    (h : ∀ m, m < input.lines.length → firstPointZ input m = firstPointZ input 0) :
    spacingSpec input = 0 := by
  unfold spacingSpec
  rw [find?_range_none _ 1 _ (fun m h1 h2 => by simpa using h m (by omega))]

/-! ## Facts about the forward and the backward walk -/

theorem walkBack_zero (n : Int) (closed : Bool) (s : Int) : walkBack n closed s 0 = s := rfl

theorem walkBack_succ (n : Int) (closed : Bool) (s : Int) (k : Nat) :
    walkBack n closed s (k + 1) = GetPreviousLocation (walkBack n closed s k) n closed := by
  unfold walkBack
  exact Function.iterate_succ_apply' _ _ _

/-- The forward walk on an open chain: it advances by one and wraps to
position `0` after the last position. -/
theorem walk_open (n s : Int) (hs : InRange n s) (k : Nat) (hk : (k : Int) ≤ n - 1) :
    walk n false s k = if s + k ≤ n - 1 then s + k else s + k - n := by
  obtain ⟨hs0, hs1⟩ := hs
  induction k with
  | zero => simp [walk_zero]; omega
  | succ k ih =>
    rw [walk_succ, ih (by push_cast at hk; omega)]
    unfold GetNextLocation
    push_cast at hk ⊢
    split_ifs <;> omega

/-- The forward walk on a closed chain: it advances by one and wraps to
position `1` after the last position, skipping the repeated point. -/
theorem walk_closed (n s : Int) (hs : InRange n s) (k : Nat) (hk : (k : Int) ≤ n - 1) :
    walk n true s k = if s + k ≤ n - 1 then s + k else s + k - (n - 1) := by
  obtain ⟨hs0, hs1⟩ := hs
  induction k with
  | zero => simp [walk_zero]; omega
  | succ k ih =>
    have ih' := ih (by push_cast at hk; omega)
    push_cast at hk ⊢
    by_cases h : s + k ≤ n - 1
    · rw [if_pos h] at ih'
      rw [walk_succ, ih']
      simp only [GetNextLocation, if_true]
      split_ifs <;> omega
    · rw [if_neg h] at ih'
      rw [walk_succ, ih']
      simp only [GetNextLocation, if_true]
      split_ifs <;> omega

/-- The backward walk on an open chain: it steps back by one and wraps to
the last position before position `0`. -/
theorem walkBack_open (n e : Int) (he : InRange n e) (k : Nat) (hk : (k : Int) ≤ n - 1) :
    walkBack n false e k = if (k : Int) ≤ e then e - k else e - k + n := by
  obtain ⟨he0, he1⟩ := he
  induction k with
  | zero => simp [walkBack_zero]; omega
  | succ k ih =>
    rw [walkBack_succ, ih (by push_cast at hk; omega)]
    unfold GetPreviousLocation
    push_cast at hk ⊢
    split_ifs <;> omega

/-- The backward walk on a closed chain: it steps back by one and wraps to
the position before the last before position `0`, skipping the repeated
point. -/
theorem walkBack_closed (n e : Int) (he : InRange n e) (k : Nat) (hk : (k : Int) ≤ n - 1) :
    walkBack n true e k = if (k : Int) ≤ e then e - k else e - k + (n - 1) := by
  obtain ⟨he0, he1⟩ := he
  induction k with
  | zero => simp [walkBack_zero]; omega
  | succ k ih =>
    have ih' := ih (by push_cast at hk; omega)
    push_cast at hk ⊢
    by_cases h : (k : Int) ≤ e
    · rw [if_pos h] at ih'
      rw [walkBack_succ, ih']
      simp only [GetPreviousLocation, if_true]
      split_ifs <;> omega
    · rw [if_neg h] at ih'
      rw [walkBack_succ, ih']
      simp only [GetPreviousLocation, if_true]
      split_ifs <;> omega

/-- The forward walk of `n - 1` steps lands on the end-of-loop position. -/
theorem walk_end (n s : Int) (closed : Bool) (hs : InRange n s) :
    walk n closed s (n - 1).toNat = GetEndLoop s n closed := by
  have hs0 := hs.1
  have hs1 := hs.2
  have hk : (((n - 1).toNat : Nat) : Int) ≤ n - 1 := by omega
  have hcast : (((n - 1).toNat : Nat) : Int) = n - 1 := by omega
  unfold GetEndLoop
  cases closed
  · rw [walk_open n s hs _ hk, hcast]
    split_ifs <;> simp at * <;> omega
  · rw [walk_closed n s hs _ hk, hcast]
    split_ifs <;> simp at * <;> omega

theorem idAt_closed_ends (l : List Nat) (hne : l ≠ []) (h : l.head? = l.getLast?) :
    idAt l 0 = idAt l ((l.length : Int) - 1) := by
  unfold idAt
  rw [GetId_zero, GetId_last l hne, h]

/-- The id that the backward walk visits after `k` steps from the
end-of-loop position is the id that the forward walk visits after
`n - 1 - k` steps from the start. -/
theorem backward_id_eq (l : List Nat) (closed : Bool) (s : Int) (hne : l ≠ [])
    (hs : InRange l.length s) (hclosed : closed = true → l.head? = l.getLast?) (k : Nat)
    (hk : k < l.length) :
    idAt l (walkBack l.length closed (GetEndLoop s l.length closed) k) =
      idAt l (walk l.length closed s (l.length - 1 - k)) := by
  have hs0 := hs.1
  have hs1 := hs.2
  have hend := GetEndLoop_inRange s l.length closed hs
  have hk1 : ((k : Nat) : Int) ≤ (l.length : Int) - 1 := by omega
  have hk2 : (((l.length - 1 - k : Nat)) : Int) ≤ (l.length : Int) - 1 := by omega
  have hcast : (((l.length - 1 - k : Nat)) : Int) = (l.length : Int) - 1 - k := by omega
  cases closed
  · rw [walkBack_open _ _ hend k hk1, walk_open _ _ hs _ hk2, hcast]
    congr 1
    unfold GetEndLoop
    split_ifs <;> simp at * <;> omega
  · rw [walkBack_closed _ _ hend k hk1, walk_closed _ _ hs _ hk2, hcast]
    by_cases hwrap : s ≠ 0 ∧ (k : Int) = s
    · have e1 : (if (k : Int) ≤ GetEndLoop s l.length true then GetEndLoop s l.length true - k
          else GetEndLoop s l.length true - k + ((l.length : Int) - 1)) = 0 := by
        unfold GetEndLoop
        split_ifs <;> simp at * <;> omega
      have e2 : (if s + ((l.length : Int) - 1 - k) ≤ (l.length : Int) - 1
          then s + ((l.length : Int) - 1 - k)
          else s + ((l.length : Int) - 1 - k) - ((l.length : Int) - 1)) =
          (l.length : Int) - 1 := by
        split_ifs <;> omega
      rw [e1, e2]
      exact idAt_closed_ends l hne (hclosed rfl)
    · congr 1
      unfold GetEndLoop
      split_ifs <;> simp at * <;> omega

/-- The backward walk visits the ids of the forward walk in reverse order. -/
theorem backwardIds_eq (l : List Nat) (closed : Bool) (s : Int) (hne : l ≠ [])
    (hs : InRange l.length s) (hclosed : closed = true → l.head? = l.getLast?) :
    backwardIds l closed s = (forwardIds l closed s).reverse := by
  apply List.ext_getElem
  · simp [backwardIds, forwardIds]
  · intro k h1 h2
    have hk : k < l.length := by simpa [backwardIds] using h1
    rw [List.getElem_reverse]
    simp only [backwardIds, forwardIds, List.getElem_map, List.getElem_range, List.length_map,
      List.length_range]
    exact backward_id_eq l closed s hne hs hclosed k hk

/-! ## Facts about the steps of the ribbon -/

/-- The id at the position that the backward walk of chain 1 has reached in
row `i` is the id of row `i`. -/
theorem walkBack_id1 (c : BridgeInput) (hc : c.WF) (hanch : c.Anchored) (i : Int)
    (hi : InRange c.numberOfPointsInLine1 i) :
    idAt c.pointsInLine1 (walkBack c.numberOfPointsInLine1 c.line1Closed
      (GetEndLoop c.startLine1 c.numberOfPointsInLine1 c.line1Closed)
      (c.numberOfPointsInLine1 - 1 - i).toNat) = c.id1 i := by
  have hpos := hc.pos1
  have hne : c.pointsInLine1 ≠ [] := by
    intro h
    have := hc.len1
    rw [h] at this
    simp at this
    omega
  have h := backward_id_eq c.pointsInLine1 c.line1Closed c.startLine1 hne
    (by rw [← hc.len1, hc.start1]; exact ⟨le_refl _, hpos⟩)
    (by intro hcl; rw [hanch.closed1] at hcl; exact of_decide_eq_true hcl)
    (c.numberOfPointsInLine1 - 1 - i).toNat
    (by have := hi.1; have := hi.2; have := hc.len1; omega)
  rw [← hc.len1] at h
  rw [h]
  unfold BridgeInput.id1 BridgeInput.position1
  have e : c.pointsInLine1.length - 1 - (c.numberOfPointsInLine1 - 1 - i).toNat = i.toNat := by
    have := hi.1; have := hi.2; have := hc.len1
    omega
  rw [e]

/-- The id at the position that the backward walk of chain 2 has reached in
column `j` is the id of column `j`. -/
theorem walkBack_id2 (c : BridgeInput) (hc : c.WF) (hanch : c.Anchored) (j : Int)
    (hj : InRange c.numberOfPointsInLine2 j) :
    idAt c.pointsInLine2 (walkBack c.numberOfPointsInLine2 c.line2Closed
      (GetEndLoop c.startLine2 c.numberOfPointsInLine2 c.line2Closed)
      (c.numberOfPointsInLine2 - 1 - j).toNat) = c.id2 j := by
  have hpos := hc.pos2
  have hne : c.pointsInLine2 ≠ [] := by
    intro h
    have := hc.len2
    rw [h] at this
    simp at this
    omega
  have h := backward_id_eq c.pointsInLine2 c.line2Closed c.startLine2 hne
    (by rw [← hc.len2]; exact hc.start2)
    (by intro hcl; rw [hanch.closed2] at hcl; exact of_decide_eq_true hcl)
    (c.numberOfPointsInLine2 - 1 - j).toNat
    (by have := hj.1; have := hj.2; have := hc.len2; omega)
  rw [← hc.len2] at h
  rw [h]
  unfold BridgeInput.id2 BridgeInput.position2
  have e : c.pointsInLine2.length - 1 - (c.numberOfPointsInLine2 - 1 - j).toNat = j.toNat := by
    have := hj.1; have := hj.2; have := hc.len2
    omega
  rw [e]

/-- What an iteration of the backtracking loop that returns has done to the
table indices and the walk positions: a `left` step leaves a column and steps
back on chain 2, an `up` step leaves a row and steps back on chain 1. -/
theorem backtrackBody_moves (c : BridgeInput) (t t' : BridgeState)
    (h : backtrackBody c t = some t') :
    ∃ id1 id2 idp, GetId c.pointsInLine1 t.currentPointIndexLine1 = some id1 ∧
      GetId c.pointsInLine2 t.currentPointIndexLine2 = some id2 ∧
      t'.outputPolygons = t.outputPolygons ++ [(id1, id2, idp)] ∧
      ((GetId c.pointsInLine2 t'.currentPointIndexLine2 = some idp ∧
          t'.currentPointIndexLine2 =
            GetPreviousLocation t.currentPointIndexLine2 c.numberOfPointsInLine2
              c.line2Closed ∧
          t'.currentPointIndexLine1 = t.currentPointIndexLine1 ∧
          t'.line1PointIndex = t.line1PointIndex ∧
          t'.line2PointIndex = t.line2PointIndex - 1) ∨
        (GetId c.pointsInLine1 t'.currentPointIndexLine1 = some idp ∧
          t'.currentPointIndexLine1 =
            GetPreviousLocation t.currentPointIndexLine1 c.numberOfPointsInLine1
              c.line1Closed ∧
          t'.currentPointIndexLine2 = t.currentPointIndexLine2 ∧
          t'.line1PointIndex = t.line1PointIndex - 1 ∧
          t'.line2PointIndex = t.line2PointIndex)) := by
  simp only [backtrackBody, Option.bind_eq_some] at h
  obtain ⟨id1, hid1, id2, hid2, mark, _, hrest⟩ := h
  by_cases hmark : mark = left
  · rw [if_pos hmark] at hrest
    simp only [Option.bind_eq_some] at hrest
    obtain ⟨idp, hidp, ht'⟩ := hrest
    have ht := Option.some.inj ht'
    subst ht
    exact ⟨id1, id2, idp, hid1, hid2, rfl, Or.inl ⟨hidp, rfl, rfl, rfl, rfl⟩⟩
  · rw [if_neg hmark] at hrest
    simp only [Option.bind_eq_some] at hrest
    obtain ⟨idp, hidp, ht'⟩ := hrest
    have ht := Option.some.inj ht'
    subst ht
    exact ⟨id1, id2, idp, hid1, hid2, rfl, Or.inr ⟨hidp, rfl, rfl, rfl, rfl⟩⟩

theorem MonotonePath.length_eq {i j : Int} {p : List (Int × Int)} (h : MonotonePath i j p) :
    (p.length : Int) = i + j + 1 := by
  induction h with
  | origin => rfl
  | alongChain2 _ ih => rw [List.length_append, List.length_singleton]; push_cast; omega
  | alongChain1 _ ih => rw [List.length_append, List.length_singleton]; push_cast; omega

/-- From a state of the backtracking loop whose walk positions follow its
table indices, the loop returns; the triangles it appends are the triangles of
the steps of the path of cells it visits, which read backwards is a monotone
path from `(0, 0)`, and the last of them ends on the cross edge of the cell
`(0, 0)`. -/
theorem backtrack_trace (c : BridgeInput) (hc : c.WF) (hanch : c.Anchored) (B : Table Int)
    (hB : BorderOK c.numberOfPointsInLine1 c.numberOfPointsInLine2 B) (out : List Triangle)
    (total : Int) (fuel : Nat) (t : BridgeState) (h : BackInv c B out total t)
    (htrack : TrackInv c t) (hfuel : (t.line1PointIndex + t.line2PointIndex).toNat ≤ fuel) :
    ∃ cells t', whileLoop backtrackCond (backtrackBody c) fuel t = some t' ∧
      t'.outputPolygons = t.outputPolygons ++ ribbonOf c cells ∧
      cells.head? = some (t.line1PointIndex, t.line2PointIndex) ∧
      MonotonePath t.line1PointIndex t.line2PointIndex cells.reverse ∧
      (∀ tri, (ribbonOf c cells).getLast? = some tri → (c.id2 0, c.id1 0) ∈ tri.edges) ∧
      cells = markedPath B fuel (t.line1PointIndex, t.line2PointIndex) := by
  have hdone : ∀ (fuel : Nat) (t : BridgeState), BackInv c B out total t →
      backtrackCond t = false →
      ∃ cells t', (some t : Option BridgeState) = some t' ∧
        t'.outputPolygons = t.outputPolygons ++ ribbonOf c cells ∧
        cells.head? = some (t.line1PointIndex, t.line2PointIndex) ∧
        MonotonePath t.line1PointIndex t.line2PointIndex cells.reverse ∧
        (∀ tri, (ribbonOf c cells).getLast? = some tri → (c.id2 0, c.id1 0) ∈ tri.edges) ∧
        cells = markedPath B fuel (t.line1PointIndex, t.line2PointIndex) := by
    intro fuel t h hcond
    have hnot : ¬ (t.line1PointIndex > 0 ∨ t.line2PointIndex > 0) := by
      simpa [backtrackCond] using hcond
    have hi := h.idx1.1
    have hj := h.idx2.1
    have hi0 : t.line1PointIndex = 0 := by omega
    have hj0 : t.line2PointIndex = 0 := by omega
    refine ⟨[(t.line1PointIndex, t.line2PointIndex)], t, rfl, by simp [ribbonOf], rfl, ?_, ?_,
      ?_⟩
    · rw [hi0, hj0]
      exact MonotonePath.origin
    · intro tri htri
      simp [ribbonOf] at htri
    · cases fuel with
      | zero => rfl
      | succ k =>
        show _ = if _ then _ else _
        rw [if_neg hnot]
  induction fuel generalizing t with
  | zero =>
    have hi := h.idx1.1
    have hj := h.idx2.1
    have hcond : backtrackCond t = false := by
      simp only [backtrackCond, decide_eq_false_iff_not]
      omega
    simp only [whileLoop, hcond]
    exact hdone 0 t h hcond
  | succ k ih =>
    cases hcond : backtrackCond t with
    | false =>
      simp only [whileLoop, hcond]
      exact hdone (k + 1) t h hcond
    | true =>
      obtain ⟨t1, hb, hinv1, hlt, hmark⟩ := backtrack_step c hc B hB out total t h hcond
      obtain ⟨id1, id2, idp, hid1, hid2, hout, hmove⟩ := backtrackBody_moves c t t1 hb
      have e1 : c.id1 t.line1PointIndex = id1 := by
        rw [← walkBack_id1 c hc hanch _ h.idx1, ← htrack.cur1]
        exact idAt_of_GetId _ _ _ hid1
      have e2 : c.id2 t.line2PointIndex = id2 := by
        rw [← walkBack_id2 c hc hanch _ h.idx2, ← htrack.cur2]
        exact idAt_of_GetId _ _ _ hid2
      have hi1 := hinv1.idx1.1
      have hj1 := hinv1.idx2.1
      have htrack1 : TrackInv c t1 := by
        rcases hmove with ⟨_, hc2, hc1, hx1, hx2⟩ | ⟨_, hc1, hc2, hx1, hx2⟩
        · refine ⟨by rw [hc1, hx1]; exact htrack.cur1, ?_⟩
          rw [hc2, hx2, htrack.cur2, ← walkBack_succ]
          congr 1
          have := h.idx2.2
          omega
        · refine ⟨?_, by rw [hc2, hx2]; exact htrack.cur2⟩
          rw [hc1, hx1, htrack.cur1, ← walkBack_succ]
          congr 1
          have := h.idx1.2
          omega
      obtain ⟨cells1, t', hloop, hout', hhead, hmono, hlast, hfollow⟩ :=
        ih t1 hinv1 htrack1 (by omega)
      obtain ⟨rest, hcells1⟩ : ∃ rest, cells1 = (t1.line1PointIndex, t1.line2PointIndex) :: rest := by
        cases cells1 with
        | nil => simp at hhead
        | cons x rest =>
          simp only [List.head?_cons, Option.some.injEq] at hhead
          exact ⟨rest, by rw [hhead]⟩
      have htri : stepTriangle c (t.line1PointIndex, t.line2PointIndex)
          (t1.line1PointIndex, t1.line2PointIndex) = (id1, id2, idp) := by
        unfold stepTriangle
        rcases hmove with ⟨hidp, _, _, hx1, hx2⟩ | ⟨hidp, _, _, hx1, hx2⟩
        · have e3 : c.id2 t1.line2PointIndex = idp := by
            rw [← walkBack_id2 c hc hanch _ hinv1.idx2, ← htrack1.cur2]
            exact idAt_of_GetId _ _ _ hidp
          rw [if_pos hx1, e1, e2, e3]
        · have e3 : c.id1 t1.line1PointIndex = idp := by
            rw [← walkBack_id1 c hc hanch _ hinv1.idx1, ← htrack1.cur1]
            exact idAt_of_GetId _ _ _ hidp
          have hne : ¬ (t1.line1PointIndex = t.line1PointIndex) := by
            show ¬ (t1.line1PointIndex = t.line1PointIndex)
            omega
          rw [if_neg hne, e1, e2, e3]
      have hrib : ribbonOf c ((t.line1PointIndex, t.line2PointIndex) :: cells1) =
          (id1, id2, idp) :: ribbonOf c cells1 := by
        rw [hcells1]
        show stepTriangle c _ _ :: ribbonOf c _ = _
        rw [htri]
      have hpos : t.line1PointIndex > 0 ∨ t.line2PointIndex > 0 := by
        simpa [backtrackCond] using hcond
      have hnext : markedPath B (k + 1) (t.line1PointIndex, t.line2PointIndex) =
          (t.line1PointIndex, t.line2PointIndex) :: cells1 := by
        show (if _ then _ else _) = _
        rw [if_pos hpos, hfollow]
        rcases hmark with ⟨hm, hx1, hx2⟩ | ⟨hm, hx1, hx2⟩
        · rw [if_pos hm, hx1, hx2]
        · rw [if_neg hm, hx1, hx2]
      refine ⟨(t.line1PointIndex, t.line2PointIndex) :: cells1, t', ?_, ?_, rfl, ?_, ?_,
        hnext.symm⟩
      · simp only [whileLoop, hcond, if_true, hb, Option.some_bind]
        exact hloop
      · rw [hout', hout, hrib, List.append_assoc]
        rfl
      · rw [List.reverse_cons]
        rcases hmove with ⟨_, _, _, hx1, hx2⟩ | ⟨_, _, _, hx1, hx2⟩
        · rw [hx1, hx2] at hmono
          have := MonotonePath.alongChain2 hmono
          rw [show t.line2PointIndex - 1 + 1 = t.line2PointIndex by ring] at this
          exact this
        · rw [hx1, hx2] at hmono
          have := MonotonePath.alongChain1 hmono
          rw [show t.line1PointIndex - 1 + 1 = t.line1PointIndex by ring] at this
          exact this
      · intro tri htri'
        rw [hrib] at htri'
        cases hR : ribbonOf c cells1 with
        | nil =>
          rw [hR] at htri'
          have htri'' : tri = (id1, id2, idp) := by simpa using htri'.symm
          have hlen := hmono.length_eq
          have hrest : rest = [] := by
            rw [hcells1] at hR
            cases rest with
            | nil => rfl
            | cons y ys => simp [ribbonOf] at hR
          rw [hcells1, hrest] at hlen
          simp only [List.reverse_cons, List.reverse_nil, List.nil_append, List.length_singleton,
            Nat.cast_one] at hlen
          have hz1 : t1.line1PointIndex = 0 := by omega
          have hz2 : t1.line2PointIndex = 0 := by omega
          rw [htri'', ← htri, hz1, hz2]
          unfold stepTriangle
          by_cases hz : (0 : Int) = t.line1PointIndex
          · rw [if_pos hz, ← hz]
            simp [Triangle.edges]
          · have hj0 : t.line2PointIndex = 0 := by
              rcases hmove with ⟨_, _, _, hx1, _⟩ | ⟨_, _, _, _, hx2⟩
              · exact absurd (by rw [← hx1, hz1]) hz
              · rw [← hx2, hz2]
            rw [if_neg hz, hj0]
            simp [Triangle.edges]
        | cons r rs =>
          rw [hR, List.getLast?_cons_cons] at htri'
          exact hlast tri (by rw [hR]; exact htri')

theorem countdown_length (n : Nat) : (countdown n).length = n := by
  induction n with
  | zero => rfl
  | succ n ih => simp [countdown, ih]

/-- Every triangle of the steps of a path is the triangle of an `up` step or
of a `left` step. -/
theorem ribbonOf_perm (c : BridgeInput) (p : List (Int × Int)) :
    (ribbonOf c p).Perm (upTriangles c p ++ leftTriangles c p) := by
  cases p with
  | nil => exact List.Perm.refl _
  | cons cell rest =>
    induction rest generalizing cell with
    | nil => exact List.Perm.refl _
    | cons next rest ih =>
      simp only [ribbonOf, upTriangles, leftTriangles]
      by_cases h : next.1 = cell.1
      · rw [if_pos h, if_pos h]
        exact ((ih next).cons _).trans List.perm_middle.symm
      · rw [if_neg h, if_neg h]
        exact (ih next).cons _

/-- The steps of a monotone path read backwards: the `up` triangles have the
pairs of consecutive rows as their chain edges, from the last row down, and
the `left` triangles the pairs of consecutive columns. -/
theorem MonotonePath.steps (c : BridgeInput) {i j : Int} {p : List (Int × Int)}
    (h : MonotonePath i j p) :
    p.reverse.head? = some (i, j) ∧
    (upTriangles c p.reverse).map Triangle.edge1 =
      (countdown i.toNat).map (fun r => (c.id1 r, c.id1 (r - 1))) ∧
    (leftTriangles c p.reverse).map Triangle.edge2 =
      (countdown j.toNat).map (fun r => (c.id2 r, c.id2 (r - 1))) := by
  induction h with
  | origin => exact ⟨rfl, rfl, rfl⟩
  | @alongChain2 i j p h ih =>
    obtain ⟨hhead, hup, hleft⟩ := ih
    have hnn := h.last_nonneg
    obtain ⟨rest, hrest⟩ : ∃ rest, p.reverse = (i, j) :: rest := by
      cases hp : p.reverse with
      | nil => rw [hp] at hhead; simp at hhead
      | cons x rest =>
        rw [hp] at hhead
        simp only [List.head?_cons, Option.some.injEq] at hhead
        exact ⟨rest, by rw [hhead]⟩
    have hrev : (p ++ [(i, j + 1)]).reverse = (i, j + 1) :: (i, j) :: rest := by
      rw [List.reverse_append, hrest]
      rfl
    have hj : (j + 1).toNat = j.toNat + 1 := by omega
    have hjc : ((j.toNat : Nat) : Int) + 1 = j + 1 := by omega
    rw [hrev]
    refine ⟨rfl, ?_, ?_⟩
    · simp only [upTriangles, if_true]
      rw [← hrest]
      exact hup
    · simp only [leftTriangles, if_true]
      rw [← hrest, List.map_cons, hleft, hj, countdown, List.map_cons, hjc]
      simp [stepTriangle, Triangle.edge2]
  | @alongChain1 i j p h ih =>
    obtain ⟨hhead, hup, hleft⟩ := ih
    have hnn := h.last_nonneg
    obtain ⟨rest, hrest⟩ : ∃ rest, p.reverse = (i, j) :: rest := by
      cases hp : p.reverse with
      | nil => rw [hp] at hhead; simp at hhead
      | cons x rest =>
        rw [hp] at hhead
        simp only [List.head?_cons, Option.some.injEq] at hhead
        exact ⟨rest, by rw [hhead]⟩
    have hrev : (p ++ [(i + 1, j)]).reverse = (i + 1, j) :: (i, j) :: rest := by
      rw [List.reverse_append, hrest]
      rfl
    have hi : (i + 1).toNat = i.toNat + 1 := by omega
    have hic : ((i.toNat : Nat) : Int) + 1 = i + 1 := by omega
    have hne : ¬ (i = i + 1) := by omega
    rw [hrev]
    refine ⟨rfl, ?_, ?_⟩
    · simp only [upTriangles, if_neg hne]
      rw [← hrest, List.map_cons, hup, hi, countdown, List.map_cons, hic]
      simp [stepTriangle, Triangle.edge1]
    · simp only [leftTriangles, if_neg hne]
      rw [← hrest]
      exact hleft

/-- On a chain 1 of at least two points and a non-empty chain 2,
`TriangulateContours` returns; the triangles it appends are the triangles of
the steps of a path of cells from the last cell of the table which, read
backwards, is a monotone path from `(0, 0)`, and the last triangle ends on the
cross edge of the cell `(0, 0)`. -/
theorem TriangulateContours_trace (points : PointSet) (l1 l2 : List Nat)
    (out : List Triangle) (h1 : 2 ≤ l1.length) (h2 : l2 ≠ []) :
    ∃ c path new, bridgeInput points l1 l2 = some c ∧ c.WF ∧ c.Anchored ∧
      c.pointsInLine1 = l1 ∧ c.pointsInLine2 = l2 ∧
      TriangulateContours points l1 l2 out = some (out ++ new) ∧
      new = ribbonOf c path ∧
      MonotonePath ((l1.length : Int) - 1) ((l2.length : Int) - 1) path.reverse ∧
      (∀ tri, new.getLast? = some tri → (c.id2 0, c.id1 0) ∈ tri.edges) ∧
      ∃ s, fillTables c out = some s ∧
        path = markedPath s.backtrackTable (l1.length + l2.length)
          ((l1.length : Int) - 1, (l2.length : Int) - 1) := by
  have hne1 : l1 ≠ [] := by intro h; rw [h] at h1; simp at h1
  have hp2 : 0 < l2.length := List.length_pos.mpr h2
  obtain ⟨c, hcin, hc, _, hl1, hl2⟩ := bridgeInput_spec points l1 l2 hne1 h2
  have hanch := bridgeInput_anchored points l1 l2 c hne1 h2 hcin
  have hn1 : c.numberOfPointsInLine1 = l1.length := by rw [hc.len1, hl1]
  have hn2 : c.numberOfPointsInLine2 = l2.length := by rw [hc.len2, hl2]
  have hn1' : 2 ≤ c.numberOfPointsInLine1 := by rw [hn1]; exact_mod_cast h1
  obtain ⟨s, hs, hout, hB, hidx1, hidx2⟩ := fillTables_spec c hc out
  rw [if_pos hn1'] at hidx2
  have hstart := backtrackStart_inv c hc out s hout hidx1 (by rw [if_pos hn1']; exact hidx2)
  have hi : (backtrackStart c s).line1PointIndex = (l1.length : Int) - 1 := by
    show s.line1PointIndex - 1 = _
    rw [hidx1, hn1]
  have hj : (backtrackStart c s).line2PointIndex = (l2.length : Int) - 1 := by
    show s.line2PointIndex - 1 = _
    rw [hidx2, hn2]
  have htrack : TrackInv c (backtrackStart c s) := by
    refine ⟨?_, ?_⟩
    · rw [hi, hn1]
      show GetEndLoop _ _ _ = _
      rw [show ((l1.length : Int) - 1 - ((l1.length : Int) - 1)).toNat = 0 by simp, walkBack_zero,
        hn1]
    · rw [hj, hn2]
      show GetEndLoop _ _ _ = _
      rw [show ((l2.length : Int) - 1 - ((l2.length : Int) - 1)).toNat = 0 by simp, walkBack_zero,
        hn2]
  obtain ⟨path, t', hloop, hout', _, hmono, hlast, hfollow⟩ := backtrack_trace c hc hanch
    s.backtrackTable hB out _ (l1.length + l2.length) (backtrackStart c s) hstart htrack
    (by rw [hi, hj]; omega)
  rw [hi, hj] at hmono hfollow
  refine ⟨c, path, ribbonOf c path, hcin, hc, hanch, hl1, hl2, ?_, rfl, hmono, hlast, s, hs,
    hfollow⟩
  have hne : ¬ (l1.length = 0 ∨ l2.length = 0) := by omega
  simp only [TriangulateContours, hne, if_false, hcin, hs, hloop, Option.some_bind,
    Option.map_some', hout']
  show some (s.outputPolygons ++ ribbonOf c path) = _
  rw [hout]

/-! ## Facts about the capping step -/

/-- Handling one outline in `CreateExternalLine` appends at least one
point. -/
theorem externalLineOfContour_grows (line : PolyData) (lineSpacing : ℚ)
    (s s' : PointSet × List (List Nat)) (l : List Nat)
    (h : externalLineOfContour line lineSpacing s l = some s') : s.1.length < s'.1.length := by
  simp only [externalLineOfContour, Option.bind_eq_some] at h
  obtain ⟨o, hloop, first, hfirst, last, _, hres⟩ := h
  obtain ⟨_, hids⟩ := copyLoop_spec _ _ _ _ _ hloop
  have hfirstmem : first ∈ o.outputLinePointIds := readAt_mem _ _ _ hfirst
  have hlt := hids first hfirstmem
  split at hres
  · rw [← Option.some.inj hres]
    show s.1.length < o.points.length
    omega
  · rw [← Option.some.inj hres]
    show s.1.length < o.points.length
    omega

theorem externalLines_grow (line : PolyData) (lineSpacing : ℚ) (lines : List (List Nat))
    (s s' : PointSet × List (List Nat))
    (h : lines.foldlM (externalLineOfContour line lineSpacing) s = some s') :
    s.1.length + lines.length ≤ s'.1.length := by
  induction lines generalizing s with
  | nil =>
    have hs : s = s' := Option.some.inj h
    rw [hs]
    simp
  | cons a rest ih =>
    rw [List.foldlM_cons] at h
    cases hf : externalLineOfContour line lineSpacing s a with
    | none => rw [hf] at h; cases h
    | some s1 =>
      rw [hf] at h
      have h1 := externalLineOfContour_grows _ _ _ _ _ hf
      have h2 := ih s1 h
      rw [List.length_cons]
      omega

/-- Whenever `CreateExternalLine` returns it has appended at least one point
to the shared point set. -/
theorem CreateExternalLine_grows (lib : External) (points : PointSet) (inputLine : List Nat)
    (lineSpacing : ℚ) (r : PointSet × List (List Nat))
    (h : CreateExternalLine lib points inputLine lineSpacing = some r) :
    points.length < r.1.length := by
  unfold CreateExternalLine at h
  simp only at h
  split at h
  · rename_i hpos
    have := externalLines_grow _ _ _ _ _ h
    have hp := hpos.1
    show points.length < r.1.length
    have hs : ((points, ([] : List (List Nat))) : PointSet × List (List Nat)).1.length =
        points.length := rfl
    omega
  · simp only [Option.bind_eq_some] at h
    obtain ⟨o, hloop, first, hfirst, hres⟩ := h
    obtain ⟨_, hids⟩ := copyLoop_spec _ _ _ _ _ hloop
    have hfirstmem : first ∈ o.outputLinePointIds := readAt_mem _ _ _ hfirst
    have hlt := hids first hfirstmem
    rw [← Option.some.inj hres]
    show points.length < o.points.length
    omega

/-- Whenever `TriangulateLine` returns it has only appended triangles. -/
theorem TriangulateLine_appends (lib : External) (points : PointSet) (inputLine : List Nat)
    (out : List Triangle) (normalsUp : Bool) (r : List Triangle)
    (h : TriangulateLine lib points inputLine out normalsUp = some r) : ∃ new, r = out ++ new := by
  simp only [TriangulateLine, Option.bind_eq_some] at h
  obtain ⟨first, _, last, _, hloop⟩ := h
  refine forLoop_some_inv _ (fun t => ∃ new, t = out ++ new) _ 0 ?_ _ r ⟨[], by simp⟩ hloop
  intro i t t' _ _ ht hbody
  obtain ⟨new, hnew⟩ := ht
  simp only [TriangulateLine.body, Option.bind_eq_some] at hbody
  obtain ⟨c0, _, c1, _, c2, _, id0, _, id1, _, id2, _, hres⟩ := hbody
  split at hres
  · exact ⟨new ++ [_], by rw [← Option.some.inj hres, hnew, List.append_assoc]⟩
  · exact ⟨new ++ [_], by rw [← Option.some.inj hres, hnew, List.append_assoc]⟩

/-- Whenever `TriangulateContours` returns it has only appended triangles. -/
theorem TriangulateContours_appends (points : PointSet) (l1 l2 : List Nat) (out r : List Triangle)
    (h : TriangulateContours points l1 l2 out = some r) : ∃ new, r = out ++ new := by
  by_cases he : l1.length = 0 ∨ l2.length = 0
  · unfold TriangulateContours at h
    rw [if_pos he] at h
    exact ⟨[], by rw [← Option.some.inj h]; simp⟩
  · have h1 : l1 ≠ [] := by
      intro h0; apply he; left; rw [h0]; rfl
    have h2 : l2 ≠ [] := by
      intro h0; apply he; right; rw [h0]; rfl
    obtain ⟨new, hres, _⟩ := TriangulateContours_spec points l1 l2 out h1 h2
    rw [hres] at h
    exact ⟨new, (Option.some.inj h).symm⟩

/-- A capping step that returns has appended at least one point to the point
set, and has only appended triangles. -/
theorem capSide_appends (lib : External) (currentLine : List Nat) (currentLineIndex : Int)
    (lineSpacing : ℚ) (normalsUp : Bool) (s s' : SealState)
    (h : capSide lib currentLine currentLineIndex lineSpacing normalsUp s = some s') :
    (∃ added, added ≠ [] ∧ s'.input.points = s.input.points ++ added) ∧
    ∃ new, s'.outputPolygons = s.outputPolygons ++ new := by
  have hext := capSide_points _ _ _ _ _ _ _ h
  simp only [capSide, Option.bind_eq_some] at h
  obtain ⟨created, hcreated, s1, hloop1, s2, hloop2, hs'⟩ := h
  have hgrow := CreateExternalLine_grows _ _ _ _ _ hcreated
  have h1 : s1.input.points = created.1 ∧ ∃ new, s1.outputPolygons = s.outputPolygons ++ new :=
    forLoop_some_inv (capInsertBody lib created.2 normalsUp)
      (fun t : CapState => t.input.points = created.1 ∧
        ∃ new, t.outputPolygons = s.outputPolygons ++ new) _ 0
      (by
        intro i t t' _ _ ht hbody
        simp only [capInsertBody, Option.bind_eq_some] at hbody
        obtain ⟨lineIdList, _, polys, hpolys, ht'⟩ := hbody
        obtain ⟨new, hnew⟩ := TriangulateLine_appends _ _ _ _ _ _ hpolys
        obtain ⟨hp, old, hold⟩ := ht
        rw [← Option.some.inj ht']
        exact ⟨hp, old ++ new, by
          show polys = _
          rw [hnew, hold, List.append_assoc]⟩)
      _ s1 ⟨rfl, [], by simp⟩ hloop1
  have h2 : s2.input.points = created.1 ∧ ∃ new, s2.outputPolygons = s.outputPolygons ++ new :=
    forLoop_some_inv (capBridgeBody currentLine normalsUp)
      (fun t : CapState => t.input.points = created.1 ∧
        ∃ new, t.outputPolygons = s.outputPolygons ++ new) _ 0
      (by
        intro i t t' _ _ ht hbody
        simp only [capBridgeBody, Option.bind_eq_some] at hbody
        obtain ⟨divided, _, idList, _, polys, hpolys, ht'⟩ := hbody
        obtain ⟨hp, old, hold⟩ := ht
        have hnew : ∃ new, polys = t.outputPolygons ++ new := by
          split at hpolys
          · exact TriangulateContours_appends _ _ _ _ _ hpolys
          · exact TriangulateContours_appends _ _ _ _ _ hpolys
        obtain ⟨new, hnew⟩ := hnew
        rw [← Option.some.inj ht']
        exact ⟨hp, old ++ new, by
          show polys = _
          rw [hnew, hold, List.append_assoc]⟩)
      _ s2 h1 hloop2
  obtain ⟨added, hadded⟩ := hext
  have hpts : s'.input.points = created.1 := by
    rw [← Option.some.inj hs']
    exact h2.1
  refine ⟨⟨added, ?_, hadded⟩, ?_⟩
  · intro hnil
    rw [hnil, List.append_nil] at hadded
    rw [hpts] at hadded
    rw [hadded] at hgrow
    exact lt_irrefl _ hgrow
  · rw [← Option.some.inj hs']
    exact h2.2

/-- Whatever the external filters return, when `Convert` returns on the two
squares its triangles are the eight bridging triangles followed by the
triangles of the caps, and its points are the eight points of the squares
followed by at least two appended points. -/
theorem Convert_squares (lib : External) (r : PointSet × List Triangle)
    (h : Convert lib squaresData = some r) :
    (∃ added, 2 ≤ added.length ∧ r.1 = squaresPoints ++ added) ∧
    ∃ caps, r.2 = [(0, 4, 7), (0, 7, 3), (3, 7, 6), (3, 6, 2), (2, 6, 5), (2, 5, 1), (1, 5, 4),
      (1, 4, 0)] ++ caps := by
  have hn : normalize squaresData = some squaresData := by decide!
  have hb : bridgePlanes squaresData =
      some ⟨1, 1, [true, false], [false, true],
        [(0, 4, 7), (0, 7, 3), (3, 7, 6), (3, 6, 2), (2, 6, 5), (2, 5, 1), (1, 5, 4),
          (1, 4, 0)]⟩ := by decide!
  have hsp : GetSpacingBetweenLines squaresData = some 1 := by decide!
  simp only [Convert, Option.map_eq_some', convertStages, hn, hb, Option.some_bind,
    Option.bind_eq_some] at h
  obtain ⟨st, ⟨closed, hseal, hst⟩, hr⟩ := h
  simp only [SealMesh, hsp, Option.some_bind] at hseal
  have hlen : squaresData.lines.length = 2 := rfl
  rw [hlen] at hseal
  simp only [forLoop, Option.bind_eq_some] at hseal
  obtain ⟨t1, hbody0, t2, hbody1, hclosed⟩ := hseal
  simp only [SealMesh.body, Option.bind_eq_some] at hbody0 hbody1
  obtain ⟨line0, _, a0, ha0, s0, hs0, b0, hb0, hcap0⟩ := hbody0
  obtain ⟨line1, _, a1, ha1, s1, hs1, b1, hb1, hcap1⟩ := hbody1
  have ea0 : a0 = true := (Option.some.inj ha0).symm
  have ea1 : a1 = false := (Option.some.inj ha1).symm
  have eb0 : b0 = false := (Option.some.inj hb0).symm
  have eb1 : b1 = true := (Option.some.inj hb1).symm
  rw [ea0] at hs0
  rw [ea1] at hs1
  rw [eb0] at hcap0
  rw [eb1] at hcap1
  simp only [if_true, Bool.true_eq_false, if_false] at hs0 hs1 hcap0 hcap1
  have e0 := Option.some.inj hs0
  have e1 := Option.some.inj hcap1
  have e2 := Option.some.inj hclosed
  obtain ⟨⟨add0, hne0, hp0⟩, new0, hn0⟩ := capSide_appends _ _ _ _ _ _ _ hcap0
  obtain ⟨⟨add1, hne1, hp1⟩, new1, hn1⟩ := capSide_appends _ _ _ _ _ _ _ hs1
  rw [← e0] at hp0 hn0
  rw [← hr, ← Option.some.inj hst, ← e2, ← e1]
  refine ⟨⟨add0 ++ add1, ?_, ?_⟩, new0 ++ new1, ?_⟩
  · have := List.length_pos.mpr hne0
    have := List.length_pos.mpr hne1
    rw [List.length_append]
    omega
  · show s1.input.points = _
    rw [hp1, hp0, List.append_assoc]
    rfl
  · show s1.outputPolygons = _
    rw [hn1, hn0, List.append_assoc]

/-! ## Facts about the bridging of two squares -/

/-- `GetClosestPoint` returns the first position of the chain whose point is
at the minimal distance. -/
theorem GetClosestPoint_first_min (points : PointSet) (q : Point) (l : List Nat) (k : Int)
    (hk : InRange l.length k)
    (hbefore : ∀ m, 0 ≤ m → m < k →
      Distance2BetweenPoints q (GetPoint points (idAt l k)) <
        Distance2BetweenPoints q (GetPoint points (idAt l m)))
    (hafter : ∀ m, k < m → m < (l.length : Int) →
      Distance2BetweenPoints q (GetPoint points (idAt l k)) ≤
        Distance2BetweenPoints q (GetPoint points (idAt l m))) :
    GetClosestPoint points q l l.length = some k := by
  obtain ⟨hk0, hk1⟩ := hk
  obtain ⟨id0, h0, _⟩ := GetId_of_inRange l 0 ⟨le_refl _, by omega⟩
  have e0 : idAt l 0 = id0 := idAt_of_GetId _ _ _ h0
  obtain ⟨s', hs, hP⟩ := forLoop_inv (GetClosestPoint.body points q l)
    (fun i s =>
      (i ≤ k → ∃ m, 0 ≤ m ∧ m < i ∧
        s.minimumDistance = Distance2BetweenPoints q (GetPoint points (idAt l m))) ∧
      (k < i → s = ⟨Distance2BetweenPoints q (GetPoint points (idAt l k)), k⟩))
    ((l.length : Int) - 1).toNat 1
    (by
      intro i s h1 h2 hP
      obtain ⟨id, hid, _⟩ := GetId_of_inRange l i ⟨by omega, by omega⟩
      have ei : idAt l i = id := idAt_of_GetId _ _ _ hid
      simp only [GetClosestPoint.body, hid, Option.some_bind]
      obtain ⟨hle, hgt⟩ := hP
      rcases lt_trichotomy i k with hlt | heq | hgt'
      · obtain ⟨m, hm0, hm1, hmin⟩ := hle (le_of_lt hlt)
        split
        · exact ⟨_, rfl, fun _ => ⟨i, by omega, by omega, by rw [ei]⟩, fun h => by omega⟩
        · exact ⟨_, rfl, fun _ => ⟨m, hm0, by omega, hmin⟩, fun h => by omega⟩
      · obtain ⟨m, hm0, hm1, hmin⟩ := hle (le_of_eq heq)
        have hlt := hbefore m hm0 (by omega)
        rw [← heq, ei, ← hmin] at hlt
        rw [if_pos hlt]
        exact ⟨_, rfl, fun h => by omega, fun _ => by rw [← heq, ei]⟩
      · have hs := hgt hgt'
        have hge := hafter i hgt' (by omega)
        rw [ei] at hge
        rw [hs, if_neg (not_lt.mpr hge)]
        exact ⟨_, rfl, fun h => by omega, fun _ => rfl⟩)
    ⟨Distance2BetweenPoints q (GetPoint points id0), 0⟩
    ⟨fun _ => ⟨0, le_refl _, by decide, by rw [e0]⟩, fun h => by
      have hz : k = 0 := by omega
      rw [hz, e0]⟩
  have hend := hP.2 (by omega)
  simp only [GetClosestPoint, h0, Option.some_bind, hs, Option.map_some', hend]

/-- The closest match of every corner of the lower square on the upper
square is the corner at the same position of the chain, and position `0` for
the closing repeat of the first corner. -/
theorem squarePoints_closest1 (x y a b c d : ℚ) (hperp : a * c + b * d = 0)
    (heq : c * c + d * d = a * a + b * b) (hpos : 0 < a * a + b * b) :
    closestList (squarePoints x y a b c d) [0, 1, 2, 3, 0] [4, 5, 6, 7, 4] =
      some [0, 1, 2, 3, 0] := by
  have h0 : GetClosestPoint (squarePoints x y a b c d)
      (GetPoint (squarePoints x y a b c d) 0) [4, 5, 6, 7, 4] ([4, 5, 6, 7, 4] : List Nat).length =
      some 0 := by
    apply GetClosestPoint_first_min
    · exact ⟨by decide, by decide⟩
    · intro m h1 h2
      omega
    · intro m h1 h2
      have h2b : m < 5 := h2
      interval_cases m <;>
        simp [squarePoints, GetPoint, Distance2BetweenPoints, idAt, GetId, readAt] <;>
        nlinarith [hperp, heq, hpos]
  have h1 : GetClosestPoint (squarePoints x y a b c d)
      (GetPoint (squarePoints x y a b c d) 1) [4, 5, 6, 7, 4] ([4, 5, 6, 7, 4] : List Nat).length =
      some 1 := by
    apply GetClosestPoint_first_min
    · exact ⟨by decide, by decide⟩
    · intro m h1 h2
      interval_cases m
      simp [squarePoints, GetPoint, Distance2BetweenPoints, idAt, GetId, readAt]
      nlinarith [hperp, heq, hpos]
    · intro m h1 h2
      have h2b : m < 5 := h2
      interval_cases m <;>
        simp [squarePoints, GetPoint, Distance2BetweenPoints, idAt, GetId, readAt] <;>
        nlinarith [hperp, heq, hpos]
  have h2 : GetClosestPoint (squarePoints x y a b c d)
      (GetPoint (squarePoints x y a b c d) 2) [4, 5, 6, 7, 4] ([4, 5, 6, 7, 4] : List Nat).length =
      some 2 := by
    apply GetClosestPoint_first_min
    · exact ⟨by decide, by decide⟩
    · intro m h1 h2
      interval_cases m <;>
        simp [squarePoints, GetPoint, Distance2BetweenPoints, idAt, GetId, readAt] <;>
        nlinarith [hperp, heq, hpos]
    · intro m h1 h2
      have h2b : m < 5 := h2
      interval_cases m <;>
        simp [squarePoints, GetPoint, Distance2BetweenPoints, idAt, GetId, readAt] <;>
        nlinarith [hperp, heq, hpos]
  have h3 : GetClosestPoint (squarePoints x y a b c d)
      (GetPoint (squarePoints x y a b c d) 3) [4, 5, 6, 7, 4] ([4, 5, 6, 7, 4] : List Nat).length =
      some 3 := by
    apply GetClosestPoint_first_min
    · exact ⟨by decide, by decide⟩
    · intro m h1 h2
      interval_cases m <;>
        simp [squarePoints, GetPoint, Distance2BetweenPoints, idAt, GetId, readAt] <;>
        nlinarith [hperp, heq, hpos]
    · intro m h1 h2
      have h2b : m < 5 := h2
      interval_cases m
      simp [squarePoints, GetPoint, Distance2BetweenPoints, idAt, GetId, readAt]
      nlinarith [hperp, heq, hpos]
  simp only [closestList, List.mapM_cons, List.mapM_nil, h0, h1, h2, h3, Option.pure_def,
    Option.bind_eq_bind, Option.some_bind]

/-- The closest match of every corner of the upper square on the lower
square is the corner at the same position of the chain, and position `0` for
the closing repeat of the first corner. -/
theorem squarePoints_closest2 (x y a b c d : ℚ) (hperp : a * c + b * d = 0)
    (heq : c * c + d * d = a * a + b * b) (hpos : 0 < a * a + b * b) :
    closestList (squarePoints x y a b c d) [4, 5, 6, 7, 4] [0, 1, 2, 3, 0] =
      some [0, 1, 2, 3, 0] := by
  have h0 : GetClosestPoint (squarePoints x y a b c d)
      (GetPoint (squarePoints x y a b c d) 4) [0, 1, 2, 3, 0] ([0, 1, 2, 3, 0] : List Nat).length =
      some 0 := by
    apply GetClosestPoint_first_min
    · exact ⟨by decide, by decide⟩
    · intro m h1 h2
      omega
    · intro m h1 h2
      have h2b : m < 5 := h2
      interval_cases m <;>
        simp [squarePoints, GetPoint, Distance2BetweenPoints, idAt, GetId, readAt] <;>
        nlinarith [hperp, heq, hpos]
  have h1 : GetClosestPoint (squarePoints x y a b c d)
      (GetPoint (squarePoints x y a b c d) 5) [0, 1, 2, 3, 0] ([0, 1, 2, 3, 0] : List Nat).length =
      some 1 := by
    apply GetClosestPoint_first_min
    · exact ⟨by decide, by decide⟩
    · intro m h1 h2
      interval_cases m
      simp [squarePoints, GetPoint, Distance2BetweenPoints, idAt, GetId, readAt]
      nlinarith [hperp, heq, hpos]
    · intro m h1 h2
      have h2b : m < 5 := h2
      interval_cases m <;>
        simp [squarePoints, GetPoint, Distance2BetweenPoints, idAt, GetId, readAt] <;>
        nlinarith [hperp, heq, hpos]
  have h2 : GetClosestPoint (squarePoints x y a b c d)
      (GetPoint (squarePoints x y a b c d) 6) [0, 1, 2, 3, 0] ([0, 1, 2, 3, 0] : List Nat).length =
      some 2 := by
    apply GetClosestPoint_first_min
    · exact ⟨by decide, by decide⟩
    · intro m h1 h2
      interval_cases m <;>
        simp [squarePoints, GetPoint, Distance2BetweenPoints, idAt, GetId, readAt] <;>
        nlinarith [hperp, heq, hpos]
    · intro m h1 h2
      have h2b : m < 5 := h2
      interval_cases m <;>
        simp [squarePoints, GetPoint, Distance2BetweenPoints, idAt, GetId, readAt] <;>
        nlinarith [hperp, heq, hpos]
  have h3 : GetClosestPoint (squarePoints x y a b c d)
      (GetPoint (squarePoints x y a b c d) 7) [0, 1, 2, 3, 0] ([0, 1, 2, 3, 0] : List Nat).length =
      some 3 := by
    apply GetClosestPoint_first_min
    · exact ⟨by decide, by decide⟩
    · intro m h1 h2
      interval_cases m <;>
        simp [squarePoints, GetPoint, Distance2BetweenPoints, idAt, GetId, readAt] <;>
        nlinarith [hperp, heq, hpos]
    · intro m h1 h2
      have h2b : m < 5 := h2
      interval_cases m
      simp [squarePoints, GetPoint, Distance2BetweenPoints, idAt, GetId, readAt]
      nlinarith [hperp, heq, hpos]
  simp only [closestList, List.mapM_cons, List.mapM_nil, h0, h1, h2, h3, Option.pure_def,
    Option.bind_eq_bind, Option.some_bind]

/-- The marks that the fill leaves along the staircase of the table of two
chains of five positions whose closest matches are the positions themselves
and whose cross distances between neighbouring positions are symmetric: the
path that follows the marks from the last cell alternates `left` and `up`. -/
theorem staircase_marks (c : BridgeInput) (S : Table ℚ) (B : Table Int)
    (hl1 : c.pointsInLine1 = [0, 1, 2, 3, 0]) (hl2 : c.pointsInLine2 = [4, 5, 6, 7, 4])
    (hn1 : c.numberOfPointsInLine1 = 5) (hn2 : c.numberOfPointsInLine2 = 5)
    (hc1 : c.closest1 = [0, 1, 2, 3, 0]) (hc2 : c.closest2 = [0, 1, 2, 3, 0])
    (hs1 : c.startLine1 = 0) (hs2 : c.startLine2 = 0)
    (hcl1 : c.line1Closed = true) (hcl2 : c.line2Closed = true)
    (hf1 : c.firstPointLine1 = GetPoint c.points 0)
    (hf2 : c.firstPointLine2 = GetPoint c.points 4)
    (hd10 : Distance2BetweenPoints (GetPoint c.points 1) (GetPoint c.points 4) =
      Distance2BetweenPoints (GetPoint c.points 0) (GetPoint c.points 5))
    (hd21 : Distance2BetweenPoints (GetPoint c.points 2) (GetPoint c.points 5) =
      Distance2BetweenPoints (GetPoint c.points 1) (GetPoint c.points 6))
    (hd32 : Distance2BetweenPoints (GetPoint c.points 3) (GetPoint c.points 6) =
      Distance2BetweenPoints (GetPoint c.points 2) (GetPoint c.points 7))
    (hd43 : Distance2BetweenPoints (GetPoint c.points 0) (GetPoint c.points 7) =
      Distance2BetweenPoints (GetPoint c.points 3) (GetPoint c.points 4))
    (hcells : ∀ a b, 0 ≤ a → a < 5 → 0 ≤ b → b < 5 → CellOK c S B a b) :
    markedPath B 10 (4, 4) =
      [(4, 4), (4, 3), (3, 3), (3, 2), (2, 2), (2, 1), (1, 1), (1, 0), (0, 0)] := by
  have hfl11 : ¬ c.ForcedLeft 1 1 := by
    unfold BridgeInput.ForcedLeft BridgeInput.fillPrevious2 BridgeInput.fillSteps2 BridgeInput.position1
    rw [hc2, hn2, hcl2, hs2, hn1, hcl1, hs1]
    decide
  have hcu11 : ¬ c.ClosestUp 1 1 := by
    unfold BridgeInput.ClosestUp BridgeInput.fillPosition2 BridgeInput.fillSteps2 BridgeInput.position1
    rw [hc1, hn2, hcl2, hs2, hn1, hcl1, hs1]
    decide
  have hfl22 : ¬ c.ForcedLeft 2 2 := by
    unfold BridgeInput.ForcedLeft BridgeInput.fillPrevious2 BridgeInput.fillSteps2 BridgeInput.position1
    rw [hc2, hn2, hcl2, hs2, hn1, hcl1, hs1]
    decide
  have hcu22 : ¬ c.ClosestUp 2 2 := by
    unfold BridgeInput.ClosestUp BridgeInput.fillPosition2 BridgeInput.fillSteps2 BridgeInput.position1
    rw [hc1, hn2, hcl2, hs2, hn1, hcl1, hs1]
    decide
  have hfl33 : ¬ c.ForcedLeft 3 3 := by
    unfold BridgeInput.ForcedLeft BridgeInput.fillPrevious2 BridgeInput.fillSteps2 BridgeInput.position1
    rw [hc2, hn2, hcl2, hs2, hn1, hcl1, hs1]
    decide
  have hcu33 : ¬ c.ClosestUp 3 3 := by
    unfold BridgeInput.ClosestUp BridgeInput.fillPosition2 BridgeInput.fillSteps2 BridgeInput.position1
    rw [hc1, hn2, hcl2, hs2, hn1, hcl1, hs1]
    decide
  have hfl44 : ¬ c.ForcedLeft 4 4 := by
    unfold BridgeInput.ForcedLeft BridgeInput.fillPrevious2 BridgeInput.fillSteps2 BridgeInput.position1
    rw [hc2, hn2, hcl2, hs2, hn1, hcl1, hs1]
    decide
  have hcu44 : ¬ c.ClosestUp 4 4 := by
    unfold BridgeInput.ClosestUp BridgeInput.fillPosition2 BridgeInput.fillSteps2 BridgeInput.position1
    rw [hc1, hn2, hcl2, hs2, hn1, hcl1, hs1]
    decide
  have hfl21 : ¬ c.ForcedLeft 2 1 := by
    unfold BridgeInput.ForcedLeft BridgeInput.fillPrevious2 BridgeInput.fillSteps2 BridgeInput.position1
    rw [hc2, hn2, hcl2, hs2, hn1, hcl1, hs1]
    decide
  have hcu21 : c.ClosestUp 2 1 := by
    unfold BridgeInput.ClosestUp BridgeInput.fillPosition2 BridgeInput.fillSteps2 BridgeInput.position1
    rw [hc1, hn2, hcl2, hs2, hn1, hcl1, hs1]
    decide
  have hfl12 : c.ForcedLeft 1 2 := by
    unfold BridgeInput.ForcedLeft BridgeInput.fillPrevious2 BridgeInput.fillSteps2 BridgeInput.position1
    rw [hc2, hn2, hcl2, hs2, hn1, hcl1, hs1]
    decide
  have hfl32 : ¬ c.ForcedLeft 3 2 := by
    unfold BridgeInput.ForcedLeft BridgeInput.fillPrevious2 BridgeInput.fillSteps2 BridgeInput.position1
    rw [hc2, hn2, hcl2, hs2, hn1, hcl1, hs1]
    decide
  have hcu32 : c.ClosestUp 3 2 := by
    unfold BridgeInput.ClosestUp BridgeInput.fillPosition2 BridgeInput.fillSteps2 BridgeInput.position1
    rw [hc1, hn2, hcl2, hs2, hn1, hcl1, hs1]
    decide
  have hfl23 : c.ForcedLeft 2 3 := by
    unfold BridgeInput.ForcedLeft BridgeInput.fillPrevious2 BridgeInput.fillSteps2 BridgeInput.position1
    rw [hc2, hn2, hcl2, hs2, hn1, hcl1, hs1]
    decide
  have hfl43 : ¬ c.ForcedLeft 4 3 := by
    unfold BridgeInput.ForcedLeft BridgeInput.fillPrevious2 BridgeInput.fillSteps2 BridgeInput.position1
    rw [hc2, hn2, hcl2, hs2, hn1, hcl1, hs1]
    decide
  have hcu43 : c.ClosestUp 4 3 := by
    unfold BridgeInput.ClosestUp BridgeInput.fillPosition2 BridgeInput.fillSteps2 BridgeInput.position1
    rw [hc1, hn2, hcl2, hs2, hn1, hcl1, hs1]
    decide
  have hfl34 : c.ForcedLeft 3 4 := by
    unfold BridgeInput.ForcedLeft BridgeInput.fillPrevious2 BridgeInput.fillSteps2 BridgeInput.position1
    rw [hc2, hn2, hcl2, hs2, hn1, hcl1, hs1]
    decide
  have hcol : c.columnDistance 1 = c.rowDistance 1 := by
    unfold BridgeInput.columnDistance BridgeInput.rowDistance BridgeInput.position1
      BridgeInput.position2
    rw [hl1, hl2, hn1, hn2, hcl1, hcl2, hs1, hs2, hf1, hf2]
    exact hd10
  have hfd2 : c.fillDistance 2 1 = c.fillDistance 1 2 := by
    unfold BridgeInput.fillDistance BridgeInput.fillPosition2 BridgeInput.fillSteps2
      BridgeInput.position1
    rw [hl1, hl2, hn1, hn2, hcl1, hcl2, hs1, hs2]
    exact hd21
  have hfd3 : c.fillDistance 3 2 = c.fillDistance 2 3 := by
    unfold BridgeInput.fillDistance BridgeInput.fillPosition2 BridgeInput.fillSteps2
      BridgeInput.position1
    rw [hl1, hl2, hn1, hn2, hcl1, hcl2, hs1, hs2]
    exact hd32
  have hfd4 : c.fillDistance 4 3 = c.fillDistance 3 4 := by
    unfold BridgeInput.fillDistance BridgeInput.fillPosition2 BridgeInput.fillSteps2
      BridgeInput.position1
    rw [hl1, hl2, hn1, hn2, hcl1, hcl2, hs1, hs2]
    exact hd43
  -- the border cells next to the origin
  have k10 := hcells 1 0 (by decide) (by decide) (by decide) (by decide)
  have k01 := hcells 0 1 (by decide) (by decide) (by decide) (by decide)
  unfold CellOK at k10 k01
  simp only [show ¬ ((1 : Int) = 0) by decide, if_false, if_true] at k10 k01
  norm_num at k10 k01
  have k11 := hcells 1 1 (by decide) (by decide) (by decide) (by decide)
  unfold CellOK at k11
  simp only [show ¬ ((1 : Int) = 0) by decide, if_false, if_neg hfl11, if_neg hcu11] at k11
  norm_num at k11
  have hB11 : B 1 1 = left := by
    rw [if_pos (by rw [k10.1, k01.1, hcol])] at k11
    exact k11.2
  -- the cells around `(2, 2)`
  have ku2 := hcells 2 1 (by decide) (by decide) (by decide) (by decide)
  have kl2 := hcells 1 2 (by decide) (by decide) (by decide) (by decide)
  have kd2 := hcells 2 2 (by decide) (by decide) (by decide) (by decide)
  unfold CellOK at ku2 kl2 kd2
  simp only [show ¬ ((2 : Int) = 0) by decide, show ¬ ((1 : Int) = 0) by decide, if_false,
    if_neg hfl21, if_pos hcu21, if_pos hfl12, if_neg hfl22, if_neg hcu22]
    at ku2 kl2 kd2
  norm_num at ku2 kl2 kd2
  have hB22 : B 2 2 = left := by
    rw [if_pos (by rw [ku2.1, kl2.1, hfd2])] at kd2
    exact kd2.2
  -- the cells around `(3, 3)`
  have ku3 := hcells 3 2 (by decide) (by decide) (by decide) (by decide)
  have kl3 := hcells 2 3 (by decide) (by decide) (by decide) (by decide)
  have kd3 := hcells 3 3 (by decide) (by decide) (by decide) (by decide)
  unfold CellOK at ku3 kl3 kd3
  simp only [show ¬ ((3 : Int) = 0) by decide, show ¬ ((2 : Int) = 0) by decide, if_false,
    if_neg hfl32, if_pos hcu32, if_pos hfl23, if_neg hfl33, if_neg hcu33]
    at ku3 kl3 kd3
  norm_num at ku3 kl3 kd3
  have hB33 : B 3 3 = left := by
    rw [if_pos (by rw [ku3.1, kl3.1, hfd3])] at kd3
    exact kd3.2
  -- the cells around `(4, 4)`
  have ku4 := hcells 4 3 (by decide) (by decide) (by decide) (by decide)
  have kl4 := hcells 3 4 (by decide) (by decide) (by decide) (by decide)
  have kd4 := hcells 4 4 (by decide) (by decide) (by decide) (by decide)
  unfold CellOK at ku4 kl4 kd4
  simp only [show ¬ ((4 : Int) = 0) by decide, show ¬ ((3 : Int) = 0) by decide, if_false,
    if_neg hfl43, if_pos hcu43, if_pos hfl34, if_neg hfl44, if_neg hcu44]
    at ku4 kl4 kd4
  norm_num at ku4 kl4 kd4
  have hB44 : B 4 4 = left := by
    rw [if_pos (by rw [ku4.1, kl4.1, hfd4])] at kd4
    exact kd4.2
  have hne : ¬ (up = left) := by decide
  norm_num [markedPath, hB44, ku4.2, hB33, ku3.2, hB22, ku2.2, hB11, k10.2, hne]
theorem squarePoints_bridgeInput (x y a b c d : ℚ) (hperp : a * c + b * d = 0)
    (heq : c * c + d * d = a * a + b * b) (hpos : 0 < a * a + b * b) :
    bridgeInput (squarePoints x y a b c d) [0, 1, 2, 3, 0] [4, 5, 6, 7, 4] =
      some ⟨squarePoints x y a b c d, [0, 1, 2, 3, 0], [4, 5, 6, 7, 4], 5, 5, [0, 1, 2, 3, 0],
        [0, 1, 2, 3, 0], 0, 0, GetPoint (squarePoints x y a b c d) 0,
        GetPoint (squarePoints x y a b c d) 4, true, true⟩ := by
  simp only [bridgeInput, squarePoints_closest1 x y a b c d hperp heq hpos,
    squarePoints_closest2 x y a b c d hperp heq hpos, Option.some_bind]
  rfl

/-- The triangles of the staircase path between two chains of five positions
walked from position `0`. -/
theorem staircase_ribbon (c : BridgeInput)
    (hl1 : c.pointsInLine1 = [0, 1, 2, 3, 0]) (hl2 : c.pointsInLine2 = [4, 5, 6, 7, 4])
    (hn1 : c.numberOfPointsInLine1 = 5) (hn2 : c.numberOfPointsInLine2 = 5)
    (hs1 : c.startLine1 = 0) (hs2 : c.startLine2 = 0)
    (hcl1 : c.line1Closed = true) (hcl2 : c.line2Closed = true) :
    ribbonOf c [(4, 4), (4, 3), (3, 3), (3, 2), (2, 2), (2, 1), (1, 1), (1, 0), (0, 0)] =
      [(0, 4, 7), (0, 7, 3), (3, 7, 6), (3, 6, 2), (2, 6, 5), (2, 5, 1), (1, 5, 4), (1, 4, 0)] := by
  simp only [ribbonOf, stepTriangle, BridgeInput.id1, BridgeInput.id2, BridgeInput.position1,
    BridgeInput.position2, hl1, hl2, hn1, hn2, hs1, hs2, hcl1, hcl2]
  decide

/-- Bridging the two squares of `squarePoints`, whatever the position, the
size and the orientation of the square. -/
theorem TriangulateContours_squares (x y a b c d : ℚ) (hperp : a * c + b * d = 0)
    (heq : c * c + d * d = a * a + b * b) (hpos : 0 < a * a + b * b) (out : List Triangle) :
    TriangulateContours (squarePoints x y a b c d) [0, 1, 2, 3, 0] [4, 5, 6, 7, 4] out =
      some (out ++ [(0, 4, 7), (0, 7, 3), (3, 7, 6), (3, 6, 2), (2, 6, 5), (2, 5, 1), (1, 5, 4),
        (1, 4, 0)]) := by
  obtain ⟨c0, path, new, hcin, hc, _, _, _, hres, hnew, _, _, s, hs, hpath⟩ :=
    TriangulateContours_trace (squarePoints x y a b c d) [0, 1, 2, 3, 0] [4, 5, 6, 7, 4] out
      (by decide) (by decide)
  rw [squarePoints_bridgeInput x y a b c d hperp heq hpos] at hcin
  have hc0 := Option.some.inj hcin
  subst hc0
  obtain ⟨s', hs', hcells⟩ := fillTables_cells _ hc (show (2 : Int) ≤ 5 by decide)
    (show (2 : Int) ≤ 5 by decide) out
  have hss : s' = s := Option.some.inj (hs'.symm.trans hs)
  rw [hss] at hcells
  have hmarks := staircase_marks _ s.scoreTable s.backtrackTable rfl rfl rfl rfl rfl rfl rfl rfl
    rfl rfl rfl rfl
    (by
      simp only [squarePoints, GetPoint, Distance2BetweenPoints, List.getD_cons_succ,
        List.getD_cons_zero]
      nlinarith [hperp, heq])
    (by
      simp only [squarePoints, GetPoint, Distance2BetweenPoints, List.getD_cons_succ,
        List.getD_cons_zero]
      nlinarith [hperp, heq])
    (by
      simp only [squarePoints, GetPoint, Distance2BetweenPoints, List.getD_cons_succ,
        List.getD_cons_zero]
      nlinarith [hperp, heq])
    (by
      simp only [squarePoints, GetPoint, Distance2BetweenPoints, List.getD_cons_succ,
        List.getD_cons_zero]
      nlinarith [hperp, heq])
    hcells
  have hpath' : path = markedPath s.backtrackTable 10 (4, 4) := hpath
  rw [hmarks] at hpath'
  rw [hres, hnew, hpath', staircase_ribbon _ rfl rfl rfl rfl rfl rfl rfl rfl]

/-! ## Facts used for the closest point, the winding and the single-point chains -/

/-- Among the positions of a non-empty range there is a first one at which a
function is minimal. -/
theorem exists_first_min (f : Int → ℚ) (n : Nat) (hn : 0 < n) :
    ∃ k, InRange n k ∧ (∀ m, InRange n m → f k ≤ f m) ∧ ∀ m, 0 ≤ m → m < k → f k < f m := by
  induction n with
  | zero => exact absurd hn (by decide)
  | succ n ih =>
    by_cases h0 : n = 0
    · subst h0
      refine ⟨0, ⟨le_refl _, by decide⟩, ?_, ?_⟩
      · intro m hm
        have hm0 : m = 0 := by have := hm.1; have := hm.2; push_cast at *; omega
        rw [hm0]
      · intro m h1 h2
        omega
    · obtain ⟨k, hk, hmin, hfirst⟩ := ih (Nat.pos_of_ne_zero h0)
      have hk0 := hk.1
      have hk1 := hk.2
      by_cases hlt : f (n : Int) < f k
      · refine ⟨n, ⟨by omega, by push_cast; omega⟩, ?_, ?_⟩
        · intro m hm
          by_cases hmn : m = n
          · rw [hmn]
          · have := hmin m ⟨hm.1, by have := hm.2; push_cast at this; omega⟩
            linarith
        · intro m h1 h2
          have := hmin m ⟨h1, h2⟩
          linarith
      · refine ⟨k, ⟨hk0, by push_cast; omega⟩, ?_, hfirst⟩
        intro m hm
        by_cases hmn : m = n
        · rw [hmn]
          exact not_lt.mp hlt
        · exact hmin m ⟨hm.1, by have := hm.2; push_cast at this; omega⟩

/-- The position that `GetClosestPoint` returns on a non-empty chain: the
first position whose point is at the minimal squared distance. -/
theorem GetClosestPoint_spec (points : PointSet) (q : Point) (l : List Nat) (hl : l ≠ []) :
    ∃ k, GetClosestPoint points q l l.length = some k ∧ InRange l.length k ∧
      (∀ m, InRange l.length m →
        Distance2BetweenPoints q (GetPoint points (idAt l k)) ≤
          Distance2BetweenPoints q (GetPoint points (idAt l m))) ∧
      ∀ m, 0 ≤ m → m < k →
        Distance2BetweenPoints q (GetPoint points (idAt l k)) <
          Distance2BetweenPoints q (GetPoint points (idAt l m)) := by
  obtain ⟨k, hk, hmin, hfirst⟩ := exists_first_min
    (fun m => Distance2BetweenPoints q (GetPoint points (idAt l m))) l.length
    (List.length_pos.mpr hl)
  refine ⟨k, ?_, hk, hmin, hfirst⟩
  exact GetClosestPoint_first_min points q l k hk hfirst
    (fun m h1 h2 => hmin m ⟨by have := hk.1; omega, h2⟩)

/-- The start position on chain 2 that `TriangulateContours` derives is the
result of `GetClosestPoint` for the first point of chain 1. -/
theorem bridgeInput_start (points : PointSet) (l1 l2 : List Nat) (c : BridgeInput)
    (h : bridgeInput points l1 l2 = some c) :
    c.startLine1 = 0 ∧
      GetClosestPoint points (GetPoint points (idAt l1 0)) l2 l2.length = some c.startLine2 := by
  simp only [bridgeInput, Option.bind_eq_some] at h
  obtain ⟨c1, hc1, c2, _, st2, hst2, f1, hf1, f2, _, g1, _, e1, _, g2, _, e2, _, hc⟩ := h
  have hc' := Option.some.inj hc
  subst hc'
  refine ⟨rfl, ?_⟩
  show GetClosestPoint points (GetPoint points (idAt l1 0)) l2 l2.length = some st2
  cases l1 with
  | nil => simp [GetId, readAt] at hf1
  | cons a rest =>
    simp only [closestList, List.mapM_cons, Option.pure_def, Option.bind_eq_bind,
      Option.bind_eq_some] at hc1
    obtain ⟨k, hk, ks, _, hks⟩ := hc1
    have hks' := Option.some.inj hks
    rw [← hks'] at hst2
    have hst : st2 = k := by
      simp [readAt] at hst2
      exact hst2.symm
    have ha : idAt (a :: rest) 0 = a := by simp [idAt, GetId, readAt]
    rw [ha, hst]
    exact hk

/-- A path of cells none of whose steps is a `left` step has the triangles of
its `up` steps as its triangles. -/
theorem ribbonOf_eq_up (c : BridgeInput) (p : List (Int × Int))
    (h : leftTriangles c p = []) : ribbonOf c p = upTriangles c p := by
  cases p with
  | nil => rfl
  | cons cell rest =>
    induction rest generalizing cell with
    | nil => rfl
    | cons next rest ih =>
      simp only [ribbonOf, upTriangles, leftTriangles] at h ⊢
      by_cases hstep : next.1 = cell.1
      · rw [if_pos hstep] at h
        cases h
      · rw [if_neg hstep] at h ⊢
        rw [ih next h]

/-! ## Facts about the flagging pass of `FixKeyholes` -/

/-- Invariant rule for a fold that may fault: an invariant that every step
re-establishes holds after the fold, and the fold does not fault. -/
theorem foldlM_inv {α σ : Type} (f : σ → α → Option σ) (P : σ → Prop) (l : List α)
    (hstep : ∀ s, ∀ x ∈ l, P s → ∃ s', f s x = some s' ∧ P s') (s : σ) (h0 : P s) :
    ∃ s', l.foldlM f s = some s' ∧ P s' := by
  induction l generalizing s with
  | nil => exact ⟨s, rfl, h0⟩
  | cons a rest ih =>
    obtain ⟨s1, h1, hP1⟩ := hstep s a (List.mem_cons_self _ _) h0
    obtain ⟨s2, h2, hP2⟩ := ih (fun t x hx hP => hstep t x (List.mem_cons_of_mem _ hx) hP) s1 hP1
    exact ⟨s2, by rw [List.foldlM_cons, h1]; exact h2, hP2⟩

theorem writeAt_some {α : Type} (l : List α) (i : Int) (x : α) (h : InRange l.length i) :
    ∃ v, writeAt l i x = some v :=
  ⟨l.set i.toNat x, by simp [writeAt, h.1, h.2]⟩

theorem Distance2BetweenPoints_comm (p q : Point) :
    Distance2BetweenPoints p q = Distance2BetweenPoints q p := by
  unfold Distance2BetweenPoints
  ring

/-- One pair handled by the flagging pass keeps the flags in order. -/
theorem flagPairBody_ok (epsilon : ℚ) (minimumSeperation : Int) (pts : List Point) (p1 : Int)
    (hp1 : InRange pts.length p1) (k : Nat) (hk : k < pts.length)
    (hd : Distance2BetweenPoints (pts.getD p1.toNat ⟨0, 0, 0⟩) (pts.getD k ⟨0, 0, 0⟩) ≤
      epsilon * epsilon)
    (s : FlagState) (hs : FlagsOK epsilon minimumSeperation pts s.flags) :
    ∃ s', flagPairBody pts.length minimumSeperation p1 s (Int.ofNat k) = some s' ∧
      FlagsOK epsilon minimumSeperation pts s'.flags := by
  unfold flagPairBody
  simp only
  by_cases hsep : min (Int.ofNat k - p1) ((pts.length : Int) - 1 - Int.ofNat k + p1) >
      minimumSeperation
  · rw [if_pos hsep]
    have hp10 := hp1.1
    have hp11 := hp1.2
    have hk2 : InRange pts.length (Int.ofNat k) := ⟨by simp, by simp; exact hk⟩
    obtain ⟨f1, hf1⟩ := writeAt_some s.flags p1 (Int.ofNat k) (by rw [hs.len]; exact hp1)
    obtain ⟨hlen1, hat1, hoth1⟩ := writeAt_spec _ _ _ _ hf1
    obtain ⟨f2, hf2⟩ := writeAt_some f1 (Int.ofNat k) p1 (by rw [hlen1, hs.len]; exact hk2)
    obtain ⟨hlen2, hat2, hoth2⟩ := writeAt_spec _ _ _ _ hf2
    refine ⟨⟨true, f2⟩, by simp only [hf1, hf2, Option.some_bind], ?_⟩
    have hcross : Crossing epsilon minimumSeperation pts p1.toNat k := by
      refine ⟨by omega, hk, hd, ?_⟩
      have e : ((p1.toNat : Nat) : Int) = p1 := by omega
      rw [e]
      exact hsep
    have hflag1 : ∃ v, readAt f2 p1 = some v ∧ v ≠ -1 := by
      by_cases he : p1 = Int.ofNat k
      · exact ⟨p1, by rw [he] at hat2 ⊢; exact hat2, by omega⟩
      · exact ⟨Int.ofNat k, by rw [hoth2 p1 he]; exact hat1, by
          have : (0 : Int) ≤ Int.ofNat k := by simp
          omega⟩
    have hflag2 : ∃ v, readAt f2 (Int.ofNat k) = some v ∧ v ≠ -1 := ⟨p1, hat2, by omega⟩
    refine ⟨by show f2.length = _; rw [hlen2, hlen1, hs.len], ?_⟩
    intro i j hij hj
    show _ ∧ _ ∧ ∃ v, readAt f2 j = some v ∧ v ≠ -1
    by_cases hi2 : i = Int.ofNat k
    · rw [hi2, hat2] at hij
      have hj' : j = p1 := (Option.some.inj hij).symm
      rw [hj', hi2]
      exact ⟨hp10, Or.inr (by simpa using hcross), hflag1⟩
    · have hij1 : readAt f1 i = some j := by rw [← hoth2 i hi2]; exact hij
      by_cases hi1 : i = p1
      · rw [hi1, hat1] at hij1
        have hj' : j = Int.ofNat k := (Option.some.inj hij1).symm
        rw [hj', hi1]
        exact ⟨by simp, Or.inl (by simpa using hcross), hflag2⟩
      · have hij0 : readAt s.flags i = some j := by rw [← hoth1 i hi1]; exact hij1
        obtain ⟨hj0, hpart, v, hv, hvne⟩ := hs.entry i j hij0 hj
        refine ⟨hj0, hpart, ?_⟩
        by_cases hj2 : j = Int.ofNat k
        · rw [hj2]; exact hflag2
        · by_cases hj1 : j = p1
          · rw [hj1]; exact hflag1
          · exact ⟨v, by rw [hoth2 j hj2, hoth1 j hj1]; exact hv, hvne⟩
  · rw [if_neg hsep]
    exact ⟨s, rfl, hs⟩

/-- The flagging pass of `FixKeyholes` returns on every line, and leaves the
flags in order. -/
theorem flagLine_ok (epsilon : ℚ) (minimumSeperation : Int) (pts : List Point) :
    ∃ fs, flagLine epsilon minimumSeperation pts = some fs ∧
      FlagsOK epsilon minimumSeperation pts fs.flags := by
  obtain ⟨s, hs, hP⟩ := forLoop_inv (flagPointBody epsilon minimumSeperation pts)
    (fun _ s => FlagsOK epsilon minimumSeperation pts s.flags) pts.length 0
    (by
      intro i s h1 h2 hP
      have hir : InRange pts.length i := ⟨h1, by omega⟩
      simp only [flagPointBody, readAt_eq_getD pts i ⟨0, 0, 0⟩ hir, Option.some_bind]
      apply foldlM_inv _ (fun t => FlagsOK epsilon minimumSeperation pts t.flags) _ _ s hP
      intro t p2 hp2 ht
      simp only [FindPointsWithinRadius, List.mem_map, List.mem_filter, List.mem_range,
        decide_eq_true_eq] at hp2
      obtain ⟨k, ⟨hk, hd⟩, rfl⟩ := hp2
      exact flagPairBody_ok epsilon minimumSeperation pts i hir k hk hd t ht)
    ⟨false, List.replicate pts.length (-1)⟩
    ⟨by simp, by
      intro i j hij hj
      have := readAt_mem _ _ _ hij
      rw [List.mem_replicate] at this
      exact absurd this.2 hj⟩
  exact ⟨s, hs, hP⟩

/-! ## Facts about the splitting pass of `FixKeyholes` -/

/-- An iteration of the splitting pass is the step "Add a new line if
necessary" followed by the handling of the current point. -/
theorem splitBody_eq (originalLine : List Nat) (flags : List Int) (i : Int) (s0 : SplitState) :
    splitBody originalLine flags i s0 = splitPoint originalLine flags i (openLine s0) := rfl

theorem forLoop_snoc {σ : Type} (body : Int → σ → Option σ) (k : Nat) (start : Int) (s : σ) :
    forLoop body (k + 1) start s = (forLoop body k start s).bind (body (start + k)) := by
  induction k generalizing start s with
  | zero =>
    simp only [forLoop, Nat.cast_zero, add_zero, Option.some_bind]
    cases body start s <;> rfl
  | succ k ih =>
    show (body start s).bind (forLoop body (k + 1) (start + 1)) = _
    cases hb : body start s with
    | none => simp [forLoop, hb]
    | some s1 =>
      rw [Option.some_bind, ih (start + 1) s1]
      have e : start + 1 + (k : Int) = start + ((k + 1 : Nat) : Int) := by push_cast; ring
      rw [e]
      simp [forLoop, hb]

theorem readAt_last {α : Type} (l : List α) (h : l ≠ []) :
    readAt l ((l.length : Int) - 1) = some (l.getLast h) := by
  have hpos : 0 < l.length := List.length_pos.mpr h
  have h0 : (0 : Int) ≤ (l.length : Int) - 1 := by omega
  have hn : ((l.length : Int) - 1).toNat = l.length - 1 := by omega
  simp only [readAt, h0, if_true, hn, List.get?_eq_getElem?]
  rw [← List.getLast?_eq_getElem?, List.getLast?_eq_getLast _ h]

theorem getD_append_nil (p : List (List Nat)) (b : Nat) :
    (p ++ [[]]).getD b [] = p.getD b [] := by
  simp only [List.getD_eq_getElem?_getD]
  by_cases hb : b < p.length
  · rw [List.getElem?_append_left hb]
  · rw [List.getElem?_append_right (by omega)]
    have hnone : p[b]? = none := List.getElem?_eq_none (by omega)
    rw [hnone]
    cases h : b - p.length with
    | zero => simp
    | succ m => simp

theorem getD_set_lines (p : List (List Nat)) (a b : Nat) (v : List Nat) (ha : a < p.length) :
    (p.set a v).getD b [] = if b = a then v else p.getD b [] := by
  simp only [List.getD_eq_getElem?_getD]
  by_cases hb : b = a
  · rw [if_pos hb, hb, List.getElem?_set_self ha]
    rfl
  · rw [if_neg hb, List.getElem?_set_ne (fun h => hb h.symm)]

/-- The step "Add a new line if necessary" keeps the invariant, and after it
the current layer is the last of the open sub-loops. -/
theorem openLine_inv (line : List Nat) (flags : List Int) (init : List (List Nat)) (i : Int)
    (s0 : SplitState) (p : List (List Nat)) (h : SplitInv line flags init i s0 p) :
    ∃ p1, SplitInv line flags init i (openLine s0) p1 ∧
      (openLine s0).currentLayer + 1 = (openLine s0).rawLinePointIds.length ∧
      (openLine s0).finishedLinePointIds = s0.finishedLinePointIds := by
  unfold openLine
  by_cases hc : s0.currentLayer = s0.rawLinePointIds.length
  · rw [if_pos hc]
    refine ⟨p ++ [[]], ⟨h.layer_nonneg, Or.inr ?_, ?_, ?_, ?_, ?_, ?_, ?_⟩, ?_, rfl⟩
    · show s0.currentLayer + 1 = ((s0.rawLinePointIds ++ [s0.newLines.length]).length : Int)
      rw [List.length_append, List.length_singleton]
      push_cast
      omega
    · show s0.newLines ++ [[]] = _
      rw [h.lines, List.map_append, List.append_assoc]
      rfl
    · show (s0.finishedLinePointIds ++ (s0.rawLinePointIds ++ [s0.newLines.length])).Perm _
      rw [List.length_append, List.length_singleton, List.range'_concat, ← List.append_assoc]
      apply List.Perm.append h.handles
      rw [h.lines, List.length_append, List.length_map, Nat.one_mul]
    · intro a
      rw [getD_append_nil]
      exact h.sorted a
    · intro a k hk
      rw [getD_append_nil] at hk
      exact h.below a k hk
    · intro a b k ha hb
      rw [getD_append_nil] at ha hb
      exact h.disjoint a b k ha hb
    · intro k hk hflag
      obtain ⟨a, ha⟩ := h.covered k hk hflag
      exact ⟨a, by rw [getD_append_nil]; exact ha⟩
    · show s0.currentLayer + 1 = ((s0.rawLinePointIds ++ [s0.newLines.length]).length : Int)
      rw [List.length_append, List.length_singleton]
      push_cast
      omega
  · rw [if_neg hc]
    refine ⟨p, h, ?_, rfl⟩
    rcases h.layer with h1 | h1
    · exact absurd h1 hc
    · exact h1

/-- The insertion of the id of position `i` in the sub-loop `a`. -/
theorem insert_lines (line : List Nat) (init : List (List Nat)) (p : List (List Nat))
    (a : Nat) (ha : a < p.length) (i : Int) (hi : 0 ≤ i) (id : Nat)
    (hid : GetId line i = some id) :
    insertNextIdAt (init ++ p.map (idsAt line)) (init.length + a) id =
      some (init ++ (p.set a (p.getD a [] ++ [i.toNat])).map (idsAt line)) := by
  have hget : (init ++ p.map (idsAt line)).get? (init.length + a) =
      some (idsAt line (p.getD a [])) := by
    rw [List.get?_eq_getElem?, List.getElem?_append_right (by omega)]
    simp only [Nat.add_sub_cancel_left, List.getElem?_map, List.getD_eq_getElem?_getD,
      List.getElem?_eq_getElem ha, Option.map_some', Option.getD_some]
  have hidAt : idAt line ((i.toNat : Nat) : Int) = id := by
    rw [Int.toNat_of_nonneg hi]
    exact idAt_of_GetId _ _ _ hid
  simp only [insertNextIdAt, hget, Option.map_some']
  rw [List.set_append_right _ _ (by omega), Nat.add_sub_cancel_left, List.map_set,
    idsAt_append_singleton, hidAt]

/-- The positions held by the sub-loops after the position `i` has been
inserted in the sub-loop `a`. -/
theorem ghost_insert (flags : List Int) (p : List (List Nat)) (a : Nat) (ha : a < p.length)
    (i : Int) (hi : 0 ≤ i)
    (hsorted : ∀ a, (p.getD a []).Pairwise (fun x y => x < y))
    (hbelow : ∀ a k, k ∈ p.getD a [] → (k : Int) < i)
    (hdisjoint : ∀ a b k, k ∈ p.getD a [] → k ∈ p.getD b [] → a = b)
    (hcovered : ∀ k : Nat, (k : Int) < i → readAt flags k = some (-1) → ∃ a, k ∈ p.getD a []) :
    (∀ b, ((p.set a (p.getD a [] ++ [i.toNat])).getD b []).Pairwise (fun x y => x < y)) ∧
    (∀ b k, k ∈ (p.set a (p.getD a [] ++ [i.toNat])).getD b [] → (k : Int) < i + 1) ∧
    (∀ b b' k, k ∈ (p.set a (p.getD a [] ++ [i.toNat])).getD b [] →
      k ∈ (p.set a (p.getD a [] ++ [i.toNat])).getD b' [] → b = b') ∧
    (∀ k : Nat, (k : Int) < i + 1 → readAt flags k = some (-1) →
      ∃ b, k ∈ (p.set a (p.getD a [] ++ [i.toNat])).getD b []) := by
  have hmem : ∀ b k, k ∈ (p.set a (p.getD a [] ++ [i.toNat])).getD b [] →
      (b = a ∧ k = i.toNat) ∨ k ∈ p.getD b [] := by
    intro b k hk
    rw [getD_set_lines p a b _ ha] at hk
    by_cases hb : b = a
    · rw [if_pos hb] at hk
      rcases List.mem_append.mp hk with h | h
      · exact Or.inr (by rw [hb]; exact h)
      · exact Or.inl ⟨hb, by simpa using h⟩
    · rw [if_neg hb] at hk
      exact Or.inr hk
  refine ⟨?_, ?_, ?_, ?_⟩
  · intro b
    rw [getD_set_lines p a b _ ha]
    by_cases hb : b = a
    · rw [if_pos hb, List.pairwise_append]
      refine ⟨hsorted a, List.pairwise_singleton _ _, ?_⟩
      intro x hx y hy
      have hy' : y = i.toNat := by simpa using hy
      have := hbelow a x hx
      omega
    · rw [if_neg hb]
      exact hsorted b
  · intro b k hk
    rcases hmem b k hk with ⟨_, h⟩ | h
    · omega
    · have := hbelow b k h
      omega
  · intro b b' k hk hk'
    rcases hmem b k hk with ⟨hb, h⟩ | h
    · rcases hmem b' k hk' with ⟨hb', _⟩ | h'
      · rw [hb, hb']
      · have := hbelow b' k h'
        omega
    · rcases hmem b' k hk' with ⟨_, h'⟩ | h'
      · have := hbelow b k h
        omega
      · exact hdisjoint b b' k h h'
  · intro k hk hflag
    by_cases hki : (k : Int) = i
    · refine ⟨a, ?_⟩
      rw [getD_set_lines p a a _ ha, if_pos rfl]
      apply List.mem_append_right
      have : k = i.toNat := by omega
      rw [this]
      exact List.mem_singleton_self _
    · obtain ⟨b, hb⟩ := hcovered k (by omega) hflag
      refine ⟨b, ?_⟩
      rw [getD_set_lines p a b _ ha]
      by_cases hba : b = a
      · rw [if_pos hba]
        exact List.mem_append_left _ (by rw [← hba]; exact hb)
      · rw [if_neg hba]
        exact hb

/-- An iteration of the splitting pass returns and keeps the invariant; the
point is inserted, if at all, in the sub-loop of the current layer, which is
the last of the open sub-loops, and when a layer closes that sub-loop is the
one taken off the open sub-loops. -/
theorem splitPoint_step (line : List Nat) (flags : List Int) (init : List (List Nat))
    (hlen : flags.length = line.length) (i : Int) (hi : InRange line.length i)
    (s : SplitState) (p : List (List Nat)) (h : SplitInv line flags init i s p)
    (hlast : s.currentLayer + 1 = s.rawLinePointIds.length) :
    ∃ s' p' handle, splitPoint line flags i s = some s' ∧
      SplitInv line flags init (i + 1) s' p' ∧
      readAt s.rawLinePointIds s.currentLayer = some handle ∧
      s.rawLinePointIds.getLast? = some handle ∧ handle < s.newLines.length ∧
      ((s'.finishedLinePointIds = s.finishedLinePointIds ∧
          s'.rawLinePointIds = s.rawLinePointIds) ∨
        (s'.finishedLinePointIds = s.finishedLinePointIds ++ [handle] ∧
          s'.rawLinePointIds = s.rawLinePointIds.dropLast)) := by
  have hi0 := hi.1
  have hi1 := hi.2
  -- the reads of the iteration
  obtain ⟨flag, hflag, _⟩ := readAt_of_inRange flags i (by rw [hlen]; exact hi)
  obtain ⟨id, hid, _⟩ := GetId_of_inRange line i hi
  have hraw : s.rawLinePointIds ≠ [] := by
    intro hnil
    rw [hnil] at hlast
    have := h.layer_nonneg
    simp at hlast
    omega
  have hcur : s.currentLayer = (s.rawLinePointIds.length : Int) - 1 := by omega
  have hhandle : readAt s.rawLinePointIds s.currentLayer =
      some (s.rawLinePointIds.getLast hraw) := by
    rw [hcur]
    exact readAt_last _ hraw
  have hgetLast : s.rawLinePointIds.getLast? = some (s.rawLinePointIds.getLast hraw) :=
    List.getLast?_eq_getLast _ hraw
  -- the handle is the position of a sub-loop
  have hmemraw : s.rawLinePointIds.getLast hraw ∈ s.finishedLinePointIds ++ s.rawLinePointIds :=
    List.mem_append_right _ (List.getLast_mem hraw)
  have hrange := (h.handles.mem_iff).mp hmemraw
  rw [List.mem_range'_1] at hrange
  obtain ⟨a, ha⟩ : ∃ a, s.rawLinePointIds.getLast hraw = init.length + a :=
    ⟨s.rawLinePointIds.getLast hraw - init.length, by omega⟩
  have hap : a < p.length := by omega
  have hlt : s.rawLinePointIds.getLast hraw < s.newLines.length := by
    rw [h.lines, List.length_append, List.length_map]
    omega
  have hins : insertNextIdAt s.newLines (s.rawLinePointIds.getLast hraw) id =
      some (init ++ (p.set a (p.getD a [] ++ [i.toNat])).map (idsAt line)) := by
    rw [h.lines, ha]
    exact insert_lines line init p a hap i hi0 id hid
  obtain ⟨g1, g2, g3, g4⟩ := ghost_insert flags p a hap i hi0 h.sorted h.below h.disjoint
    h.covered
  have hplen : (p.set a (p.getD a [] ++ [i.toNat])).length = p.length := List.length_set _ _ _
  -- the invariant when the point is skipped
  have hskip : flag ≠ -1 → SplitInv line flags init (i + 1) s p := by
    intro hne
    refine ⟨h.layer_nonneg, h.layer, h.lines, h.handles, h.sorted, ?_, h.disjoint, ?_⟩
    · intro b k hk
      have := h.below b k hk
      omega
    · intro k hk hk1
      by_cases hki : (k : Int) = i
      · rw [hki, hflag] at hk1
        exact absurd (Option.some.inj hk1) hne
      · exact h.covered k (by omega) hk1
  unfold splitPoint
  simp only [hflag, Option.some_bind]
  by_cases hf1 : flag = -1
  · rw [if_pos hf1]
    simp only [hhandle, hid, hins, Option.some_bind]
    refine ⟨_, p.set a (p.getD a [] ++ [i.toNat]), _, rfl,
      ⟨h.layer_nonneg, h.layer, rfl, ?_, g1, g2, g3, g4⟩, rfl, hgetLast, hlt, Or.inl ⟨rfl, rfl⟩⟩
    rw [hplen]
    exact h.handles
  · rw [if_neg hf1]
    by_cases hf2 : flag > i ∧ s.pointInChannel = false
    · rw [if_pos hf2]
      simp only [hhandle, hid, hins, Option.some_bind]
      refine ⟨_, p.set a (p.getD a [] ++ [i.toNat]), _, rfl,
        ⟨?_, Or.inl hlast, rfl, ?_, g1, g2, g3, g4⟩, rfl, hgetLast, hlt, Or.inl ⟨rfl, rfl⟩⟩
      · show 0 ≤ s.currentLayer + 1
        have := h.layer_nonneg
        omega
      · rw [hplen]
        exact h.handles
    · rw [if_neg hf2]
      by_cases hf3 : flag < i ∧ s.pointInChannel = false
      · rw [if_pos hf3]
        simp only [hhandle, hid, hins, Option.some_bind, if_neg hraw]
        refine ⟨_, p.set a (p.getD a [] ++ [i.toNat]), _, rfl,
          ⟨?_, ?_, rfl, ?_, g1, g2, g3, g4⟩, rfl, hgetLast, hlt, Or.inr ⟨rfl, rfl⟩⟩
        · show 0 ≤ (if s.currentLayer > 0 then s.currentLayer - 1 else s.currentLayer)
          have := h.layer_nonneg
          split <;> omega
        · show (if s.currentLayer > 0 then s.currentLayer - 1 else s.currentLayer) =
              ((s.rawLinePointIds.dropLast.length : Nat) : Int) ∨
            (if s.currentLayer > 0 then s.currentLayer - 1 else s.currentLayer) + 1 =
              ((s.rawLinePointIds.dropLast.length : Nat) : Int)
          rw [List.length_dropLast]
          have hpos : 0 < s.rawLinePointIds.length := List.length_pos.mpr hraw
          have := h.layer_nonneg
          split
          · right
            omega
          · left
            omega
        · show (s.finishedLinePointIds ++ [s.rawLinePointIds.getLast hraw] ++
            s.rawLinePointIds.dropLast).Perm _
          rw [hplen]
          refine List.Perm.trans ?_ h.handles
          rw [List.append_assoc]
          apply List.Perm.append_left
          have hsplit := List.dropLast_append_getLast hraw
          conv_rhs => rw [← hsplit]
          exact List.perm_append_comm
      · rw [if_neg hf3]
        exact ⟨s, p, _, rfl, hskip hf1, hhandle, hgetLast, hlt, Or.inl ⟨rfl, rfl⟩⟩

/-- An iteration of the splitting pass, from the head of the loop body. -/
theorem splitBody_step (line : List Nat) (flags : List Int) (init : List (List Nat))
    (hlen : flags.length = line.length) (i : Int) (hi : InRange line.length i)
    (s0 : SplitState) (p : List (List Nat)) (h : SplitInv line flags init i s0 p) :
    ∃ s' p', splitBody line flags i s0 = some s' ∧ SplitInv line flags init (i + 1) s' p' := by
  obtain ⟨p1, h1, hlast, _⟩ := openLine_inv line flags init i s0 p h
  obtain ⟨s', p', _, hs', hinv, _⟩ := splitPoint_step line flags init hlen i hi _ p1 h1 hlast
  exact ⟨s', p', by rw [splitBody_eq]; exact hs', hinv⟩

/-- The splitting pass returns after every number of points, with its
invariant. -/
theorem splitWalk_inv (line : List Nat) (flags : List Int) (init : List (List Nat))
    (hlen : flags.length = line.length) (k : Nat) (hk : k ≤ line.length) :
    ∃ s p, splitWalk line flags init k = some s ∧ SplitInv line flags init k s p := by
  obtain ⟨s, hs, p, hP⟩ := forLoop_inv (splitBody line flags)
    (fun i s => ∃ p, SplitInv line flags init i s p) k 0
    (by
      intro i s h1 h2 hP
      obtain ⟨p, hp⟩ := hP
      obtain ⟨s', p', hs', hinv⟩ := splitBody_step line flags init hlen i ⟨h1, by omega⟩ s p hp
      exact ⟨s', hs', p', hinv⟩)
    ⟨0, false, init, [], []⟩
    ⟨[], ⟨le_refl _, Or.inl rfl, by simp, by simp, by intro a; simp, by intro a k hk; simp at hk,
      by intro a b k hk; simp at hk, by intro k hk; omega⟩⟩
  refine ⟨s, p, hs, ?_⟩
  have e : (0 : Int) + (k : Int) = k := by omega
  rw [e] at hP
  exact hP

theorem reclose_nil : reclose [] = [] := rfl

/-- A sub-loop that has been sealed is empty or closed. -/
theorem reclose_closed (l : List Nat) (h : reclose l ≠ []) :
    (reclose l).head? = (reclose l).getLast? := by
  cases l with
  | nil => exact absurd reclose_nil h
  | cons a t =>
    have hne : (a :: t) ≠ [] := List.cons_ne_nil a t
    have hlast : (a :: t).getLast? = some ((a :: t).getLast hne) := List.getLast?_eq_getLast _ hne
    unfold reclose
    rw [hlast, List.head?_cons]
    simp only
    by_cases hc : a ≠ (a :: t).getLast hne
    · rw [if_pos hc, List.getLast?_concat]
      rfl
    · rw [if_neg hc]
      rw [hlast, List.head?_cons]
      have : a = (a :: t).getLast hne := not_not.mp hc
      rw [← this]

/-- What the step "Seal the lines" does to a sub-loop: the first id is
appended when the sub-loop is not empty and not closed, nothing otherwise. -/
theorem reclose_eq (l : List Nat) :
    reclose l = if l ≠ [] ∧ l.head? ≠ l.getLast? then l ++ l.head?.toList else l := by
  cases l with
  | nil => simp [reclose]
  | cons a t =>
    have hne : (a :: t) ≠ [] := List.cons_ne_nil a t
    have hlast : (a :: t).getLast? = some ((a :: t).getLast hne) := List.getLast?_eq_getLast _ hne
    unfold reclose
    rw [hlast, List.head?_cons]
    simp only [ne_eq, Option.some.injEq, Option.toList_some, hne, not_false_eq_true, true_and]

theorem reclose_idem (l : List Nat) : reclose (reclose l) = reclose l := by
  by_cases h : reclose l = []
  · rw [h]
    rfl
  · have hc := reclose_closed l h
    rw [reclose_eq (reclose l), if_neg]
    intro hcon
    exact hcon.2 hc

theorem set_getD_self (L : List (List Nat)) (h : Nat) (hh : h < L.length) :
    L.set h (L.getD h []) = L := by
  apply List.ext_getElem (List.length_set _ _ _)
  intro n h1 h2
  rw [List.getElem_set]
  split
  · rename_i hn
    subst hn
    exact List.getD_eq_getElem _ _ hh
  · rfl

theorem sealBody_eq (L : List (List Nat)) (h : Nat) (hh : h < L.length) :
    sealBody L h = some (L.set h (reclose (L.getD h []))) := by
  have hget : L.get? h = some (L.getD h []) := by
    rw [List.get?_eq_getElem?, List.getElem?_eq_getElem hh, List.getD_eq_getElem _ _ hh]
  simp only [sealBody, hget, Option.some_bind]
  have key : ∀ ids : List Nat, L.getD h [] = ids →
      (match ids.head?, ids.getLast? with
        | some first, some last =>
          if first ≠ last then some (L.set h (ids ++ [first])) else some L
        | _, _ => some L) = some (L.set h (reclose ids)) := by
    intro ids hids
    cases ids with
    | nil =>
      show some L = some (L.set h (reclose []))
      rw [reclose_nil, ← hids, set_getD_self L h hh]
    | cons a t =>
      have hne : (a :: t) ≠ [] := List.cons_ne_nil a t
      have hlast : (a :: t).getLast? = some ((a :: t).getLast hne) :=
        List.getLast?_eq_getLast _ hne
      simp only [reclose, hlast, List.head?_cons]
      by_cases hc : a ≠ (a :: t).getLast hne
      · rw [if_pos hc, if_pos hc]
      · rw [if_neg hc, if_neg hc, ← hids, set_getD_self L h hh]
  exact key _ rfl

/-- The step "Seal the lines": every sub-loop named by a handle is sealed,
the other lines are left as they are. -/
theorem seal_fold (H : List Nat) (L : List (List Nat)) (hH : ∀ h ∈ H, h < L.length) :
    ∃ L', H.foldlM sealBody L = some L' ∧ L'.length = L.length ∧
      ∀ idx, L'.getD idx [] = if idx ∈ H then reclose (L.getD idx []) else L.getD idx [] := by
  induction H generalizing L with
  | nil => exact ⟨L, rfl, rfl, fun idx => by simp⟩
  | cons h rest ih =>
    have hh := hH h (List.mem_cons_self _ _)
    obtain ⟨L', hfold, hlen, hget⟩ := ih (L.set h (reclose (L.getD h [])))
      (fun x hx => by rw [List.length_set]; exact hH x (List.mem_cons_of_mem _ hx))
    refine ⟨L', by rw [List.foldlM_cons, sealBody_eq L h hh]; exact hfold,
      by rw [hlen, List.length_set], ?_⟩
    intro idx
    rw [hget idx, getD_set_lines L h idx _ hh]
    by_cases hidx : idx = h
    · have hin : idx ∈ h :: rest := by rw [hidx]; exact List.mem_cons_self _ _
      rw [if_pos hidx, if_pos hin]
      by_cases hr : idx ∈ rest
      · rw [if_pos hr, reclose_idem, hidx]
      · rw [if_neg hr, hidx]
    · rw [if_neg hidx]
      by_cases hr : idx ∈ rest
      · rw [if_pos hr, if_pos (List.mem_cons_of_mem _ hr)]
      · have hnot : ¬ idx ∈ h :: rest := by
          intro hmem
          rcases List.mem_cons.mp hmem with h1 | h1
          · exact hidx h1
          · exact hr h1
        rw [if_neg hr, if_neg hnot]

theorem lines_ext (L L' : List (List Nat)) (hlen : L'.length = L.length)
    (h : ∀ idx, L'.getD idx [] = L.getD idx []) : L' = L := by
  apply List.ext_getElem hlen
  intro n h1 h2
  have := h n
  rw [List.getD_eq_getElem _ _ h1, List.getD_eq_getElem _ _ h2] at this
  exact this

/-- The splitting pass on a line: it returns, the lines it was given are
left as they are, and the sub-loops it appends are the sub-loops of the walk,
each sealed. -/
theorem splitLine_spec (line : List Nat) (flags : List Int) (init : List (List Nat))
    (hlen : flags.length = line.length) :
    ∃ s p, splitWalk line flags init line.length = some s ∧
      SplitInv line flags init line.length s p ∧
      splitLine line flags init = some (init ++ (p.map (idsAt line)).map reclose) := by
  obtain ⟨s, p, hs, hinv⟩ := splitWalk_inv line flags init hlen line.length (le_refl _)
  refine ⟨s, p, hs, hinv, ?_⟩
  have hmemH : ∀ h, h ∈ s.finishedLinePointIds ++ s.rawLinePointIds ↔
      init.length ≤ h ∧ h < init.length + p.length := by
    intro h
    rw [hinv.handles.mem_iff, List.mem_range'_1]
  have hLlen : s.newLines.length = init.length + p.length := by
    rw [hinv.lines, List.length_append, List.length_map]
  obtain ⟨L', hfold, hlen', hget⟩ := seal_fold (s.finishedLinePointIds ++ s.rawLinePointIds)
    s.newLines (fun h hh => by rw [hLlen]; exact ((hmemH h).mp hh).2)
  have hL' : L' = init ++ (p.map (idsAt line)).map reclose := by
    apply lines_ext
    · rw [hlen', hLlen]
      simp
    · intro idx
      rw [hget idx, hinv.lines]
      simp only [List.getD_eq_getElem?_getD]
      by_cases h1 : idx < init.length
      · rw [if_neg (fun hmem => by have := ((hmemH idx).mp hmem).1; omega),
          List.getElem?_append_left h1, List.getElem?_append_left h1]
      · rw [List.getElem?_append_right (by omega), List.getElem?_append_right (by omega)]
        by_cases h2 : idx < init.length + p.length
        · rw [if_pos ((hmemH idx).mpr ⟨by omega, h2⟩)]
          have h3 : idx - init.length < (p.map (idsAt line)).length := by
            rw [List.length_map]; omega
          simp only [List.getElem?_map, List.getElem?_eq_getElem (show idx - init.length <
            p.length by omega), Option.map_some', Option.getD_some]
        · rw [if_neg (fun hmem => h2 ((hmemH idx).mp hmem).2)]
          have hn1 : (p.map (idsAt line))[idx - init.length]? = none :=
            List.getElem?_eq_none (by rw [List.length_map]; omega)
          have hn2 : ((p.map (idsAt line)).map reclose)[idx - init.length]? = none :=
            List.getElem?_eq_none (by rw [List.length_map, List.length_map]; omega)
          rw [hn1, hn2]
  unfold splitLine
  have hs' : forLoop (splitBody line flags) line.length 0 ⟨0, false, init, [], []⟩ = some s := hs
  rw [hs', Option.some_bind, hfold, hL']

/-! ## Facts about the planes -/

/-- The scan of `GetNumberOfLinesOnPlane` from a line of the set: it returns
the first line from there on whose lower Z bound is not `lineZ`, or the number
of lines when there is none. -/
theorem GetNumberOfLinesOnPlane.loop_run (input : PolyData) (lineZ : ℚ) (fuel : Nat)
    (cur : Int) (h0 : 0 ≤ cur) (h1 : cur ≤ input.lines.length)
    (hfuel : ((input.lines.length : Int) - cur).toNat ≤ fuel) :
    ∃ r, GetNumberOfLinesOnPlane.loop input input.lines.length lineZ fuel cur = some r ∧
      cur ≤ r ∧ r ≤ input.lines.length ∧
      (∀ m, cur ≤ m → m < r → (GetBounds input.points (lineAt input m)).zmin = lineZ) ∧
      (r < input.lines.length → (GetBounds input.points (lineAt input r)).zmin ≠ lineZ) := by
  induction fuel generalizing cur with
  | zero =>
    have hn : ¬ (cur < (input.lines.length : Int)) := by omega
    refine ⟨cur, by simp only [GetNumberOfLinesOnPlane.loop, if_neg hn], le_refl _, h1, ?_, ?_⟩
    · intro m hm1 hm2
      omega
    · intro hlt
      omega
  | succ k ih =>
    by_cases hlt : cur < (input.lines.length : Int)
    · obtain ⟨line, hline, _⟩ := readAt_of_inRange input.lines cur ⟨h0, hlt⟩
      have hat : lineAt input cur = line := by simp [lineAt, hline]
      by_cases hz : (GetBounds input.points line).zmin = lineZ
      · obtain ⟨r, hr, hr1, hr2, hrun, hstop⟩ := ih (cur + 1) (by omega) (by omega) (by omega)
        refine ⟨r, ?_, by omega, hr2, ?_, hstop⟩
        · simp only [GetNumberOfLinesOnPlane.loop, if_pos hlt, hline, Option.some_bind, if_pos hz]
          exact hr
        · intro m hm1 hm2
          by_cases hm : m = cur
          · rw [hm, hat]
            exact hz
          · exact hrun m (by omega) hm2
      · refine ⟨cur, ?_, le_refl _, h1, ?_, ?_⟩
        · simp only [GetNumberOfLinesOnPlane.loop, if_pos hlt, hline, Option.some_bind, if_neg hz]
        · intro m hm1 hm2
          omega
        · intro _
          rw [hat]
          exact hz
    · refine ⟨cur, by simp only [GetNumberOfLinesOnPlane.loop, if_neg hlt], le_refl _, h1, ?_, ?_⟩
      · intro m hm1 hm2
        omega
      · intro h
        exact absurd h hlt

/-- From a line `k` of the set `GetNumberOfLinesOnPlane` returns the length
of the maximal run of consecutive lines from `k` on that share the lower Z
bound of line `k`. -/
theorem GetNumberOfLinesOnPlane_run (input : PolyData) (k : Int)
    (hk : InRange input.lines.length k) :
    ∃ r, GetNumberOfLinesOnPlane input input.lines.length k = some r ∧ 1 ≤ r ∧
      k + r ≤ input.lines.length ∧
      (∀ m, k ≤ m → m < k + r →
        (GetBounds input.points (lineAt input m)).zmin =
          (GetBounds input.points (lineAt input k)).zmin) ∧
      (k + r < input.lines.length →
        (GetBounds input.points (lineAt input (k + r))).zmin ≠
          (GetBounds input.points (lineAt input k)).zmin) := by
  obtain ⟨line, hline, _⟩ := readAt_of_inRange input.lines k hk
  have hat : lineAt input k = line := by simp [lineAt, hline]
  have hk0 := hk.1
  have hk1 := hk.2
  obtain ⟨r, hr, hr1, hr2, hrun, hstop⟩ := GetNumberOfLinesOnPlane.loop_run input
    (GetBounds input.points line).zmin ((input.lines.length : Int) - k).toNat (k + 1)
    (by omega) (by omega) (by omega)
  refine ⟨r - k, ?_, by omega, by omega, ?_, ?_⟩
  · simp only [GetNumberOfLinesOnPlane, hline, Option.some_bind, hr, Option.map_some']
  · intro m hm1 hm2
    rw [hat]
    by_cases hm : m = k
    · rw [hm, hat]
    · exact hrun m (by omega) (by omega)
  · intro hlt
    rw [hat, show k + (r - k) = r by ring]
    exact hstop (by omega)

theorem Tiles.append (a mid : Int) (planes : List (Int × Int)) (plane : Int × Int)
    (h : Tiles a planes mid) (h1 : plane.1 = mid) (h2 : 1 ≤ plane.2) :
    Tiles a (planes ++ [plane]) (mid + plane.2) := by
  induction planes generalizing a with
  | nil =>
    have ha : a = mid := h
    rw [ha]
    exact ⟨h1, h2, rfl⟩
  | cons q rest ih =>
    obtain ⟨hq1, hq2, hrest⟩ := h
    exact ⟨hq1, hq2, ih _ hrest⟩

/-- Planes that tile the lines from `a` to `b` lie between `a` and `b`. -/
theorem Tiles.bounds {a b : Int} {planes : List (Int × Int)} (h : Tiles a planes b) :
    a ≤ b ∧ ∀ plane ∈ planes, a ≤ plane.1 ∧ plane.1 + plane.2 ≤ b ∧ 1 ≤ plane.2 := by
  induction planes generalizing a with
  | nil =>
    have ha : a = b := h
    exact ⟨by omega, fun plane hp => by cases hp⟩
  | cons q rest ih =>
    obtain ⟨hq1, hq2, hrest⟩ := h
    obtain ⟨hle, hall⟩ := ih hrest
    refine ⟨by omega, ?_⟩
    intro plane hp
    rcases List.mem_cons.mp hp with rfl | hp
    · exact ⟨by omega, by omega, hq2⟩
    · obtain ⟨h1, h2, h3⟩ := hall plane hp
      exact ⟨by omega, h2, h3⟩

/-- Planes that tile the lines from `a` to `b` partition them: every line
from `a` up to `b` lies on exactly one of the planes. -/
theorem Tiles.partition {a b : Int} {planes : List (Int × Int)} (h : Tiles a planes b)
    (l : Int) (hl1 : a ≤ l) (hl2 : l < b) :
    ∃ plane ∈ planes, plane.1 ≤ l ∧ l < plane.1 + plane.2 ∧
      ∀ plane' ∈ planes, plane'.1 ≤ l → l < plane'.1 + plane'.2 → plane' = plane := by
  induction planes generalizing a with
  | nil =>
    have ha : a = b := h
    omega
  | cons q rest ih =>
    obtain ⟨hq1, hq2, hrest⟩ := h
    by_cases hin : l < a + q.2
    · refine ⟨q, List.mem_cons_self _ _, by omega, by omega, ?_⟩
      intro plane' hp h1 h2
      rcases List.mem_cons.mp hp with rfl | hp
      · rfl
      · have := (Tiles.bounds hrest).2 plane' hp
        omega
    · obtain ⟨plane, hmem, h1, h2, huniq⟩ := ih hrest (by omega)
      refine ⟨plane, List.mem_cons_of_mem _ hmem, h1, h2, ?_⟩
      intro plane' hp h1' h2'
      rcases List.mem_cons.mp hp with rfl | hp
      · omega
      · exact huniq plane' hp h1' h2'

/-- The walk of `Convert` over the planes of a non-empty contour set returns
within its budget, and the planes it visits tile the lines of the set; each
is the maximal run that `GetNumberOfLinesOnPlane` counts from its first
line, and the second plane of every pair is the first plane of the next. -/
theorem planePairs_tiles (input : PolyData) (hne : input.lines ≠ []) :
    ∃ w, planePairs input = some w ∧ Tiles 0 (planesOf w) input.lines.length ∧
      (∀ plane ∈ planesOf w,
        GetNumberOfLinesOnPlane input input.lines.length plane.1 = some plane.2) ∧
      ∀ pr ∈ w.pairs, pr.2.2.1 = pr.1 + pr.2.1 ∧
        GetNumberOfLinesOnPlane input input.lines.length pr.2.2.1 = some pr.2.2.2 := by
  have hpos : 0 < input.lines.length := List.length_pos.mpr hne
  obtain ⟨lowest, hlowest, hl1, hl2, _, _⟩ := GetNumberOfLinesOnPlane_run input 0
    ⟨le_refl _, by omega⟩
  obtain ⟨w, hw, hP, hcond⟩ := whileLoop_inv
    (fun t : PlaneWalk => decide (t.first + t.count < (input.lines.length : Int)))
    (fun t =>
      (GetNumberOfLinesOnPlane input input.lines.length (t.first + t.count)).map fun n2 =>
        ⟨t.first + t.count, n2, t.pairs ++ [(t.first, t.count, t.first + t.count, n2)]⟩)
    (fun t => Tiles 0 (t.pairs.map (fun pr => (pr.1, pr.2.1))) t.first ∧
      0 ≤ t.first ∧ 1 ≤ t.count ∧ t.first + t.count ≤ input.lines.length ∧
      GetNumberOfLinesOnPlane input input.lines.length t.first = some t.count ∧
      (∀ pr ∈ t.pairs, GetNumberOfLinesOnPlane input input.lines.length pr.1 = some pr.2.1 ∧
        pr.2.2.1 = pr.1 + pr.2.1 ∧
        GetNumberOfLinesOnPlane input input.lines.length pr.2.2.1 = some pr.2.2.2))
    (fun t => ((input.lines.length : Int) - (t.first + t.count)).toNat)
    (by
      intro t hP hc
      obtain ⟨htiles, hf0, hc1, hle, hcount, hpairs⟩ := hP
      have hlt : t.first + t.count < (input.lines.length : Int) := by simpa using hc
      obtain ⟨n2, hn2, hn21, hn22, _, _⟩ := GetNumberOfLinesOnPlane_run input
        (t.first + t.count) ⟨by omega, hlt⟩
      refine ⟨⟨t.first + t.count, n2, t.pairs ++ [(t.first, t.count, t.first + t.count, n2)]⟩,
        by simp only [hn2, Option.map_some'], ⟨?_, by show 0 ≤ t.first + t.count; omega, hn21,
          hn22, hn2, ?_⟩, ?_⟩
      · show Tiles 0 ((t.pairs ++ [(t.first, t.count, t.first + t.count, n2)]).map
          (fun pr => (pr.1, pr.2.1))) (t.first + t.count)
        rw [List.map_append]
        exact Tiles.append 0 t.first _ (t.first, t.count) htiles rfl hc1
      · intro pr hpr
        rcases List.mem_append.mp hpr with h | h
        · exact hpairs pr h
        · have hpr' : pr = (t.first, t.count, t.first + t.count, n2) := by simpa using h
          rw [hpr']
          exact ⟨hcount, rfl, hn2⟩
      · show ((input.lines.length : Int) - (t.first + t.count + n2)).toNat <
          ((input.lines.length : Int) - (t.first + t.count)).toNat
        omega)
    input.lines.length ⟨0, lowest, []⟩
    ⟨rfl, le_refl _, hl1, by show (0 : Int) + lowest ≤ _; exact hl2, hlowest,
      fun pr hpr => by cases hpr⟩
    (by show ((input.lines.length : Int) - (0 + lowest)).toNat ≤ input.lines.length; omega)
  obtain ⟨htiles, hf0, hc1, hle, hcount, hpairs⟩ := hP
  have hend : w.first + w.count = input.lines.length := by
    have : ¬ (w.first + w.count < (input.lines.length : Int)) := by simpa using hcond
    omega
  refine ⟨w, by simp only [planePairs, hlowest, Option.some_bind]; exact hw, ?_, ?_, ?_⟩
  · unfold planesOf
    rw [← hend]
    exact Tiles.append 0 w.first _ (w.first, w.count) htiles rfl hc1
  · intro plane hp
    unfold planesOf at hp
    rcases List.mem_append.mp hp with h | h
    · rw [List.mem_map] at h
      obtain ⟨pr, hpr, rfl⟩ := h
      exact (hpairs pr hpr).1
    · have hp' : plane = (w.first, w.count) := by simpa using h
      rw [hp']
      exact hcount
  · intro pr hpr
    exact (hpairs pr hpr).2

/-- The last of the planes that tile the lines from `a` to `b` ends at `b`. -/
theorem Tiles.last_end {a b : Int} {planes : List (Int × Int)} {plane : Int × Int}
    (h : Tiles a (planes ++ [plane]) b) : plane.1 + plane.2 = b := by
  induction planes generalizing a with
  | nil =>
    obtain ⟨h1, _, h3⟩ := h
    have h3 : a + plane.2 = b := h3
    omega
  | cons q rest ih =>
    obtain ⟨_, _, hrest⟩ := h
    exact ih hrest

/-! ## Facts about the closest partner -/

/-- The scan of `FindClosestPoint` over the points that are left, started on
a closest point among the points already seen, ends on a closest point among
all the points. -/
theorem FindClosestPoint.fold_spec (x : Point) (rest done : List Point) (best : ℚ) (bi : Nat)
    (hbi : bi < done.length)
    (hbest : best = Distance2BetweenPoints x (done.getD bi ⟨0, 0, 0⟩))
    (hmin : ∀ q ∈ done, best ≤ Distance2BetweenPoints x q) :
    ∃ r : Nat,
      ((rest.foldl
        (fun (acc : (ℚ × Int) × Int) q =>
          if Distance2BetweenPoints x q < acc.1.1 then
            ((Distance2BetweenPoints x q, acc.2), acc.2 + 1)
          else (acc.1, acc.2 + 1))
        ((best, (bi : Int)), (done.length : Int))).1).2 = (r : Int) ∧
      r < (done ++ rest).length ∧
      ∀ q ∈ done ++ rest,
        Distance2BetweenPoints x ((done ++ rest).getD r ⟨0, 0, 0⟩) ≤
          Distance2BetweenPoints x q := by
  induction rest generalizing done best bi with
  | nil =>
    refine ⟨bi, rfl, by simpa using hbi, ?_⟩
    intro q hq
    rw [List.append_nil] at hq ⊢
    rw [← hbest]
    exact hmin q hq
  | cons q rest ih =>
    have hlen : ((done ++ [q]).length : Int) = (done.length : Int) + 1 := by simp
    have hassoc : done ++ q :: rest = (done ++ [q]) ++ rest := by simp
    by_cases hlt : Distance2BetweenPoints x q < best
    · obtain ⟨r, hr, hr1, hr2⟩ := ih (done ++ [q]) (Distance2BetweenPoints x q) done.length
        (by simp) (by simp [List.getD]) (by
          intro q' hq'
          rcases List.mem_append.mp hq' with h | h
          · exact le_of_lt (lt_of_lt_of_le hlt (hmin q' h))
          · rw [List.mem_singleton.mp h])
      refine ⟨r, ?_, by rw [hassoc]; exact hr1, by rw [hassoc]; exact hr2⟩
      rw [hlen] at hr
      simp only [List.foldl_cons, if_pos hlt]
      exact hr
    · obtain ⟨r, hr, hr1, hr2⟩ := ih (done ++ [q]) best bi
        (by simp; omega)
        (by rw [hbest, List.getD_append _ _ _ _ hbi]) (by
          intro q' hq'
          rcases List.mem_append.mp hq' with h | h
          · exact hmin q' h
          · rw [List.mem_singleton.mp h]
            exact not_lt.mp hlt)
      refine ⟨r, ?_, by rw [hassoc]; exact hr1, by rw [hassoc]; exact hr2⟩
      rw [hlen] at hr
      simp only [List.foldl_cons, if_neg hlt]
      exact hr

/-- On a line of at least one point `FindClosestPoint` returns a position of
the line, and no point of the line is closer to the given point than the point
at that position. -/
theorem FindClosestPoint_spec (pts : List Point) (x : Point) (hne : pts ≠ []) :
    ∃ r : Nat, FindClosestPoint pts x = (r : Int) ∧ r < pts.length ∧
      ∀ q ∈ pts, Distance2BetweenPoints x (pts.getD r ⟨0, 0, 0⟩) ≤
        Distance2BetweenPoints x q := by
  cases pts with
  | nil => exact absurd rfl hne
  | cons p rest =>
    obtain ⟨r, hr, hr1, hr2⟩ := FindClosestPoint.fold_spec x rest [p]
      (Distance2BetweenPoints x p) 0 (by simp) (by simp) (by simp)
    refine ⟨r, ?_, by simpa using hr1, by simpa using hr2⟩
    simpa [FindClosestPoint] using hr

theorem readAt_natCast_getD {α : Type} (l : List α) (n : Nat) (d : α) (h : n < l.length) :
    readAt l (n : Int) = some (l.getD n d) := by
  have := readAt_eq_getD l (n : Int) d ⟨Int.natCast_nonneg n, by exact_mod_cast h⟩
  simpa using this

theorem getD_map_of_getElem {α β : Type} (l : List α) (f : α → β) (r : Nat) (a : α) (d : β)
    (h : l[r]? = some a) : (l.map f).getD r d = f a := by
  simp [List.getD, List.getElem?_map, h]

/-- The reads of an iteration of `GetClosestBranch` on well-formed partners:
the locator of partner `k` finds a point of the partner, the distance measured
is `partnerDistance2`, and no point of the partner is closer. -/
theorem partner_read (points : PointSet) (originalPoint : Point) (overlappingLines : List Int)
    (pointLocators : List (List Point)) (lineIdLists : List (List Nat))
    (hwf : PartnersWF points overlappingLines pointLocators lineIdLists) (k : Nat)
    (hk : k < overlappingLines.length) :
    ∃ id, readAt pointLocators (k : Int) = some (pointLocators.getD k []) ∧
      readAt lineIdLists (k : Int) = some (lineIdLists.getD k []) ∧
      readAt overlappingLines (k : Int) = some (overlappingLines.getD k 0) ∧
      GetId (lineIdLists.getD k []) (FindClosestPoint (pointLocators.getD k []) originalPoint) =
        some id ∧
      id ∈ lineIdLists.getD k [] ∧
      Distance2BetweenPoints (GetPoint points id) originalPoint =
        partnerDistance2 points originalPoint pointLocators lineIdLists k ∧
      ∀ other ∈ lineIdLists.getD k [],
        partnerDistance2 points originalPoint pointLocators lineIdLists k ≤
          Distance2BetweenPoints (GetPoint points other) originalPoint := by
  obtain ⟨hne, hbuilt⟩ := hwf.built k hk
  have hlocne : linePoints points (lineIdLists.getD k []) ≠ [] := by
    unfold linePoints
    intro h
    exact hne (List.map_eq_nil_iff.mp h)
  obtain ⟨r, hr, hr1, hr2⟩ := FindClosestPoint_spec _ originalPoint hlocne
  have hrlen : r < (lineIdLists.getD k []).length := by
    simpa [linePoints] using hr1
  obtain ⟨id, hid, hmem⟩ := GetId_of_inRange (lineIdLists.getD k []) (r : Int)
    ⟨Int.natCast_nonneg r, by exact_mod_cast hrlen⟩
  have hidk : idAt (lineIdLists.getD k []) (r : Int) = id := idAt_of_GetId _ _ _ hid
  have hpd : partnerDistance2 points originalPoint pointLocators lineIdLists k =
      Distance2BetweenPoints (GetPoint points id) originalPoint := by
    unfold partnerDistance2
    rw [hbuilt, hr, hidk]
  have hget : (linePoints points (lineIdLists.getD k [])).getD r ⟨0, 0, 0⟩ =
      GetPoint points id := by
    have h1 : (lineIdLists.getD k [])[r]? = some id := by
      have := hid
      simpa [GetId, readAt] using this
    exact getD_map_of_getElem _ _ _ _ _ h1
  refine ⟨id, readAt_natCast_getD _ _ _ (by rw [hwf.locators]; exact hk),
    readAt_natCast_getD _ _ _ (by rw [hwf.idLists]; exact hk),
    readAt_natCast_getD _ _ _ hk, ?_, hmem, hpd.symm, ?_⟩
  · rw [hbuilt, hr]
    exact hid
  · intro other hother
    rw [hpd, Distance2BetweenPoints_comm (GetPoint points id),
      Distance2BetweenPoints_comm (GetPoint points other), ← hget]
    exact hr2 _ (List.mem_map.mpr ⟨other, hother, rfl⟩)

/-- An iteration of the loop of `GetClosestBranch` on well-formed partners
does not fault: it takes partner `k` when nothing has been measured yet or
partner `k` is strictly closer than the closest so far, and keeps the locals
otherwise. -/
theorem GetClosestBranch.body_takes_closer (points : PointSet) (originalPoint : Point)
    (overlappingLines : List Int) (pointLocators : List (List Point))
    (lineIdLists : List (List Nat))
    (hwf : PartnersWF points overlappingLines pointLocators lineIdLists) (k : Nat)
    (hk : k < overlappingLines.length) (s : BranchState) :
    GetClosestBranch.body points originalPoint overlappingLines pointLocators lineIdLists
        (k : Int) s =
      some (match s.minimumDistance2 with
        | none =>
          ⟨some (partnerDistance2 points originalPoint pointLocators lineIdLists k),
            overlappingLines.getD k 0⟩
        | some m =>
          if partnerDistance2 points originalPoint pointLocators lineIdLists k < m then
            ⟨some (partnerDistance2 points originalPoint pointLocators lineIdLists k),
              overlappingLines.getD k 0⟩
          else s) := by
  obtain ⟨id, h1, h2, h3, h4, _, h5, _⟩ := partner_read points originalPoint overlappingLines
    pointLocators lineIdLists hwf k hk
  simp only [GetClosestBranch.body, h1, h2, h3, h4, h5, Option.some_bind]
  cases hm : s.minimumDistance2 with
  | none => simp
  | some m =>
    by_cases hlt : partnerDistance2 points originalPoint pointLocators lineIdLists k < m
    · simp [hlt]
    · simp [hlt]

/-- On well-formed partners `GetClosestBranch` returns the partner listed at
the first position of the overlap list at which the measured distance is
minimal. -/
theorem GetClosestBranch_first (points : PointSet) (originalPoint : Point)
    (overlappingLines : List Int) (pointLocators : List (List Point))
    (lineIdLists : List (List Nat))
    (hwf : PartnersWF points overlappingLines pointLocators lineIdLists) :
    ∃ k, k < overlappingLines.length ∧
      GetClosestBranch points originalPoint overlappingLines pointLocators lineIdLists =
        some (overlappingLines.getD k 0) ∧
      (∀ j < overlappingLines.length,
        partnerDistance2 points originalPoint pointLocators lineIdLists k ≤
          partnerDistance2 points originalPoint pointLocators lineIdLists j) ∧
      ∀ j < k, partnerDistance2 points originalPoint pointLocators lineIdLists k <
        partnerDistance2 points originalPoint pointLocators lineIdLists j := by
  have hpos : 0 < overlappingLines.length := List.length_pos.mpr hwf.nonempty
  have hfirst : readAt overlappingLines 0 = some (overlappingLines.getD 0 0) := by
    have := readAt_natCast_getD overlappingLines 0 0 hpos
    simpa using this
  by_cases hlen : overlappingLines.length = 1
  · refine ⟨0, hpos, ?_, ?_, ?_⟩
    · simp only [GetClosestBranch, hfirst, Option.some_bind, if_pos hlen]
    · intro j hj
      have hj0 : j = 0 := by omega
      rw [hj0]
    · intro j hj
      omega
  · obtain ⟨s, hs, hP⟩ := forLoop_inv
      (GetClosestBranch.body points originalPoint overlappingLines pointLocators lineIdLists)
      (fun i s => (i = 0 ∧ s = ⟨none, overlappingLines.getD 0 0⟩) ∨
        ∃ k : Nat, (k : Int) < i ∧ k < overlappingLines.length ∧
          s = ⟨some (partnerDistance2 points originalPoint pointLocators lineIdLists k),
            overlappingLines.getD k 0⟩ ∧
          (∀ j : Nat, (j : Int) < i →
            partnerDistance2 points originalPoint pointLocators lineIdLists k ≤
              partnerDistance2 points originalPoint pointLocators lineIdLists j) ∧
          ∀ j < k, partnerDistance2 points originalPoint pointLocators lineIdLists k <
            partnerDistance2 points originalPoint pointLocators lineIdLists j)
      overlappingLines.length 0
      (by
        intro i s hi0 hi1 hP
        obtain ⟨n, rfl⟩ : ∃ n : Nat, i = (n : Int) := ⟨i.toNat, by omega⟩
        have hn : n < overlappingLines.length := by omega
        rw [GetClosestBranch.body_takes_closer points originalPoint overlappingLines pointLocators
          lineIdLists hwf n hn s]
        refine ⟨_, rfl, Or.inr ?_⟩
        rcases hP with ⟨hi, hs⟩ | ⟨k, hk1, hk2, hs, hle, hlt⟩
        · have hn0 : n = 0 := by omega
          subst hn0
          rw [hs]
          refine ⟨0, by omega, hpos, rfl, ?_, ?_⟩
          · intro j hj
            have hj0 : j = 0 := by omega
            rw [hj0]
          · intro j hj
            omega
        · rw [hs]
          by_cases hc : partnerDistance2 points originalPoint pointLocators lineIdLists n <
              partnerDistance2 points originalPoint pointLocators lineIdLists k
          · refine ⟨n, by omega, hn, by simp only [if_pos hc], ?_, ?_⟩
            · intro j hj
              by_cases hjn : j = n
              · rw [hjn]
              · exact le_of_lt (lt_of_lt_of_le hc (hle j (by omega)))
            · intro j hj
              exact lt_of_lt_of_le hc (hle j (by omega))
          · refine ⟨k, by omega, hk2, by simp only [if_neg hc], ?_, hlt⟩
            intro j hj
            by_cases hjn : j = n
            · rw [hjn]
              exact not_lt.mp hc
            · exact hle j (by omega))
      ⟨none, overlappingLines.getD 0 0⟩ (Or.inl ⟨rfl, rfl⟩)
    rcases hP with ⟨h0, _⟩ | ⟨k, _, hk2, hsk, hle, hlt⟩
    · omega
    · refine ⟨k, hk2, ?_, ?_, hlt⟩
      · simp only [GetClosestBranch, hfirst, Option.some_bind, if_neg hlen, hs, Option.map_some',
          hsk]
      · intro j hj
        exact hle j (by omega)

/-- An iteration of the loop of `Branch` on well-formed partners does not
fault: the point is marked as assigned exactly when `GetClosestBranch` returns
the target, and its id is appended when it is assigned or the point before it
was. -/
theorem Branch.body_assigns (points : PointSet) (branchingLine : List Nat) (target : Int)
    (overlappingLines : List Int) (pointLocators : List (List Point))
    (lineIdLists : List (List Nat))
    (hwf : PartnersWF points overlappingLines pointLocators lineIdLists) (p : Nat)
    (hp : p < branchingLine.length) (s : DivideState) :
    ∃ s' closest,
      Branch.body points branchingLine target overlappingLines pointLocators lineIdLists
        (p : Int) s = some s' ∧
      GetClosestBranch points (GetPoint points (idAt branchingLine (p : Int))) overlappingLines
        pointLocators lineIdLists = some closest ∧
      (s'.prev = true ↔ closest = target) ∧
      s'.outputLinePointIds = s.outputLinePointIds ++
        (if closest = target ∨ s.prev = true then [idAt branchingLine (p : Int)] else []) := by
  obtain ⟨id, hid, _⟩ := GetId_of_inRange branchingLine (p : Int)
    ⟨Int.natCast_nonneg p, by exact_mod_cast hp⟩
  have hidp : idAt branchingLine (p : Int) = id := idAt_of_GetId _ _ _ hid
  obtain ⟨closest, hk⟩ : ∃ closest, GetClosestBranch points (GetPoint points id)
      overlappingLines pointLocators lineIdLists = some closest := by
    obtain ⟨k, _, hk, _, _⟩ := GetClosestBranch_first points (GetPoint points id)
      overlappingLines pointLocators lineIdLists hwf
    exact ⟨_, hk⟩
  rw [hidp]
  by_cases hc : closest = target
  · refine ⟨⟨true, s.outputLinePointIds ++ [id]⟩, _, ?_, hk, ?_, ?_⟩
    · simp only [Branch.body, hid, hk, Option.some_bind, if_pos hc]
    · simp [hc]
    · simp [hc]
  · by_cases hprev : s.prev = true
    · refine ⟨⟨false, s.outputLinePointIds ++ [id]⟩, _, ?_, hk, ?_, ?_⟩
      · simp only [Branch.body, hid, hk, Option.some_bind, if_neg hc, if_pos hprev]
      · simp [hc]
      · simp [hprev]
    · refine ⟨⟨false, s.outputLinePointIds⟩, _, ?_, hk, ?_, ?_⟩
      · simp only [Branch.body, hid, hk, Option.some_bind, if_neg hc, if_neg hprev]
      · simp [hc]
      · simp [hc, hprev]

/-- The loop of `Branch` on well-formed partners does not fault on the points
of the branching line. -/
theorem Branch.walk_some (points : PointSet) (branchingLine : List Nat) (target : Int)
    (overlappingLines : List Int) (pointLocators : List (List Point))
    (lineIdLists : List (List Nat))
    (hwf : PartnersWF points overlappingLines pointLocators lineIdLists) (p : Nat)
    (hp : p ≤ branchingLine.length) :
    ∃ s, Branch.walk points branchingLine target overlappingLines pointLocators lineIdLists p =
      some s := by
  induction p with
  | zero => exact ⟨_, rfl⟩
  | succ p ih =>
    obtain ⟨s, hs⟩ := ih (by omega)
    obtain ⟨s', _, hbody, _⟩ := Branch.body_assigns points branchingLine target overlappingLines
      pointLocators lineIdLists hwf p (by omega) s
    refine ⟨s', ?_⟩
    unfold Branch.walk at hs ⊢
    rw [forLoop_snoc, hs, Option.some_bind, zero_add]
    exact hbody

/-- Each iteration of the loop of `Branch` on well-formed partners marks its
point as assigned exactly when `GetClosestBranch` returns the target. -/
theorem Branch.walk_step (points : PointSet) (branchingLine : List Nat) (target : Int)
    (overlappingLines : List Int) (pointLocators : List (List Point))
    (lineIdLists : List (List Nat))
    (hwf : PartnersWF points overlappingLines pointLocators lineIdLists) (p : Nat)
    (hp : p < branchingLine.length) :
    ∃ s s' closest,
      Branch.walk points branchingLine target overlappingLines pointLocators lineIdLists p =
        some s ∧
      Branch.walk points branchingLine target overlappingLines pointLocators lineIdLists
        (p + 1) = some s' ∧
      GetClosestBranch points (GetPoint points (idAt branchingLine (p : Int))) overlappingLines
        pointLocators lineIdLists = some closest ∧
      (s'.prev = true ↔ closest = target) ∧
      s'.outputLinePointIds = s.outputLinePointIds ++
        (if closest = target ∨ s.prev = true then [idAt branchingLine (p : Int)] else []) := by
  obtain ⟨s, hs⟩ := Branch.walk_some points branchingLine target overlappingLines pointLocators
    lineIdLists hwf p (by omega)
  obtain ⟨s', closest, hbody, hclosest, hprev, hout⟩ := Branch.body_assigns points branchingLine
    target overlappingLines pointLocators lineIdLists hwf p hp s
  refine ⟨s, s', closest, hs, ?_, hclosest, hprev, hout⟩
  unfold Branch.walk at hs ⊢
  rw [forLoop_snoc, hs, Option.some_bind, zero_add]
  exact hbody

/-! ## Facts about the return of the bridging stage -/

theorem mapM_readAt {α : Type} (L : List α) (d : α) (xs : List Int)
    (h : ∀ x ∈ xs, InRange L.length x) :
    xs.mapM (readAt L) = some (xs.map fun x => (readAt L x).getD d) := by
  induction xs with
  | nil => rw [List.mapM_nil]; rfl
  | cons a xs ih =>
    obtain ⟨v, hv, _⟩ := readAt_of_inRange L a (h a (List.mem_cons_self _ _))
    rw [List.mapM_cons, List.map_cons, hv, ih (fun x hx => h x (List.mem_cons_of_mem _ hx))]
    rfl

theorem readAt_map {α β : Type} (l : List α) (g : α → β) (i : Int) :
    readAt (l.map g) i = (readAt l i).map g := by
  unfold readAt
  split
  · simp [List.get?_eq_getElem?]
  · rfl

/-- Every entry of an overlap list of a pair of planes is a line of the
other plane of the pair. -/
theorem fillOverlaps_rows (input : PolyData) (f1 n1 f2 n2 : Int) (o : Overlaps)
    (h : fillOverlaps input f1 n1 f2 n2 = some o) :
    (∀ a x, x ∈ rowAt o.plane1Overlaps a → f2 ≤ x ∧ x < f2 + n2) ∧
    ∀ b x, x ∈ rowAt o.plane2Overlaps b → f1 ≤ x ∧ x < f1 + n1 := by
  refine forLoop_some_inv
    (fun line1Index s =>
      (readAt input.lines (f1 + line1Index)).bind fun line1 =>
        forLoop (fillOverlapsBody input f1 f2 line1 line1Index) n2.toNat 0 s)
    (fun t : Overlaps => (∀ a x, x ∈ rowAt t.plane1Overlaps a → f2 ≤ x ∧ x < f2 + n2) ∧
      ∀ b x, x ∈ rowAt t.plane2Overlaps b → f1 ≤ x ∧ x < f1 + n1)
    n1.toNat 0 ?_ _ o ?_ h
  · intro i t t' hi0 hi1 ht hbody
    simp only [Option.bind_eq_some] at hbody
    obtain ⟨line1, _, hloop⟩ := hbody
    refine forLoop_some_ind (fillOverlapsBody input f1 f2 line1 i)
      (fun _ u => (∀ a x, x ∈ rowAt u.plane1Overlaps a → f2 ≤ x ∧ x < f2 + n2) ∧
        ∀ b x, x ∈ rowAt u.plane2Overlaps b → f1 ≤ x ∧ x < f1 + n1) n2.toNat 0 ?_ t t' ht hloop
    intro m u u' hm0 hm1 hu hstep
    simp only [fillOverlapsBody, Option.bind_eq_some] at hstep
    obtain ⟨line2, _, hif⟩ := hstep
    split at hif
    · simp only [Option.bind_eq_some] at hif
      obtain ⟨o1, ho1, o2, ho2, hu'⟩ := hif
      rw [← Option.some.inj hu']
      constructor
      · intro a x hx
        rcases pushAt_mem _ _ _ _ ho1 a x hx with hold | hnew
        · exact hu.1 a x hold
        · omega
      · intro b x hx
        rcases pushAt_mem _ _ _ _ ho2 b x hx with hold | hnew
        · exact hu.2 b x hold
        · omega
    · rw [← Option.some.inj hif]
      exact hu
  · constructor
    · intro a x hx
      rw [rowAt_replicate_nil] at hx
      cases hx
    · intro b x hx
      rw [rowAt_replicate_nil] at hx
      cases hx

/-- The overlap partners that `Convert` hands to `Branch` are well formed
when no line of the working set is empty. -/
theorem overlapPartners_wf (input : PolyData) (hlines : ∀ line ∈ input.lines, line ≠ [])
    (overlaps : List Int) (hne : overlaps ≠ [])
    (hin : ∀ x ∈ overlaps, InRange input.lines.length x) :
    PartnersWF input.points overlaps
      (overlaps.map fun x => (readAt (input.lines.map (linePoints input.points)) x).getD [])
      (overlaps.map fun x => (readAt input.lines x).getD []) := by
  refine ⟨hne, by simp, by simp, ?_⟩
  intro k hk
  obtain ⟨line, hline, hmem⟩ := readAt_of_inRange input.lines overlaps[k]
    (hin _ (List.getElem_mem hk))
  have h1 : (overlaps.map fun x => (readAt input.lines x).getD []).getD k [] = line := by
    simp [List.getD, List.getElem?_map, List.getElem?_eq_getElem hk, hline]
  have h2 : (overlaps.map fun x =>
      (readAt (input.lines.map (linePoints input.points)) x).getD []).getD k [] =
      linePoints input.points line := by
    simp [List.getD, List.getElem?_map, List.getElem?_eq_getElem hk, readAt_map, hline]
  rw [h1, h2]
  exact ⟨hlines line hmem, rfl⟩

/-- On well-formed partners `Branch` returns. -/
theorem Branch_total (points : PointSet) (branchingLine : List Nat) (target : Int)
    (overlappingLines : List Int) (pointLocators : List (List Point))
    (lineIdLists : List (List Nat))
    (hwf : PartnersWF points overlappingLines pointLocators lineIdLists) :
    ∃ out, Branch points branchingLine target overlappingLines pointLocators lineIdLists =
      some out := by
  by_cases hlen : overlappingLines.length = 1
  · exact ⟨branchingLine, by unfold Branch; rw [if_pos hlen]⟩
  · obtain ⟨s, hs⟩ := Branch.walk_some points branchingLine target overlappingLines
      pointLocators lineIdLists hwf branchingLine.length (le_refl _)
    refine ⟨_, Branch_of_divide points branchingLine target overlappingLines pointLocators
      lineIdLists s.outputLinePointIds hlen ?_⟩
    unfold Branch.divide
    unfold Branch.walk at hs
    rw [hs]
    rfl

/-- The first half of an attempt of the loop over the overlaps of a line of
the first plane does not fault when no line of the working set is empty, and
the partner it reads is a line of the working set. -/
theorem dividedChains_some (input : PolyData) (hlines : ∀ line ∈ input.lines, line ≠ [])
    (f1 n1 f2 n2 : Int) (hf1 : 0 ≤ f1) (hf2 : 0 ≤ f2)
    (hl1 : f1 + n1 ≤ input.lines.length) (hl2 : f2 + n2 ≤ input.lines.length) (o : Overlaps)
    (ho : fillOverlaps input f1 n1 f2 n2 = some o)
    (hinv : OverlapsInv input f1 n1 f2 n2 (fun _ _ => true) o) (l : Int) (h1 : f1 ≤ l)
    (h2 : l < f1 + n1) (line1 : List Nat) (k : Int) (hk0 : 0 ≤ k)
    (hk1 : k < ((rowAt o.plane1Overlaps (l - f1)).length : Int)) :
    ∃ r, dividedChains input f2 o line1 l (rowAt o.plane1Overlaps (l - f1)) k = some r ∧
      InRange input.lines.length r.1 := by
  obtain ⟨hrows1, hrows2⟩ := fillOverlaps_rows input f1 n1 f2 n2 o ho
  have hin1 : ∀ x ∈ rowAt o.plane1Overlaps (l - f1), InRange input.lines.length x := by
    intro x hx
    have := hrows1 _ x hx
    exact ⟨by omega, by omega⟩
  obtain ⟨line2Index, hread, hmem⟩ := readAt_of_inRange (rowAt o.plane1Overlaps (l - f1)) k
    ⟨hk0, hk1⟩
  have hb := hrows1 _ _ hmem
  obtain ⟨line2, hline2, _⟩ := readAt_of_inRange input.lines line2Index (hin1 _ hmem)
  obtain ⟨overlaps2, hov2, _⟩ := readAt_of_inRange o.plane2Overlaps (line2Index - f2)
    ⟨by omega, by rw [hinv.len2]; omega⟩
  have hrow2 : rowAt o.plane2Overlaps (line2Index - f2) = overlaps2 := by
    simp [rowAt, hov2]
  have hsym : l ∈ overlaps2 := by
    have c1 := hinv.count1 (l - f1) (line2Index - f2) (by omega) (by omega) (by omega) (by omega)
    have c2 := hinv.count2 (l - f1) (line2Index - f2) (by omega) (by omega) (by omega) (by omega)
    rw [show f2 + (line2Index - f2) = line2Index by ring,
      show f1 + (l - f1) = l by ring] at c1 c2
    rw [hrow2] at c2
    have hpos : 0 < (rowAt o.plane1Overlaps (l - f1)).count line2Index :=
      List.count_pos_iff.mpr hmem
    rw [c1] at hpos
    split at hpos
    · rename_i hc
      rw [if_pos hc] at c2
      exact List.count_pos_iff.mp (by rw [c2]; exact Nat.one_pos)
    · exact absurd hpos (by decide)
  have hin2 : ∀ x ∈ overlaps2, InRange input.lines.length x := by
    intro x hx
    rw [← hrow2] at hx
    have := hrows2 _ x hx
    exact ⟨by omega, by omega⟩
  have hne1 : rowAt o.plane1Overlaps (l - f1) ≠ [] := List.ne_nil_of_mem hmem
  have hne2 : overlaps2 ≠ [] := List.ne_nil_of_mem hsym
  have hin1' : ∀ x ∈ rowAt o.plane1Overlaps (l - f1),
      InRange (input.lines.map (linePoints input.points)).length x := by
    intro x hx
    rw [List.length_map]
    exact hin1 x hx
  have hin2' : ∀ x ∈ overlaps2,
      InRange (input.lines.map (linePoints input.points)).length x := by
    intro x hx
    rw [List.length_map]
    exact hin2 x hx
  obtain ⟨d1, hd1⟩ := Branch_total input.points line1 line2Index _ _ _
    (overlapPartners_wf input hlines _ hne1 hin1)
  obtain ⟨d2, hd2⟩ := Branch_total input.points line2 l _ _ _
    (overlapPartners_wf input hlines _ hne2 hin2)
  refine ⟨(line2Index, d1, d2), ?_, hin1 _ hmem⟩
  simp only [dividedChains, mapM_readAt _ [] _ hin1', mapM_readAt _ [] _ hin1,
    mapM_readAt _ [] _ hin2', mapM_readAt _ [] _ hin2, hread, hline2, hov2, hd1, hd2,
    Option.some_bind]

/-- The body of the loop over the overlaps of a line of the first plane does
not fault when no line of the working set is empty, and it keeps one flag per
line. -/
theorem bridgeOverlapBody_some (input : PolyData) (hlines : ∀ line ∈ input.lines, line ≠ [])
    (f1 n1 f2 n2 : Int) (hf1 : 0 ≤ f1) (hf2 : 0 ≤ f2)
    (hl1 : f1 + n1 ≤ input.lines.length) (hl2 : f2 + n2 ≤ input.lines.length) (o : Overlaps)
    (ho : fillOverlaps input f1 n1 f2 n2 = some o)
    (hinv : OverlapsInv input f1 n1 f2 n2 (fun _ _ => true) o) (l : Int) (h1 : f1 ≤ l)
    (h2 : l < f1 + n1) (line1 : List Nat) (k : Int) (hk0 : 0 ≤ k)
    (hk1 : k < ((rowAt o.plane1Overlaps (l - f1)).length : Int)) (s : ConvertState)
    (ha : s.lineTriganulatedToAbove.length = input.lines.length)
    (hb : s.lineTriganulatedToBelow.length = input.lines.length) :
    ∃ s', bridgeOverlapBody input f2 o line1 l (rowAt o.plane1Overlaps (l - f1)) k s =
        some s' ∧
      s'.lineTriganulatedToAbove.length = input.lines.length ∧
      s'.lineTriganulatedToBelow.length = input.lines.length := by
  obtain ⟨r, hr, hrange⟩ := dividedChains_some input hlines f1 n1 f2 n2 hf1 hf2 hl1 hl2 o ho
    hinv l h1 h2 line1 k hk0 hk1
  rw [bridgeOverlapBody_eq, hr, Option.some_bind]
  by_cases hc : r.2.1.length > 1 ∧ r.2.2.length > 1
  · rw [if_pos hc]
    obtain ⟨above, habove⟩ := writeAt_some s.lineTriganulatedToAbove l true
      ⟨by omega, by rw [ha]; omega⟩
    obtain ⟨below, hbelow⟩ := writeAt_some s.lineTriganulatedToBelow r.1 true
      ⟨hrange.1, by rw [hb]; exact hrange.2⟩
    obtain ⟨new, hnew, _⟩ := TriangulateContours_spec input.points r.2.1 r.2.2
      s.outputPolygons (by intro h; rw [h] at hc; simp at hc)
      (by intro h; rw [h] at hc; simp at hc)
    simp only [habove, hbelow, hnew, Option.some_bind]
    refine ⟨_, rfl, ?_, ?_⟩
    · show above.length = _
      rw [(writeAt_spec _ _ _ _ habove).1, ha]
    · show below.length = _
      rw [(writeAt_spec _ _ _ _ hbelow).1, hb]
  · rw [if_neg hc]
    exact ⟨s, rfl, ha, hb⟩

/-- The body of the loop "Go over the planeOverlaps lists" does not fault on
a line of the first plane when no line of the working set is empty. -/
theorem bridgeLineBody_some (input : PolyData) (hlines : ∀ line ∈ input.lines, line ≠ [])
    (f1 n1 f2 n2 : Int) (hf1 : 0 ≤ f1) (hf2 : 0 ≤ f2)
    (hl1 : f1 + n1 ≤ input.lines.length) (hl2 : f2 + n2 ≤ input.lines.length) (o : Overlaps)
    (ho : fillOverlaps input f1 n1 f2 n2 = some o)
    (hinv : OverlapsInv input f1 n1 f2 n2 (fun _ _ => true) o) (l : Int) (h1 : f1 ≤ l)
    (h2 : l < f1 + n1) (s : ConvertState)
    (ha : s.lineTriganulatedToAbove.length = input.lines.length)
    (hb : s.lineTriganulatedToBelow.length = input.lines.length) :
    ∃ s', bridgeLineBody input f1 f2 o l s = some s' ∧
      s'.lineTriganulatedToAbove.length = input.lines.length ∧
      s'.lineTriganulatedToBelow.length = input.lines.length := by
  obtain ⟨line1, hline1, _⟩ := readAt_of_inRange input.lines l ⟨by omega, by omega⟩
  obtain ⟨overlaps1, hov1, _⟩ := readAt_of_inRange o.plane1Overlaps (l - f1)
    ⟨by omega, by rw [hinv.len1]; omega⟩
  have hrow1 : rowAt o.plane1Overlaps (l - f1) = overlaps1 := by
    simp [rowAt, hov1]
  obtain ⟨s', hs', hP⟩ := forLoop_inv
    (bridgeOverlapBody input f2 o line1 l overlaps1)
    (fun _ t => t.lineTriganulatedToAbove.length = input.lines.length ∧
      t.lineTriganulatedToBelow.length = input.lines.length)
    overlaps1.length 0
    (by
      intro k t hk0 hk1 ht
      rw [← hrow1]
      exact bridgeOverlapBody_some input hlines f1 n1 f2 n2 hf1 hf2 hl1 hl2 o ho hinv l h1 h2
        line1 k hk0 (by rw [hrow1]; omega) t ht.1 ht.2)
    s ⟨ha, hb⟩
  exact ⟨s', by simp only [bridgeLineBody, hline1, hov1, Option.some_bind]; exact hs', hP⟩

/-- The body of the loop of `Convert` over the pairs of consecutive planes
does not fault when no line of the working set is empty: it moves to the plane
that starts after the plane it stands on, which has at least one line and lies
within the working set, and it keeps one flag per line. -/
theorem planePairBody_some (input : PolyData) (hlines : ∀ line ∈ input.lines, line ≠ [])
    (s : ConvertState) (h0 : 0 ≤ s.firstLineOnPlane1Index) (h1 : 1 ≤ s.numberOfLinesInPlane1)
    (h2 : s.firstLineOnPlane1Index + s.numberOfLinesInPlane1 < input.lines.length)
    (ha : s.lineTriganulatedToAbove.length = input.lines.length)
    (hb : s.lineTriganulatedToBelow.length = input.lines.length) :
    ∃ s', planePairBody input input.lines.length s = some s' ∧
      s'.firstLineOnPlane1Index = s.firstLineOnPlane1Index + s.numberOfLinesInPlane1 ∧
      GetNumberOfLinesOnPlane input input.lines.length s'.firstLineOnPlane1Index =
        some s'.numberOfLinesInPlane1 ∧
      1 ≤ s'.numberOfLinesInPlane1 ∧
      s'.firstLineOnPlane1Index + s'.numberOfLinesInPlane1 ≤ input.lines.length ∧
      s'.lineTriganulatedToAbove.length = input.lines.length ∧
      s'.lineTriganulatedToBelow.length = input.lines.length := by
  obtain ⟨n2, hn2, hn21, hn22, _, _⟩ := GetNumberOfLinesOnPlane_run input
    (s.firstLineOnPlane1Index + s.numberOfLinesInPlane1) ⟨by omega, h2⟩
  obtain ⟨o, ho, hinv⟩ := fillOverlaps_spec input s.firstLineOnPlane1Index
    s.numberOfLinesInPlane1 (s.firstLineOnPlane1Index + s.numberOfLinesInPlane1) n2 h0
    (by omega) (by omega) (by omega) (by omega) hn22
  obtain ⟨s1, hs1, hP⟩ := forLoop_inv
    (bridgeLineBody input s.firstLineOnPlane1Index
      (s.firstLineOnPlane1Index + s.numberOfLinesInPlane1) o)
    (fun _ t => t.lineTriganulatedToAbove.length = input.lines.length ∧
      t.lineTriganulatedToBelow.length = input.lines.length)
    s.numberOfLinesInPlane1.toNat s.firstLineOnPlane1Index
    (by
      intro l t hl0 hl1 ht
      exact bridgeLineBody_some input hlines s.firstLineOnPlane1Index s.numberOfLinesInPlane1
        (s.firstLineOnPlane1Index + s.numberOfLinesInPlane1) n2 h0 (by omega) (by omega) hn22 o
        ho hinv l hl0 (by omega) t ht.1 ht.2)
    s ⟨ha, hb⟩
  simp only [planePairBody, hn2, ho, hs1, Option.some_bind]
  exact ⟨_, rfl, rfl, hn2, hn21, hn22, hP.1, hP.2⟩

/-- The correspondence stage of `Convert` returns on every working set of at
least one line none of whose lines is empty: the loop over the pairs of
consecutive planes is left within its budget. -/
theorem bridgePlanes_some (input : PolyData) (hne : input.lines ≠ [])
    (hlines : ∀ line ∈ input.lines, line ≠ []) : ∃ s, bridgePlanes input = some s := by
  have hpos : 0 < input.lines.length := List.length_pos.mpr hne
  obtain ⟨lowest, hlowest, hl1, hl2, _, _⟩ := GetNumberOfLinesOnPlane_run input 0
    ⟨le_refl _, by omega⟩
  obtain ⟨s, hs, _, _⟩ := whileLoop_inv
    (fun s : ConvertState =>
      decide (s.firstLineOnPlane1Index + s.numberOfLinesInPlane1 < (input.lines.length : Int)))
    (planePairBody input input.lines.length)
    (fun s => 0 ≤ s.firstLineOnPlane1Index ∧ 1 ≤ s.numberOfLinesInPlane1 ∧
      s.firstLineOnPlane1Index + s.numberOfLinesInPlane1 ≤ input.lines.length ∧
      s.lineTriganulatedToAbove.length = input.lines.length ∧
      s.lineTriganulatedToBelow.length = input.lines.length)
    (fun s => ((input.lines.length : Int) -
      (s.firstLineOnPlane1Index + s.numberOfLinesInPlane1)).toNat)
    (by
      intro s hP hc
      obtain ⟨h0, h1, _, ha, hb⟩ := hP
      have hlt : s.firstLineOnPlane1Index + s.numberOfLinesInPlane1 <
          (input.lines.length : Int) := by simpa using hc
      obtain ⟨s', hs', hf, _, hc1, hle, ha', hb'⟩ := planePairBody_some input hlines s h0 h1 hlt
        ha hb
      refine ⟨s', hs', ⟨by omega, hc1, hle, ha', hb'⟩, ?_⟩
      show ((input.lines.length : Int) -
          (s'.firstLineOnPlane1Index + s'.numberOfLinesInPlane1)).toNat <
        ((input.lines.length : Int) -
          (s.firstLineOnPlane1Index + s.numberOfLinesInPlane1)).toNat
      omega)
    input.lines.length
    { firstLineOnPlane1Index := 0
      numberOfLinesInPlane1 := lowest
      lineTriganulatedToAbove := List.replicate input.lines.length false
      lineTriganulatedToBelow := List.replicate input.lines.length false
      outputPolygons := [] }
    ⟨le_refl _, hl1, by show (0 : Int) + lowest ≤ _; exact hl2, by simp, by simp⟩
    (by show ((input.lines.length : Int) - (0 + lowest)).toNat ≤ input.lines.length; omega)
  exact ⟨s, by simp only [bridgePlanes, hlowest, Option.some_bind]; exact hs⟩

/-- The run of the loop of `Convert` over the plane pairs from a state that
stands on a plane of the working set: the loop is left within its budget, after
as many iterations as it has left planes behind; the planes it has stood on
tile the lines from the first plane on, and each is the run that
`GetNumberOfLinesOnPlane` counts from its first line. -/
theorem planeLoop_trace (input : PolyData) (hlines : ∀ line ∈ input.lines, line ≠ [])
    (fuel : Nat) (s : ConvertState) (h0 : 0 ≤ s.firstLineOnPlane1Index)
    (hrun : GetNumberOfLinesOnPlane input input.lines.length s.firstLineOnPlane1Index =
      some s.numberOfLinesInPlane1)
    (hle : s.firstLineOnPlane1Index + s.numberOfLinesInPlane1 ≤ input.lines.length)
    (ha : s.lineTriganulatedToAbove.length = input.lines.length)
    (hb : s.lineTriganulatedToBelow.length = input.lines.length)
    (hm : ((input.lines.length : Int) -
      (s.firstLineOnPlane1Index + s.numberOfLinesInPlane1)).toNat ≤ fuel) :
    ∃ (planes : List (Int × Int)) (s' : ConvertState),
      whileLoop
        (fun s : ConvertState => decide
          (s.firstLineOnPlane1Index + s.numberOfLinesInPlane1 < (input.lines.length : Int)))
        (planePairBody input input.lines.length) fuel s = some s' ∧
      iterLoop (planePairBody input input.lines.length) planes.length s = some s' ∧
      Tiles s.firstLineOnPlane1Index
        (planes ++ [(s'.firstLineOnPlane1Index, s'.numberOfLinesInPlane1)])
        input.lines.length ∧
      (∀ plane ∈ planes ++ [(s'.firstLineOnPlane1Index, s'.numberOfLinesInPlane1)],
        GetNumberOfLinesOnPlane input input.lines.length plane.1 = some plane.2) ∧
      ∀ i < planes.length, ∃ si,
        iterLoop (planePairBody input input.lines.length) i s = some si ∧
        (si.firstLineOnPlane1Index, si.numberOfLinesInPlane1) = planes.getD i (0, 0) ∧
        si.firstLineOnPlane1Index + si.numberOfLinesInPlane1 < input.lines.length := by
  have hpos := GetNumberOfLinesOnPlane_pos _ _ _ _ hrun
  induction fuel generalizing s with
  | zero =>
    have hend : s.firstLineOnPlane1Index + s.numberOfLinesInPlane1 =
        (input.lines.length : Int) := by omega
    have hc : ¬ (s.firstLineOnPlane1Index + s.numberOfLinesInPlane1 <
        (input.lines.length : Int)) := by omega
    refine ⟨[], s, by simp only [whileLoop, decide_eq_true_eq, if_neg hc], rfl,
      ⟨rfl, hpos, hend⟩, ?_, ?_⟩
    · intro plane hp
      have hp' : plane = (s.firstLineOnPlane1Index, s.numberOfLinesInPlane1) := by
        simpa using hp
      rw [hp']
      exact hrun
    · intro i hi
      exact absurd hi (Nat.not_lt_zero i)
  | succ fuel ih =>
    by_cases hc : s.firstLineOnPlane1Index + s.numberOfLinesInPlane1 <
        (input.lines.length : Int)
    · obtain ⟨s1, hs1, hf1, hrun1, hpos1, hle1, ha1, hb1⟩ := planePairBody_some input hlines s
        h0 hpos hc ha hb
      obtain ⟨planes, s', hloop, hiter, htiles, hruns, hvisit⟩ := ih s1 (by omega) hrun1 hle1
        ha1 hb1 (by omega) hpos1
      refine ⟨(s.firstLineOnPlane1Index, s.numberOfLinesInPlane1) :: planes, s', ?_, ?_,
        ⟨rfl, hpos, ?_⟩, ?_, ?_⟩
      · simp only [whileLoop, decide_eq_true_eq, if_pos hc, hs1, Option.some_bind]
        exact hloop
      · simp only [List.length_cons, iterLoop, hs1, Option.some_bind]
        exact hiter
      · rw [← hf1]
        exact htiles
      · intro plane hp
        rcases List.mem_cons.mp hp with rfl | hp
        · exact hrun
        · exact hruns plane hp
      · intro i hi
        cases i with
        | zero => exact ⟨s, rfl, rfl, hc⟩
        | succ j =>
          obtain ⟨sj, hsj, hplane, hcj⟩ := hvisit j (by simpa using hi)
          refine ⟨sj, ?_, ?_, hcj⟩
          · simp only [iterLoop, hs1, Option.some_bind]
            exact hsj
          · rw [hplane]
            simp
    · have hend : s.firstLineOnPlane1Index + s.numberOfLinesInPlane1 =
          (input.lines.length : Int) := by omega
      refine ⟨[], s, by simp only [whileLoop, decide_eq_true_eq, if_neg hc], rfl,
        ⟨rfl, hpos, hend⟩, ?_, ?_⟩
      · intro plane hp
        have hp' : plane = (s.firstLineOnPlane1Index, s.numberOfLinesInPlane1) := by
          simpa using hp
        rw [hp']
        exact hrun
      · intro i hi
        exact absurd hi (Nat.not_lt_zero i)

/-- The loop of `Convert` over the plane pairs on a working set of at least
one line none of whose lines is empty: it is left within its budget, and the
planes it has stood on tile the lines. -/
theorem bridgePlanes_trace (input : PolyData) (hne : input.lines ≠ [])
    (hlines : ∀ line ∈ input.lines, line ≠ []) :
    ∃ (planes : List (Int × Int)) (s : ConvertState),
      bridgePlanes input = some s ∧ bridgeWalk input planes.length = some s ∧
      Tiles 0 (planes ++ [(s.firstLineOnPlane1Index, s.numberOfLinesInPlane1)])
        input.lines.length ∧
      (∀ plane ∈ planes ++ [(s.firstLineOnPlane1Index, s.numberOfLinesInPlane1)],
        GetNumberOfLinesOnPlane input input.lines.length plane.1 = some plane.2) ∧
      ∀ i < planes.length, ∃ si, bridgeWalk input i = some si ∧
        (si.firstLineOnPlane1Index, si.numberOfLinesInPlane1) = planes.getD i (0, 0) ∧
        si.firstLineOnPlane1Index + si.numberOfLinesInPlane1 < input.lines.length := by
  have hpos : 0 < input.lines.length := List.length_pos.mpr hne
  obtain ⟨lowest, hlowest, hl1, hl2, _, _⟩ := GetNumberOfLinesOnPlane_run input 0
    ⟨le_refl _, by omega⟩
  obtain ⟨planes, s, hloop, hiter, htiles, hruns, hvisit⟩ := planeLoop_trace input hlines
    input.lines.length
    { firstLineOnPlane1Index := 0
      numberOfLinesInPlane1 := lowest
      lineTriganulatedToAbove := List.replicate input.lines.length false
      lineTriganulatedToBelow := List.replicate input.lines.length false
      outputPolygons := [] }
    (le_refl _) hlowest (by show (0 : Int) + lowest ≤ _; exact hl2) (by simp) (by simp)
    (by show ((input.lines.length : Int) - (0 + lowest)).toNat ≤ input.lines.length; omega)
  refine ⟨planes, s, ?_, ?_, htiles, hruns, ?_⟩
  · simp only [bridgePlanes, hlowest, Option.some_bind]
    exact hloop
  · simp only [bridgeWalk, hlowest, Option.some_bind]
    exact hiter
  · intro i hi
    obtain ⟨si, hsi, h⟩ := hvisit i hi
    exact ⟨si, by simp only [bridgeWalk, hlowest, Option.some_bind]; exact hsi, h⟩

/-- Planes that tile the lines from `a` to `b` are at most `b - a`. -/
theorem Tiles.length_lt {a b : Int} {planes : List (Int × Int)} (h : Tiles a planes b) :
    (planes.length : Int) ≤ b - a := by
  induction planes generalizing a with
  | nil =>
    have ha : a = b := h
    simp only [List.length_nil, Nat.cast_zero]
    omega
  | cons q rest ih =>
    obtain ⟨_, hq2, hrest⟩ := h
    have := ih hrest
    simp only [List.length_cons, Nat.cast_add, Nat.cast_one]
    omega

/-! ## Facts about the cap of a side when no outline is found -/

/-- The loop of `CreateExternalLine` that copies the points of a line: after
`k` iterations it has appended the first `k` points, moved by half the
spacing, and collected their ids. -/
theorem copyLoop_eq (src : List Point) (lineSpacing : ℚ) (base : PointSet) (k : Nat)
    (hk : k ≤ src.length) :
    forLoop (copyPointBody (fun i => src.get? i) lineSpacing) k 0 ⟨base, []⟩ =
      some ⟨base ++ (src.take k).map (fun p => ⟨p.x, p.y, p.z + lineSpacing / 2⟩),
        (List.range k).map (fun i => base.length + i)⟩ := by
  induction k with
  | zero => simp [forLoop]
  | succ k ih =>
    have hlt : k < src.length := by omega
    rw [forLoop_snoc, ih (by omega), Option.some_bind]
    simp only [copyPointBody, zero_add, Int.toNat_natCast, List.get?_eq_getElem?,
      List.getElem?_eq_getElem hlt, Option.some_bind]
    have e1 : src.take (k + 1) = src.take k ++ [src[k]] := by
      rw [List.take_succ, List.getElem?_eq_getElem hlt]
      rfl
    rw [e1, List.range_succ, List.map_append, List.map_append]
    simp [List.length_take, Nat.min_eq_left (Nat.le_of_lt hlt)]

/-- When the filters find no outline, `CreateExternalLine` on a line of at
least two ids returns the points followed by the raised points of the line,
and the single outline of their ids. -/
theorem CreateExternalLine_fallback (lib : External) (points : PointSet) (inputLine : List Nat)
    (lineSpacing : ℚ) (hlen : 2 ≤ inputLine.length)
    (hno : ¬ ((lib.contourLines points inputLine).lines.length > 0 ∧
      (lib.contourLines points inputLine).points.length > 0)) :
    CreateExternalLine lib points inputLine lineSpacing =
      some (points ++ raisedPoints points inputLine lineSpacing,
        [copiedOutline points.length inputLine.length]) := by
  have hcount : ((inputLine.length : Int) - 1).toNat = inputLine.length - 1 := by omega
  have hsrc : inputLine.length - 1 ≤ (linePoints points inputLine).length := by
    simp [linePoints]
  have hloop := copyLoop_eq (linePoints points inputLine) lineSpacing points
    (inputLine.length - 1) hsrc
  have hfirst : GetId ((List.range (inputLine.length - 1)).map (fun i => points.length + i)) 0 =
      some points.length := by
    obtain ⟨m, hm⟩ : ∃ m, inputLine.length - 1 = m + 1 := ⟨inputLine.length - 2, by omega⟩
    rw [hm, List.range_succ_eq_map]
    simp [GetId, readAt]
  simp only [CreateExternalLine, if_neg hno, hcount, hloop, Option.some_bind, hfirst]
  rfl

theorem GetPoint_append_right (points added : PointSet) (k : Nat) (hk : k < added.length) :
    GetPoint (points ++ added) (points.length + k) = added.getD k ⟨0, 0, 0⟩ := by
  unfold GetPoint
  have h1 : points.length + k < (points ++ added).length := by
    rw [List.length_append]
    omega
  rw [List.getD_eq_getElem _ _ h1, List.getD_eq_getElem _ _ hk,
    List.getElem_append_right (by omega)]
  simp

/-- The polygon that `TriangulateLine` builds from the copied outline is the
polygon of the raised points. -/
theorem copiedOutline_polygon (points : PointSet) (inputLine : List Nat) (lineSpacing : ℚ) :
    (linePoints (points ++ raisedPoints points inputLine lineSpacing)
      (copiedOutline points.length inputLine.length)).take (inputLine.length - 1) =
      raisedPoints points inputLine lineSpacing := by
  have hlen : (raisedPoints points inputLine lineSpacing).length = inputLine.length - 1 := by
    simp [raisedPoints, linePoints]
  unfold copiedOutline linePoints
  rw [List.map_append, List.take_left' (by simp)]
  apply List.ext_getElem
  · simp [hlen]
  · intro i h1 h2
    simp only [List.getElem_map, List.getElem_range]
    rw [GetPoint_append_right _ _ _ (by rw [hlen]; simpa using h1)]
    simp [List.getD, List.getElem?_eq_getElem h2]

/-- On well-formed positions the loop of `TriangulateLine` returns, and it
appends one triangle for every three positions. -/
theorem TriangulateLine_total (lib : External) (points : PointSet) (inputLine : List Nat)
    (out : List Triangle) (normalsUp : Bool) (n : Nat) (hn : n ≤ inputLine.length)
    (hne : inputLine ≠ [])
    (hpoly : (linePoints points inputLine).take
      (if idAt inputLine 0 = idAt inputLine ((inputLine.length : Int) - 1) then
        inputLine.length - 1 else inputLine.length) = (linePoints points inputLine).take n)
    (hok : PolygonIdsOK n (lib.polygonTriangulate ((linePoints points inputLine).take n))) :
    ∃ new, TriangulateLine lib points inputLine out normalsUp = some (out ++ new) ∧
      new.length = (lib.polygonTriangulate ((linePoints points inputLine).take n)).length / 3 ∧
      ∀ t ∈ new, t.1 ∈ inputLine ∧ t.2.1 ∈ inputLine ∧ t.2.2 ∈ inputLine := by
  have hpos : 0 < inputLine.length := List.length_pos.mpr hne
  obtain ⟨first, hfirst, _⟩ := GetId_of_inRange inputLine 0 ⟨le_refl _, by omega⟩
  obtain ⟨last, hlast, _⟩ := GetId_of_inRange inputLine ((inputLine.length : Int) - 1)
    ⟨by omega, by omega⟩
  have hf : idAt inputLine 0 = first := idAt_of_GetId _ _ _ hfirst
  have hl : idAt inputLine ((inputLine.length : Int) - 1) = last := idAt_of_GetId _ _ _ hlast
  rw [hf, hl] at hpoly
  obtain ⟨hmod, hrange⟩ := hok
  have hcount : ((lib.polygonTriangulate ((linePoints points inputLine).take n)).length + 2) / 3 =
      (lib.polygonTriangulate ((linePoints points inputLine).take n)).length / 3 := by omega
  obtain ⟨r, hr, hP⟩ := forLoop_inv
    (TriangulateLine.body inputLine
      (lib.polygonTriangulate ((linePoints points inputLine).take n)) normalsUp)
    (fun i t => ∃ new : List Triangle, t = out ++ new ∧ (new.length : Int) = i ∧
      ∀ t ∈ new, t.1 ∈ inputLine ∧ t.2.1 ∈ inputLine ∧ t.2.2 ∈ inputLine)
    ((lib.polygonTriangulate ((linePoints points inputLine).take n)).length / 3) 0
    (by
      intro i t hi0 hi1 hP
      obtain ⟨new, hnew, hlen, hmem⟩ := hP
      have hread : ∀ j : Int, 0 ≤ j → j < 3 →
          ∃ c id, readAt (lib.polygonTriangulate ((linePoints points inputLine).take n))
            (3 * i + j) = some c ∧ GetId inputLine c = some id ∧ id ∈ inputLine := by
        intro j hj0 hj1
        obtain ⟨c, hc, hcmem⟩ := readAt_of_inRange
          (lib.polygonTriangulate ((linePoints points inputLine).take n)) (3 * i + j)
          ⟨by omega, by omega⟩
        have := hrange c hcmem
        obtain ⟨id, hid, hidmem⟩ := GetId_of_inRange inputLine c ⟨this.1, by omega⟩
        exact ⟨c, id, hc, hid, hidmem⟩
      obtain ⟨c0, id0, hc0, hid0, hm0⟩ := hread 0 (by omega) (by omega)
      obtain ⟨c1, id1, hc1, hid1, hm1⟩ := hread 1 (by omega) (by omega)
      obtain ⟨c2, id2, hc2, hid2, hm2⟩ := hread 2 (by omega) (by omega)
      rw [add_zero] at hc0
      simp only [TriangulateLine.body, hc0, hc1, hc2, hid0, hid1, hid2, Option.some_bind]
      cases normalsUp with
      | true =>
        refine ⟨_, rfl, new ++ [(id0, id1, id2)], by rw [hnew, List.append_assoc], ?_, ?_⟩
        · rw [List.length_append, List.length_singleton]
          push_cast
          omega
        · intro t ht
          rcases List.mem_append.mp ht with h | h
          · exact hmem t h
          · rw [List.mem_singleton.mp h]
            exact ⟨hm0, hm1, hm2⟩
      | false =>
        refine ⟨_, rfl, new ++ [(id2, id1, id0)], by rw [hnew, List.append_assoc], ?_, ?_⟩
        · rw [List.length_append, List.length_singleton]
          push_cast
          omega
        · intro t ht
          rcases List.mem_append.mp ht with h | h
          · exact hmem t h
          · rw [List.mem_singleton.mp h]
            exact ⟨hm2, hm1, hm0⟩)
    out ⟨[], by simp, rfl, fun t ht => by cases ht⟩
  obtain ⟨new, hnew, hlen, hmem⟩ := hP
  refine ⟨new, ?_, by omega, hmem⟩
  simp only [TriangulateLine, hfirst, hlast, Option.some_bind, hpoly, hcount]
  rw [hr, hnew]

/-- The copied outline of a line of at least two ids is closed. -/
theorem copiedOutline_closed (base n : Nat) (hn : 2 ≤ n) :
    (copiedOutline base n).head? = (copiedOutline base n).getLast? := by
  obtain ⟨m, hm⟩ : ∃ m, n - 1 = m + 1 := ⟨n - 2, by omega⟩
  unfold copiedOutline
  rw [List.getLast?_concat, hm, List.range_succ_eq_map]
  rfl

theorem forLoop_one {σ : Type} (body : Int → σ → Option σ) (start : Int) (s : σ) :
    forLoop body 1 start s = body start s := by
  show (body start s).bind (forLoop body 0 (start + 1)) = body start s
  cases body start s <;> rfl

/-- The capping step of `SealMesh` on a line of at least two ids for which
the filters find no outline returns when the triangulation of the polygon is
well formed: it appends the points of the line but the last, moved by half the
spacing away from the line, appends the outline of these points as a line,
triangulates the outline and bridges the line to the outline. -/
theorem capSide_fallback (lib : External) (currentLine : List Nat) (currentLineIndex : Int)
    (lineSpacing : ℚ) (normalsUp : Bool) (s : SealState) (hlen : 2 ≤ currentLine.length)
    (hno : ¬ ((lib.contourLines s.input.points currentLine).lines.length > 0 ∧
      (lib.contourLines s.input.points currentLine).points.length > 0))
    (hok : PolygonIdsOK (currentLine.length - 1)
      (lib.polygonTriangulate (raisedPoints s.input.points currentLine
        (if normalsUp then lineSpacing else -lineSpacing)))) :
    ∃ s' capTriangles bridge,
      capSide lib currentLine currentLineIndex lineSpacing normalsUp s = some s' ∧
      s'.input.points = s.input.points ++
        raisedPoints s.input.points currentLine
          (if normalsUp then lineSpacing else -lineSpacing) ∧
      s'.input.lines = s.input.lines ++
        [copiedOutline s.input.points.length currentLine.length] ∧
      s'.cappedSides = s.cappedSides ++ [(currentLineIndex, normalsUp)] ∧
      s'.outputPolygons = s.outputPolygons ++ capTriangles ++ bridge ∧
      TriangulateLine lib s'.input.points
          (copiedOutline s.input.points.length currentLine.length) s.outputPolygons normalsUp =
        some (s.outputPolygons ++ capTriangles) ∧
      capTriangles.length =
        (lib.polygonTriangulate (raisedPoints s.input.points currentLine
          (if normalsUp then lineSpacing else -lineSpacing))).length / 3 ∧
      (∀ t ∈ capTriangles, s.input.points.length ≤ t.1 ∧ s.input.points.length ≤ t.2.1 ∧
        s.input.points.length ≤ t.2.2) ∧
      (if normalsUp then
          TriangulateContours s'.input.points currentLine
            (copiedOutline s.input.points.length currentLine.length)
            (s.outputPolygons ++ capTriangles)
        else
          TriangulateContours s'.input.points
            (copiedOutline s.input.points.length currentLine.length) currentLine
            (s.outputPolygons ++ capTriangles)) =
        some (s.outputPolygons ++ capTriangles ++ bridge) ∧
      bridge.length = 2 * currentLine.length - 2 := by
  have hcreate := CreateExternalLine_fallback lib s.input.points currentLine
    (if normalsUp then lineSpacing else -lineSpacing) hlen hno
  have holen : (copiedOutline s.input.points.length currentLine.length).length =
      currentLine.length := by
    simp [copiedOutline]
    omega
  have hone : copiedOutline s.input.points.length currentLine.length ≠ [] := by
    intro h
    rw [h] at holen
    simp at holen
    omega
  have hpolygon := copiedOutline_polygon s.input.points currentLine
    (if normalsUp then lineSpacing else -lineSpacing)
  have hends : idAt (copiedOutline s.input.points.length currentLine.length) 0 =
      idAt (copiedOutline s.input.points.length currentLine.length)
        (((copiedOutline s.input.points.length currentLine.length).length : Int) - 1) :=
    idAt_closed_ends _ hone (copiedOutline_closed _ _ hlen)
  obtain ⟨capTriangles, hcap, hcaplen, hcapmem⟩ := TriangulateLine_total lib
    (s.input.points ++ raisedPoints s.input.points currentLine
      (if normalsUp then lineSpacing else -lineSpacing))
    (copiedOutline s.input.points.length currentLine.length) s.outputPolygons normalsUp
    (currentLine.length - 1) (by rw [holen]; omega) hone
    (by rw [if_pos hends, holen])
    (by rw [hpolygon]; exact hok)
  rw [hpolygon] at hcaplen
  have hcur : currentLine ≠ [] := by
    intro h
    rw [h] at hlen
    simp at hlen
  have hbranch : Branch (s.input.points ++ raisedPoints s.input.points currentLine
      (if normalsUp then lineSpacing else -lineSpacing)) currentLine 0 [0]
      [linePoints (s.input.points ++ raisedPoints s.input.points currentLine
        (if normalsUp then lineSpacing else -lineSpacing))
        (copiedOutline s.input.points.length currentLine.length)]
      [copiedOutline s.input.points.length currentLine.length] = some currentLine := by
    unfold Branch
    exact if_pos rfl
  have hbridge : ∃ bridge,
      (if normalsUp then
          TriangulateContours (s.input.points ++ raisedPoints s.input.points currentLine
            (if normalsUp then lineSpacing else -lineSpacing)) currentLine
            (copiedOutline s.input.points.length currentLine.length)
            (s.outputPolygons ++ capTriangles)
        else
          TriangulateContours (s.input.points ++ raisedPoints s.input.points currentLine
            (if normalsUp then lineSpacing else -lineSpacing))
            (copiedOutline s.input.points.length currentLine.length) currentLine
            (s.outputPolygons ++ capTriangles)) =
        some (s.outputPolygons ++ capTriangles ++ bridge) ∧
      bridge.length = 2 * currentLine.length - 2 := by
    cases normalsUp with
    | true =>
      obtain ⟨new, hnew, hnewlen, _⟩ := TriangulateContours_spec
        (s.input.points ++ raisedPoints s.input.points currentLine lineSpacing) currentLine
        (copiedOutline s.input.points.length currentLine.length)
        (s.outputPolygons ++ capTriangles) hcur hone
      refine ⟨new, by simpa using hnew, ?_⟩
      rw [hnewlen, if_pos hlen, holen]
      omega
    | false =>
      obtain ⟨new, hnew, hnewlen, _⟩ := TriangulateContours_spec
        (s.input.points ++ raisedPoints s.input.points currentLine (-lineSpacing))
        (copiedOutline s.input.points.length currentLine.length) currentLine
        (s.outputPolygons ++ capTriangles) hone hcur
      refine ⟨new, by simpa using hnew, ?_⟩
      rw [hnewlen, holen, if_pos hlen]
      omega
  obtain ⟨bridge, hbr, hbrlen⟩ := hbridge
  refine ⟨⟨⟨s.input.points ++ raisedPoints s.input.points currentLine
      (if normalsUp then lineSpacing else -lineSpacing),
      s.input.lines ++ [copiedOutline s.input.points.length currentLine.length]⟩,
    s.outputPolygons ++ capTriangles ++ bridge,
    s.cappedSides ++ [(currentLineIndex, normalsUp)]⟩, capTriangles, bridge, ?_, rfl, rfl, rfl,
    rfl, hcap, hcaplen, ?_, hbr, hbrlen⟩
  · have hread : ∀ (α : Type) (x : α), readAt [x] 0 = some x := fun _ _ => rfl
    have h1 : forLoop
        (capInsertBody lib [copiedOutline s.input.points.length currentLine.length] normalsUp)
        1 0
        ⟨⟨s.input.points ++ raisedPoints s.input.points currentLine
          (if normalsUp then lineSpacing else -lineSpacing), s.input.lines⟩,
          s.outputPolygons, [], [], []⟩ =
        some ⟨⟨s.input.points ++ raisedPoints s.input.points currentLine
            (if normalsUp then lineSpacing else -lineSpacing),
            s.input.lines ++ [copiedOutline s.input.points.length currentLine.length]⟩,
          s.outputPolygons ++ capTriangles, [0],
          [linePoints (s.input.points ++ raisedPoints s.input.points currentLine
            (if normalsUp then lineSpacing else -lineSpacing))
            (copiedOutline s.input.points.length currentLine.length)],
          [copiedOutline s.input.points.length currentLine.length]⟩ := by
      rw [forLoop_one]
      unfold capInsertBody
      rw [hread, Option.some_bind]
      show (TriangulateLine lib _ _ s.outputPolygons normalsUp).bind _ = _
      rw [hcap]
      rfl
    have h2 : forLoop (capBridgeBody currentLine normalsUp) 1 0
        ⟨⟨s.input.points ++ raisedPoints s.input.points currentLine
            (if normalsUp then lineSpacing else -lineSpacing),
            s.input.lines ++ [copiedOutline s.input.points.length currentLine.length]⟩,
          s.outputPolygons ++ capTriangles, [0],
          [linePoints (s.input.points ++ raisedPoints s.input.points currentLine
            (if normalsUp then lineSpacing else -lineSpacing))
            (copiedOutline s.input.points.length currentLine.length)],
          [copiedOutline s.input.points.length currentLine.length]⟩ =
        some ⟨⟨s.input.points ++ raisedPoints s.input.points currentLine
            (if normalsUp then lineSpacing else -lineSpacing),
            s.input.lines ++ [copiedOutline s.input.points.length currentLine.length]⟩,
          s.outputPolygons ++ capTriangles ++ bridge, [0],
          [linePoints (s.input.points ++ raisedPoints s.input.points currentLine
            (if normalsUp then lineSpacing else -lineSpacing))
            (copiedOutline s.input.points.length currentLine.length)],
          [copiedOutline s.input.points.length currentLine.length]⟩ := by
      rw [forLoop_one]
      simp only [capBridgeBody, hbranch, hread, Option.some_bind, hbr]
    unfold capSide
    rw [hcreate, Option.some_bind]
    show (forLoop _ 1 0 _).bind _ = _
    rw [h1, Option.some_bind]
    show (forLoop _ 1 0 _).bind _ = _
    rw [h2]
    rfl
  · intro t ht
    obtain ⟨h1, h2, h3⟩ := hcapmem t ht
    have hmem : ∀ id ∈ copiedOutline s.input.points.length currentLine.length,
        s.input.points.length ≤ id := by
      intro id hid
      unfold copiedOutline at hid
      rcases List.mem_append.mp hid with h | h
      · obtain ⟨k, _, rfl⟩ := List.mem_map.mp h
        omega
      · rw [List.mem_singleton.mp h]
    exact ⟨hmem _ h1, hmem _ h2, hmem _ h3⟩

/-! ## Facts about the rounded sums -/

theorem roundedAreaSum_fold (points : PointSet) (line : List Nat) (acc : ℚ) :
    (line.zip line.tail).foldl
      (fun areaSum pr =>
        areaSum + ((GetPoint points pr.2).x - (GetPoint points pr.1).x) *
          ((GetPoint points pr.2).y + (GetPoint points pr.1).y))
      acc = acc + areaSum points line := by
  induction line generalizing acc with
  | nil => simp [areaSum]
  | cons a rest ih =>
    cases rest with
    | nil => simp [areaSum]
    | cons b rest =>
      have h := ih (acc + ((GetPoint points b).x - (GetPoint points a).x) *
        ((GetPoint points b).y + (GetPoint points a).y))
      simp only [List.tail_cons] at h
      simp only [List.tail_cons, List.zip_cons_cons, List.foldl_cons]
      rw [h, areaSum_cons_cons]
      ring

/-- Without rounding the sum accumulated in the order of the loop is the sum
`areaSum`. -/
theorem roundedAreaSum_exact (points : PointSet) (line : List Nat) :
    Rounded.areaSum (fun q => q) points line = areaSum points line := by
  have h := roundedAreaSum_fold points line 0
  rw [zero_add] at h
  exact h

/-- Without rounding the rounded model of `TriangulateContours` is the exact
one. -/
theorem roundedTriangulateContours_exact (points : PointSet) (l1 l2 : List Nat)
    (out : List Triangle) :
    Rounded.TriangulateContours (fun q => q) points l1 l2 out =
      TriangulateContours points l1 l2 out := rfl

/-! ## Facts about double-precision arithmetic on integer coordinates -/

/-- The halvings of a positive number bracket it between two powers of 2. -/
theorem halvings_spec : ∀ (fuel n : Nat), 1 ≤ n → n ≤ fuel →
    2 ^ halvings fuel n ≤ n ∧ n < 2 ^ (halvings fuel n + 1)
  | 0, n, h1, h2 => by omega
  | fuel + 1, n, h1, h2 => by
    rw [halvings]
    by_cases h : n < 2
    · rw [if_pos h]
      have : n = 1 := by omega
      subst this
      simp
    · rw [if_neg h]
      have ih := halvings_spec fuel (n / 2) (by omega) (by omega)
      obtain ⟨ih1, ih2⟩ := ih
      constructor
      · rw [pow_succ]
        omega
      · rw [pow_succ]
        omega

/-- Rounding to the nearest integer leaves an integer alone. -/
theorem roundHalfEven_intCast (k : Int) : roundHalfEven (k : ℚ) = k := by
  simp [roundHalfEven]

/-- The exponent of a positive natural number is its binary logarithm. -/
theorem exponentOf_natCast (n : Nat) (h : 1 ≤ n) :
    exponentOf (n : ℚ) = (log2Floor n : Int) ∧ 2 ^ log2Floor n ≤ n ∧ n < 2 ^ (log2Floor n + 1) := by
  obtain ⟨h1, h2⟩ := halvings_spec n n h le_rfl
  refine ⟨?_, h1, h2⟩
  have hl1 : log2Floor 1 = 0 := by decide
  simp only [exponentOf, Rat.num_natCast, Int.natAbs_ofNat, Rat.den_natCast, hl1,
    Nat.cast_zero, sub_zero]
  rw [if_neg]
  rw [pow2, if_pos (by positivity), Int.toNat_ofNat, not_lt]
  exact_mod_cast h1

/-- A natural number up to `2 ^ 53` is a `double`. -/
theorem roundDouble_natCast (n : Nat) (h : n ≤ 2 ^ 53) : roundDouble (n : ℚ) = n := by
  by_cases h0 : n = 0
  · subst h0
    simp [roundDouble]
  have hpos : (0 : ℚ) < n := by exact_mod_cast Nat.pos_of_ne_zero h0
  obtain ⟨he, h1, h2⟩ := exponentOf_natCast n (by omega)
  have hle : log2Floor n ≤ 53 := by
    by_contra hc
    have : 2 ^ 54 ≤ 2 ^ log2Floor n := Nat.pow_le_pow_right (by norm_num) (by omega)
    omega
  have hq0 : ¬ (n : ℚ) = 0 := ne_of_gt hpos
  have hq1 : ¬ (n : ℚ) < 0 := not_lt.mpr hpos.le
  simp only [roundDouble, if_neg hq0, if_neg hq1, he]
  rw [if_neg (by omega)]
  -- the quotient by the unit in the last place is an integer
  have key : ∃ k : Int, (n : ℚ) / pow2 ((log2Floor n : Int) - 52) = k := by
    by_cases h53 : log2Floor n = 53
    · have hn : n = 2 ^ 53 := by
        rw [h53] at h1
        omega
      refine ⟨2 ^ 52, ?_⟩
      rw [h53, hn, pow2, if_pos (by norm_num)]
      norm_num
    · refine ⟨(n : Int) * 2 ^ (52 - log2Floor n), ?_⟩
      rw [pow2]
      by_cases h52 : log2Floor n = 52
      · rw [h52]
        norm_num
      · rw [if_neg (by omega)]
        have : (-((log2Floor n : Int) - 52)).toNat = 52 - log2Floor n := by omega
        rw [this]
        push_cast
        field_simp
  obtain ⟨k, hk⟩ := key
  rw [hk, roundHalfEven_intCast, ← hk]
  have hne : pow2 ((log2Floor n : Int) - 52) ≠ 0 := by
    rw [pow2]
    split_ifs <;> positivity
  field_simp

/-- Rounding commutes with negation. -/
theorem roundDouble_neg (q : ℚ) : roundDouble (-q) = - roundDouble q := by
  by_cases h0 : q = 0
  · subst h0
    simp [roundDouble]
  rcases lt_or_gt_of_ne h0 with h | h
  · have h1 : ¬ (-q < 0) := by linarith
    have h2 : ¬ (-q = 0) := by simpa using h0
    simp only [roundDouble, if_neg h0, if_neg h2, if_pos h, if_neg h1, neg_neg]
  · have h1 : (-q < 0) := by linarith
    have h2 : ¬ (-q = 0) := by simpa using h0
    have h3 : ¬ (q < 0) := by linarith
    simp only [roundDouble, if_neg h0, if_neg h2, if_pos h1, if_neg h3, neg_neg]

/-- An integer of magnitude up to `2 ^ 53` is a `double`. -/
theorem roundDouble_intCast (z : Int) (h : |z| ≤ 2 ^ 53) : roundDouble (z : ℚ) = z := by
  rcases le_total 0 z with hz | hz
  · obtain ⟨n, rfl⟩ := Int.eq_ofNat_of_zero_le hz
    have : n ≤ 2 ^ 53 := by
      have := (abs_le.mp h).2
      exact_mod_cast this
    simpa using roundDouble_natCast n this
  · obtain ⟨n, hn⟩ := Int.eq_ofNat_of_zero_le (neg_nonneg.mpr hz)
    have hz2 : z = -(n : Int) := by omega
    have : n ≤ 2 ^ 53 := by
      have := (abs_le.mp h).1
      have h3 : (n : Int) ≤ 2 ^ 53 := by omega
      exact_mod_cast h3
    rw [hz2]
    push_cast
    rw [roundDouble_neg]
    simpa using congrArg Neg.neg (roundDouble_natCast n this)

/-- The rounding of `double` arithmetic leaves the integers up to `2 ^ 53`
as they are. -/
theorem roundDouble_exactOnIntegers : ExactOnIntegers roundDouble (2 ^ 53) :=
  fun z h => roundDouble_intCast z h

theorem BoundedInteger.cast {B : Nat} {q : ℚ} (h : BoundedInteger B q) :
    ∃ z : Int, q = z ∧ |z| ≤ (B : Int) := by
  refine ⟨q.num, ?_, ?_⟩
  · exact ((Rat.den_eq_one_iff q).mp h.1).symm
  · rw [Int.abs_eq_natAbs]
    exact_mod_cast h.2

theorem GetPoint_integer {B : Nat} {points : PointSet} (h : IntegerCoordinates B points)
    (id : Nat) : IntegerPoint B (GetPoint points id) := by
  unfold GetPoint
  by_cases hid : id < points.length
  · rw [List.getD_eq_getElem _ _ hid]
    exact h _ (List.getElem_mem _)
  · rw [List.getD_eq_default _ _ (by omega)]
    exact ⟨⟨rfl, Nat.zero_le _⟩, ⟨rfl, Nat.zero_le _⟩, ⟨rfl, Nat.zero_le _⟩⟩

theorem distanceBound_nonneg (B : Nat) : 0 ≤ distanceBound B := by
  unfold distanceBound
  positivity

theorem sq_diff_bound (B a b : Int) (ha : |a| ≤ B) (hb : |b| ≤ B) :
    |a - b| ≤ 2 * B ∧ 0 ≤ (a - b) * (a - b) ∧ (a - b) * (a - b) ≤ 4 * B * B := by
  obtain ⟨ha1, ha2⟩ := abs_le.mp ha
  obtain ⟨hb1, hb2⟩ := abs_le.mp hb
  refine ⟨abs_le.mpr ⟨by omega, by omega⟩, mul_self_nonneg _, ?_⟩
  nlinarith [mul_nonneg (show (0 : Int) ≤ 2 * B - (a - b) by omega)
    (show (0 : Int) ≤ 2 * B + (a - b) by omega)]

/-- On points with integer coordinates of magnitude at most `B`, a rounding
that is exact on the integers up to `12 B²` computes the squared distance
without error; the distance is an integer between `0` and `12 B²`. -/
theorem roundedDistance2_integer (fl : ℚ → ℚ) (B : Nat) (L : Int)
    (hfl : ExactOnIntegers fl L) (hL : distanceBound B ≤ L) (p q : Point)
    (hp : IntegerPoint B p) (hq : IntegerPoint B q) :
    Rounded.Distance2BetweenPoints fl p q = Distance2BetweenPoints p q ∧
      ∃ z : Int, Distance2BetweenPoints p q = z ∧ 0 ≤ z ∧ z ≤ distanceBound B := by
  obtain ⟨px, hpx, bpx⟩ := hp.1.cast
  obtain ⟨py, hpy, bpy⟩ := hp.2.1.cast
  obtain ⟨pz, hpz, bpz⟩ := hp.2.2.cast
  obtain ⟨qx, hqx, bqx⟩ := hq.1.cast
  obtain ⟨qy, hqy, bqy⟩ := hq.2.1.cast
  obtain ⟨qz, hqz, bqz⟩ := hq.2.2.cast
  obtain ⟨ax, nx, sx⟩ := sq_diff_bound B px qx bpx bqx
  obtain ⟨ay, ny, sy⟩ := sq_diff_bound B py qy bpy bqy
  obtain ⟨az, nz, sz⟩ := sq_diff_bound B pz qz bpz bqz
  unfold distanceBound at hL ⊢
  have hB0 : (0 : Int) ≤ (B : Int) * B := mul_self_nonneg _
  have ex : ∀ z : Int, 0 ≤ z → z ≤ 12 * (B : Int) * B → fl (z : ℚ) = z :=
    fun z h0 h1 => hfl z (abs_le.mpr ⟨by omega, by omega⟩)
  have ed : ∀ z : Int, |z| ≤ 2 * (B : Int) → fl (z : ℚ) = z := by
    intro z hz
    obtain ⟨h1, h2⟩ := abs_le.mp hz
    have hBB : 2 * (B : Int) ≤ 12 * (B : Int) * B := by
      rcases Nat.eq_zero_or_pos B with h | h
      · subst h
        simp
      · have : (1 : Int) ≤ B := by exact_mod_cast h
        nlinarith
    exact hfl z (abs_le.mpr ⟨by omega, by omega⟩)
  have e1 : fl (p.x - q.x) = ((px - qx : Int) : ℚ) := by
    rw [hpx, hqx, ← Int.cast_sub]
    exact ed _ ax
  have e2 : fl (p.y - q.y) = ((py - qy : Int) : ℚ) := by
    rw [hpy, hqy, ← Int.cast_sub]
    exact ed _ ay
  have e3 : fl (p.z - q.z) = ((pz - qz : Int) : ℚ) := by
    rw [hpz, hqz, ← Int.cast_sub]
    exact ed _ az
  have f1 : fl (((px - qx : Int) : ℚ) * ((px - qx : Int) : ℚ)) =
      (((px - qx) * (px - qx) : Int) : ℚ) := by
    rw [← Int.cast_mul]
    exact ex _ nx (by linarith)
  have f2 : fl (((py - qy : Int) : ℚ) * ((py - qy : Int) : ℚ)) =
      (((py - qy) * (py - qy) : Int) : ℚ) := by
    rw [← Int.cast_mul]
    exact ex _ ny (by linarith)
  have f3 : fl (((pz - qz : Int) : ℚ) * ((pz - qz : Int) : ℚ)) =
      (((pz - qz) * (pz - qz) : Int) : ℚ) := by
    rw [← Int.cast_mul]
    exact ex _ nz (by linarith)
  have g1 : fl ((((px - qx) * (px - qx) : Int) : ℚ) + (((py - qy) * (py - qy) : Int) : ℚ)) =
      (((px - qx) * (px - qx) + (py - qy) * (py - qy) : Int) : ℚ) := by
    rw [← Int.cast_add]
    exact ex _ (by linarith) (by linarith)
  have g2 : fl ((((px - qx) * (px - qx) + (py - qy) * (py - qy) : Int) : ℚ) +
      (((pz - qz) * (pz - qz) : Int) : ℚ)) =
      (((px - qx) * (px - qx) + (py - qy) * (py - qy) + (pz - qz) * (pz - qz) : Int) : ℚ) := by
    rw [← Int.cast_add]
    exact ex _ (by linarith) (by linarith)
  have hexact : Distance2BetweenPoints p q =
      (((px - qx) * (px - qx) + (py - qy) * (py - qy) + (pz - qz) * (pz - qz) : Int) : ℚ) := by
    unfold Distance2BetweenPoints
    rw [hpx, hpy, hpz, hqx, hqy, hqz]
    push_cast
    ring
  refine ⟨?_, _, hexact, by linarith, by linarith⟩
  rw [hexact]
  unfold Rounded.Distance2BetweenPoints
  rw [e1, e2, e3, f1, f2, f3, g1, g2]

/-- On integer coordinates the rounded scan of `GetClosestPoint` is the
exact one. -/
theorem roundedGetClosestPoint_integer (fl : ℚ → ℚ) (B : Nat) (L : Int)
    (hfl : ExactOnIntegers fl L) (hL : distanceBound B ≤ L) (points : PointSet)
    (hgrid : IntegerCoordinates B points) (p : Point) (hp : IntegerPoint B p)
    (ids : List Nat) (n : Int) :
    Rounded.GetClosestPoint fl points p ids n = GetClosestPoint points p ids n := by
  have hd : ∀ id, Rounded.Distance2BetweenPoints fl p (GetPoint points id) =
      Distance2BetweenPoints p (GetPoint points id) :=
    fun id => (roundedDistance2_integer fl B L hfl hL p _ hp (GetPoint_integer hgrid id)).1
  have hbody : Rounded.GetClosestPoint.body fl points p ids = GetClosestPoint.body points p ids := by
    funext i s
    simp only [Rounded.GetClosestPoint.body, GetClosestPoint.body, hd]
  simp only [Rounded.GetClosestPoint, GetClosestPoint, hd, hbody]

/-- On integer coordinates the rounded closest-point lists are the exact
ones. -/
theorem roundedClosestList_integer (fl : ℚ → ℚ) (B : Nat) (L : Int)
    (hfl : ExactOnIntegers fl L) (hL : distanceBound B ≤ L) (points : PointSet)
    (hgrid : IntegerCoordinates B points) (fromLine toLine : List Nat) :
    Rounded.closestList fl points fromLine toLine = closestList points fromLine toLine := by
  have hf : (fun id => Rounded.GetClosestPoint fl points (GetPoint points id) toLine
      toLine.length) =
      fun id => GetClosestPoint points (GetPoint points id) toLine toLine.length := by
    funext id
    exact roundedGetClosestPoint_integer fl B L hfl hL points hgrid _
      (GetPoint_integer hgrid id) toLine _
  simp only [Rounded.closestList, closestList, hf]

/-- On integer coordinates the rounded preparation of `TriangulateContours`
is the exact one. -/
theorem roundedBridgeInput_integer (fl : ℚ → ℚ) (B : Nat) (L : Int)
    (hfl : ExactOnIntegers fl L) (hL : distanceBound B ≤ L) (points : PointSet)
    (hgrid : IntegerCoordinates B points) (l1 l2 : List Nat) :
    Rounded.bridgeInput fl points l1 l2 = bridgeInput points l1 l2 := by
  simp only [Rounded.bridgeInput, bridgeInput,
    roundedClosestList_integer fl B L hfl hL points hgrid]

/-- The input that `bridgeInput` returns measures points of the point set. -/
theorem bridgeInput_integerPoints (B : Nat) (points : PointSet)
    (hgrid : IntegerCoordinates B points) (l1 l2 : List Nat) (c : BridgeInput)
    (h : bridgeInput points l1 l2 = some c) :
    c.IntegerPoints B ∧ c.numberOfPointsInLine1 = l1.length ∧
      c.numberOfPointsInLine2 = l2.length := by
  simp only [bridgeInput, Option.bind_eq_some] at h
  obtain ⟨c1, _, c2, _, st, _, f1, _, f2, _, h1, _, e1, _, h2, _, e2, _, hc⟩ := h
  have hc2 := Option.some.inj hc
  subst hc2
  exact ⟨⟨hgrid, GetPoint_integer hgrid _, GetPoint_integer hgrid _⟩, rfl, rfl⟩

/-- Two loops whose bodies agree on the states of an invariant that the
second body keeps are the same loop on these states, and the invariant holds
of the result. -/
theorem forLoop_congr_inv {σ : Type} (f g : Int → σ → Option σ) (P : σ → Prop)
    (h : ∀ i s, P s → f i s = g i s ∧ ∀ s', g i s = some s' → P s') :
    ∀ (count : Nat) (start : Int) (s : σ), P s →
      forLoop f count start s = forLoop g count start s ∧
        ∀ s', forLoop g count start s = some s' → P s'
  | 0, start, s, hs => by
    refine ⟨rfl, ?_⟩
    intro s' hs'
    have : s = s' := Option.some.inj hs'
    rw [← this]
    exact hs
  | k + 1, start, s, hs => by
    obtain ⟨hfg, hP⟩ := h start s hs
    simp only [forLoop, hfg]
    cases hb : g start s with
    | none => simp
    | some s1 =>
      have ih := forLoop_congr_inv f g P h k (start + 1) s1 (hP s1 hb)
      simp only [Option.some_bind]
      exact ih

theorem ScoresBounded.write {M : Int} {t : Table ℚ} (h : ScoresBounded M t)
    (rows cols i j : Int) (v : ℚ) (t' : Table ℚ) (hw : t.write rows cols i j v = some t')
    (hv : 0 ≤ i → 0 ≤ j → ∃ z : Int, v = z ∧ 0 ≤ z ∧ z ≤ (i + j + 1) * M) :
    ScoresBounded M t' := by
  unfold Table.write at hw
  split at hw
  · rename_i hrange
    have ht := Option.some.inj hw
    subst ht
    intro a b ha hb
    by_cases hab : a = i ∧ b = j
    · simp only [if_pos hab]
      rw [hab.1, hab.2]
      exact hv hrange.1 hrange.2.2.1
    · simp only [if_neg hab]
      exact h a b ha hb
  · exact absurd hw (by simp)

theorem Table.read_some {α : Type} {t : Table α} {rows cols i j : Int} {v : α}
    (h : t.read rows cols i j = some v) :
    0 ≤ i ∧ i < rows ∧ 0 ≤ j ∧ j < cols ∧ v = t i j := by
  unfold Table.read at h
  split at h
  · rename_i hrange
    exact ⟨hrange.1, hrange.2.1, hrange.2.2.1, hrange.2.2.2, (Option.some.inj h).symm⟩
  · exact absurd h (by simp)

theorem bind_congr_of_some {α β : Type} {o1 o2 : Option α} {f g : α → Option β}
    (h : o1 = o2) (hfg : ∀ a, o2 = some a → f a = g a) : o1.bind f = o2.bind g := by
  subst h
  cases o1 with
  | none => rfl
  | some a => exact hfg a rfl

/-- One step of the score: adding a distance to a score read from the table
is exact, and the sum is within the bound of the next cell. -/
theorem score_step (fl : ℚ → ℚ) (L : Int) (hfl : ExactOnIntegers fl L) (M : Int)
    (hM : 0 ≤ M) (n : Int) (hL : n * M ≤ L) (k : Int) (hk : k + 1 ≤ n)
    (previous d : ℚ) (hp : ∃ z : Int, previous = z ∧ 0 ≤ z ∧ z ≤ k * M)
    (hd : ∃ z : Int, d = z ∧ 0 ≤ z ∧ z ≤ M) :
    fl (previous + d) = previous + d ∧
      ∃ z : Int, previous + d = z ∧ 0 ≤ z ∧ z ≤ (k + 1) * M := by
  obtain ⟨zp, hzp, hp0, hpM⟩ := hp
  obtain ⟨zd, hzd, hd0, hdM⟩ := hd
  have hsum : previous + d = ((zp + zd : Int) : ℚ) := by
    rw [hzp, hzd]
    push_cast
    ring
  have hle : zp + zd ≤ (k + 1) * M := by
    have : (k + 1) * M = k * M + M := by ring
    omega
  have hle2 : (k + 1) * M ≤ n * M := mul_le_mul_of_nonneg_right hk hM
  refine ⟨?_, _, hsum, by omega, hle⟩
  rw [hsum]
  exact hfl _ (abs_le.mpr ⟨by omega, by omega⟩)

/-- On integer coordinates with scores within the bounds, the rounded body
of the first-row loop is the exact one, and the scores stay within the
bounds. -/
theorem roundedFirstRowBody_integer (fl : ℚ → ℚ) (B : Nat) (L : Int)
    (hfl : ExactOnIntegers fl L) (c : BridgeInput) (hc : c.IntegerPoints B)
    (hD : distanceBound B ≤ L)
    (hL : (c.numberOfPointsInLine1 + c.numberOfPointsInLine2) * distanceBound B ≤ L)
    (i : Int) (s : BridgeState) (hs : ScoresBounded (distanceBound B) s.scoreTable) :
    Rounded.firstRowBody fl c i s = firstRowBody c i s ∧
      ∀ s', firstRowBody c i s = some s' → ScoresBounded (distanceBound B) s'.scoreTable := by
  cases hid : GetId c.pointsInLine2 s.currentPointIndexLine2 with
  | none => simp [Rounded.firstRowBody, firstRowBody, hid]
  | some id2 =>
    cases hr : s.scoreTable.read c.numberOfPointsInLine1 c.numberOfPointsInLine2 0 (i - 1) with
    | none => simp [Rounded.firstRowBody, firstRowBody, hid, hr]
    | some previous =>
      obtain ⟨hd, hdz⟩ := roundedDistance2_integer fl B L hfl hD c.firstPointLine1
        (GetPoint c.points id2) hc.first1 (GetPoint_integer hc.points id2)
      obtain ⟨hi0, hi1, hj0, hj1, hv⟩ := Table.read_some hr
      obtain ⟨hstep, hz⟩ := score_step fl L hfl (distanceBound B) (distanceBound_nonneg B) _ hL
        (0 + (i - 1) + 1) (by omega) previous _ (by rw [hv]; exact hs 0 (i - 1) hi0 hj0) hdz
      have hk : (0 + (i - 1) + 1 + 1 : Int) = 0 + i + 1 := by ring
      rw [hk] at hz
      refine ⟨?_, ?_⟩
      · simp only [Rounded.firstRowBody, firstRowBody, hid, hr, Option.some_bind, hd, hstep]
      · intro s' hs'
        simp only [firstRowBody, hid, hr, Option.some_bind, Option.bind_eq_some] at hs'
        obtain ⟨t', hw, bt, _, heq⟩ := hs'
        have hs2 := Option.some.inj heq
        subst hs2
        exact ScoresBounded.write hs _ _ _ _ _ _ hw (fun _ _ => hz)

/-- The reset of the cells right of the first column keeps the scores
within the bounds. -/
theorem firstColumnResetBody_bounded (M : Int) (hM : 0 ≤ M) (c : BridgeInput) (i j : Int)
    (s s' : BridgeState) (hs : ScoresBounded M s.scoreTable)
    (h : firstColumnResetBody c i j s = some s') : ScoresBounded M s'.scoreTable := by
  simp only [firstColumnResetBody, Option.bind_eq_some] at h
  obtain ⟨t', hw, bt, _, heq⟩ := h
  have hs2 := Option.some.inj heq
  subst hs2
  refine ScoresBounded.write hs _ _ _ _ _ _ hw (fun hi hj => ⟨0, by simp, le_refl _, ?_⟩)
  exact mul_nonneg (by omega) hM

/-- On integer coordinates with scores within the bounds, the rounded body
of the first-column loop is the exact one, and the scores stay within the
bounds. -/
theorem roundedFirstColumnBody_integer (fl : ℚ → ℚ) (B : Nat) (L : Int)
    (hfl : ExactOnIntegers fl L) (c : BridgeInput) (hc : c.IntegerPoints B)
    (hD : distanceBound B ≤ L)
    (hL : (c.numberOfPointsInLine1 + c.numberOfPointsInLine2) * distanceBound B ≤ L)
    (i : Int) (s : BridgeState) (hs : ScoresBounded (distanceBound B) s.scoreTable) :
    Rounded.firstColumnBody fl c i s = firstColumnBody c i s ∧
      ∀ s', firstColumnBody c i s = some s' →
        ScoresBounded (distanceBound B) s'.scoreTable := by
  cases hid : GetId c.pointsInLine1 s.currentPointIndexLine1 with
  | none => simp [Rounded.firstColumnBody, firstColumnBody, hid]
  | some id1 =>
    cases hr : s.scoreTable.read c.numberOfPointsInLine1 c.numberOfPointsInLine2 (i - 1) 0 with
    | none => simp [Rounded.firstColumnBody, firstColumnBody, hid, hr]
    | some previous =>
      obtain ⟨hd, hdz⟩ := roundedDistance2_integer fl B L hfl hD (GetPoint c.points id1)
        c.firstPointLine2 (GetPoint_integer hc.points id1) hc.first2
      obtain ⟨hi0, hi1, hj0, hj1, hv⟩ := Table.read_some hr
      obtain ⟨hstep, hz⟩ := score_step fl L hfl (distanceBound B) (distanceBound_nonneg B) _ hL
        (i - 1 + 0 + 1) (by omega) previous _ (by rw [hv]; exact hs (i - 1) 0 hi0 hj0) hdz
      have hk : (i - 1 + 0 + 1 + 1 : Int) = i + 0 + 1 := by ring
      rw [hk] at hz
      refine ⟨?_, ?_⟩
      · simp only [Rounded.firstColumnBody, firstColumnBody, hid, hr, Option.some_bind, hd,
          hstep]
      · intro s' hs'
        simp only [firstColumnBody, hid, hr, Option.some_bind, Option.bind_eq_some] at hs'
        obtain ⟨t', hw, bt, _, s1, hloop, heq⟩ := hs'
        have hs2 := Option.some.inj heq
        subst hs2
        have hw2 : ScoresBounded (distanceBound B) t' :=
          ScoresBounded.write hs _ _ _ _ _ _ hw (fun _ _ => hz)
        exact forLoop_some_inv (firstColumnResetBody c i)
          (fun s => ScoresBounded (distanceBound B) s.scoreTable) _ _
          (fun j t t' _ _ ht hb =>
            firstColumnResetBody_bounded _ (distanceBound_nonneg B) c i j t t' ht hb)
          _ s1 hw2 hloop

/-- On integer coordinates with scores within the bounds, the rounded body
of the interior fill is the exact one, and the scores stay within the
bounds. -/
theorem roundedFillCellBody_integer (fl : ℚ → ℚ) (B : Nat) (L : Int)
    (hfl : ExactOnIntegers fl L) (c : BridgeInput) (hc : c.IntegerPoints B)
    (hD : distanceBound B ≤ L)
    (hL : (c.numberOfPointsInLine1 + c.numberOfPointsInLine2) * distanceBound B ≤ L)
    (i j : Int) (s : BridgeState) (hs : ScoresBounded (distanceBound B) s.scoreTable) :
    Rounded.fillCellBody fl c i j s = fillCellBody c i j s ∧
      ∀ s', fillCellBody c i j s = some s' →
        ScoresBounded (distanceBound B) s'.scoreTable := by
  cases hid1 : GetId c.pointsInLine1 s.currentPointIndexLine1 with
  | none => simp [Rounded.fillCellBody, fillCellBody, hid1]
  | some id1 =>
  cases hid2 : GetId c.pointsInLine2 s.currentPointIndexLine2 with
  | none => simp [Rounded.fillCellBody, fillCellBody, hid1, hid2]
  | some id2 =>
  cases hc2 : readAt c.closest2 s.previousLine2 with
  | none => simp [Rounded.fillCellBody, fillCellBody, hid1, hid2, hc2]
  | some closestOfPrevious2 =>
  obtain ⟨hd, hdz⟩ := roundedDistance2_integer fl B L hfl hD (GetPoint c.points id1)
    (GetPoint c.points id2) (GetPoint_integer hc.points id1) (GetPoint_integer hc.points id2)
  -- the score from the left neighbour
  have hleft : ∀ scoreLeft,
      s.scoreTable.read c.numberOfPointsInLine1 c.numberOfPointsInLine2 i (j - 1) =
        some scoreLeft →
      fl (scoreLeft + Distance2BetweenPoints (GetPoint c.points id1) (GetPoint c.points id2)) =
        scoreLeft + Distance2BetweenPoints (GetPoint c.points id1) (GetPoint c.points id2) ∧
      ∃ z : Int,
        scoreLeft + Distance2BetweenPoints (GetPoint c.points id1) (GetPoint c.points id2) = z ∧
          0 ≤ z ∧ z ≤ (i + j + 1) * distanceBound B := by
    intro scoreLeft hr
    obtain ⟨hi0, hi1, hj0, hj1, hv⟩ := Table.read_some hr
    obtain ⟨hstep, hz⟩ := score_step fl L hfl (distanceBound B) (distanceBound_nonneg B) _ hL
      (i + (j - 1) + 1) (by omega) scoreLeft _ (by rw [hv]; exact hs i (j - 1) hi0 hj0) hdz
    have hk : (i + (j - 1) + 1 + 1 : Int) = i + j + 1 := by ring
    rw [hk] at hz
    exact ⟨hstep, hz⟩
  -- the score from the upper neighbour
  have hup : ∀ scoreUp,
      s.scoreTable.read c.numberOfPointsInLine1 c.numberOfPointsInLine2 (i - 1) j =
        some scoreUp →
      fl (scoreUp + Distance2BetweenPoints (GetPoint c.points id1) (GetPoint c.points id2)) =
        scoreUp + Distance2BetweenPoints (GetPoint c.points id1) (GetPoint c.points id2) ∧
      ∃ z : Int,
        scoreUp + Distance2BetweenPoints (GetPoint c.points id1) (GetPoint c.points id2) = z ∧
          0 ≤ z ∧ z ≤ (i + j + 1) * distanceBound B := by
    intro scoreUp hr
    obtain ⟨hi0, hi1, hj0, hj1, hv⟩ := Table.read_some hr
    obtain ⟨hstep, hz⟩ := score_step fl L hfl (distanceBound B) (distanceBound_nonneg B) _ hL
      (i - 1 + j + 1) (by omega) scoreUp _ (by rw [hv]; exact hs (i - 1) j hi0 hj0) hdz
    have hk : (i - 1 + j + 1 + 1 : Int) = i + j + 1 := by ring
    rw [hk] at hz
    exact ⟨hstep, hz⟩
  by_cases hA : s.currentPointIndexLine1 = closestOfPrevious2
  · cases hrl : s.scoreTable.read c.numberOfPointsInLine1 c.numberOfPointsInLine2 i (j - 1) with
    | none => simp [Rounded.fillCellBody, fillCellBody, hid1, hid2, hc2, hA, hrl]
    | some scoreLeft =>
      obtain ⟨hstep, hz⟩ := hleft scoreLeft hrl
      refine ⟨?_, ?_⟩
      · simp only [Rounded.fillCellBody, fillCellBody, hid1, hid2, hc2, Option.some_bind, hd,
          if_pos hA, hrl, hstep]
      · intro s' hs'
        simp only [fillCellBody, hid1, hid2, hc2, Option.some_bind, if_pos hA, hrl,
          Option.bind_eq_some] at hs'
        obtain ⟨t', hw, bt, _, heq⟩ := hs'
        have hs2 := Option.some.inj heq
        subst hs2
        exact ScoresBounded.write hs _ _ _ _ _ _ hw (fun _ _ => hz)
  · cases hc1 : readAt c.closest1 s.previousLine1 with
    | none => simp [Rounded.fillCellBody, fillCellBody, hid1, hid2, hc2, hA, hc1]
    | some closestOfPrevious1 =>
    by_cases hB : s.currentPointIndexLine2 = closestOfPrevious1
    · cases hru : s.scoreTable.read c.numberOfPointsInLine1 c.numberOfPointsInLine2 (i - 1)
          j with
      | none => simp [Rounded.fillCellBody, fillCellBody, hid1, hid2, hc2, hA, hc1, hB, hru]
      | some scoreUp =>
        obtain ⟨hstep, hz⟩ := hup scoreUp hru
        refine ⟨?_, ?_⟩
        · simp only [Rounded.fillCellBody, fillCellBody, hid1, hid2, hc2, Option.some_bind, hd,
            if_neg hA, hc1, if_pos hB, hru, hstep]
        · intro s' hs'
          simp only [fillCellBody, hid1, hid2, hc2, Option.some_bind, if_neg hA, hc1,
            if_pos hB, hru, Option.bind_eq_some] at hs'
          obtain ⟨t', hw, bt, _, heq⟩ := hs'
          have hs2 := Option.some.inj heq
          subst hs2
          exact ScoresBounded.write hs _ _ _ _ _ _ hw (fun _ _ => hz)
    · cases hrl : s.scoreTable.read c.numberOfPointsInLine1 c.numberOfPointsInLine2 i
          (j - 1) with
      | none => simp [Rounded.fillCellBody, fillCellBody, hid1, hid2, hc2, hA, hc1, hB, hrl]
      | some scoreLeft =>
      cases hru : s.scoreTable.read c.numberOfPointsInLine1 c.numberOfPointsInLine2 (i - 1)
          j with
      | none =>
        simp [Rounded.fillCellBody, fillCellBody, hid1, hid2, hc2, hA, hc1, hB, hrl, hru]
      | some scoreUp =>
        obtain ⟨hstepl, hzl⟩ := hleft scoreLeft hrl
        obtain ⟨hstepu, hzu⟩ := hup scoreUp hru
        by_cases hle : scoreLeft ≤ scoreUp
        · refine ⟨?_, ?_⟩
          · simp only [Rounded.fillCellBody, fillCellBody, hid1, hid2, hc2, Option.some_bind, hd,
              if_neg hA, hc1, if_neg hB, hrl, hru, if_pos hle, hstepl]
          · intro s' hs'
            simp only [fillCellBody, hid1, hid2, hc2, Option.some_bind, if_neg hA, hc1,
              if_neg hB, hrl, hru, if_pos hle, Option.bind_eq_some] at hs'
            obtain ⟨t', hw, bt, _, heq⟩ := hs'
            have hs2 := Option.some.inj heq
            subst hs2
            exact ScoresBounded.write hs _ _ _ _ _ _ hw (fun _ _ => hzl)
        · refine ⟨?_, ?_⟩
          · simp only [Rounded.fillCellBody, fillCellBody, hid1, hid2, hc2, Option.some_bind, hd,
              if_neg hA, hc1, if_neg hB, hrl, hru, if_neg hle, hstepu]
          · intro s' hs'
            simp only [fillCellBody, hid1, hid2, hc2, Option.some_bind, if_neg hA, hc1,
              if_neg hB, hrl, hru, if_neg hle, Option.bind_eq_some] at hs'
            obtain ⟨t', hw, bt, _, heq⟩ := hs'
            have hs2 := Option.some.inj heq
            subst hs2
            exact ScoresBounded.write hs _ _ _ _ _ _ hw (fun _ _ => hzu)

/-- On integer coordinates with scores within the bounds, the rounded fill
of a row is the exact one, and the scores stay within the bounds. -/
theorem roundedFillRowBody_integer (fl : ℚ → ℚ) (B : Nat) (L : Int)
    (hfl : ExactOnIntegers fl L) (c : BridgeInput) (hc : c.IntegerPoints B)
    (hD : distanceBound B ≤ L)
    (hL : (c.numberOfPointsInLine1 + c.numberOfPointsInLine2) * distanceBound B ≤ L)
    (i : Int) (s : BridgeState) (hs : ScoresBounded (distanceBound B) s.scoreTable) :
    Rounded.fillRowBody fl c i s = fillRowBody c i s ∧
      ∀ s', fillRowBody c i s = some s' → ScoresBounded (distanceBound B) s'.scoreTable := by
  obtain ⟨heq, hinv⟩ := forLoop_congr_inv (Rounded.fillCellBody fl c i) (fillCellBody c i)
    (fun s => ScoresBounded (distanceBound B) s.scoreTable)
    (fun j t ht => roundedFillCellBody_integer fl B L hfl c hc hD hL i j t ht)
    (c.numberOfPointsInLine2 - 1).toNat 1 s hs
  refine ⟨?_, ?_⟩
  · simp only [Rounded.fillRowBody, fillRowBody, heq]
  · intro s' hs'
    simp only [fillRowBody, Option.bind_eq_some] at hs'
    obtain ⟨s1, hloop, heq2⟩ := hs'
    have hs2 := Option.some.inj heq2
    subst hs2
    exact hinv s1 hloop

/-- On integer coordinates, when the scores of all cells are within the range
on which the rounding is exact, the rounded fill of the tables is the exact
one. -/
theorem roundedFillTables_integer (fl : ℚ → ℚ) (B : Nat) (L : Int)
    (hfl : ExactOnIntegers fl L) (c : BridgeInput) (hc : c.IntegerPoints B)
    (hD : distanceBound B ≤ L)
    (hL : (c.numberOfPointsInLine1 + c.numberOfPointsInLine2) * distanceBound B ≤ L)
    (out : List Triangle) :
    Rounded.fillTables fl c out = fillTables c out := by
  obtain ⟨hd, hdz⟩ := roundedDistance2_integer fl B L hfl hD c.firstPointLine1
    c.firstPointLine2 hc.first1 hc.first2
  have h0 : Rounded.initialState fl c out = initialState c out := by
    simp only [Rounded.initialState, initialState, hd]
  have hP0 : ScoresBounded (distanceBound B) (initialState c out).scoreTable := by
    intro a b ha hb
    simp only [initialState]
    by_cases hab : a = 0 ∧ b = 0
    · rw [if_pos hab, hab.1, hab.2]
      obtain ⟨z, hz, hz0, hzM⟩ := hdz
      exact ⟨z, hz, hz0, by simpa using hzM⟩
    · rw [if_neg hab]
      exact ⟨0, by simp, le_refl _, mul_nonneg (by omega) (distanceBound_nonneg B)⟩
  simp only [Rounded.fillTables, fillTables, h0]
  refine bind_congr_of_some ?_ ?_
  · exact (forLoop_congr_inv (Rounded.firstRowBody fl c) (firstRowBody c)
      (fun s => ScoresBounded (distanceBound B) s.scoreTable)
      (fun i t ht => roundedFirstRowBody_integer fl B L hfl c hc hD hL i t ht) _ _ _ (by exact hP0)).1
  intro s1 h1
  have hP1 : ScoresBounded (distanceBound B) s1.scoreTable :=
    (forLoop_congr_inv (Rounded.firstRowBody fl c) (firstRowBody c)
      (fun s => ScoresBounded (distanceBound B) s.scoreTable)
      (fun i t ht => roundedFirstRowBody_integer fl B L hfl c hc hD hL i t ht) _ _ _ (by exact hP0)).2
      s1 h1
  refine bind_congr_of_some ?_ ?_
  · exact (forLoop_congr_inv (Rounded.firstColumnBody fl c) (firstColumnBody c)
      (fun s => ScoresBounded (distanceBound B) s.scoreTable)
      (fun i t ht => roundedFirstColumnBody_integer fl B L hfl c hc hD hL i t ht) _ _ _ (by exact hP1)).1
  intro s2 h2
  have hP2 : ScoresBounded (distanceBound B) s2.scoreTable :=
    (forLoop_congr_inv (Rounded.firstColumnBody fl c) (firstColumnBody c)
      (fun s => ScoresBounded (distanceBound B) s.scoreTable)
      (fun i t ht => roundedFirstColumnBody_integer fl B L hfl c hc hD hL i t ht) _ _ _ (by exact hP1)).2
      s2 h2
  refine bind_congr_of_some ?_ (fun _ _ => rfl)
  exact (forLoop_congr_inv (Rounded.fillRowBody fl c) (fillRowBody c)
    (fun s => ScoresBounded (distanceBound B) s.scoreTable)
    (fun i t ht => roundedFillRowBody_integer fl B L hfl c hc hD hL i t ht) _ _ _ (by exact hP2)).1

/-- On a point set with integer coordinates of magnitude at most `B`, when
`(n1 + n2) * 12 B²` is within the range on which the rounding is exact, the
rounded `TriangulateContours` is the exact one. -/
theorem roundedTriangulateContours_integer (fl : ℚ → ℚ) (B : Nat) (L : Int)
    (hfl : ExactOnIntegers fl L) (points : PointSet) (hgrid : IntegerCoordinates B points)
    (l1 l2 : List Nat)
    (hL : ((l1.length : Int) + (l2.length : Int)) * distanceBound B ≤ L)
    (out : List Triangle) :
    Rounded.TriangulateContours fl points l1 l2 out = TriangulateContours points l1 l2 out := by
  unfold Rounded.TriangulateContours TriangulateContours
  by_cases h0 : l1.length = 0 ∨ l2.length = 0
  · rw [if_pos h0, if_pos h0]
  · rw [if_neg h0, if_neg h0]
    have hD : distanceBound B ≤ L := by
      have h1 : (1 : Int) ≤ (l1.length : Int) + (l2.length : Int) := by omega
      exact le_trans (le_mul_of_one_le_left (distanceBound_nonneg B) h1) hL
    refine bind_congr_of_some (roundedBridgeInput_integer fl B L hfl hD points hgrid l1 l2) ?_
    intro c hc
    obtain ⟨hci, hn1, hn2⟩ := bridgeInput_integerPoints B points hgrid l1 l2 c hc
    rw [roundedFillTables_integer fl B L hfl c hci hD (by rw [hn1, hn2]; exact hL) out]

theorem abs_mul_bound (B a b : Int) (ha : |a| ≤ 2 * B) (hb : |b| ≤ 2 * B) :
    |a * b| ≤ 4 * (B * B) := by
  calc |a * b| = |a| * |b| := abs_mul a b
    _ ≤ (2 * B) * (2 * B) := mul_le_mul ha hb (abs_nonneg b) (le_trans (abs_nonneg a) ha)
    _ = 4 * (B * B) := by ring

/-- On integer coordinates, when the partial sums stay within the range on
which the rounding is exact, the rounded accumulation of `IsLineClockwise` is
the exact one. -/
theorem roundedAreaSum_foldl_integer (fl : ℚ → ℚ) (B : Nat) (L : Int)
    (hfl : ExactOnIntegers fl L) (points : PointSet) (hgrid : IntegerCoordinates B points) :
    ∀ (ps : List (Nat × Nat)) (acc : ℚ) (K : Int), 0 ≤ K → (∃ z : Int, acc = z ∧ |z| ≤ K) →
      K + (ps.length : Int) * (4 * ((B : Int) * (B : Int))) ≤ L →
      ps.foldl
          (fun areaSum pr =>
            fl (areaSum +
              fl (fl ((GetPoint points pr.2).x - (GetPoint points pr.1).x) *
                fl ((GetPoint points pr.2).y + (GetPoint points pr.1).y))))
          acc =
        ps.foldl
          (fun areaSum pr =>
            areaSum + ((GetPoint points pr.2).x - (GetPoint points pr.1).x) *
              ((GetPoint points pr.2).y + (GetPoint points pr.1).y))
          acc
  | [], acc, K, _, _, _ => rfl
  | pr :: rest, acc, K, hK, hacc, hL => by
    obtain ⟨za, hza, bza⟩ := hacc
    obtain ⟨x1, hx1, bx1⟩ := (GetPoint_integer hgrid pr.1).1.cast
    obtain ⟨y1, hy1, by1⟩ := (GetPoint_integer hgrid pr.1).2.1.cast
    obtain ⟨x2, hx2, bx2⟩ := (GetPoint_integer hgrid pr.2).1.cast
    obtain ⟨y2, hy2, by2⟩ := (GetPoint_integer hgrid pr.2).2.1.cast
    have hB0 : (0 : Int) ≤ (B : Int) * B := mul_self_nonneg _
    have hlen : ((pr :: rest).length : Int) = (rest.length : Int) + 1 := by
      simp
    rw [hlen] at hL
    have hrest : (0 : Int) ≤ (rest.length : Int) * (4 * ((B : Int) * (B : Int))) := by
      positivity
    have h4 : 4 * ((B : Int) * B) ≤ L := by nlinarith
    have h2 : 2 * (B : Int) ≤ 4 * ((B : Int) * B) := by
      rcases Nat.eq_zero_or_pos B with h | h
      · subst h
        simp
      · have : (1 : Int) ≤ B := by exact_mod_cast h
        nlinarith
    have bdx : |x2 - x1| ≤ 2 * (B : Int) := by
      obtain ⟨a1, a2⟩ := abs_le.mp bx1
      obtain ⟨b1, b2⟩ := abs_le.mp bx2
      exact abs_le.mpr ⟨by omega, by omega⟩
    have bsy : |y2 + y1| ≤ 2 * (B : Int) := by
      obtain ⟨a1, a2⟩ := abs_le.mp by1
      obtain ⟨b1, b2⟩ := abs_le.mp by2
      exact abs_le.mpr ⟨by omega, by omega⟩
    have bprod := abs_mul_bound B _ _ bdx bsy
    have e1 : fl ((GetPoint points pr.2).x - (GetPoint points pr.1).x) =
        ((x2 - x1 : Int) : ℚ) := by
      rw [hx1, hx2, ← Int.cast_sub]
      exact hfl _ (by linarith)
    have e2 : fl ((GetPoint points pr.2).y + (GetPoint points pr.1).y) =
        ((y2 + y1 : Int) : ℚ) := by
      rw [hy1, hy2, ← Int.cast_add]
      exact hfl _ (by linarith)
    have e3 : fl (((x2 - x1 : Int) : ℚ) * ((y2 + y1 : Int) : ℚ)) =
        (((x2 - x1) * (y2 + y1) : Int) : ℚ) := by
      rw [← Int.cast_mul]
      exact hfl _ (by linarith)
    have bsum : |za + (x2 - x1) * (y2 + y1)| ≤ K + 4 * ((B : Int) * B) :=
      le_trans (abs_add _ _) (by linarith)
    have e4 : fl (acc + (((x2 - x1) * (y2 + y1) : Int) : ℚ)) =
        ((za + (x2 - x1) * (y2 + y1) : Int) : ℚ) := by
      rw [hza, ← Int.cast_add]
      exact hfl _ (by linarith)
    have hexact : acc + ((GetPoint points pr.2).x - (GetPoint points pr.1).x) *
        ((GetPoint points pr.2).y + (GetPoint points pr.1).y) =
        ((za + (x2 - x1) * (y2 + y1) : Int) : ℚ) := by
      rw [hza, hx1, hx2, hy1, hy2]
      push_cast
      ring
    simp only [List.foldl_cons]
    rw [e1, e2, e3, e4, hexact]
    exact roundedAreaSum_foldl_integer fl B L hfl points hgrid rest _
      (K + 4 * ((B : Int) * B)) (by linarith) ⟨_, rfl, bsum⟩ (by linarith)

/-- On a point set with integer coordinates of magnitude at most `B`, when
`n * 4 B²` is within the range on which the rounding is exact for a line of
`n` ids, the rounded sum of `IsLineClockwise` is the exact one. -/
theorem roundedAreaSum_integer (fl : ℚ → ℚ) (B : Nat) (L : Int)
    (hfl : ExactOnIntegers fl L) (points : PointSet) (hgrid : IntegerCoordinates B points)
    (line : List Nat) (hL : (line.length : Int) * (4 * ((B : Int) * (B : Int))) ≤ L) :
    Rounded.areaSum fl points line = areaSum points line := by
  have hB0 : (0 : Int) ≤ 4 * ((B : Int) * B) := by positivity
  have hlen : ((line.zip line.tail).length : Int) ≤ (line.length : Int) := by
    have : (line.zip line.tail).length ≤ line.length := by
      rw [List.length_zip]
      exact Nat.min_le_left _ _
    exact_mod_cast this
  unfold Rounded.areaSum
  rw [roundedAreaSum_foldl_integer fl B L hfl points hgrid _ 0 0 le_rfl ⟨0, by simp, by simp⟩
    (by nlinarith)]
  have h := roundedAreaSum_fold points line 0
  rw [zero_add] at h
  exact h

/-! ## The claims -/

theorem length_of_head_ne_getLast (l : List Nat) (h : l.head? ≠ l.getLast?) :
    l ≠ [] ∧ 2 ≤ l.length := by
  match l, h with
  | [], h => exact absurd rfl h
  | [a], h => exact absurd rfl h
  | _ :: _ :: _, _ => exact ⟨by simp, by simp⟩

/-- C1: for two open chains (the first id differs from the last id, so each
has at least two points) `TriangulateContours` returns and appends exactly
`len(chain1) + len(chain2) - 2` triangles to the output triangle list. -/
theorem C1_open_chains_triangle_count (points : PointSet) (l1 l2 : List Nat)
    (out : List Triangle) (h1 : l1.head? ≠ l1.getLast?) (h2 : l2.head? ≠ l2.getLast?) :
    ∃ new, TriangulateContours points l1 l2 out = some (out ++ new) ∧
      new.length = l1.length + l2.length - 2 := by
  obtain ⟨hne1, hlen1⟩ := length_of_head_ne_getLast l1 h1
  obtain ⟨hne2, _⟩ := length_of_head_ne_getLast l2 h2
  obtain ⟨new, hres, hlen, _⟩ := TriangulateContours_spec points l1 l2 out hne1 hne2
  exact ⟨new, hres, by rw [hlen, if_pos hlen1]⟩

/-- Witness of C1: the open chains `[0, 1]` and `[2, 3]` yield two triangles. -/
theorem C1_open_chains_triangle_count_witness :
    ([0, 1] : List Nat).head? ≠ ([0, 1] : List Nat).getLast? ∧
    ([2, 3] : List Nat).head? ≠ ([2, 3] : List Nat).getLast? ∧
    ∃ new, TriangulateContours segmentPoints [0, 1] [2, 3] [] = some ([] ++ new) ∧
      new.length = [0, 1].length + [2, 3].length - 2 :=
  ⟨by decide, by decide,
    C1_open_chains_triangle_count segmentPoints [0, 1] [2, 3] [] (by decide) (by decide)⟩

/-- C2 (evaluation at the failing input): with the one-point chain `[0]` and
the open chain `[2, 3]`, `TriangulateContours` emits nothing, whereas
backtracking entered at the table cell `(n1 - 1, n2 - 1) = (0, 1)` on the same
tables emits the `left` triangle `(0, 3, 2)`. -/
theorem C2_single_point_chain1_starts_at_origin :
    TriangulateContours segmentPoints [0] [2, 3] [] = some [] ∧
    ((bridgeInput segmentPoints [0] [2, 3]).bind fun c =>
      (fillTables c []).bind fun s =>
        (whileLoop backtrackCond (backtrackBody c) 3
          { backtrackStart c s with line1PointIndex := 1 - 1, line2PointIndex := 2 - 1 }).map
          fun s => s.outputPolygons) = some [(0, 3, 2)] := by
  constructor <;> decide!

/-- C3 (evaluation at the failing input): on the keyhole contour the
normalizing calls split the single line into the two lines `[0, 1, 6, 7, 0]`
and `[2, 5, 4, 3, 2]`; whatever the external filters return, when the stages of
`Convert` return neither side of line 1 is flagged as bridged and `SealMesh`
caps no side of line 1; with filters that find no outline the stages do return
and cap the two sides of line 0 only. -/
theorem C3_split_keyhole_line_left_open :
    (normalize keyholeData).map (fun input => input.lines) =
      some [[0, 1, 6, 7, 0], [2, 5, 4, 3, 2]] ∧
    (∀ lib r, convertStages lib keyholeData = some r →
      r.1.lines.length = 2 ∧
      readAt r.2.1.lineTriganulatedToAbove 1 = some false ∧
      readAt r.2.1.lineTriganulatedToBelow 1 = some false ∧
      ∀ normalsUp, (1, normalsUp) ∉ r.2.2.cappedSides) ∧
    (convertStages noOutline keyholeData).map (fun r => r.2.2.cappedSides) =
      some [(0, true), (0, false)] := by
  have hn : normalize keyholeData =
      some ⟨keyholePoints, [[0, 1, 6, 7, 0], [2, 5, 4, 3, 2]]⟩ := by decide!
  have hb : bridgePlanes ⟨keyholePoints, [[0, 1, 6, 7, 0], [2, 5, 4, 3, 2]]⟩ =
      some ⟨0, 2, [false, false], [false, false], []⟩ := by decide!
  refine ⟨by rw [hn]; rfl, ?_, by decide!⟩
  intro lib r hr
  simp only [convertStages, hn, hb, Option.some_bind, Option.bind_eq_some] at hr
  obtain ⟨closed, hseal, hr⟩ := hr
  rw [← Option.some.inj hr]
  refine ⟨rfl, rfl, rfl, ?_⟩
  intro normalsUp hmem
  have hlt : (1 : Int) < ((1 : Nat) : Int) :=
    (SealMesh_cappedSides_lt _ _ _ _ _ _ _ hseal _ hmem).2
  exact absurd hlt (by decide)

/-- C4: on two non-empty chains, open or closed and of any lengths,
`TriangulateContours` performs no read of a chain position, of a closest-point
entry or of a table cell outside its bounds (the call returns a result), it
only appends to the output, and every vertex of every appended triangle is an
id of chain 1 or chain 2, hence a valid index into the point set whenever the
ids of the chains are. -/
theorem C4_no_out_of_range_access (points : PointSet) (l1 l2 : List Nat)
    (out : List Triangle) (h1 : l1 ≠ []) (h2 : l2 ≠ []) :
    ∃ new, TriangulateContours points l1 l2 out = some (out ++ new) ∧
      (∀ tri ∈ new, tri.1 ∈ l1 ∧ tri.2.1 ∈ l2 ∧ (tri.2.2 ∈ l1 ∨ tri.2.2 ∈ l2)) ∧
      ((∀ id ∈ l1, id < points.length) → (∀ id ∈ l2, id < points.length) →
        ∀ tri ∈ new, tri.1 < points.length ∧ tri.2.1 < points.length ∧
          tri.2.2 < points.length) := by
  obtain ⟨new, hres, _, hall⟩ := TriangulateContours_spec points l1 l2 out h1 h2
  refine ⟨new, hres, hall, ?_⟩
  intro hv1 hv2 tri htri
  obtain ⟨ha, hb, hc⟩ := hall tri htri
  exact ⟨hv1 _ ha, hv2 _ hb, hc.elim (hv1 _) (hv2 _)⟩

/-- Witness of C4: a closed chain of three ids against a single point. -/
theorem C4_no_out_of_range_access_witness :
    ([0, 1, 0] : List Nat) ≠ [] ∧ ([2] : List Nat) ≠ [] ∧
    ∃ new, TriangulateContours segmentPoints [0, 1, 0] [2] [] = some ([] ++ new) ∧
      (∀ tri ∈ new, tri.1 ∈ [0, 1, 0] ∧ tri.2.1 ∈ [2] ∧ (tri.2.2 ∈ [0, 1, 0] ∨ tri.2.2 ∈ [2])) ∧
      ((∀ id ∈ [0, 1, 0], id < segmentPoints.length) →
        (∀ id ∈ [2], id < segmentPoints.length) →
        ∀ tri ∈ new, tri.1 < segmentPoints.length ∧ tri.2.1 < segmentPoints.length ∧
          tri.2.2 < segmentPoints.length) :=
  ⟨by decide, by decide,
    C4_no_out_of_range_access segmentPoints [0, 1, 0] [2] [] (by decide) (by decide)⟩

/-- C5 (counterexample): on the closed chains `[0, 1, 0]` and `[2, 3, 2]` over
`ribbonPoints` the path that `TriangulateContours` backtracks costs `81`, and
the monotone path `(0,0), (1,0), (1,1), (1,2), (2,2)` between the same cells
costs `77`. -/
theorem C5_backtracked_path_not_minimal :
    ∃ c path p, bridgeInput ribbonPoints [0, 1, 0] [2, 3, 2] = some c ∧
      backtrackedPath ribbonPoints [0, 1, 0] [2, 3, 2] = some path ∧
      MonotonePath (3 - 1) (3 - 1) p ∧
      c.pathCost path = 81 ∧ c.pathCost p = 77 ∧ c.pathCost p < c.pathCost path := by
  have heval : ((bridgeInput ribbonPoints [0, 1, 0] [2, 3, 2]).bind fun c =>
      (backtrackedPath ribbonPoints [0, 1, 0] [2, 3, 2]).map fun path =>
        (c.pathCost path, c.pathCost [(0, 0), (1, 0), (1, 1), (1, 2), (2, 2)])) =
      some (81, 77) := by decide!
  cases hc : bridgeInput ribbonPoints [0, 1, 0] [2, 3, 2] with
  | none => rw [hc] at heval; cases heval
  | some c =>
    cases hp : backtrackedPath ribbonPoints [0, 1, 0] [2, 3, 2] with
    | none => rw [hc, hp] at heval; cases heval
    | some path =>
      rw [hc, hp] at heval
      have hpair := Option.some.inj heval
      have h81 : c.pathCost path = 81 := congrArg Prod.fst hpair
      have h77 : c.pathCost [(0, 0), (1, 0), (1, 1), (1, 2), (2, 2)] = 77 :=
        congrArg Prod.snd hpair
      refine ⟨c, path, [(0, 0), (1, 0), (1, 1), (1, 2), (2, 2)], rfl, rfl, ?_, h81, h77, ?_⟩
      · exact @MonotonePath.alongChain1 1 2 _
          (@MonotonePath.alongChain2 1 1 _
            (@MonotonePath.alongChain2 1 0 _
              (@MonotonePath.alongChain1 0 0 _ MonotonePath.origin)))
      · rw [h81, h77]
        norm_num

/-- C5 (as amended): for two chains of at least two points each, chain 2
closed, the path that `TriangulateContours` backtracks is a monotone path from
`(0, 0)` to `(n1 - 1, n2 - 1)` that enters no interior cell against a forced
transition, and its total cost is minimal among the monotone paths that enter
no interior cell against a forced transition; where no interior cell has a
forced transition it is minimal among all monotone paths. -/
theorem C5_backtracked_path_minimal_among_admissible (points : PointSet) (l1 l2 : List Nat)
    (h1 : 2 ≤ l1.length) (h2 : 2 ≤ l2.length) (hclosed : l2.head? = l2.getLast?) :
    ∃ c path, bridgeInput points l1 l2 = some c ∧ backtrackedPath points l1 l2 = some path ∧
      MonotonePath ((l1.length : Int) - 1) ((l2.length : Int) - 1) path.reverse ∧
      AdmissiblePath c ((l1.length : Int) - 1) ((l2.length : Int) - 1) path.reverse ∧
      (∀ p, AdmissiblePath c ((l1.length : Int) - 1) ((l2.length : Int) - 1) p →
        c.pathCost path ≤ c.pathCost p) ∧
      ((∀ a b, 1 ≤ a → a < (l1.length : Int) → 1 ≤ b → b < (l2.length : Int) →
          ¬ c.ForcedLeft a b ∧ ¬ c.ForcedUp a b) →
        ∀ p, MonotonePath ((l1.length : Int) - 1) ((l2.length : Int) - 1) p →
          c.pathCost path ≤ c.pathCost p) := by
  obtain ⟨c, path, hc, hpath, hadm, hmin⟩ := backtrackedPath_minimal points l1 l2 h1 h2 hclosed
  have hne1 : l1 ≠ [] := by intro h; rw [h] at h1; simp at h1
  have hne2 : l2 ≠ [] := by intro h; rw [h] at h2; simp at h2
  obtain ⟨c', hc', hwf, _, hl1, hl2⟩ := bridgeInput_spec points l1 l2 hne1 hne2
  have hcc : c' = c := Option.some.inj (hc'.symm.trans hc)
  rw [hcc] at hwf hl1 hl2
  have hn1 : c.numberOfPointsInLine1 = l1.length := by rw [hwf.len1, hl1]
  have hn2 : c.numberOfPointsInLine2 = l2.length := by rw [hwf.len2, hl2]
  refine ⟨c, path, hc, hpath, hadm.monotone, hadm, hmin, ?_⟩
  intro hfree p hp
  exact hmin p (hp.admissible c (by rw [hn1]; omega) (by rw [hn2]; omega)
    (fun a b ha1 ha2 hb1 hb2 => hfree a b ha1 (by rw [← hn1]; exact ha2) hb1
      (by rw [← hn2]; exact hb2)))

/-- Witness of C5: the closed chains `[0, 1, 0]` and `[2, 3, 2]` over
`spreadPoints`. -/
theorem C5_backtracked_path_minimal_among_admissible_witness :
    2 ≤ ([0, 1, 0] : List Nat).length ∧ 2 ≤ ([2, 3, 2] : List Nat).length ∧
    ([2, 3, 2] : List Nat).head? = ([2, 3, 2] : List Nat).getLast? ∧
    ∃ c path, bridgeInput spreadPoints [0, 1, 0] [2, 3, 2] = some c ∧
      backtrackedPath spreadPoints [0, 1, 0] [2, 3, 2] = some path ∧
      MonotonePath ((([0, 1, 0] : List Nat).length : Int) - 1)
        ((([2, 3, 2] : List Nat).length : Int) - 1) path.reverse ∧
      AdmissiblePath c ((([0, 1, 0] : List Nat).length : Int) - 1)
        ((([2, 3, 2] : List Nat).length : Int) - 1) path.reverse ∧
      (∀ p, AdmissiblePath c ((([0, 1, 0] : List Nat).length : Int) - 1)
          ((([2, 3, 2] : List Nat).length : Int) - 1) p →
        c.pathCost path ≤ c.pathCost p) ∧
      ((∀ a b, 1 ≤ a → a < (([0, 1, 0] : List Nat).length : Int) → 1 ≤ b →
          b < (([2, 3, 2] : List Nat).length : Int) →
          ¬ c.ForcedLeft a b ∧ ¬ c.ForcedUp a b) →
        ∀ p, MonotonePath ((([0, 1, 0] : List Nat).length : Int) - 1)
            ((([2, 3, 2] : List Nat).length : Int) - 1) p →
          c.pathCost path ≤ c.pathCost p) :=
  ⟨by decide, by decide, by decide,
    C5_backtracked_path_minimal_among_admissible spreadPoints [0, 1, 0] [2, 3, 2]
      (by decide) (by decide) (by decide)⟩

/-- C6 (counterexample): in the `double` arithmetic of the source, the thin
quadrilateral `sliverPoints`, a closed simple contour with non-zero area whose
coordinates are integers below `2 ^ 31`, is measured clockwise, with the sum
`48`, and reversed by `SetLinesCounterClockwise`; measured again, the reversed
contour has the sum `16`: `IsLineClockwise` is still true for it and its
computed sum is not negative. -/
theorem C6_rounded_sum_keeps_sign :
    DoubleCoordinates sliverPoints ∧
    ([0, 1, 2, 3, 0] : List Nat).head? = ([0, 1, 2, 3, 0] : List Nat).getLast? ∧
    ([0, 1, 2, 3] : List Nat).Nodup ∧
    SegmentsApart (GetPoint sliverPoints 0) (GetPoint sliverPoints 1) (GetPoint sliverPoints 2)
      (GetPoint sliverPoints 3) ∧
    SegmentsApart (GetPoint sliverPoints 1) (GetPoint sliverPoints 2) (GetPoint sliverPoints 3)
      (GetPoint sliverPoints 0) ∧
    shoelace2 sliverPoints [0, 1, 2, 3, 0] = -16 ∧
    Rounded.areaSum roundDouble sliverPoints [0, 1, 2, 3, 0] = 48 ∧
    Rounded.SetLinesCounterClockwise roundDouble sliverPoints [[0, 1, 2, 3, 0]] =
      [[0, 3, 2, 1, 0]] ∧
    shoelace2 sliverPoints [0, 3, 2, 1, 0] = 16 ∧
    Rounded.areaSum roundDouble sliverPoints [0, 3, 2, 1, 0] = 16 ∧
    Rounded.IsLineClockwise roundDouble sliverPoints [0, 3, 2, 1, 0] = true := by
  refine ⟨by decide!, by decide, by decide, by decide!, by decide!, by decide!, by decide!,
    by decide!, by decide!, by decide!, by decide!⟩

/-- C6 (as amended): in the `double` arithmetic of the source, on a point set
whose coordinates are integers of magnitude at most `B`, after
`SetLinesCounterClockwise` every closed line (first id equal to last id) of `n`
ids with `4 B² n ≤ 2 ^ 53` whose shoelace area is not zero is counter-clockwise
when measured again: `IsLineClockwise` is false for it and the sum of
`(x2 - x1) * (y2 + y1)` over its consecutive points, as computed and as it is
exactly, is strictly negative.  The same holds with every operation rounded by
any `fl` (the identity for exact arithmetic) of every closed line with non-zero
area whose sum is computed without rounding error in the order of the line and
in the reversed order. -/
theorem C6_exact_sums_counter_clockwise :
    (∀ (B : Nat) (points : PointSet) (lines : List (List Nat)) (line : List Nat),
      IntegerCoordinates B points →
      (line.length : Int) * (4 * ((B : Int) * (B : Int))) ≤ 2 ^ 53 →
      line ∈ Rounded.SetLinesCounterClockwise roundDouble points lines →
      line.head? = line.getLast? → shoelace2 points line ≠ 0 →
      Rounded.IsLineClockwise roundDouble points line = false ∧
        Rounded.areaSum roundDouble points line < 0 ∧
        Rounded.areaSum roundDouble points line = - shoelace2 points line ∧
        IsLineClockwise points line = false ∧ areaSum points line < 0) ∧
    ∀ (fl : ℚ → ℚ) (points : PointSet) (lines : List (List Nat)) (line : List Nat),
      line ∈ Rounded.SetLinesCounterClockwise fl points lines →
      line.head? = line.getLast? → shoelace2 points line ≠ 0 →
      Rounded.areaSum fl points line = areaSum points line →
      Rounded.areaSum fl points (ReverseLine line) = areaSum points (ReverseLine line) →
      Rounded.IsLineClockwise fl points line = false ∧
        Rounded.areaSum fl points line < 0 ∧
        Rounded.areaSum fl points line = - shoelace2 points line ∧
        IsLineClockwise points line = false ∧ areaSum points line < 0 := by
  have general : ∀ (fl : ℚ → ℚ) (points : PointSet) (lines : List (List Nat))
      (line : List Nat), line ∈ Rounded.SetLinesCounterClockwise fl points lines →
      line.head? = line.getLast? → shoelace2 points line ≠ 0 →
      Rounded.areaSum fl points line = areaSum points line →
      Rounded.areaSum fl points (ReverseLine line) = areaSum points (ReverseLine line) →
      Rounded.IsLineClockwise fl points line = false ∧
        Rounded.areaSum fl points line < 0 ∧
        Rounded.areaSum fl points line = - shoelace2 points line ∧
        IsLineClockwise points line = false ∧ areaSum points line < 0 := by
    intro fl points lines line hmem hclosed harea he1 he2
    have heq := areaSum_eq_neg_shoelace2 points line hclosed
    have hne : areaSum points line ≠ 0 := by
      rw [heq]
      exact neg_ne_zero.mpr harea
    simp only [Rounded.SetLinesCounterClockwise, List.mem_map] at hmem
    obtain ⟨l, _, hline⟩ := hmem
    have hle : areaSum points line ≤ 0 := by
      by_cases hcw : Rounded.IsLineClockwise fl points l = true
      · rw [if_pos hcw] at hline
        have hpos : Rounded.areaSum fl points l > 0 := by
          simpa [Rounded.IsLineClockwise] using hcw
        have hl : l = ReverseLine line := by
          rw [← hline, ReverseLine, ReverseLine, List.reverse_reverse]
        rw [hl, he2, ReverseLine, areaSum_reverse] at hpos
        linarith
      · rw [if_neg hcw] at hline
        have hnpos : ¬ Rounded.areaSum fl points l > 0 := by
          simpa [Rounded.IsLineClockwise] using hcw
        rw [hline, he1] at hnpos
        exact not_lt.mp hnpos
    have hlt : areaSum points line < 0 := lt_of_le_of_ne hle hne
    refine ⟨?_, by rw [he1]; exact hlt, by rw [he1, heq], ?_, hlt⟩
    · simp only [Rounded.IsLineClockwise, decide_eq_false_iff_not, not_lt, he1]
      exact hle
    · simp only [IsLineClockwise, decide_eq_false_iff_not, not_lt]
      exact hle
  refine ⟨?_, general⟩
  intro B points lines line hgrid hbound hmem hclosed harea
  refine general roundDouble points lines line hmem hclosed harea
    (roundedAreaSum_integer roundDouble B (2 ^ 53) roundDouble_exactOnIntegers points hgrid
      line hbound)
    (roundedAreaSum_integer roundDouble B (2 ^ 53) roundDouble_exactOnIntegers points hgrid
      (ReverseLine line) ?_)
  rw [ReverseLine, List.length_reverse]
  exact hbound

/-- Witness of C6: in `double` arithmetic the unit square listed clockwise,
whose coordinates are integers of magnitude at most 1, is reversed; and in
exact arithmetic so is the thin quadrilateral `sliverPoints`. -/
theorem C6_exact_sums_counter_clockwise_witness :
    IntegerCoordinates 1 squaresPoints ∧
    ((([0, 1, 2, 3, 0] : List Nat).length : Int) * (4 * (((1 : Nat) : Int) * ((1 : Nat) : Int))) ≤
      2 ^ 53) ∧
    [0, 1, 2, 3, 0] ∈ Rounded.SetLinesCounterClockwise roundDouble squaresPoints
      [[0, 3, 2, 1, 0]] ∧
    ([0, 1, 2, 3, 0] : List Nat).head? = ([0, 1, 2, 3, 0] : List Nat).getLast? ∧
    shoelace2 squaresPoints [0, 1, 2, 3, 0] ≠ 0 ∧
    (Rounded.IsLineClockwise roundDouble squaresPoints [0, 1, 2, 3, 0] = false ∧
      Rounded.areaSum roundDouble squaresPoints [0, 1, 2, 3, 0] < 0 ∧
      Rounded.areaSum roundDouble squaresPoints [0, 1, 2, 3, 0] =
        - shoelace2 squaresPoints [0, 1, 2, 3, 0] ∧
      IsLineClockwise squaresPoints [0, 1, 2, 3, 0] = false ∧
      areaSum squaresPoints [0, 1, 2, 3, 0] < 0) ∧
    [0, 3, 2, 1, 0] ∈ Rounded.SetLinesCounterClockwise (fun q => q) sliverPoints
      [[0, 1, 2, 3, 0]] ∧
    ([0, 3, 2, 1, 0] : List Nat).head? = ([0, 3, 2, 1, 0] : List Nat).getLast? ∧
    shoelace2 sliverPoints [0, 3, 2, 1, 0] ≠ 0 ∧
    Rounded.areaSum (fun q => q) sliverPoints [0, 3, 2, 1, 0] =
      areaSum sliverPoints [0, 3, 2, 1, 0] ∧
    Rounded.areaSum (fun q => q) sliverPoints (ReverseLine [0, 3, 2, 1, 0]) =
      areaSum sliverPoints (ReverseLine [0, 3, 2, 1, 0]) ∧
    (Rounded.IsLineClockwise (fun q => q) sliverPoints [0, 3, 2, 1, 0] = false ∧
      Rounded.areaSum (fun q => q) sliverPoints [0, 3, 2, 1, 0] < 0 ∧
      Rounded.areaSum (fun q => q) sliverPoints [0, 3, 2, 1, 0] =
        - shoelace2 sliverPoints [0, 3, 2, 1, 0] ∧
      IsLineClockwise sliverPoints [0, 3, 2, 1, 0] = false ∧
      areaSum sliverPoints [0, 3, 2, 1, 0] < 0) :=
  ⟨by decide, by decide, by decide!, by decide, by decide!,
    C6_exact_sums_counter_clockwise.1 1 squaresPoints [[0, 3, 2, 1, 0]] [0, 1, 2, 3, 0]
      (by decide) (by decide) (by decide!) (by decide) (by decide!),
    by decide!, by decide, by decide!, by decide!, by decide!,
    C6_exact_sums_counter_clockwise.2 (fun q => q) sliverPoints [[0, 1, 2, 3, 0]]
      [0, 3, 2, 1, 0] (by decide!) (by decide) (by decide!) (by decide!) (by decide!)⟩

/-- C8: when no pair of points of any contour qualifies as a keyhole
crossing, `FixKeyholes` returns the input contour list unchanged (same
contours, same order, same point ids), so that running the repair on its own
result yields that result again. -/
theorem C8_fix_keyholes_identity (input : PolyData) (epsilon : ℚ) (minimumSeperation : Int)
    (h : ∀ line ∈ input.lines,
      NoKeyhole epsilon minimumSeperation (linePoints input.points line)) :
    FixKeyholes input input.lines.length epsilon minimumSeperation = some input.lines ∧
    ((FixKeyholes input input.lines.length epsilon minimumSeperation).bind fun repaired =>
      FixKeyholes ⟨input.points, repaired⟩ repaired.length epsilon minimumSeperation) =
      FixKeyholes input input.lines.length epsilon minimumSeperation := by
  have h1 := FixKeyholes_of_noKeyhole input epsilon minimumSeperation h
  refine ⟨h1, ?_⟩
  rw [h1, Option.some_bind]
  exact FixKeyholes_of_noKeyhole ⟨input.points, input.lines⟩ epsilon minimumSeperation h

/-- Witness of C8: the two squares, with the tolerances `0.1` and `2` that
`Convert` passes. -/
theorem C8_fix_keyholes_identity_witness :
    (∀ line ∈ squaresData.lines, NoKeyhole (1 / 10) 2 (linePoints squaresData.points line)) ∧
    (FixKeyholes squaresData squaresData.lines.length (1 / 10) 2 = some squaresData.lines ∧
      ((FixKeyholes squaresData squaresData.lines.length (1 / 10) 2).bind fun repaired =>
        FixKeyholes ⟨squaresData.points, repaired⟩ repaired.length (1 / 10) 2) =
        FixKeyholes squaresData squaresData.lines.length (1 / 10) 2) :=
  ⟨by decide!, C8_fix_keyholes_identity squaresData (1 / 10) 2 (by decide!)⟩

/-- C9 (counterexample): the boxes of the lines `[0, 1]` and `[2, 3]` of
`touchingPoints` intersect in X (both contain `x = 1`) and in Y, yet
`DoLinesOverlap` is false. -/
theorem C9_touching_boxes_do_not_overlap :
    BoxesShareXY touchingPoints [0, 1] [2, 3] ∧
      DoLinesOverlap touchingPoints [0, 1] [2, 3] = false := by
  refine ⟨⟨⟨1, ?_, ?_, ?_, ?_⟩, ⟨0, ?_, ?_, ?_, ?_⟩⟩, ?_⟩ <;> decide!

/-- C9 (amended): for non-empty lines `DoLinesOverlap` is true exactly when
the bounding boxes overlap strictly in X and in Y (on each axis some point of
each line lies strictly below some point of the other, so boxes that only
touch do not overlap); lines that overlap have boxes that intersect in X and
Y; and the result does not depend on the Z coordinates. -/
theorem C9_overlap_is_strict_box_test (points : PointSet) (l1 l2 : List Nat) (h1 : l1 ≠ [])
    (h2 : l2 ≠ []) :
    (DoLinesOverlap points l1 l2 = true ↔ StrictOverlapXY points l1 l2) ∧
    (DoLinesOverlap points l1 l2 = true → BoxesShareXY points l1 l2) ∧
    (∀ points', SameXY points points' →
      DoLinesOverlap points' l1 l2 = DoLinesOverlap points l1 l2) := by
  refine ⟨DoLinesOverlap_iff_strict points l1 l2 h1 h2, ?_, ?_⟩
  · intro h
    obtain ⟨hx1, hx2, hy1, hy2⟩ := (DoLinesOverlap_iff_bounds points l1 l2).mp h
    have x1 := GetBounds_min points l1 h1 (fun b => b.xmin) (fun p => p.x)
      (fun _ _ => rfl) (fun _ => rfl)
    have x2 := GetBounds_min points l2 h2 (fun b => b.xmin) (fun p => p.x)
      (fun _ _ => rfl) (fun _ => rfl)
    have X1 := GetBounds_max points l1 h1 (fun b => b.xmax) (fun p => p.x)
      (fun _ _ => rfl) (fun _ => rfl)
    have X2 := GetBounds_max points l2 h2 (fun b => b.xmax) (fun p => p.x)
      (fun _ _ => rfl) (fun _ => rfl)
    have y1 := GetBounds_min points l1 h1 (fun b => b.ymin) (fun p => p.y)
      (fun _ _ => rfl) (fun _ => rfl)
    have y2 := GetBounds_min points l2 h2 (fun b => b.ymin) (fun p => p.y)
      (fun _ _ => rfl) (fun _ => rfl)
    have Y1 := GetBounds_max points l1 h1 (fun b => b.ymax) (fun p => p.y)
      (fun _ _ => rfl) (fun _ => rfl)
    have Y2 := GetBounds_max points l2 h2 (fun b => b.ymax) (fun p => p.y)
      (fun _ _ => rfl) (fun _ => rfl)
    obtain ⟨a, ha, hxa⟩ := x1.2
    obtain ⟨b, hb, hxb⟩ := x2.2
    obtain ⟨c, hc, hyc⟩ := y1.2
    obtain ⟨d, hd, hyd⟩ := y2.2
    have e1 : (GetBounds points l1).xmin ≤ (GetBounds points l1).xmax :=
      le_trans (x1.1 a ha) (X1.1 a ha)
    have e2 : (GetBounds points l2).xmin ≤ (GetBounds points l2).xmax :=
      le_trans (x2.1 b hb) (X2.1 b hb)
    have e3 : (GetBounds points l1).ymin ≤ (GetBounds points l1).ymax :=
      le_trans (y1.1 c hc) (Y1.1 c hc)
    have e4 : (GetBounds points l2).ymin ≤ (GetBounds points l2).ymax :=
      le_trans (y2.1 d hd) (Y2.1 d hd)
    constructor
    · rcases le_total (GetBounds points l1).xmin (GetBounds points l2).xmin with hle | hle
      · exact ⟨_, hle, le_of_lt hx2, le_refl _, e2⟩
      · exact ⟨_, le_refl _, e1, hle, le_of_lt hx1⟩
    · rcases le_total (GetBounds points l1).ymin (GetBounds points l2).ymin with hle | hle
      · exact ⟨_, hle, le_of_lt hy2, le_refl _, e4⟩
      · exact ⟨_, le_refl _, e3, hle, le_of_lt hy1⟩
  · intro points' hsame
    rw [Bool.eq_iff_iff, DoLinesOverlap_iff_strict points' l1 l2 h1 h2,
      DoLinesOverlap_iff_strict points l1 l2 h1 h2]
    simp only [StrictOverlapXY, (hsame _).1, (hsame _).2]

/-- Witness of C9 (amended): the two touching segments. -/
theorem C9_overlap_is_strict_box_test_witness :
    ([0, 1] : List Nat) ≠ [] ∧ ([2, 3] : List Nat) ≠ [] ∧
    ((DoLinesOverlap touchingPoints [0, 1] [2, 3] = true ↔
        StrictOverlapXY touchingPoints [0, 1] [2, 3]) ∧
      (DoLinesOverlap touchingPoints [0, 1] [2, 3] = true →
        BoxesShareXY touchingPoints [0, 1] [2, 3]) ∧
      (∀ points', SameXY touchingPoints points' →
        DoLinesOverlap points' [0, 1] [2, 3] = DoLinesOverlap touchingPoints [0, 1] [2, 3])) :=
  ⟨by decide, by decide,
    C9_overlap_is_strict_box_test touchingPoints [0, 1] [2, 3] (by decide) (by decide)⟩

/-- C10: `DoLinesOverlap` is symmetric in its two lines, and for two planes
that lie within the working set the loops "Fill the overlaps lists" of
`Convert` return lists in which line `m` of the second plane is a partner of
line `l` of the first exactly when `l` is a partner of `m`, each at most
once. -/
theorem C10_overlap_relation_symmetric (input : PolyData) (f1 n1 f2 n2 : Int) (hf1 : 0 ≤ f1)
    (hn1 : 0 ≤ n1) (hl1 : f1 + n1 ≤ input.lines.length) (hf2 : 0 ≤ f2) (hn2 : 0 ≤ n2)
    (hl2 : f2 + n2 ≤ input.lines.length) :
    (∀ a b : List Nat, DoLinesOverlap input.points a b = DoLinesOverlap input.points b a) ∧
    ∃ o, fillOverlaps input f1 n1 f2 n2 = some o ∧ OverlapsSymmetric input f1 n1 f2 n2 o := by
  refine ⟨DoLinesOverlap_symm input.points, ?_⟩
  obtain ⟨o, ho, hinv⟩ := fillOverlaps_spec input f1 n1 f2 n2 hf1 hn1 hl1 hf2 hn2 hl2
  refine ⟨o, ho, ?_⟩
  intro l m hl0 hl1' hm0 hm1
  have c1 := hinv.count1 l m hl0 hl1' hm0 hm1
  have c2 := hinv.count2 l m hl0 hl1' hm0 hm1
  simp only [true_and] at c1 c2
  rw [← List.count_pos_iff, ← List.count_pos_iff, c1, c2]
  refine ⟨Iff.rfl, ?_, ?_, ?_⟩
  · split <;> omega
  · split <;> omega
  · split <;> simp_all

/-- Witness of C10: the two planes of `squaresData`. -/
theorem C10_overlap_relation_symmetric_witness :
    (0 : Int) ≤ 0 ∧ (0 : Int) ≤ 1 ∧ (0 : Int) + 1 ≤ squaresData.lines.length ∧
    (0 : Int) ≤ 1 ∧ (0 : Int) ≤ 1 ∧ (1 : Int) + 1 ≤ squaresData.lines.length ∧
    ((∀ a b : List Nat,
        DoLinesOverlap squaresData.points a b = DoLinesOverlap squaresData.points b a) ∧
      ∃ o, fillOverlaps squaresData 0 1 1 1 = some o ∧ OverlapsSymmetric squaresData 0 1 1 1 o) :=
  ⟨by decide, by decide, by decide, by decide, by decide, by decide,
    C10_overlap_relation_symmetric squaresData 0 1 1 1 (by decide) (by decide) (by decide)
      (by decide) (by decide) (by decide)⟩

/-- C11: when the branching line has exactly one overlap partner, `Branch`
returns the id list of the branching line itself: same ids, same order, same
length. -/
theorem C11_single_partner_no_division (points : PointSet) (branchingLine : List Nat)
    (currentLineIndex : Int) (overlappingLines : List Int) (pointLocators : List (List Point))
    (lineIdLists : List (List Nat)) (h : overlappingLines.length = 1) :
    Branch points branchingLine currentLineIndex overlappingLines pointLocators lineIdLists =
      some branchingLine := by
  unfold Branch
  rw [if_pos h]

/-- Witness of C11: the closed trunk of `branchPoints` with the single
partner line 1. -/
theorem C11_single_partner_no_division_witness :
    ([1] : List Int).length = 1 ∧
    Branch branchPoints [0, 1, 2, 3, 0] 1 [1] [linePoints branchPoints [4, 5]] [[4, 5]] =
      some [0, 1, 2, 3, 0] :=
  ⟨rfl, C11_single_partner_no_division branchPoints [0, 1, 2, 3, 0] 1 [1]
    [linePoints branchPoints [4, 5]] [[4, 5]] rfl⟩

/-- C12 (counterexample): on the closed trunk `[0, 1, 2, 3, 0]` with the two
partners 1 and 2, the sub-chain that `Branch` returns for partner 1 is
`[1, 2, 3, 1]`, which does not list its points in the walking order of the
trunk: it is not a sublist of the trunk. -/
theorem C12_closed_trunk_chain_out_of_order :
    Branch branchPoints [0, 1, 2, 3, 0] 1 [1, 2] branchLocators branchIdLists =
      some [1, 2, 3, 1] ∧
    ¬ List.Sublist [1, 2, 3, 1] ([0, 1, 2, 3, 0] : List Nat) := by
  constructor
  · decide!
  · decide

/-- C12 (as amended): for a line with the two overlap partners `a` and `b`,
each of the two sub-chains that `Branch` returns is the list of the ids at its
kept positions, in the walking order of the line, followed by the id of the
closing test (nothing, or a repeat of the sub-chain's first id when the line is
closed); every position of the line is kept in at least one of the two
sub-chains; and the positions kept in both are the positions where the
assignment changes, those whose point is assigned another partner than the
point before. -/
theorem C12_two_partner_division (points : PointSet) (line : List Nat) (a b : Int)
    (pointLocators : List (List Point)) (lineIdLists : List (List Nat)) (outA outB : List Nat)
    (hab : a ≠ b)
    (hA : Branch points line a [a, b] pointLocators lineIdLists = some outA)
    (hB : Branch points line b [a, b] pointLocators lineIdLists = some outB) :
    ∃ keptA keptB,
      keptA = keptPositions (assignedBranch points line [a, b] pointLocators lineIdLists) a
        line.length ∧
      keptB = keptPositions (assignedBranch points line [a, b] pointLocators lineIdLists) b
        line.length ∧
      outA = idsAt line keptA ++ closingIds line (idsAt line keptA) ∧
      outB = idsAt line keptB ++ closingIds line (idsAt line keptB) ∧
      keptA.Sublist (List.range line.length) ∧ keptB.Sublist (List.range line.length) ∧
      (idsAt line keptA).Sublist line ∧ (idsAt line keptB).Sublist line ∧
      (∀ p < line.length, p ∈ keptA ∨ p ∈ keptB) ∧
      (∀ p < line.length, (p ∈ keptA ∧ p ∈ keptB) ↔
        (0 < p ∧ assignedBranch points line [a, b] pointLocators lineIdLists p ≠
          assignedBranch points line [a, b] pointLocators lineIdLists (p - 1))) := by
  have hov : ([a, b] : List Int).length ≠ 1 := by simp
  obtain ⟨coreA, hdA, hoA⟩ := Branch_some _ _ _ _ _ _ _ hov hA
  obtain ⟨coreB, hdB, hoB⟩ := Branch_some _ _ _ _ _ _ _ hov hB
  obtain ⟨hall, hcA⟩ := Branch.divide_spec _ _ _ _ _ _ _ hdA
  obtain ⟨_, hcB⟩ := Branch.divide_spec _ _ _ _ _ _ _ hdB
  have hcases : ∀ p < line.length,
      assignedBranch points line [a, b] pointLocators lineIdLists p = some a ∨
        assignedBranch points line [a, b] pointLocators lineIdLists p = some b := by
    intro p hp
    obtain ⟨r, hr⟩ := hall p hp
    have hmem := GetClosestBranch_mem _ _ _ _ _ _ hr
    simp only [List.mem_cons, List.mem_singleton, List.not_mem_nil, or_false] at hmem
    rcases hmem with h | h
    · exact Or.inl (by rw [hr, h])
    · exact Or.inr (by rw [hr, h])
  have hne : (some a : Option Int) ≠ some b := fun h => hab (Option.some.inj h)
  refine ⟨_, _, rfl, rfl, by rw [hoA, hcA], by rw [hoB, hcB], keptPositions_sublist _ _ _,
    keptPositions_sublist _ _ _, idsAt_keptPositions_sublist _ _ _,
    idsAt_keptPositions_sublist _ _ _, ?_, ?_⟩
  · intro p hp
    rw [mem_keptPositions, mem_keptPositions]
    rcases hcases p hp with h | h
    · exact Or.inl ⟨hp, Or.inl h⟩
    · exact Or.inr ⟨hp, Or.inl h⟩
  · intro p hp
    rw [mem_keptPositions, mem_keptPositions]
    constructor
    · rintro ⟨⟨_, hkA⟩, ⟨_, hkB⟩⟩
      rcases hkA with hA1 | ⟨hp0, hA2⟩
      · rcases hkB with hB1 | ⟨hp0, hB2⟩
        · exact absurd (hA1.symm.trans hB1) hne
        · exact ⟨hp0, by rw [hA1, hB2]; exact hne⟩
      · rcases hkB with hB1 | ⟨_, hB2⟩
        · exact ⟨hp0, by rw [hA2, hB1]; exact hne.symm⟩
        · exact absurd (hA2.symm.trans hB2) hne
    · rintro ⟨hp0, hchange⟩
      rcases hcases p hp with h | h <;> rcases hcases (p - 1) (by omega) with h' | h'
      · exact absurd (h.trans h'.symm) hchange
      · exact ⟨⟨hp, Or.inl h⟩, ⟨hp, Or.inr ⟨hp0, h'⟩⟩⟩
      · exact ⟨⟨hp, Or.inr ⟨hp0, h'⟩⟩, ⟨hp, Or.inl h⟩⟩
      · exact absurd (h.trans h'.symm) hchange

/-- Witness of C12: the closed trunk of `branchPoints` with the partners 1
and 2. -/
theorem C12_two_partner_division_witness :
    (1 : Int) ≠ 2 ∧
    Branch branchPoints [0, 1, 2, 3, 0] 1 [1, 2] branchLocators branchIdLists =
      some [1, 2, 3, 1] ∧
    Branch branchPoints [0, 1, 2, 3, 0] 2 [1, 2] branchLocators branchIdLists =
      some [0, 1, 3, 0] ∧
    ∃ keptA keptB,
      keptA = keptPositions
        (assignedBranch branchPoints [0, 1, 2, 3, 0] [1, 2] branchLocators branchIdLists) 1
        ([0, 1, 2, 3, 0] : List Nat).length ∧
      keptB = keptPositions
        (assignedBranch branchPoints [0, 1, 2, 3, 0] [1, 2] branchLocators branchIdLists) 2
        ([0, 1, 2, 3, 0] : List Nat).length ∧
      [1, 2, 3, 1] = idsAt [0, 1, 2, 3, 0] keptA ++
        closingIds [0, 1, 2, 3, 0] (idsAt [0, 1, 2, 3, 0] keptA) ∧
      [0, 1, 3, 0] = idsAt [0, 1, 2, 3, 0] keptB ++
        closingIds [0, 1, 2, 3, 0] (idsAt [0, 1, 2, 3, 0] keptB) ∧
      keptA.Sublist (List.range ([0, 1, 2, 3, 0] : List Nat).length) ∧
      keptB.Sublist (List.range ([0, 1, 2, 3, 0] : List Nat).length) ∧
      (idsAt [0, 1, 2, 3, 0] keptA).Sublist [0, 1, 2, 3, 0] ∧
      (idsAt [0, 1, 2, 3, 0] keptB).Sublist [0, 1, 2, 3, 0] ∧
      (∀ p < ([0, 1, 2, 3, 0] : List Nat).length, p ∈ keptA ∨ p ∈ keptB) ∧
      (∀ p < ([0, 1, 2, 3, 0] : List Nat).length, (p ∈ keptA ∧ p ∈ keptB) ↔
        (0 < p ∧
          assignedBranch branchPoints [0, 1, 2, 3, 0] [1, 2] branchLocators branchIdLists p ≠
          assignedBranch branchPoints [0, 1, 2, 3, 0] [1, 2] branchLocators branchIdLists
            (p - 1))) :=
  ⟨by decide, by decide!, by decide!,
    C12_two_partner_division branchPoints [0, 1, 2, 3, 0] 1 2 branchLocators branchIdLists
      [1, 2, 3, 1] [0, 1, 3, 0] (by decide) (by decide!) (by decide!)⟩

/-- C13 (counterexample): on the closed trunk `[0, 1, 2, 3, 0]` with the two
partners 1 and 2, the loop of `Branch` divides off the chain `[1, 2, 3]` for
partner 1, whose ends differ, and `Branch` returns it with its first id
appended: `[1, 2, 3, 1]`. -/
theorem C13_divided_chain_force_closed :
    ([1, 2] : List Int).length ≠ 1 ∧
    ([0, 1, 2, 3, 0] : List Nat).head? = ([0, 1, 2, 3, 0] : List Nat).getLast? ∧
    Branch.divide branchPoints [0, 1, 2, 3, 0] 1 [1, 2] branchLocators branchIdLists =
      some [1, 2, 3] ∧
    ([1, 2, 3] : List Nat).head? ≠ ([1, 2, 3] : List Nat).getLast? ∧
    Branch branchPoints [0, 1, 2, 3, 0] 1 [1, 2] branchLocators branchIdLists =
      some ([1, 2, 3] ++ [1]) := by
  refine ⟨by decide, by decide, by decide!, by decide, by decide!⟩

/-- C13 (as amended): when the branching line has several partners, the line
is closed and the first and last ids of the divided chain differ, `Branch`
closes the divided chain: it returns the chain with its first id appended, so
that the last id of the output is its first id. -/
theorem C13_branch_closes_divided_chain (points : PointSet) (branchingLine : List Nat)
    (currentLineIndex : Int) (overlappingLines : List Int) (pointLocators : List (List Point))
    (lineIdLists : List (List Nat)) (core : List Nat) (hov : overlappingLines.length ≠ 1)
    (hcore : Branch.divide points branchingLine currentLineIndex overlappingLines pointLocators
      lineIdLists = some core)
    (hclosed : branchingLine.head? = branchingLine.getLast?)
    (hends : core.head? ≠ core.getLast?) :
    ∃ first, core.head? = some first ∧
      Branch points branchingLine currentLineIndex overlappingLines pointLocators lineIdLists =
        some (core ++ [first]) ∧
      (core ++ [first]).getLast? = (core ++ [first]).head? := by
  rw [Branch_of_divide _ _ _ _ _ _ core hov hcore]
  cases hc : core with
  | nil => rw [hc] at hends; exact absurd rfl hends
  | cons x rest =>
    cases hr : rest with
    | nil => rw [hc, hr] at hends; exact absurd rfl hends
    | cons y rest' =>
      refine ⟨x, rfl, ?_, by rw [List.getLast?_concat]; rfl⟩
      have hlen : 1 < core.length := by rw [hc, hr]; simp
      unfold closingIds
      rw [← hr, ← hc, if_pos ⟨hlen, hclosed, hends⟩, hc]
      rfl

/-- Witness of C13: the closed trunk of `branchPoints` divided for partner 1. -/
theorem C13_branch_closes_divided_chain_witness :
    ([1, 2] : List Int).length ≠ 1 ∧
    Branch.divide branchPoints [0, 1, 2, 3, 0] 1 [1, 2] branchLocators branchIdLists =
      some [1, 2, 3] ∧
    ([0, 1, 2, 3, 0] : List Nat).head? = ([0, 1, 2, 3, 0] : List Nat).getLast? ∧
    ([1, 2, 3] : List Nat).head? ≠ ([1, 2, 3] : List Nat).getLast? ∧
    ∃ first, ([1, 2, 3] : List Nat).head? = some first ∧
      Branch branchPoints [0, 1, 2, 3, 0] 1 [1, 2] branchLocators branchIdLists =
        some ([1, 2, 3] ++ [first]) ∧
      ([1, 2, 3] ++ [first]).getLast? = ([1, 2, 3] ++ [first]).head? :=
  ⟨by decide, by decide!, by decide, by decide,
    C13_branch_closes_divided_chain branchPoints [0, 1, 2, 3, 0] 1 [1, 2] branchLocators
      branchIdLists [1, 2, 3] (by decide) (by decide!) (by decide) (by decide)⟩

/-- C14 (counterexample): on the open trunk `[0, 1, 2, 3]` with the partners 1
and 2 the points at the positions 1 and 2 are assigned to partner 1, a run with
`a = 1 > 0` and `b = 2 < n - 1`; `Branch` returns `[1, 2, 3]` for partner 1,
which holds the unassigned point at position `b + 1 = 3` and not the unassigned
point at position `a - 1 = 0`. -/
theorem C14_no_point_before_run :
    (List.range 4).map
        (assignedBranch branchPoints [0, 1, 2, 3] [1, 2] branchLocators branchIdLists) =
      [some 2, some 1, some 1, some 2] ∧
    Branch branchPoints [0, 1, 2, 3] 1 [1, 2] branchLocators branchIdLists = some [1, 2, 3] ∧
    idAt [0, 1, 2, 3] 3 ∈ ([1, 2, 3] : List Nat) ∧
    idAt [0, 1, 2, 3] 0 ∉ ([1, 2, 3] : List Nat) := by
  refine ⟨by decide!, by decide!, by decide, by decide⟩

/-- C14 (as amended): for a line with several partners, `Branch` returns, in
the walking order of the line, the ids at the kept positions, followed by the
id of the closing test; a position is kept exactly when its point is assigned
to the target partner or the point before it is: every assigned point is kept,
whichever run it lies in, and of the unassigned points only the one that
follows a run. -/
theorem C14_branch_keeps_assigned_and_following (points : PointSet) (branchingLine : List Nat)
    (currentLineIndex : Int) (overlappingLines : List Int) (pointLocators : List (List Point))
    (lineIdLists : List (List Nat)) (out : List Nat) (hov : overlappingLines.length ≠ 1)
    (h : Branch points branchingLine currentLineIndex overlappingLines pointLocators
      lineIdLists = some out) :
    ∃ kept,
      out = idsAt branchingLine kept ++ closingIds branchingLine (idsAt branchingLine kept) ∧
      kept.Sublist (List.range branchingLine.length) ∧
      ∀ p, p ∈ kept ↔ p < branchingLine.length ∧
        (assignedBranch points branchingLine overlappingLines pointLocators lineIdLists p =
            some currentLineIndex ∨
          (0 < p ∧
            assignedBranch points branchingLine overlappingLines pointLocators lineIdLists
              (p - 1) = some currentLineIndex)) := by
  obtain ⟨core, hd, ho⟩ := Branch_some _ _ _ _ _ _ _ hov h
  obtain ⟨_, hc⟩ := Branch.divide_spec _ _ _ _ _ _ _ hd
  exact ⟨_, by rw [ho, hc], keptPositions_sublist _ _ _, fun p => mem_keptPositions _ _ _ p⟩

/-- Witness of C14: the open trunk of `branchPoints` divided for partner 1. -/
theorem C14_branch_keeps_assigned_and_following_witness :
    ([1, 2] : List Int).length ≠ 1 ∧
    Branch branchPoints [0, 1, 2, 3] 1 [1, 2] branchLocators branchIdLists = some [1, 2, 3] ∧
    ∃ kept,
      [1, 2, 3] = idsAt [0, 1, 2, 3] kept ++ closingIds [0, 1, 2, 3] (idsAt [0, 1, 2, 3] kept) ∧
      kept.Sublist (List.range ([0, 1, 2, 3] : List Nat).length) ∧
      ∀ p, p ∈ kept ↔ p < ([0, 1, 2, 3] : List Nat).length ∧
        (assignedBranch branchPoints [0, 1, 2, 3] [1, 2] branchLocators branchIdLists p =
            some 1 ∨
          (0 < p ∧
            assignedBranch branchPoints [0, 1, 2, 3] [1, 2] branchLocators branchIdLists
              (p - 1) = some 1)) :=
  ⟨by decide, by decide!,
    C14_branch_keeps_assigned_and_following branchPoints [0, 1, 2, 3] 1 [1, 2] branchLocators
      branchIdLists [1, 2, 3] (by decide) (by decide!)⟩

/-- C15: on a working set of at least one line none of whose lines is empty
the correspondence stage of `Convert` returns.  It is entered with both flags
of every line false; it walks the pairs of consecutive planes that
`planePairs` lists, and when it returns the two flag vectors have one flag per
line; a line is marked above exactly when, across one of these pairs, it is
bridged to some line of the next plane (an overlap partner for which both
divided chains have more than one point); a line is marked below exactly when
some line of the previous plane is bridged to it; a flag not marked is false,
as it started; no line of the lowest plane is marked below and no line of the
highest plane, on which the walk is left, is marked above. -/
theorem C15_bridge_flags (input : PolyData) (hne : input.lines ≠ [])
    (hlines : ∀ line ∈ input.lines, line ≠ []) :
    ∃ s0 s lowest w, bridgeWalk input 0 = some s0 ∧
      s0.lineTriganulatedToAbove = List.replicate input.lines.length false ∧
      s0.lineTriganulatedToBelow = List.replicate input.lines.length false ∧
      bridgePlanes input = some s ∧
      GetNumberOfLinesOnPlane input input.lines.length 0 = some lowest ∧
      planePairs input = some w ∧
      s.lineTriganulatedToAbove.length = input.lines.length ∧
      s.lineTriganulatedToBelow.length = input.lines.length ∧
      (∀ l, readAt s.lineTriganulatedToAbove l = some true ↔
        ∃ l2, BridgedIn input w.pairs l l2) ∧
      (∀ l2, readAt s.lineTriganulatedToBelow l2 = some true ↔
        ∃ l, BridgedIn input w.pairs l l2) ∧
      (∀ l, 0 ≤ l → l < (input.lines.length : Int) →
        (readAt s.lineTriganulatedToAbove l = some false ↔
          ¬ ∃ l2, BridgedIn input w.pairs l l2) ∧
        (readAt s.lineTriganulatedToBelow l = some false ↔
          ¬ ∃ l1, BridgedIn input w.pairs l1 l)) ∧
      (∀ l, l < lowest → readAt s.lineTriganulatedToBelow l ≠ some true) ∧
      (input.lines.length : Int) ≤ w.first + w.count ∧
      (∀ l, w.first ≤ l → readAt s.lineTriganulatedToAbove l ≠ some true) := by
  obtain ⟨s, h⟩ := bridgePlanes_some input hne hlines
  obtain ⟨lowest, w, hlowest, hw, _, _, hexit, hord, hflags⟩ := bridgePlanes_flags input s h
  have hfalse : ∀ (v : List Bool) (l : Int), v.length = input.lines.length → 0 ≤ l →
      l < (input.lines.length : Int) → (readAt v l = some false ↔ ¬ readAt v l = some true) := by
    intro v l hv h0 h1
    obtain ⟨b, hb, _⟩ := readAt_of_inRange v l ⟨h0, by rw [hv]; exact h1⟩
    rw [hb]
    cases b <;> simp
  have hstart : bridgeWalk input 0 = some
      { firstLineOnPlane1Index := 0
        numberOfLinesInPlane1 := lowest
        lineTriganulatedToAbove := List.replicate input.lines.length false
        lineTriganulatedToBelow := List.replicate input.lines.length false
        outputPolygons := [] } := by
    simp only [bridgeWalk, hlowest, Option.some_bind, iterLoop]
  refine ⟨_, s, lowest, w, hstart, rfl, rfl, h, hlowest, hw, hflags.lenAbove, hflags.lenBelow,
    hflags.above_iff, hflags.below_iff, ?_, ?_, hexit, ?_⟩
  · intro l h0 h1
    exact ⟨by rw [hfalse _ l hflags.lenAbove h0 h1, hflags.above_iff],
      by rw [hfalse _ l hflags.lenBelow h0 h1, hflags.below_iff]⟩
  · intro l hl hmark
    obtain ⟨a, pr, hpr, _, _, hb⟩ := (hflags.below_iff l).mp hmark
    have := hb.second_le
    have := (hord.pairs_ok pr hpr).2.1
    omega
  · intro l hl hmark
    obtain ⟨b, pr, hpr, _, h2, _⟩ := (hflags.above_iff l).mp hmark
    have := hord.pairs_ok pr hpr
    omega

/-- Witness of C15: the two squares of `squaresData`, one per plane; the
lower one is marked above and the upper one below. -/
theorem C15_bridge_flags_witness :
    squaresData.lines ≠ [] ∧ (∀ line ∈ squaresData.lines, line ≠ []) ∧
    bridgePlanes squaresData =
      some ⟨1, 1, [true, false], [false, true],
        [(0, 4, 7), (0, 7, 3), (3, 7, 6), (3, 6, 2), (2, 6, 5), (2, 5, 1), (1, 5, 4),
          (1, 4, 0)]⟩ ∧
    ∃ s0 s lowest w, bridgeWalk squaresData 0 = some s0 ∧
      s0.lineTriganulatedToAbove = List.replicate squaresData.lines.length false ∧
      s0.lineTriganulatedToBelow = List.replicate squaresData.lines.length false ∧
      bridgePlanes squaresData = some s ∧
      GetNumberOfLinesOnPlane squaresData squaresData.lines.length 0 = some lowest ∧
      planePairs squaresData = some w ∧
      s.lineTriganulatedToAbove.length = squaresData.lines.length ∧
      s.lineTriganulatedToBelow.length = squaresData.lines.length ∧
      (∀ l, readAt s.lineTriganulatedToAbove l = some true ↔
        ∃ l2, BridgedIn squaresData w.pairs l l2) ∧
      (∀ l2, readAt s.lineTriganulatedToBelow l2 = some true ↔
        ∃ l, BridgedIn squaresData w.pairs l l2) ∧
      (∀ l, 0 ≤ l → l < (squaresData.lines.length : Int) →
        (readAt s.lineTriganulatedToAbove l = some false ↔
          ¬ ∃ l2, BridgedIn squaresData w.pairs l l2) ∧
        (readAt s.lineTriganulatedToBelow l = some false ↔
          ¬ ∃ l1, BridgedIn squaresData w.pairs l1 l)) ∧
      (∀ l, l < lowest → readAt s.lineTriganulatedToBelow l ≠ some true) ∧
      (squaresData.lines.length : Int) ≤ w.first + w.count ∧
      (∀ l, w.first ≤ l → readAt s.lineTriganulatedToAbove l ≠ some true) :=
  ⟨by decide, by decide, by decide!,
    C15_bridge_flags squaresData (by decide) (by decide)⟩

/-- C16: if either chain passed to `TriangulateContours` has zero points, the
call returns with the output triangle list exactly as it was. -/
theorem C16_empty_chain_emits_nothing (points : PointSet) (l1 l2 : List Nat)
    (out : List Triangle) (h : l1.length = 0 ∨ l2.length = 0) :
    TriangulateContours points l1 l2 out = some out := by
  unfold TriangulateContours
  rw [if_pos h]

/-- Witness of C16: an empty chain 1 against the chain `[2, 3]`. -/
theorem C16_empty_chain_emits_nothing_witness :
    (([] : List Nat).length = 0 ∨ ([2, 3] : List Nat).length = 0) ∧
    TriangulateContours segmentPoints [] [2, 3] [(0, 1, 2)] = some [(0, 1, 2)] :=
  ⟨Or.inl rfl, C16_empty_chain_emits_nothing segmentPoints [] [2, 3] [(0, 1, 2)] (Or.inl rfl)⟩

/-- C17 (counterexample): each of the chains `[0, 1]` and `[2, 3]` has
exactly two points, and `TriangulateContours` bridges them with two
triangles. -/
theorem C17_two_point_chains_are_bridged :
    ([0, 1] : List Nat).length = 2 ∧ ([2, 3] : List Nat).length = 2 ∧
    TriangulateContours segmentPoints [0, 1] [2, 3] [] = some [(1, 3, 2), (1, 2, 0)] := by
  refine ⟨rfl, rfl, by decide!⟩

/-- C17 (as amended): a chain of exactly two points is not rejected: on two
chains of at least two points each `TriangulateContours` returns and emits
`n1 + n2 - 2` triangles, at least two.  What the bridging step of `Convert`
rejects is a chain of at most one point: when one of the two divided chains
has at most one point the step leaves the flags and the triangles as they are
and returns, so that `Convert` goes on with the other contours. -/
theorem C17_only_chains_below_two_points_rejected (points : PointSet) (l1 l2 : List Nat)
    (out : List Triangle) (h1 : 2 ≤ l1.length) (h2 : 2 ≤ l2.length) :
    (∃ new, TriangulateContours points l1 l2 out = some (out ++ new) ∧
      new.length = l1.length + l2.length - 2 ∧ 2 ≤ new.length) ∧
    ∀ input firstLineOnPlane2Index o line1 line1Index overlaps1 overlapIndex r s,
      dividedChains input firstLineOnPlane2Index o line1 line1Index overlaps1 overlapIndex =
          some r →
        (r.2.1.length ≤ 1 ∨ r.2.2.length ≤ 1) →
        bridgeOverlapBody input firstLineOnPlane2Index o line1 line1Index overlaps1
          overlapIndex s = some s := by
  have hne1 : l1 ≠ [] := by intro h; rw [h] at h1; simp at h1
  have hne2 : l2 ≠ [] := by intro h; rw [h] at h2; simp at h2
  obtain ⟨new, hres, hlen, _⟩ := TriangulateContours_spec points l1 l2 out hne1 hne2
  rw [if_pos h1] at hlen
  refine ⟨⟨new, hres, hlen, by omega⟩, ?_⟩
  intro input f2 o line1 line1Index overlaps1 overlapIndex r s hr hshort
  rw [bridgeOverlapBody_eq, hr, Option.some_bind, if_neg (by omega)]

/-- Witness of C17: the two-point chains `[0, 1]` and `[2, 3]`. -/
theorem C17_only_chains_below_two_points_rejected_witness :
    2 ≤ ([0, 1] : List Nat).length ∧ 2 ≤ ([2, 3] : List Nat).length ∧
    ((∃ new, TriangulateContours segmentPoints [0, 1] [2, 3] [] = some ([] ++ new) ∧
      new.length = ([0, 1] : List Nat).length + ([2, 3] : List Nat).length - 2 ∧
      2 ≤ new.length) ∧
    ∀ input firstLineOnPlane2Index o line1 line1Index overlaps1 overlapIndex r s,
      dividedChains input firstLineOnPlane2Index o line1 line1Index overlaps1 overlapIndex =
          some r →
        (r.2.1.length ≤ 1 ∨ r.2.2.length ≤ 1) →
        bridgeOverlapBody input firstLineOnPlane2Index o line1 line1Index overlaps1
          overlapIndex s = some s) :=
  ⟨by decide, by decide,
    C17_only_chains_below_two_points_rejected segmentPoints [0, 1] [2, 3] [] (by decide)
      (by decide)⟩

/-- C18: on two simple chains that share no id, of at least two points each
(a closed one of at least three ids), `TriangulateContours` returns and every
triangle it emits has three pairwise distinct vertex ids. -/
theorem C18_no_repeated_index_triangle (points : PointSet) (l1 l2 : List Nat)
    (out : List Triangle) (hs1 : SimpleChain l1) (hs2 : SimpleChain l2)
    (hdisj : ∀ a ∈ l1, a ∉ l2) (hn1 : 2 ≤ l1.length) (hn2 : 2 ≤ l2.length) :
    ∃ new, TriangulateContours points l1 l2 out = some (out ++ new) ∧
      ∀ tri ∈ new, tri.Distinct := by
  have h1 : l1 ≠ [] := by intro h; rw [h] at hn1; simp at hn1
  have h2 : l2 ≠ [] := by intro h; rw [h] at hn2; simp at hn2
  obtain ⟨c, new, hc, hres, hshape, _⟩ := TriangulateContours_ribbon points l1 l2 out h1 h2
  obtain ⟨c', hc', hwf, _, hl1, hl2⟩ := bridgeInput_spec points l1 l2 h1 h2
  have hcc : c' = c := Option.some.inj (hc'.symm.trans hc)
  rw [hcc] at hwf hl1 hl2
  have hanch := bridgeInput_anchored points l1 l2 c h1 h2 hc
  refine ⟨new, hres, fun tri htri => ?_⟩
  exact RibbonTriangle.distinct c hwf hanch (by rw [hl1]; exact hs1) (by rw [hl2]; exact hs2)
    (by rw [hl1, hl2]; exact hdisj) (by rw [hl1]; exact hn1) (by rw [hl2]; exact hn2) tri
    (hshape tri htri)

/-- Witness of C18: the two squares of `squaresPoints` as closed chains. -/
theorem C18_no_repeated_index_triangle_witness :
    SimpleChain [0, 1, 2, 3, 0] ∧ SimpleChain [4, 5, 6, 7, 4] ∧
    (∀ a ∈ ([0, 1, 2, 3, 0] : List Nat), a ∉ ([4, 5, 6, 7, 4] : List Nat)) ∧
    2 ≤ ([0, 1, 2, 3, 0] : List Nat).length ∧ 2 ≤ ([4, 5, 6, 7, 4] : List Nat).length ∧
    ∃ new, TriangulateContours squaresPoints [0, 1, 2, 3, 0] [4, 5, 6, 7, 4] [] =
        some ([] ++ new) ∧
      ∀ tri ∈ new, tri.Distinct :=
  ⟨Or.inr (by decide), Or.inr (by decide), by decide, by decide, by decide,
    C18_no_repeated_index_triangle squaresPoints [0, 1, 2, 3, 0] [4, 5, 6, 7, 4] []
      (Or.inr (by decide)) (Or.inr (by decide)) (by decide) (by decide) (by decide)⟩

/-- C19: on two non-empty chains `TriangulateContours` returns, and every two
triangles it emits consecutively share the cross edge on which the second one
is emitted, the edge between the chain-1 point and the chain-2 point of the
cell reached after the first one, and traverse it in opposite directions. -/
theorem C19_consecutive_triangles_opposite (points : PointSet) (l1 l2 : List Nat)
    (out : List Triangle) (h1 : l1 ≠ []) (h2 : l2 ≠ []) :
    ∃ new, TriangulateContours points l1 l2 out = some (out ++ new) ∧
      List.Chain' (OppositeAcross l1 l2) new := by
  obtain ⟨c, new, _, hres, _, hchain⟩ := TriangulateContours_ribbon points l1 l2 out h1 h2
  exact ⟨new, hres, hchain⟩

/-- Witness of C19: the two squares of `squaresPoints` as closed chains. -/
theorem C19_consecutive_triangles_opposite_witness :
    ([0, 1, 2, 3, 0] : List Nat) ≠ [] ∧ ([4, 5, 6, 7, 4] : List Nat) ≠ [] ∧
    ∃ new, TriangulateContours squaresPoints [0, 1, 2, 3, 0] [4, 5, 6, 7, 4] [] =
        some ([] ++ new) ∧
      List.Chain' (OppositeAcross [0, 1, 2, 3, 0] [4, 5, 6, 7, 4]) new :=
  ⟨by decide, by decide,
    C19_consecutive_triangles_opposite squaresPoints [0, 1, 2, 3, 0] [4, 5, 6, 7, 4] []
      (by decide) (by decide)⟩

/-- C20: whatever the outline extraction returns, when `Convert` returns the
points of its result are the points of the source, at the same indices and
with the same coordinates, followed by the appended points; when `SealMesh`
returns the same holds of the points of its working set; and when
`CreateExternalLine` returns the points it leaves are the points it was given
followed by the capping points it appended, and every id of its capping
outlines refers to an appended point. -/
theorem C20_points_only_appended (lib : External) (source : PolyData)
    (r : PointSet × List Triangle) (h : Convert lib source = some r) :
    Extends source.points r.1 ∧
    (∀ input inputLines outputPolygons above below closed,
      SealMesh lib input inputLines outputPolygons above below = some closed →
        Extends input.points closed.input.points) ∧
    (∀ points inputLine lineSpacing created,
      CreateExternalLine lib points inputLine lineSpacing = some created →
        Extends points created.1 ∧ RefersToAppended points created.1 created.2) :=
  ⟨Convert_points lib source r h,
    fun input inputLines outputPolygons above below closed hs =>
      SealMesh_points lib input inputLines outputPolygons above below closed hs,
    fun points inputLine lineSpacing created hc =>
      CreateExternalLine_spec lib points inputLine lineSpacing created hc⟩

/-- Witness of C20: the triangular contour, capped on both sides with the
copies of the contour. -/
theorem C20_points_only_appended_witness :
    Convert noOutline triangleData =
      some (triangleData.points ++ (triangleData.points ++ triangleData.points),
        [(0, 3, 5), (0, 5, 2), (2, 5, 4), (2, 4, 1), (1, 4, 3), (1, 3, 0),
          (6, 0, 2), (6, 2, 8), (8, 2, 1), (8, 1, 7), (7, 1, 0), (7, 0, 6)]) ∧
    Extends triangleData.points
      (triangleData.points ++ (triangleData.points ++ triangleData.points)) ∧
    (∀ input inputLines outputPolygons above below closed,
      SealMesh noOutline input inputLines outputPolygons above below = some closed →
        Extends input.points closed.input.points) ∧
    (∀ points inputLine lineSpacing created,
      CreateExternalLine noOutline points inputLine lineSpacing = some created →
        Extends points created.1 ∧ RefersToAppended points created.1 created.2) :=
  ⟨by decide!,
    C20_points_only_appended noOutline triangleData
      (triangleData.points ++ (triangleData.points ++ triangleData.points),
        [(0, 3, 5), (0, 5, 2), (2, 5, 4), (2, 4, 1), (1, 4, 3), (1, 3, 0),
          (6, 0, 2), (6, 2, 8), (8, 2, 1), (8, 1, 7), (7, 1, 0), (7, 0, 6)])
      (by decide!)⟩

/-- C21: on a contour set without empty lines the search loop of
`GetSpacingBetweenLines` terminates and the call returns the spacing as the
specification words it: the absolute Z difference between line 0 and the first
later line whose first point lies on a different Z, and `0` when the set has
fewer than two lines or the first points of all lines lie on one Z. -/
theorem C21_spacing_between_lines (input : PolyData) (hne : ∀ l ∈ input.lines, l ≠ []) :
    GetSpacingBetweenLines input = some (spacingSpec input) ∧
    (∀ k, 1 ≤ k → k < input.lines.length → firstPointZ input k ≠ firstPointZ input 0 →
      (∀ m, 1 ≤ m → m < k → firstPointZ input m = firstPointZ input 0) →
      spacingSpec input = |firstPointZ input 0 - firstPointZ input k|) ∧
    (input.lines.length < 2 → spacingSpec input = 0) ∧
    ((∀ m, m < input.lines.length → firstPointZ input m = firstPointZ input 0) →
      spacingSpec input = 0) := by
  refine ⟨GetSpacingBetweenLines_eq input hne, spacingSpec_first input, ?_,
    spacingSpec_coplanar input⟩
  intro hlen
  refine spacingSpec_coplanar input (fun m hm => ?_)
  have : m = 0 := by omega
  rw [this]

/-- Witness of C21: the two squares of `squaresData`, one plane apart. -/
theorem C21_spacing_between_lines_witness :
    (∀ l ∈ squaresData.lines, l ≠ []) ∧
    (GetSpacingBetweenLines squaresData = some (spacingSpec squaresData) ∧
    (∀ k, 1 ≤ k → k < squaresData.lines.length →
      firstPointZ squaresData k ≠ firstPointZ squaresData 0 →
      (∀ m, 1 ≤ m → m < k → firstPointZ squaresData m = firstPointZ squaresData 0) →
      spacingSpec squaresData = |firstPointZ squaresData 0 - firstPointZ squaresData k|) ∧
    (squaresData.lines.length < 2 → spacingSpec squaresData = 0) ∧
    ((∀ m, m < squaresData.lines.length →
        firstPointZ squaresData m = firstPointZ squaresData 0) →
      spacingSpec squaresData = 0)) :=
  ⟨by decide, C21_spacing_between_lines squaresData (by decide)⟩

/-- C22 (counterexample): in the `double` arithmetic of the source, for
the two squares of side `2 ^ -27` of `tinySquaresPoints`, whose coordinates are
`double`s, every squared distance between a corner of the lower square and a
corner of the upper square is computed as `1`, and `TriangulateContours` emits
8 triangles that are not the walls of the box: a fan of four triangles around
corner 0 over the upper square and a fan of four around corner 4 over the
lower square; the triangle `(0, 7, 6)` joins corner 0 to the opposite edge of
the upper square. -/
theorem C22_tiny_squares_fan :
    DoubleCoordinates tinySquaresPoints ∧
    tinySquaresPoints = squarePoints 0 0 (1 / 134217728) 0 0 (1 / 134217728) ∧
    (∀ i ∈ ([0, 1, 2, 3] : List Nat), ∀ j ∈ ([4, 5, 6, 7] : List Nat),
      Rounded.Distance2BetweenPoints roundDouble (GetPoint tinySquaresPoints i)
        (GetPoint tinySquaresPoints j) = 1) ∧
    Rounded.TriangulateContours roundDouble tinySquaresPoints [0, 1, 2, 3, 0] [4, 5, 6, 7, 4] [] =
      some [(0, 4, 7), (0, 7, 6), (0, 6, 5), (0, 5, 4), (0, 4, 3), (3, 4, 2), (2, 4, 1),
        (1, 4, 0)] ∧
    ¬ Triangle.JoinsEdgeToCorner (0, 7, 6) ∧
    (([(0, 4, 7), (0, 7, 6), (0, 6, 5), (0, 5, 4), (0, 4, 3), (3, 4, 2), (2, 4, 1),
        (1, 4, 0)] : List Triangle).filter fun t => decide t.JoinsEdgeToCorner).length = 4 := by
  refine ⟨by decide!, by decide!, by decide!, by decide!, by decide, by decide⟩

/-- C22 (as amended): for every square on the plane `z = 0` (first corner
`(x, y)`, side vectors `(a, b)` and `(c, d)`, perpendicular and of the same
non-zero length) and the identical square on the plane `z = 1`, as closed
chains with corner `k` of the upper square above corner `k` of the lower one,
`TriangulateContours` returns and appends exactly the 8 triangles listed when
it is computed without rounding (the exact model, which is the rounded model
with the identity as rounding), and also in the `double` arithmetic of the
source when the coordinates of the corners are integers of magnitude at most
`2 ^ 23`; each of the 8 triangles joins an edge of one square to the corner of
the other square above or below an end of that edge, and each of the four
walls of the box is made of two of them, which between them use the four
corners of the wall. -/
theorem C22_square_box_walls (x y a b c d : ℚ) (hperp : a * c + b * d = 0)
    (heq : c * c + d * d = a * a + b * b) (hpos : 0 < a * a + b * b) (out : List Triangle) :
    ∃ new, TriangulateContours (squarePoints x y a b c d) [0, 1, 2, 3, 0] [4, 5, 6, 7, 4] out =
        some (out ++ new) ∧
      Rounded.TriangulateContours (fun q => q) (squarePoints x y a b c d) [0, 1, 2, 3, 0]
          [4, 5, 6, 7, 4] out = some (out ++ new) ∧
      (IntegerCoordinates (2 ^ 23) (squarePoints x y a b c d) →
        Rounded.TriangulateContours roundDouble (squarePoints x y a b c d) [0, 1, 2, 3, 0]
          [4, 5, 6, 7, 4] out = some (out ++ new)) ∧
      new = [(0, 4, 7), (0, 7, 3), (3, 7, 6), (3, 6, 2), (2, 6, 5), (2, 5, 1), (1, 5, 4),
        (1, 4, 0)] ∧
      new.length = 8 ∧
      (∀ t ∈ new, t.JoinsEdgeToCorner) ∧
      ∀ k, k < 4 → (new.filter fun t => decide (t.OnWall k)).length = 2 ∧
        ∀ v ∈ wallCorners k, ∃ t ∈ new, t.OnWall k ∧ (v = t.1 ∨ v = t.2.1 ∨ v = t.2.2) := by
  have hres := TriangulateContours_squares x y a b c d hperp heq hpos out
  refine ⟨_, hres, ?_, ?_, rfl, rfl, by decide, ?_⟩
  · rw [roundedTriangulateContours_exact]
    exact hres
  · intro hgrid
    rw [roundedTriangulateContours_integer roundDouble (2 ^ 23) (2 ^ 53)
      roundDouble_exactOnIntegers (squarePoints x y a b c d) hgrid [0, 1, 2, 3, 0]
      [4, 5, 6, 7, 4] (by decide) out]
    exact hres
  · intro k hk
    interval_cases k <;> decide

/-- Witness of C22: the unit square, whose corners have integer
coordinates. -/
theorem C22_square_box_walls_witness :
    (1 : ℚ) * 0 + 0 * 1 = 0 ∧ (0 : ℚ) * 0 + 1 * 1 = 1 * 1 + 0 * 0 ∧ (0 : ℚ) < 1 * 1 + 0 * 0 ∧
    squarePoints 0 0 1 0 0 1 = squaresPoints ∧ DoubleCoordinates squaresPoints ∧
    IntegerCoordinates (2 ^ 23) (squarePoints 0 0 1 0 0 1) ∧
    Rounded.TriangulateContours roundDouble squaresPoints [0, 1, 2, 3, 0] [4, 5, 6, 7, 4] [] =
      some [(0, 4, 7), (0, 7, 3), (3, 7, 6), (3, 6, 2), (2, 6, 5), (2, 5, 1), (1, 5, 4),
        (1, 4, 0)] ∧
    ∃ new, TriangulateContours (squarePoints 0 0 1 0 0 1) [0, 1, 2, 3, 0] [4, 5, 6, 7, 4] [] =
        some ([] ++ new) ∧
      Rounded.TriangulateContours (fun q => q) (squarePoints 0 0 1 0 0 1) [0, 1, 2, 3, 0]
          [4, 5, 6, 7, 4] [] = some ([] ++ new) ∧
      (IntegerCoordinates (2 ^ 23) (squarePoints 0 0 1 0 0 1) →
        Rounded.TriangulateContours roundDouble (squarePoints 0 0 1 0 0 1) [0, 1, 2, 3, 0]
          [4, 5, 6, 7, 4] [] = some ([] ++ new)) ∧
      new = [(0, 4, 7), (0, 7, 3), (3, 7, 6), (3, 6, 2), (2, 6, 5), (2, 5, 1), (1, 5, 4),
        (1, 4, 0)] ∧
      new.length = 8 ∧
      (∀ t ∈ new, t.JoinsEdgeToCorner) ∧
      ∀ k, k < 4 → (new.filter fun t => decide (t.OnWall k)).length = 2 ∧
        ∀ v ∈ wallCorners k, ∃ t ∈ new, t.OnWall k ∧ (v = t.1 ∨ v = t.2.1 ∨ v = t.2.2) :=
  ⟨by norm_num, by norm_num, by norm_num, by decide!, by decide!, by decide!, by decide!,
    C22_square_box_walls 0 0 1 0 0 1 (by norm_num) (by norm_num) (by norm_num) []⟩

/-- C23 (counterexample): with filters that find no outline and triangulate a
polygon as a fan, converting the two unit squares yields 28 triangles over 16
points, not 12 over 8: each cap appends the four points of its outline, adds
the 2 triangles of the outline and the 8 triangles that bridge the square to
the outline; and whatever the filters return, the result of the conversion has
more than 8 points. -/
theorem C23_caps_append_points_and_bridge :
    Convert fanFilters squaresData =
      some (squaresPoints ++
          [⟨0, 0, -1 / 2⟩, ⟨1, 0, -1 / 2⟩, ⟨1, 1, -1 / 2⟩, ⟨0, 1, -1 / 2⟩,
            ⟨0, 0, 3 / 2⟩, ⟨1, 0, 3 / 2⟩, ⟨1, 1, 3 / 2⟩, ⟨0, 1, 3 / 2⟩],
        [(0, 4, 7), (0, 7, 3), (3, 7, 6), (3, 6, 2), (2, 6, 5), (2, 5, 1), (1, 5, 4), (1, 4, 0),
          (10, 9, 8), (11, 10, 8),
          (8, 0, 3), (8, 3, 11), (11, 3, 2), (11, 2, 10), (10, 2, 1), (10, 1, 9), (9, 1, 0),
          (9, 0, 8),
          (12, 13, 14), (12, 14, 15),
          (4, 12, 15), (4, 15, 7), (7, 15, 14), (7, 14, 6), (6, 14, 13), (6, 13, 5), (5, 13, 12),
          (5, 12, 4)]) ∧
    (Convert fanFilters squaresData).map (fun r => (r.1.length, r.2.length)) = some (16, 28) ∧
    ∀ lib r, Convert lib squaresData = some r → 8 < r.1.length := by
  refine ⟨by decide!, by decide!, ?_⟩
  intro lib r h
  obtain ⟨⟨added, hlen, hpts⟩, _⟩ := Convert_squares lib r h
  rw [hpts, List.length_append]
  have : squaresPoints.length = 8 := rfl
  omega

/-- C23 (as amended): a capping step never triangulates the contour itself
and always adds points.  Whatever the external filters return, a capping step
that returns, on any line, has appended at least one point to the point set
and has only appended triangles; so a conversion of the two squares that
returns has the 8 bridging triangles first and more than 8 points.  When the
filters find no outline for a line of at least two ids and the triangulation
of the polygon is well formed, the capping step returns: it appends the points
of the line but the last, moved along Z by half the spacing (up for the side
above, down for the side below), appends the outline of these points, closed on
the first of them, as a line of the working set, appends the triangles of
`TriangulateLine` on that outline, one for every three positions of the
triangulation and all of them on appended points, and then the triangles of
`TriangulateContours` between the line and the outline, `2 n - 2` of them for a
line of `n` ids. -/
theorem C23_capping_appends_outline (lib : External) :
    (∀ r, Convert lib squaresData = some r →
      (∃ added, 2 ≤ added.length ∧ r.1 = squaresPoints ++ added) ∧
      ∃ caps, r.2 = [(0, 4, 7), (0, 7, 3), (3, 7, 6), (3, 6, 2), (2, 6, 5), (2, 5, 1), (1, 5, 4),
        (1, 4, 0)] ++ caps) ∧
    (∀ currentLine currentLineIndex lineSpacing normalsUp s s',
      capSide lib currentLine currentLineIndex lineSpacing normalsUp s = some s' →
        (∃ added, added ≠ [] ∧ s'.input.points = s.input.points ++ added) ∧
        ∃ new, s'.outputPolygons = s.outputPolygons ++ new) ∧
    ∀ (currentLine : List Nat) (currentLineIndex : Int) (lineSpacing : ℚ) (normalsUp : Bool)
      (s : SealState), 2 ≤ currentLine.length →
      ¬ ((lib.contourLines s.input.points currentLine).lines.length > 0 ∧
        (lib.contourLines s.input.points currentLine).points.length > 0) →
      PolygonIdsOK (currentLine.length - 1)
        (lib.polygonTriangulate (raisedPoints s.input.points currentLine
          (if normalsUp then lineSpacing else -lineSpacing))) →
      ∃ s' capTriangles bridge,
        capSide lib currentLine currentLineIndex lineSpacing normalsUp s = some s' ∧
        s'.input.points = s.input.points ++
          raisedPoints s.input.points currentLine
            (if normalsUp then lineSpacing else -lineSpacing) ∧
        s'.input.lines = s.input.lines ++
          [copiedOutline s.input.points.length currentLine.length] ∧
        s'.cappedSides = s.cappedSides ++ [(currentLineIndex, normalsUp)] ∧
        s'.outputPolygons = s.outputPolygons ++ capTriangles ++ bridge ∧
        TriangulateLine lib s'.input.points
            (copiedOutline s.input.points.length currentLine.length) s.outputPolygons
            normalsUp =
          some (s.outputPolygons ++ capTriangles) ∧
        capTriangles.length =
          (lib.polygonTriangulate (raisedPoints s.input.points currentLine
            (if normalsUp then lineSpacing else -lineSpacing))).length / 3 ∧
        (∀ t ∈ capTriangles, s.input.points.length ≤ t.1 ∧ s.input.points.length ≤ t.2.1 ∧
          s.input.points.length ≤ t.2.2) ∧
        (if normalsUp then
            TriangulateContours s'.input.points currentLine
              (copiedOutline s.input.points.length currentLine.length)
              (s.outputPolygons ++ capTriangles)
          else
            TriangulateContours s'.input.points
              (copiedOutline s.input.points.length currentLine.length) currentLine
              (s.outputPolygons ++ capTriangles)) =
          some (s.outputPolygons ++ capTriangles ++ bridge) ∧
        bridge.length = 2 * currentLine.length - 2 :=
  ⟨fun r h => Convert_squares lib r h,
    fun currentLine currentLineIndex lineSpacing normalsUp s s' hcap =>
      capSide_appends lib currentLine currentLineIndex lineSpacing normalsUp s s' hcap,
    fun currentLine currentLineIndex lineSpacing normalsUp s hlen hno hok =>
      capSide_fallback lib currentLine currentLineIndex lineSpacing normalsUp s hlen hno hok⟩

/-- Witness of C23: the filters that find no outline and triangulate a
polygon as a fan, on the two unit squares: 28 triangles over 16 points, for
each cap the 4 raised corners, the 2 triangles of their outline and the 8
triangles that bridge the square to the outline. -/
theorem C23_capping_appends_outline_witness :
    Convert fanFilters squaresData =
      some (squaresPoints ++
          [⟨0, 0, -1 / 2⟩, ⟨1, 0, -1 / 2⟩, ⟨1, 1, -1 / 2⟩, ⟨0, 1, -1 / 2⟩,
            ⟨0, 0, 3 / 2⟩, ⟨1, 0, 3 / 2⟩, ⟨1, 1, 3 / 2⟩, ⟨0, 1, 3 / 2⟩],
        [(0, 4, 7), (0, 7, 3), (3, 7, 6), (3, 6, 2), (2, 6, 5), (2, 5, 1), (1, 5, 4), (1, 4, 0),
          (10, 9, 8), (11, 10, 8),
          (8, 0, 3), (8, 3, 11), (11, 3, 2), (11, 2, 10), (10, 2, 1), (10, 1, 9), (9, 1, 0),
          (9, 0, 8),
          (12, 13, 14), (12, 14, 15),
          (4, 12, 15), (4, 15, 7), (7, 15, 14), (7, 14, 6), (6, 14, 13), (6, 13, 5), (5, 13, 12),
          (5, 12, 4)]) ∧
    raisedPoints squaresPoints [4, 5, 6, 7, 4] 1 =
      [⟨0, 0, 3 / 2⟩, ⟨1, 0, 3 / 2⟩, ⟨1, 1, 3 / 2⟩, ⟨0, 1, 3 / 2⟩] ∧
    copiedOutline 12 5 = [12, 13, 14, 15, 12] ∧
    PolygonIdsOK 4 (fanFilters.polygonTriangulate (raisedPoints squaresPoints [4, 5, 6, 7, 4] 1)) ∧
    (∀ r, Convert fanFilters squaresData = some r →
      (∃ added, 2 ≤ added.length ∧ r.1 = squaresPoints ++ added) ∧
      ∃ caps, r.2 = [(0, 4, 7), (0, 7, 3), (3, 7, 6), (3, 6, 2), (2, 6, 5), (2, 5, 1), (1, 5, 4),
        (1, 4, 0)] ++ caps) ∧
    (∀ currentLine currentLineIndex lineSpacing normalsUp s s',
      capSide fanFilters currentLine currentLineIndex lineSpacing normalsUp s = some s' →
        (∃ added, added ≠ [] ∧ s'.input.points = s.input.points ++ added) ∧
        ∃ new, s'.outputPolygons = s.outputPolygons ++ new) ∧
    ∀ (currentLine : List Nat) (currentLineIndex : Int) (lineSpacing : ℚ) (normalsUp : Bool)
      (s : SealState), 2 ≤ currentLine.length →
      ¬ ((fanFilters.contourLines s.input.points currentLine).lines.length > 0 ∧
        (fanFilters.contourLines s.input.points currentLine).points.length > 0) →
      PolygonIdsOK (currentLine.length - 1)
        (fanFilters.polygonTriangulate (raisedPoints s.input.points currentLine
          (if normalsUp then lineSpacing else -lineSpacing))) →
      ∃ s' capTriangles bridge,
        capSide fanFilters currentLine currentLineIndex lineSpacing normalsUp s = some s' ∧
        s'.input.points = s.input.points ++
          raisedPoints s.input.points currentLine
            (if normalsUp then lineSpacing else -lineSpacing) ∧
        s'.input.lines = s.input.lines ++
          [copiedOutline s.input.points.length currentLine.length] ∧
        s'.cappedSides = s.cappedSides ++ [(currentLineIndex, normalsUp)] ∧
        s'.outputPolygons = s.outputPolygons ++ capTriangles ++ bridge ∧
        TriangulateLine fanFilters s'.input.points
            (copiedOutline s.input.points.length currentLine.length) s.outputPolygons
            normalsUp =
          some (s.outputPolygons ++ capTriangles) ∧
        capTriangles.length =
          (fanFilters.polygonTriangulate (raisedPoints s.input.points currentLine
            (if normalsUp then lineSpacing else -lineSpacing))).length / 3 ∧
        (∀ t ∈ capTriangles, s.input.points.length ≤ t.1 ∧ s.input.points.length ≤ t.2.1 ∧
          s.input.points.length ≤ t.2.2) ∧
        (if normalsUp then
            TriangulateContours s'.input.points currentLine
              (copiedOutline s.input.points.length currentLine.length)
              (s.outputPolygons ++ capTriangles)
          else
            TriangulateContours s'.input.points
              (copiedOutline s.input.points.length currentLine.length) currentLine
              (s.outputPolygons ++ capTriangles)) =
          some (s.outputPolygons ++ capTriangles ++ bridge) ∧
        bridge.length = 2 * currentLine.length - 2 :=
  ⟨by decide!, by decide!, by decide, by unfold PolygonIdsOK; decide!,
    C23_capping_appends_outline fanFilters⟩

/-- C24: on two chains of at least two points each the fill of
`TriangulateContours` returns, and every interior cell `(i, j)` of its tables
holds what the priority rule gives: when the current position of chain 1 is
the closest match of the previous position of chain 2, the score of the left
neighbour plus `d` and the mark `left`; else when the current position of
chain 2 is the closest match of the previous position of chain 1, the score of
the upper neighbour plus `d` and the mark `up`; otherwise the lower of the two
scores plus `d`, with the mark of the neighbour it comes from, `left` on a
tie; `d` is the squared distance between the points at the two current
positions. -/
theorem C24_interior_cell_rule (points : PointSet) (l1 l2 : List Nat) (out : List Triangle)
    (h1 : 2 ≤ l1.length) (h2 : 2 ≤ l2.length) :
    ∃ c s, bridgeInput points l1 l2 = some c ∧ fillTables c out = some s ∧
      ∀ i j, 1 ≤ i → i < (l1.length : Int) → 1 ≤ j → j < (l2.length : Int) →
        c.fillDistance i j =
          Distance2BetweenPoints (GetPoint points (idAt l1 (c.position1 i)))
            (GetPoint points (idAt l2 (c.fillPosition2 i j))) ∧
        (readAt c.closest2 (c.fillPrevious2 i j) = some (c.position1 i) →
          s.scoreTable i j = s.scoreTable i (j - 1) + c.fillDistance i j ∧
          s.backtrackTable i j = left) ∧
        (readAt c.closest2 (c.fillPrevious2 i j) ≠ some (c.position1 i) →
          readAt c.closest1 (c.position1 (i - 1)) = some (c.fillPosition2 i j) →
          s.scoreTable i j = s.scoreTable (i - 1) j + c.fillDistance i j ∧
          s.backtrackTable i j = up) ∧
        (readAt c.closest2 (c.fillPrevious2 i j) ≠ some (c.position1 i) →
          readAt c.closest1 (c.position1 (i - 1)) ≠ some (c.fillPosition2 i j) →
          s.scoreTable i (j - 1) ≤ s.scoreTable (i - 1) j →
          s.scoreTable i j = s.scoreTable i (j - 1) + c.fillDistance i j ∧
          s.backtrackTable i j = left) ∧
        (readAt c.closest2 (c.fillPrevious2 i j) ≠ some (c.position1 i) →
          readAt c.closest1 (c.position1 (i - 1)) ≠ some (c.fillPosition2 i j) →
          s.scoreTable (i - 1) j < s.scoreTable i (j - 1) →
          s.scoreTable i j = s.scoreTable (i - 1) j + c.fillDistance i j ∧
          s.backtrackTable i j = up) := by
  have hne1 : l1 ≠ [] := by intro h; rw [h] at h1; simp at h1
  have hne2 : l2 ≠ [] := by intro h; rw [h] at h2; simp at h2
  obtain ⟨c, hcin, hc, hpts, hl1, hl2⟩ := bridgeInput_spec points l1 l2 hne1 hne2
  have hn1 : c.numberOfPointsInLine1 = l1.length := by rw [hc.len1, hl1]
  have hn2 : c.numberOfPointsInLine2 = l2.length := by rw [hc.len2, hl2]
  obtain ⟨s, hs, hcells⟩ := fillTables_cells c hc (by rw [hn1]; exact_mod_cast h1)
    (by rw [hn2]; exact_mod_cast h2) out
  refine ⟨c, s, hcin, hs, ?_⟩
  intro i j hi1 hi2 hj1 hj2
  have hcell := hcells i j (by omega) (by rw [hn1]; exact hi2) (by omega) (by rw [hn2]; exact hj2)
  unfold CellOK at hcell
  rw [if_neg (by omega), if_neg (by omega)] at hcell
  refine ⟨?_, ?_, ?_, ?_, ?_⟩
  · unfold BridgeInput.fillDistance
    rw [hpts, hl1, hl2]
  · intro h
    have hfl : c.ForcedLeft i j := h
    rw [if_pos hfl] at hcell
    exact hcell
  · intro h h'
    have hfl : ¬ c.ForcedLeft i j := h
    have hcu : c.ClosestUp i j := h'
    rw [if_neg hfl, if_pos hcu] at hcell
    exact hcell
  · intro h h' hle
    have hfl : ¬ c.ForcedLeft i j := h
    have hcu : ¬ c.ClosestUp i j := h'
    rw [if_neg hfl, if_neg hcu, if_pos hle] at hcell
    exact hcell
  · intro h h' hlt
    have hfl : ¬ c.ForcedLeft i j := h
    have hcu : ¬ c.ClosestUp i j := h'
    rw [if_neg hfl, if_neg hcu, if_neg (not_le.mpr hlt)] at hcell
    exact hcell

/-- Witness of C24: the closed chains `[0, 1, 0]` and `[2, 3, 2]` over
`ribbonPoints`. -/
theorem C24_interior_cell_rule_witness :
    2 ≤ ([0, 1, 0] : List Nat).length ∧ 2 ≤ ([2, 3, 2] : List Nat).length ∧
    ∃ c s, bridgeInput ribbonPoints [0, 1, 0] [2, 3, 2] = some c ∧ fillTables c [] = some s ∧
      ∀ i j, 1 ≤ i → i < (([0, 1, 0] : List Nat).length : Int) → 1 ≤ j →
          j < (([2, 3, 2] : List Nat).length : Int) →
        c.fillDistance i j =
          Distance2BetweenPoints (GetPoint ribbonPoints (idAt [0, 1, 0] (c.position1 i)))
            (GetPoint ribbonPoints (idAt [2, 3, 2] (c.fillPosition2 i j))) ∧
        (readAt c.closest2 (c.fillPrevious2 i j) = some (c.position1 i) →
          s.scoreTable i j = s.scoreTable i (j - 1) + c.fillDistance i j ∧
          s.backtrackTable i j = left) ∧
        (readAt c.closest2 (c.fillPrevious2 i j) ≠ some (c.position1 i) →
          readAt c.closest1 (c.position1 (i - 1)) = some (c.fillPosition2 i j) →
          s.scoreTable i j = s.scoreTable (i - 1) j + c.fillDistance i j ∧
          s.backtrackTable i j = up) ∧
        (readAt c.closest2 (c.fillPrevious2 i j) ≠ some (c.position1 i) →
          readAt c.closest1 (c.position1 (i - 1)) ≠ some (c.fillPosition2 i j) →
          s.scoreTable i (j - 1) ≤ s.scoreTable (i - 1) j →
          s.scoreTable i j = s.scoreTable i (j - 1) + c.fillDistance i j ∧
          s.backtrackTable i j = left) ∧
        (readAt c.closest2 (c.fillPrevious2 i j) ≠ some (c.position1 i) →
          readAt c.closest1 (c.position1 (i - 1)) ≠ some (c.fillPosition2 i j) →
          s.scoreTable (i - 1) j < s.scoreTable i (j - 1) →
          s.scoreTable i j = s.scoreTable (i - 1) j + c.fillDistance i j ∧
          s.backtrackTable i j = up) :=
  ⟨by decide, by decide,
    C24_interior_cell_rule ribbonPoints [0, 1, 0] [2, 3, 2] [] (by decide) (by decide)⟩

/-- C25 (failing input): on the open chains `[0, 1, 2]` and `[3, 4]` over
`driftPoints` the walk along chain 2 is not restarted at the head of a row of
the table: column `1` is at position `1` of chain 2, which is the position used
in row `1`, but in row `2` the cell of column `1` is filled with the point at
position `0` of chain 2.  The distance added in cell `(2, 1)` is `5`, the
squared distance from the point of row `2` to the point at position `0` of
chain 2, where the squared distance to the point of column `1` is `2`. -/
theorem C25_open_chain2_column_drifts :
    ∃ c s, bridgeInput driftPoints [0, 1, 2] [3, 4] = some c ∧ fillTables c [] = some s ∧
      c.line1Closed = false ∧ c.line2Closed = false ∧ c.startLine2 = 0 ∧
      c.position1 2 = 2 ∧ c.position2 1 = 1 ∧
      c.fillPosition2 1 1 = 1 ∧ c.fillPosition2 2 1 = 0 ∧
      s.backtrackTable 2 1 = left ∧ s.scoreTable 2 0 = 8 ∧ s.scoreTable 2 1 = 8 + 5 ∧
      Distance2BetweenPoints (GetPoint driftPoints (idAt [0, 1, 2] 2))
        (GetPoint driftPoints (idAt [3, 4] 0)) = 5 ∧
      Distance2BetweenPoints (GetPoint driftPoints (idAt [0, 1, 2] 2))
        (GetPoint driftPoints (idAt [3, 4] 1)) = 2 ∧
      TriangulateContours driftPoints [0, 1, 2] [3, 4] [] =
        some [(2, 4, 3), (2, 3, 1), (1, 3, 0)] := by
  have hpos : ((bridgeInput driftPoints [0, 1, 2] [3, 4]).map fun c =>
      (c.line1Closed, c.line2Closed, c.startLine2, c.position1 2, c.position2 1)) =
      some (false, false, 0, 2, 1) := by decide!
  have hfill : ((bridgeInput driftPoints [0, 1, 2] [3, 4]).map fun c =>
      (c.fillPosition2 1 1, c.fillPosition2 2 1)) = some (1, 0) := by decide!
  have htab : ((bridgeInput driftPoints [0, 1, 2] [3, 4]).bind fun c =>
      (fillTables c []).map fun s =>
        (s.backtrackTable 2 1, s.scoreTable 2 0, s.scoreTable 2 1)) =
      some (left, 8, 8 + 5) := by decide!
  cases hc : bridgeInput driftPoints [0, 1, 2] [3, 4] with
  | none => rw [hc] at htab; cases htab
  | some c =>
    cases hs : fillTables c [] with
    | none => rw [hc] at htab; simp [hs] at htab
    | some s =>
      rw [hc] at hpos hfill htab
      simp only [Option.some_bind, hs, Option.map_some', Option.some.injEq, Prod.mk.injEq]
        at hpos hfill htab
      obtain ⟨e1, e2, e3, e4, e5⟩ := hpos
      obtain ⟨e6, e7⟩ := hfill
      obtain ⟨e8, e9, e10⟩ := htab
      exact ⟨c, s, rfl, hs, e1, e2, e3, e4, e5, e6, e7, e8, e9, e10, by decide!, by decide!,
        by decide!⟩

/-- C26: on a chain of at least one id, open, or closed with its first id
repeated as its last, and from every start position `s` of the chain, the ids
visited by `n - 1` successive `GetPreviousLocation` steps from
`GetEndLoop s n closed` are the ids visited by `n - 1` successive
`GetNextLocation` steps from `s`, in the reverse order; and `n - 1` forward
steps from `s` land on the position `GetEndLoop s n closed`. -/
theorem C26_backward_walk_reverses (l : List Nat) (closed : Bool) (s : Int) (hne : l ≠ [])
    (hs : InRange l.length s) (hclosed : closed = true → l.head? = l.getLast?) :
    backwardIds l closed s = (forwardIds l closed s).reverse ∧
    walk l.length closed s (l.length - 1) = GetEndLoop s l.length closed := by
  refine ⟨backwardIds_eq l closed s hne hs hclosed, ?_⟩
  have h := walk_end l.length s closed hs
  rw [show ((l.length : Int) - 1).toNat = l.length - 1 by omega] at h
  exact h

/-- Witness of C26: the closed chain of a square, walked from its third
position. -/
theorem C26_backward_walk_reverses_witness :
    ([0, 1, 2, 3, 0] : List Nat) ≠ [] ∧ InRange ([0, 1, 2, 3, 0] : List Nat).length 2 ∧
    forwardIds [0, 1, 2, 3, 0] true 2 = [2, 3, 0, 1, 2] ∧
    backwardIds [0, 1, 2, 3, 0] true 2 = [2, 1, 0, 3, 2] ∧
    backwardIds [0, 1, 2, 3, 0] true 2 = (forwardIds [0, 1, 2, 3, 0] true 2).reverse ∧
    walk ([0, 1, 2, 3, 0] : List Nat).length true 2 (([0, 1, 2, 3, 0] : List Nat).length - 1) =
      GetEndLoop 2 ([0, 1, 2, 3, 0] : List Nat).length true :=
  ⟨by decide, by unfold InRange; decide, by decide, by decide,
    C26_backward_walk_reverses [0, 1, 2, 3, 0] true 2 (by decide) (by unfold InRange; decide)
      (fun _ => by decide)⟩

/-- C27: when both chains given to `TriangulateContours` are closed and have
at least two ids, the ids at the two end-of-loop positions are the ids at the
two start positions; the first emitted triangle is emitted on the cross edge
of the two end-of-loop positions, which is therefore the pair of ids of the
two start positions, and the last emitted triangle ends on the cross edge of
the two start positions. -/
theorem C27_ribbon_closes (points : PointSet) (l1 l2 : List Nat) (out : List Triangle)
    (h1 : 2 ≤ l1.length) (h2 : 2 ≤ l2.length) (hc1 : l1.head? = l1.getLast?)
    (hc2 : l2.head? = l2.getLast?) :
    ∃ c new first last, bridgeInput points l1 l2 = some c ∧
      c.line1Closed = true ∧ c.line2Closed = true ∧ c.startLine1 = 0 ∧
      TriangulateContours points l1 l2 out = some (out ++ new) ∧
      new.head? = some first ∧ new.getLast? = some last ∧
      idAt l1 (GetEndLoop c.startLine1 l1.length true) = idAt l1 c.startLine1 ∧
      idAt l2 (GetEndLoop c.startLine2 l2.length true) = idAt l2 c.startLine2 ∧
      first.1 = idAt l1 (GetEndLoop c.startLine1 l1.length true) ∧
      first.2.1 = idAt l2 (GetEndLoop c.startLine2 l2.length true) ∧
      (first.1, first.2.1) = (idAt l1 c.startLine1, idAt l2 c.startLine2) ∧
      (idAt l2 c.startLine2, idAt l1 c.startLine1) ∈ last.edges := by
  have hne1 : l1 ≠ [] := by intro h; rw [h] at h1; simp at h1
  have hne2 : l2 ≠ [] := by intro h; rw [h] at h2; simp at h2
  obtain ⟨c, path, new, hcin, hc, hanch, hl1, hl2, hres, hnew, hmono, hlast, _⟩ :=
    TriangulateContours_trace points l1 l2 out h1 hne2
  have hn1 : c.numberOfPointsInLine1 = l1.length := by rw [hc.len1, hl1]
  have hn2 : c.numberOfPointsInLine2 = l2.length := by rw [hc.len2, hl2]
  have hcl1 : c.line1Closed = true := by rw [hanch.closed1, hl1]; exact decide_eq_true hc1
  have hcl2 : c.line2Closed = true := by rw [hanch.closed2, hl2]; exact decide_eq_true hc2
  have hs2 : InRange (l2.length : Int) c.startLine2 := by rw [← hn2]; exact hc.start2
  have hs1 : InRange (l1.length : Int) c.startLine1 := by rw [hc.start1]; exact ⟨le_refl _, by omega⟩
  -- the ids at the ends of the loops
  have hend1 : idAt l1 (GetEndLoop c.startLine1 l1.length true) = idAt l1 c.startLine1 := by
    rw [hc.start1]
    show idAt l1 ((l1.length : Int) - 1) = idAt l1 0
    exact (idAt_closed_ends l1 hne1 hc1).symm
  have hend2 : idAt l2 (GetEndLoop c.startLine2 l2.length true) = idAt l2 c.startLine2 := by
    unfold GetEndLoop
    by_cases hz : c.startLine2 ≠ 0
    · rw [if_pos hz]; rfl
    · rw [if_neg hz]
      have hz' : c.startLine2 = 0 := not_not.mp hz
      rw [hz']
      exact (idAt_closed_ends l2 hne2 hc2).symm
  have hid1 : c.id1 ((l1.length : Int) - 1) = idAt l1 (GetEndLoop c.startLine1 l1.length true) := by
    unfold BridgeInput.id1 BridgeInput.position1
    rw [hn1, hcl1, hl1, walk_end _ _ _ hs1]
  have hid2 : c.id2 ((l2.length : Int) - 1) = idAt l2 (GetEndLoop c.startLine2 l2.length true) := by
    unfold BridgeInput.id2 BridgeInput.position2
    rw [hn2, hcl2, hl2, walk_end _ _ _ hs2]
  have hid10 : c.id1 0 = idAt l1 c.startLine1 := by
    unfold BridgeInput.id1 BridgeInput.position1
    rw [hl1]; rfl
  have hid20 : c.id2 0 = idAt l2 c.startLine2 := by
    unfold BridgeInput.id2 BridgeInput.position2
    rw [hl2]; rfl
  -- the path has at least two cells and starts at the last cell
  have hhead := (hmono.steps c).1
  rw [List.reverse_reverse] at hhead
  have hlen := hmono.length_eq
  rw [List.length_reverse] at hlen
  obtain ⟨next, rest, hpath⟩ : ∃ next rest,
      path = ((l1.length : Int) - 1, (l2.length : Int) - 1) :: next :: rest := by
    cases path with
    | nil => simp at hhead
    | cons cell tail =>
      simp only [List.head?_cons, Option.some.injEq] at hhead
      cases tail with
      | nil => simp at hlen; omega
      | cons next rest => exact ⟨next, rest, by rw [hhead]⟩
  have hnew' : new = stepTriangle c ((l1.length : Int) - 1, (l2.length : Int) - 1) next ::
      ribbonOf c (next :: rest) := by rw [hnew, hpath]; rfl
  have hf1 : (stepTriangle c ((l1.length : Int) - 1, (l2.length : Int) - 1) next).1 =
      c.id1 ((l1.length : Int) - 1) := by
    unfold stepTriangle; split_ifs <;> rfl
  have hf2 : (stepTriangle c ((l1.length : Int) - 1, (l2.length : Int) - 1) next).2.1 =
      c.id2 ((l2.length : Int) - 1) := by
    unfold stepTriangle; split_ifs <;> rfl
  obtain ⟨last, hlast'⟩ : ∃ last, new.getLast? = some last := by
    cases hg : new.getLast? with
    | none => rw [List.getLast?_eq_none_iff] at hg; rw [hg] at hnew'; simp at hnew'
    | some last => exact ⟨last, rfl⟩
  have hedge := hlast last hlast'
  rw [hid10, hid20] at hedge
  refine ⟨c, new, _, last, hcin, hcl1, hcl2, hc.start1, hres, by rw [hnew']; rfl, hlast', hend1,
    hend2, ?_, ?_, ?_, hedge⟩
  · rw [hf1, hid1]
  · rw [hf2, hid2]
  · rw [hf1, hf2, hid1, hid2, hend1, hend2]

/-- Witness of C27: the two squares of `squaresPoints` as closed chains. -/
theorem C27_ribbon_closes_witness :
    2 ≤ ([0, 1, 2, 3, 0] : List Nat).length ∧ 2 ≤ ([4, 5, 6, 7, 4] : List Nat).length ∧
    ([0, 1, 2, 3, 0] : List Nat).head? = ([0, 1, 2, 3, 0] : List Nat).getLast? ∧
    ([4, 5, 6, 7, 4] : List Nat).head? = ([4, 5, 6, 7, 4] : List Nat).getLast? ∧
    ∃ c new first last, bridgeInput squaresPoints [0, 1, 2, 3, 0] [4, 5, 6, 7, 4] = some c ∧
      c.line1Closed = true ∧ c.line2Closed = true ∧ c.startLine1 = 0 ∧
      TriangulateContours squaresPoints [0, 1, 2, 3, 0] [4, 5, 6, 7, 4] [] = some ([] ++ new) ∧
      new.head? = some first ∧ new.getLast? = some last ∧
      idAt [0, 1, 2, 3, 0] (GetEndLoop c.startLine1 ([0, 1, 2, 3, 0] : List Nat).length true) =
        idAt [0, 1, 2, 3, 0] c.startLine1 ∧
      idAt [4, 5, 6, 7, 4] (GetEndLoop c.startLine2 ([4, 5, 6, 7, 4] : List Nat).length true) =
        idAt [4, 5, 6, 7, 4] c.startLine2 ∧
      first.1 =
        idAt [0, 1, 2, 3, 0] (GetEndLoop c.startLine1 ([0, 1, 2, 3, 0] : List Nat).length true) ∧
      first.2.1 =
        idAt [4, 5, 6, 7, 4] (GetEndLoop c.startLine2 ([4, 5, 6, 7, 4] : List Nat).length true) ∧
      (first.1, first.2.1) = (idAt [0, 1, 2, 3, 0] c.startLine1, idAt [4, 5, 6, 7, 4] c.startLine2) ∧
      (idAt [4, 5, 6, 7, 4] c.startLine2, idAt [0, 1, 2, 3, 0] c.startLine1) ∈ last.edges :=
  ⟨by decide, by decide, by decide, by decide,
    C27_ribbon_closes squaresPoints [0, 1, 2, 3, 0] [4, 5, 6, 7, 4] [] (by decide) (by decide)
      (by decide) (by decide)⟩

/-- C28: for two chains of at least two ids each, `TriangulateContours`
returns, and the triangles it appends are the triangles of the steps of a path
of cells: each is an `up` triangle or a `left` triangle, exactly `n1 - 1` are
`up` triangles and exactly `n2 - 1` are `left` triangles; the chain edges of
the `up` triangles are, in the order of emission, the pairs of the ids at the
consecutive walk positions `r` and `r - 1` of chain 1 for `r` from `n1 - 1`
down to `1`, each once, and those of the `left` triangles the pairs of the ids
at the consecutive walk positions of chain 2. -/
theorem C28_up_and_left_triangles (points : PointSet) (l1 l2 : List Nat) (out : List Triangle)
    (h1 : 2 ≤ l1.length) (h2 : 2 ≤ l2.length) :
    ∃ c path new, bridgeInput points l1 l2 = some c ∧
      TriangulateContours points l1 l2 out = some (out ++ new) ∧
      new = ribbonOf c path ∧
      new.Perm (upTriangles c path ++ leftTriangles c path) ∧
      (upTriangles c path).length = l1.length - 1 ∧
      (leftTriangles c path).length = l2.length - 1 ∧
      (upTriangles c path).map Triangle.edge1 =
        (countdown (l1.length - 1)).map (fun r => (c.id1 r, c.id1 (r - 1))) ∧
      (leftTriangles c path).map Triangle.edge2 =
        (countdown (l2.length - 1)).map (fun r => (c.id2 r, c.id2 (r - 1))) := by
  have hne2 : l2 ≠ [] := by intro h; rw [h] at h2; simp at h2
  obtain ⟨c, path, new, hcin, _, _, _, _, hres, hnew, hmono, _⟩ :=
    TriangulateContours_trace points l1 l2 out h1 hne2
  obtain ⟨_, hup, hleft⟩ := hmono.steps c
  rw [List.reverse_reverse, show ((l1.length : Int) - 1).toNat = l1.length - 1 by omega] at hup
  rw [List.reverse_reverse, show ((l2.length : Int) - 1).toNat = l2.length - 1 by omega] at hleft
  have hlu := congrArg List.length hup
  have hll := congrArg List.length hleft
  simp only [List.length_map, countdown_length] at hlu hll
  exact ⟨c, path, new, hcin, hres, hnew, by rw [hnew]; exact ribbonOf_perm c path, hlu, hll, hup,
    hleft⟩

/-- Witness of C28: the two squares of `squaresPoints` as closed chains. -/
theorem C28_up_and_left_triangles_witness :
    2 ≤ ([0, 1, 2, 3, 0] : List Nat).length ∧ 2 ≤ ([4, 5, 6, 7, 4] : List Nat).length ∧
    ∃ c path new, bridgeInput squaresPoints [0, 1, 2, 3, 0] [4, 5, 6, 7, 4] = some c ∧
      TriangulateContours squaresPoints [0, 1, 2, 3, 0] [4, 5, 6, 7, 4] [] = some ([] ++ new) ∧
      new = ribbonOf c path ∧
      new.Perm (upTriangles c path ++ leftTriangles c path) ∧
      (upTriangles c path).length = ([0, 1, 2, 3, 0] : List Nat).length - 1 ∧
      (leftTriangles c path).length = ([4, 5, 6, 7, 4] : List Nat).length - 1 ∧
      (upTriangles c path).map Triangle.edge1 =
        (countdown (([0, 1, 2, 3, 0] : List Nat).length - 1)).map
          (fun r => (c.id1 r, c.id1 (r - 1))) ∧
      (leftTriangles c path).map Triangle.edge2 =
        (countdown (([4, 5, 6, 7, 4] : List Nat).length - 1)).map
          (fun r => (c.id2 r, c.id2 (r - 1))) :=
  ⟨by decide, by decide,
    C28_up_and_left_triangles squaresPoints [0, 1, 2, 3, 0] [4, 5, 6, 7, 4] [] (by decide)
      (by decide)⟩

/-- C29 (counterexample): on an open chain of three points the position
after the last one is `0`, not `2`, and the position before the first one is
`2`, not `0`. -/
theorem C29_open_chain_wraps :
    GetNextLocation 2 3 false = 0 ∧ GetPreviousLocation 0 3 false = 2 := by
  decide

/-- C29 (as amended): open chains wrap at their ends: for an open chain of
`n` points `GetNextLocation (n - 1) n false = 0` and
`GetPreviousLocation 0 n false = n - 1`, while every other position moves by
exactly one. -/
theorem C29_open_chain_wraps_at_ends (n p : Int) :
    GetNextLocation (n - 1) n false = 0 ∧ GetPreviousLocation 0 n false = n - 1 ∧
    GetNextLocation p n false = (if p = n - 1 then 0 else p + 1) ∧
    GetPreviousLocation p n false = (if p = 0 then n - 1 else p - 1) := by
  refine ⟨by simp [GetNextLocation], by simp [GetPreviousLocation], ?_, ?_⟩
  · unfold GetNextLocation
    by_cases h : p = n - 1
    · rw [if_pos h, if_pos (by omega)]
      rfl
    · rw [if_neg h, if_neg (by omega)]
  · unfold GetPreviousLocation
    by_cases h : p = 0
    · rw [if_pos h, if_pos (by omega)]
      rfl
    · rw [if_neg h, if_neg (by omega)]

/-- C30 (counterexample): for an open chain of three points started at
position 1 the end-of-loop index is `0`, not the last index `2`. -/
theorem C30_open_chain_end_before_start : GetEndLoop 1 3 false = 0 := by
  decide

/-- C30 (as amended): for an open chain of `n` points the end-of-loop index
is the last index `n - 1` when the chain is started at `0` and the position
`s - 1` before the start when it is started at `s ≠ 0`; for a closed chain it
is `n - 1` when started at `0` and `s`, the wrap point, when started at
`s ≠ 0`. -/
theorem C30_end_of_loop (n s : Int) :
    GetEndLoop s n false = (if s = 0 then n - 1 else s - 1) ∧
    GetEndLoop s n true = (if s = 0 then n - 1 else s) := by
  unfold GetEndLoop
  by_cases h : s = 0
  · simp [h]
  · simp [h]

/-- C31: on every non-empty chain and for every query point `GetClosestPoint`
returns a position `k` of the chain whose point is at the minimal squared
distance from the query among all positions of the chain, and `k` is the
smallest such position; and `TriangulateContours` starts on position `0` of
chain 1 and on the position that `GetClosestPoint` returns for the point at
that position on chain 2. -/
theorem C31_closest_point_first_minimum (points : PointSet) (q : Point) (l : List Nat)
    (hl : l ≠ []) :
    (∃ k, GetClosestPoint points q l l.length = some k ∧ InRange l.length k ∧
      (∀ m, InRange l.length m →
        Distance2BetweenPoints q (GetPoint points (idAt l k)) ≤
          Distance2BetweenPoints q (GetPoint points (idAt l m))) ∧
      ∀ m, 0 ≤ m → m < k →
        Distance2BetweenPoints q (GetPoint points (idAt l k)) <
          Distance2BetweenPoints q (GetPoint points (idAt l m))) ∧
    ∀ l1, l1 ≠ [] → ∃ c, bridgeInput points l1 l = some c ∧ c.startLine1 = 0 ∧
      GetClosestPoint points (GetPoint points (idAt l1 0)) l l.length = some c.startLine2 := by
  refine ⟨GetClosestPoint_spec points q l hl, ?_⟩
  intro l1 hl1
  obtain ⟨c, hc, _⟩ := bridgeInput_spec points l1 l hl1 hl
  exact ⟨c, hc, bridgeInput_start points l1 l c hc⟩

/-- Witness of C31: the query `(1, 0, 0)` on the chain `[2, 3, 2]` of
`segmentPoints`, whose closest point is at position 1. -/
theorem C31_closest_point_first_minimum_witness :
    ([2, 3, 2] : List Nat) ≠ [] ∧
    GetClosestPoint segmentPoints ⟨1, 0, 0⟩ [2, 3, 2] ([2, 3, 2] : List Nat).length = some 1 ∧
    ((∃ k, GetClosestPoint segmentPoints ⟨1, 0, 0⟩ [2, 3, 2] ([2, 3, 2] : List Nat).length =
        some k ∧ InRange ([2, 3, 2] : List Nat).length k ∧
      (∀ m, InRange ([2, 3, 2] : List Nat).length m →
        Distance2BetweenPoints ⟨1, 0, 0⟩ (GetPoint segmentPoints (idAt [2, 3, 2] k)) ≤
          Distance2BetweenPoints ⟨1, 0, 0⟩ (GetPoint segmentPoints (idAt [2, 3, 2] m))) ∧
      ∀ m, 0 ≤ m → m < k →
        Distance2BetweenPoints ⟨1, 0, 0⟩ (GetPoint segmentPoints (idAt [2, 3, 2] k)) <
          Distance2BetweenPoints ⟨1, 0, 0⟩ (GetPoint segmentPoints (idAt [2, 3, 2] m))) ∧
    ∀ l1, l1 ≠ [] → ∃ c, bridgeInput segmentPoints l1 [2, 3, 2] = some c ∧ c.startLine1 = 0 ∧
      GetClosestPoint segmentPoints (GetPoint segmentPoints (idAt l1 0)) [2, 3, 2]
        ([2, 3, 2] : List Nat).length = some c.startLine2) :=
  ⟨by decide, by decide!,
    C31_closest_point_first_minimum segmentPoints ⟨1, 0, 0⟩ [2, 3, 2] (by decide)⟩

/-- C32: for every point and every well-formed list of overlap partners (at
least one partner, every partner a line of at least one point with its
locator built on its points), `GetClosestBranch` returns a member of the
overlap list: the partner listed at the first position at which the squared
distance from the given point to the nearest point of the partner is minimal,
so that among the partners tied for the minimum it returns the one listed
first.  `Branch` assigns a point to the target exactly when `GetClosestBranch`
returns the target for it: with the target as the single partner it returns
the whole line and `GetClosestBranch` returns the target for every point; with
several partners each iteration of its loop, which does not fault, marks its
point as assigned exactly when `GetClosestBranch` returns the target, appends
the id of the point when the point is assigned or the point before it was, and
the result of `Branch` is the chain so collected followed by the id of the
closing test. -/
theorem C32_closest_branch_first_minimum (points : PointSet) (originalPoint : Point)
    (overlappingLines : List Int) (pointLocators : List (List Point))
    (lineIdLists : List (List Nat)) (branchingLine : List Nat) (target : Int)
    (hwf : PartnersWF points overlappingLines pointLocators lineIdLists) :
    (∃ k, k < overlappingLines.length ∧
      GetClosestBranch points originalPoint overlappingLines pointLocators lineIdLists =
        some (overlappingLines.getD k 0) ∧
      overlappingLines.getD k 0 ∈ overlappingLines ∧
      (∀ j < overlappingLines.length,
        partnerDistance2 points originalPoint pointLocators lineIdLists k ≤
          partnerDistance2 points originalPoint pointLocators lineIdLists j) ∧
      ∀ j < k, partnerDistance2 points originalPoint pointLocators lineIdLists k <
        partnerDistance2 points originalPoint pointLocators lineIdLists j) ∧
    (∀ j < overlappingLines.length,
      (∃ id ∈ lineIdLists.getD j [],
        partnerDistance2 points originalPoint pointLocators lineIdLists j =
          Distance2BetweenPoints (GetPoint points id) originalPoint) ∧
      ∀ id ∈ lineIdLists.getD j [],
        partnerDistance2 points originalPoint pointLocators lineIdLists j ≤
          Distance2BetweenPoints (GetPoint points id) originalPoint) ∧
    (overlappingLines = [target] →
      Branch points branchingLine target overlappingLines pointLocators lineIdLists =
        some branchingLine ∧
      GetClosestBranch points originalPoint overlappingLines pointLocators lineIdLists =
        some target) ∧
    (overlappingLines.length ≠ 1 →
      (∀ p < branchingLine.length, ∃ s s' closest,
        Branch.walk points branchingLine target overlappingLines pointLocators lineIdLists p =
          some s ∧
        Branch.walk points branchingLine target overlappingLines pointLocators lineIdLists
          (p + 1) = some s' ∧
        GetClosestBranch points (GetPoint points (idAt branchingLine (p : Int)))
          overlappingLines pointLocators lineIdLists = some closest ∧
        (s'.prev = true ↔ closest = target) ∧
        s'.outputLinePointIds = s.outputLinePointIds ++
          (if closest = target ∨ s.prev = true then [idAt branchingLine (p : Int)]
          else [])) ∧
      ∃ s, Branch.walk points branchingLine target overlappingLines pointLocators lineIdLists
          branchingLine.length = some s ∧
        Branch points branchingLine target overlappingLines pointLocators lineIdLists =
          some (s.outputLinePointIds ++ closingIds branchingLine s.outputLinePointIds)) := by
  refine ⟨?_, ?_, ?_, ?_⟩
  · obtain ⟨k, hk, hres, hle, hlt⟩ := GetClosestBranch_first points originalPoint
      overlappingLines pointLocators lineIdLists hwf
    exact ⟨k, hk, hres, GetClosestBranch_mem _ _ _ _ _ _ hres, hle, hlt⟩
  · intro j hj
    obtain ⟨id, _, _, _, _, hmem, hpd, hmin⟩ := partner_read points originalPoint
      overlappingLines pointLocators lineIdLists hwf j hj
    exact ⟨⟨id, hmem, hpd.symm⟩, hmin⟩
  · intro hov
    have hlen : overlappingLines.length = 1 := by rw [hov]; rfl
    refine ⟨by unfold Branch; rw [if_pos hlen], ?_⟩
    unfold GetClosestBranch
    rw [hov]
    rfl
  · intro hlen
    refine ⟨fun p hp => Branch.walk_step points branchingLine target overlappingLines
      pointLocators lineIdLists hwf p hp, ?_⟩
    obtain ⟨s, hs⟩ := Branch.walk_some points branchingLine target overlappingLines
      pointLocators lineIdLists hwf branchingLine.length (le_refl _)
    refine ⟨s, hs, ?_⟩
    refine Branch_of_divide points branchingLine target overlappingLines pointLocators
      lineIdLists s.outputLinePointIds hlen ?_
    unfold Branch.divide
    unfold Branch.walk at hs
    rw [hs]
    rfl

/-- Witness of C32: the point 1 of the trunk of `branchPoints` with the two
branches as partners; the first branch, line 1, is the closest. -/
theorem C32_closest_branch_first_minimum_witness :
    PartnersWF branchPoints [1, 2] branchLocators branchIdLists ∧
    GetClosestBranch branchPoints ⟨10, 0, 0⟩ [1, 2] branchLocators branchIdLists = some 1 ∧
    Branch branchPoints [0, 1, 2, 3, 0] 1 [1, 2] branchLocators branchIdLists =
      some [1, 2, 3, 1] ∧
    (∃ k, k < ([1, 2] : List Int).length ∧
      GetClosestBranch branchPoints (⟨10, 0, 0⟩ : Point) ([1, 2] : List Int)
          branchLocators branchIdLists =
        some (([1, 2] : List Int).getD k 0) ∧
      ([1, 2] : List Int).getD k 0 ∈ ([1, 2] : List Int) ∧
      (∀ j < ([1, 2] : List Int).length,
        partnerDistance2 branchPoints (⟨10, 0, 0⟩ : Point) branchLocators branchIdLists k ≤
          partnerDistance2 branchPoints (⟨10, 0, 0⟩ : Point) branchLocators branchIdLists j) ∧
      ∀ j < k,
        partnerDistance2 branchPoints (⟨10, 0, 0⟩ : Point) branchLocators branchIdLists k <
          partnerDistance2 branchPoints (⟨10, 0, 0⟩ : Point) branchLocators branchIdLists j) ∧
    (∀ j < ([1, 2] : List Int).length,
      (∃ id ∈ branchIdLists.getD j [],
        partnerDistance2 branchPoints (⟨10, 0, 0⟩ : Point) branchLocators branchIdLists j =
          Distance2BetweenPoints (GetPoint branchPoints id) (⟨10, 0, 0⟩ : Point)) ∧
      ∀ id ∈ branchIdLists.getD j [],
        partnerDistance2 branchPoints (⟨10, 0, 0⟩ : Point) branchLocators branchIdLists j ≤
          Distance2BetweenPoints (GetPoint branchPoints id) (⟨10, 0, 0⟩ : Point)) ∧
    (([1, 2] : List Int) = [(1 : Int)] →
      Branch branchPoints ([0, 1, 2, 3, 0] : List Nat) (1 : Int) ([1, 2] : List Int)
          branchLocators branchIdLists =
        some ([0, 1, 2, 3, 0] : List Nat) ∧
      GetClosestBranch branchPoints (⟨10, 0, 0⟩ : Point) ([1, 2] : List Int)
          branchLocators branchIdLists =
        some (1 : Int)) ∧
    (([1, 2] : List Int).length ≠ 1 →
      (∀ p < ([0, 1, 2, 3, 0] : List Nat).length, ∃ s s' closest,
        Branch.walk branchPoints ([0, 1, 2, 3, 0] : List Nat) (1 : Int) ([1, 2] : List Int)
            branchLocators branchIdLists p =
          some s ∧
        Branch.walk branchPoints ([0, 1, 2, 3, 0] : List Nat) (1 : Int) ([1, 2] : List Int)
            branchLocators branchIdLists
          (p + 1) = some s' ∧
        GetClosestBranch branchPoints
          (GetPoint branchPoints (idAt ([0, 1, 2, 3, 0] : List Nat) (p : Int)))
          ([1, 2] : List Int) branchLocators branchIdLists = some closest ∧
        (s'.prev = true ↔ closest = (1 : Int)) ∧
        s'.outputLinePointIds = s.outputLinePointIds ++
          (if closest = (1 : Int) ∨ s.prev = true then
            [idAt ([0, 1, 2, 3, 0] : List Nat) (p : Int)]
          else [])) ∧
      ∃ s, Branch.walk branchPoints ([0, 1, 2, 3, 0] : List Nat) (1 : Int) ([1, 2] : List Int)
          branchLocators branchIdLists
          ([0, 1, 2, 3, 0] : List Nat).length = some s ∧
        Branch branchPoints ([0, 1, 2, 3, 0] : List Nat) (1 : Int) ([1, 2] : List Int)
            branchLocators branchIdLists =
          some (s.outputLinePointIds ++ closingIds ([0, 1, 2, 3, 0] : List Nat)
              s.outputLinePointIds)) :=
  have hwf : PartnersWF branchPoints [1, 2] branchLocators branchIdLists :=
    ⟨by decide, rfl, rfl, by
      intro k hk
      have hk2 : k < 2 := hk
      interval_cases k
      · exact ⟨by decide, rfl⟩
      · exact ⟨by decide, rfl⟩⟩
  ⟨hwf, by decide!, by decide!,
    C32_closest_branch_first_minimum branchPoints ⟨10, 0, 0⟩ [1, 2] branchLocators branchIdLists
      [0, 1, 2, 3, 0] 1 hwf⟩

/-- C33: for every closed contour (first id equal to last id) the sum of
`IsLineClockwise`, the sum of `(x2 - x1) * (y2 + y1)` over the consecutive
points, is the negated doubled signed area of the XY projection, minus the sum
of `x1 * y2 - x2 * y1`; `IsLineClockwise` is true exactly when the shoelace
signed area is negative; and reversing the point order with `ReverseLine`
negates the sum. -/
theorem C33_area_sum_is_negated_shoelace (points : PointSet) (line : List Nat)
    (hclosed : line.head? = line.getLast?) :
    areaSum points line = - shoelace2 points line ∧
    (IsLineClockwise points line = true ↔ shoelace2 points line < 0) ∧
    areaSum points (ReverseLine line) = - areaSum points line := by
  have heq := areaSum_eq_neg_shoelace2 points line hclosed
  refine ⟨heq, ?_, areaSum_reverse points line⟩
  simp only [IsLineClockwise, decide_eq_true_eq, heq]
  constructor
  · intro h
    linarith
  · intro h
    linarith

/-- Witness of C33: the unit square listed clockwise. -/
theorem C33_area_sum_is_negated_shoelace_witness :
    ([0, 3, 2, 1, 0] : List Nat).head? = ([0, 3, 2, 1, 0] : List Nat).getLast? ∧
    areaSum squaresPoints [0, 3, 2, 1, 0] = 2 ∧ shoelace2 squaresPoints [0, 3, 2, 1, 0] = -2 ∧
    IsLineClockwise squaresPoints [0, 3, 2, 1, 0] = true ∧
    (areaSum squaresPoints [0, 3, 2, 1, 0] = - shoelace2 squaresPoints [0, 3, 2, 1, 0] ∧
      (IsLineClockwise squaresPoints [0, 3, 2, 1, 0] = true ↔
        shoelace2 squaresPoints [0, 3, 2, 1, 0] < 0) ∧
      areaSum squaresPoints (ReverseLine [0, 3, 2, 1, 0]) =
        - areaSum squaresPoints [0, 3, 2, 1, 0]) :=
  ⟨by decide, by decide!, by decide!, by decide!,
    C33_area_sum_is_negated_shoelace squaresPoints [0, 3, 2, 1, 0] (by decide)⟩

/-- C34: the flagging pass of `FixKeyholes` returns on every line, and a
pair of positions `p1 < p2` is flagged (one of the two carries the other as
its flag) only if the two points are within `epsilon` of each other and their
separation the shorter way around the loop, `min (p2 - p1) (n - 1 - (p2 - p1))`,
is strictly greater than the minimum separation; for a non-negative minimum
separation the first position and the last position of the line are never
flagged against each other. -/
theorem C34_flagged_pairs_are_crossings (epsilon : ℚ) (minimumSeperation : Int)
    (pts : List Point) :
    ∃ fs, flagLine epsilon minimumSeperation pts = some fs ∧
      (∀ p1 p2 : Nat, p1 < p2 →
        (readAt fs.flags p1 = some (p2 : Int) ∨ readAt fs.flags p2 = some (p1 : Int)) →
        p2 < pts.length ∧
        Distance2BetweenPoints (pts.getD p1 ⟨0, 0, 0⟩) (pts.getD p2 ⟨0, 0, 0⟩) ≤
          epsilon * epsilon ∧
        min ((p2 : Int) - p1) ((pts.length : Int) - 1 - ((p2 : Int) - p1)) >
          minimumSeperation) ∧
      (0 ≤ minimumSeperation →
        readAt fs.flags 0 ≠ some ((pts.length : Int) - 1) ∧
        readAt fs.flags ((pts.length : Int) - 1) ≠ some 0) := by
  obtain ⟨fs, hfs, hok⟩ := flagLine_ok epsilon minimumSeperation pts
  refine ⟨fs, hfs, ?_, ?_⟩
  · intro p1 p2 hlt hflag
    have hpart : Partners epsilon minimumSeperation pts p1 p2 := by
      rcases hflag with h | h
      · have := (hok.entry p1 p2 h (by omega)).2.1
        simpa using this
      · have := (hok.entry p2 p1 h (by omega)).2.1
        rcases (by simpa using this : Partners epsilon minimumSeperation pts p2 p1) with c | c
        · exact Or.inr c
        · exact Or.inl c
    rcases hpart with ⟨h1, h2, hd, hsep⟩ | ⟨h2, h1, hd, hsep⟩
    · refine ⟨h2, hd, ?_⟩
      have e : (pts.length : Int) - 1 - ((p2 : Int) - p1) = (pts.length : Int) - 1 - p2 + p1 := by
        ring
      rw [e]
      exact hsep
    · refine ⟨h2, by rw [Distance2BetweenPoints_comm]; exact hd, ?_⟩
      have hneg : min ((p1 : Int) - p2) ((pts.length : Int) - 1 - p1 + p2) ≤ (p1 : Int) - p2 :=
        min_le_left _ _
      have hmin : minimumSeperation < (p1 : Int) - p2 := lt_of_lt_of_le hsep hneg
      apply lt_min <;> omega
  · intro hmin
    have key : ∀ i j : Int, readAt fs.flags i = some j → j ≠ -1 →
        ¬ ((i = 0 ∧ j = (pts.length : Int) - 1) ∨ (j = 0 ∧ i = (pts.length : Int) - 1)) := by
      intro i j hij hj hcase
      obtain ⟨hj0, hpart, _⟩ := hok.entry i j hij hj
      have hi0 : 0 ≤ i := by
        by_contra hneg
        simp [readAt, hneg] at hij
      rcases hpart with ⟨h1, h2, _, hsep⟩ | ⟨h2, h1, _, hsep⟩
      · have e1 : ((i.toNat : Nat) : Int) = i := by omega
        have e2 : ((j.toNat : Nat) : Int) = j := by omega
        rw [e1, e2] at hsep
        have hle1 := min_le_left (j - i) ((pts.length : Int) - 1 - j + i)
        have hle2 := min_le_right (j - i) ((pts.length : Int) - 1 - j + i)
        omega
      · have e1 : ((i.toNat : Nat) : Int) = i := by omega
        have e2 : ((j.toNat : Nat) : Int) = j := by omega
        rw [e1, e2] at hsep
        have hle1 := min_le_left (i - j) ((pts.length : Int) - 1 - i + j)
        have hle2 := min_le_right (i - j) ((pts.length : Int) - 1 - i + j)
        omega
    constructor
    · intro h
      by_cases hn : (pts.length : Int) - 1 = -1
      · rw [hn] at h
        have hlen : fs.flags.length = 0 := by rw [hok.len]; omega
        have hnil : fs.flags = [] := List.length_eq_zero.mp hlen
        rw [hnil] at h
        simp [readAt] at h
      · exact key 0 _ h hn (Or.inl ⟨rfl, rfl⟩)
    · intro h
      exact key _ 0 h (by decide) (Or.inr ⟨rfl, rfl⟩)

/-- C35 (counterexample): on the contour `triplePoints`, whose points 0, 3
and 6 coincide, the flagging pass with the tolerances of `Convert` leaves
`flags[0] = 6` and `flags[6] = 3`: position 0 is flagged and
`flags[flags[0]]` is not `0`. -/
theorem C35_flags_not_mutual :
    ∃ fs, flagLine (1 / 10) 2 triplePoints = some fs ∧
      fs.flags = [6, -1, -1, 6, -1, -1, 3, -1, -1, -1] ∧
      readAt fs.flags 0 = some 6 ∧ readAt fs.flags 6 = some 3 :=
  ⟨⟨true, [6, -1, -1, 6, -1, -1, 3, -1, -1, -1]⟩, by decide!, rfl, by decide, by decide⟩

/-- C35 (as amended): the flagging pass returns on every line; every flagged
position `i` has as its flag a position of the line that is a crossing
partner of `i` and is itself flagged; and when no position of the line has
more than one crossing partner the flags are mutual:
`flags[flags[i]] = i` for every flagged position `i`. -/
theorem C35_flags_mutual_for_single_partners (epsilon : ℚ) (minimumSeperation : Int)
    (pts : List Point) :
    ∃ fs, flagLine epsilon minimumSeperation pts = some fs ∧
      (∀ i j : Int, readAt fs.flags i = some j → j ≠ -1 →
        InRange pts.length j ∧ Partners epsilon minimumSeperation pts i.toNat j.toNat ∧
        ∃ k, readAt fs.flags j = some k ∧ k ≠ -1) ∧
      (SinglePartner epsilon minimumSeperation pts →
        ∀ i j : Int, readAt fs.flags i = some j → j ≠ -1 → readAt fs.flags j = some i) := by
  obtain ⟨fs, hfs, hok⟩ := flagLine_ok epsilon minimumSeperation pts
  have hlen : ∀ a b : Nat, Partners epsilon minimumSeperation pts a b →
      a < pts.length ∧ b < pts.length := by
    intro a b h
    rcases h with ⟨h1, h2, _⟩ | ⟨h2, h1, _⟩
    · exact ⟨h1, h2⟩
    · exact ⟨h1, h2⟩
  have hsymm : ∀ a b : Nat, Partners epsilon minimumSeperation pts a b →
      Partners epsilon minimumSeperation pts b a := by
    intro a b h
    rcases h with c | c
    · exact Or.inr c
    · exact Or.inl c
  refine ⟨fs, hfs, ?_, ?_⟩
  · intro i j hij hj
    obtain ⟨hj0, hpart, hk⟩ := hok.entry i j hij hj
    have := (hlen _ _ hpart).2
    exact ⟨⟨hj0, by omega⟩, hpart, hk⟩
  · intro hsingle i j hij hj
    obtain ⟨hj0, hpart, k, hk, hkne⟩ := hok.entry i j hij hj
    obtain ⟨hk0, hpart', _⟩ := hok.entry j k hk hkne
    have hi0 : 0 ≤ i := by
      by_contra hneg
      simp [readAt, hneg] at hij
    have hb := hlen _ _ hpart
    have hb' := hlen _ _ hpart'
    have heq : i.toNat = k.toNat :=
      hsingle j.toNat hb.2 i.toNat hb.1 k.toNat hb'.2 (hsymm _ _ hpart) hpart'
    have hik : i = k := by omega
    rw [hik]
    exact hk

/-- Witness of C35: the keyhole contour, whose points 1 and 5 coincide and
on which no position has more than one crossing partner, and the contour
`triplePoints`, on which positions 0, 3 and 6 have two each. -/
theorem C35_flags_mutual_for_single_partners_witness :
    SinglePartner (1 / 10) 2 (linePoints keyholePoints [0, 1, 2, 3, 4, 5, 6, 7, 0]) ∧
    flagLine (1 / 10) 2 (linePoints keyholePoints [0, 1, 2, 3, 4, 5, 6, 7, 0]) =
      some ⟨true, [-1, 5, -1, -1, -1, 1, -1, -1, -1]⟩ ∧
    ¬ SinglePartner (1 / 10) 2 triplePoints ∧
    (∃ fs, flagLine (1 / 10) 2 (linePoints keyholePoints [0, 1, 2, 3, 4, 5, 6, 7, 0]) = some fs ∧
      (∀ i j : Int, readAt fs.flags i = some j → j ≠ -1 →
        InRange (linePoints keyholePoints [0, 1, 2, 3, 4, 5, 6, 7, 0]).length j ∧
        Partners (1 / 10) 2 (linePoints keyholePoints [0, 1, 2, 3, 4, 5, 6, 7, 0]) i.toNat
          j.toNat ∧
        ∃ k, readAt fs.flags j = some k ∧ k ≠ -1) ∧
      (SinglePartner (1 / 10) 2 (linePoints keyholePoints [0, 1, 2, 3, 4, 5, 6, 7, 0]) →
        ∀ i j : Int, readAt fs.flags i = some j → j ≠ -1 → readAt fs.flags j = some i)) ∧
    ∃ fs, flagLine (1 / 10) 2 triplePoints = some fs ∧
      (∀ i j : Int, readAt fs.flags i = some j → j ≠ -1 →
        InRange triplePoints.length j ∧
        Partners (1 / 10) 2 triplePoints i.toNat j.toNat ∧
        ∃ k, readAt fs.flags j = some k ∧ k ≠ -1) ∧
      (SinglePartner (1 / 10) 2 triplePoints →
        ∀ i j : Int, readAt fs.flags i = some j → j ≠ -1 → readAt fs.flags j = some i) :=
  ⟨by decide!, by decide!, by decide!,
    C35_flags_mutual_for_single_partners (1 / 10) 2
      (linePoints keyholePoints [0, 1, 2, 3, 4, 5, 6, 7, 0]),
    C35_flags_mutual_for_single_partners (1 / 10) 2 triplePoints⟩

/-- C36: on a line with as many flags as points the splitting pass of
`FixKeyholes` returns; the lines it was given are left as they are, and every
sub-loop it appends is the sub-loop of the walk after the step "Seal the
lines": the first id is appended when the sub-loop is not empty and its first
id differs from its last id, nothing is appended otherwise, so that every
non-empty sub-loop is closed.  Hence every non-empty sub-loop that the body of
`FixKeyholes` appends for a line on which the flagging pass found a keyhole is
closed. -/
theorem C36_subloops_closed (line : List Nat) (flags : List Int) (init : List (List Nat))
    (hlen : flags.length = line.length) :
    (∃ s subs, splitWalk line flags init line.length = some s ∧ s.newLines = init ++ subs ∧
      splitLine line flags init = some (init ++ subs.map reclose) ∧
      (∀ l ∈ subs.map reclose, l ≠ [] → l.head? = l.getLast?) ∧
      ∀ l ∈ subs,
        reclose l = if l ≠ [] ∧ l.head? ≠ l.getLast? then l ++ l.head?.toList else l) ∧
    ∀ (input : PolyData) (epsilon : ℚ) (minimumSeperation lineIndex : Int)
      (newLines : List (List Nat)) (fs : FlagState),
      readAt input.lines lineIndex = some line →
      flagLine epsilon minimumSeperation (linePoints input.points line) = some fs →
      fs.keyHoleExists = true →
      ∃ subs, fixKeyholesBody input epsilon minimumSeperation lineIndex newLines =
          some (newLines ++ subs) ∧
        ∀ l ∈ subs, l ≠ [] → l.head? = l.getLast? := by
  have hclosed : ∀ (subs : List (List Nat)), ∀ l ∈ subs.map reclose, l ≠ [] →
      l.head? = l.getLast? := by
    intro subs l hl hne
    rw [List.mem_map] at hl
    obtain ⟨l0, _, rfl⟩ := hl
    exact reclose_closed l0 hne
  constructor
  · obtain ⟨s, p, hs, hinv, hsplit⟩ := splitLine_spec line flags init hlen
    exact ⟨s, p.map (idsAt line), hs, hinv.lines, hsplit, hclosed _,
      fun l _ => reclose_eq l⟩
  · intro input epsilon minimumSeperation lineIndex newLines fs hread hflag hkey
    obtain ⟨fs', hfs', hok⟩ := flagLine_ok epsilon minimumSeperation (linePoints input.points line)
    have hsame : fs' = fs := Option.some.inj (hfs'.symm.trans hflag)
    rw [hsame] at hok
    have hl : fs.flags.length = line.length := by
      rw [hok.len]
      simp [linePoints]
    obtain ⟨s, p, _, _, hsplit⟩ := splitLine_spec line fs.flags newLines hl
    refine ⟨(p.map (idsAt line)).map reclose, ?_, hclosed _⟩
    simp only [fixKeyholesBody, hread, Option.some_bind, hflag, hkey]
    exact hsplit

/-- Witness of C36: the keyhole contour with the flags of its points 1 and
5. -/
theorem C36_subloops_closed_witness :
    ([-1, 5, -1, -1, -1, 1, -1, -1, -1] : List Int).length =
      ([0, 1, 2, 3, 4, 5, 6, 7, 0] : List Nat).length ∧
    splitLine [0, 1, 2, 3, 4, 5, 6, 7, 0] [-1, 5, -1, -1, -1, 1, -1, -1, -1] [] =
      some [[0, 1, 6, 7, 0], [2, 3, 4, 5, 2]] ∧
    ((∃ s subs, splitWalk [0, 1, 2, 3, 4, 5, 6, 7, 0] [-1, 5, -1, -1, -1, 1, -1, -1, -1] []
        ([0, 1, 2, 3, 4, 5, 6, 7, 0] : List Nat).length = some s ∧ s.newLines = [] ++ subs ∧
      splitLine [0, 1, 2, 3, 4, 5, 6, 7, 0] [-1, 5, -1, -1, -1, 1, -1, -1, -1] [] =
        some ([] ++ subs.map reclose) ∧
      (∀ l ∈ subs.map reclose, l ≠ [] → l.head? = l.getLast?) ∧
      ∀ l ∈ subs,
        reclose l = if l ≠ [] ∧ l.head? ≠ l.getLast? then l ++ l.head?.toList else l) ∧
    ∀ (input : PolyData) (epsilon : ℚ) (minimumSeperation lineIndex : Int)
      (newLines : List (List Nat)) (fs : FlagState),
      readAt input.lines lineIndex = some [0, 1, 2, 3, 4, 5, 6, 7, 0] →
      flagLine epsilon minimumSeperation (linePoints input.points [0, 1, 2, 3, 4, 5, 6, 7, 0]) =
        some fs →
      fs.keyHoleExists = true →
      ∃ subs, fixKeyholesBody input epsilon minimumSeperation lineIndex newLines =
          some (newLines ++ subs) ∧
        ∀ l ∈ subs, l ≠ [] → l.head? = l.getLast?) :=
  ⟨by decide, by decide,
    C36_subloops_closed [0, 1, 2, 3, 4, 5, 6, 7, 0] [-1, 5, -1, -1, -1, 1, -1, -1, -1] []
      (by decide)⟩

/-- C37: on a line with as many flags as points the splitting pass returns,
and there is, for every sub-loop it appends, a list of positions of the
original line such that: the sub-loop, before the step "Seal the lines", holds
the ids at these positions, in this order; the positions of a sub-loop are
strictly increasing positions of the line; every unflagged position lies in
exactly one of the lists; and every id of every sub-loop is an id of the
original line. -/
theorem C37_split_keeps_ordinary_points (line : List Nat) (flags : List Int)
    (init : List (List Nat)) (hlen : flags.length = line.length) :
    ∃ (s : SplitState) (p : List (List Nat)), splitWalk line flags init line.length = some s ∧
      s.newLines = init ++ p.map (idsAt line) ∧
      splitLine line flags init = some (init ++ (p.map (idsAt line)).map reclose) ∧
      (∀ ps ∈ p, ps.Pairwise (fun x y => x < y) ∧ ∀ k ∈ ps, k < line.length) ∧
      (∀ k : Nat, k < line.length → readAt flags k = some (-1) →
        ∃ a, a < p.length ∧ k ∈ p.getD a [] ∧ ∀ b, k ∈ p.getD b [] → b = a) ∧
      ∀ l ∈ p.map (idsAt line), ∀ id ∈ l, id ∈ line := by
  obtain ⟨s, p, hs, hinv, hsplit⟩ := splitLine_spec line flags init hlen
  have hget : ∀ ps ∈ p, ∃ a, a < p.length ∧ p.getD a [] = ps := by
    intro ps hps
    obtain ⟨a, ha, hps'⟩ := List.getElem_of_mem hps
    exact ⟨a, ha, by rw [List.getD_eq_getElem _ _ ha]; exact hps'⟩
  have hbelow : ∀ ps ∈ p, ∀ k ∈ ps, k < line.length := by
    intro ps hps k hk
    obtain ⟨a, _, ha⟩ := hget ps hps
    have := hinv.below a k (by rw [ha]; exact hk)
    omega
  refine ⟨s, p, hs, hinv.lines, hsplit, ?_, ?_, ?_⟩
  · intro ps hps
    obtain ⟨a, _, ha⟩ := hget ps hps
    refine ⟨by rw [← ha]; exact hinv.sorted a, hbelow ps hps⟩
  · intro k hk hflag
    obtain ⟨a, ha⟩ := hinv.covered k (by omega) hflag
    have hap : a < p.length := by
      by_contra hnot
      have hnone : p[a]? = none := List.getElem?_eq_none (by omega)
      rw [List.getD_eq_getElem?_getD, hnone] at ha
      simp at ha
    exact ⟨a, hap, ha, fun b hb => hinv.disjoint b a k hb ha⟩
  · intro l hl id hid
    rw [List.mem_map] at hl
    obtain ⟨ps, hps, rfl⟩ := hl
    simp only [idsAt, List.mem_map] at hid
    obtain ⟨k, hk, rfl⟩ := hid
    have hkl := hbelow ps hps k hk
    obtain ⟨v, hv, hvm⟩ := GetId_of_inRange line (k : Int) ⟨by omega, by omega⟩
    rw [idAt_of_GetId _ _ _ hv]
    exact hvm

/-- Witness of C37: the keyhole contour with the flags of its points 1 and
5. -/
theorem C37_split_keeps_ordinary_points_witness :
    ([-1, 5, -1, -1, -1, 1, -1, -1, -1] : List Int).length =
      ([0, 1, 2, 3, 4, 5, 6, 7, 0] : List Nat).length ∧
    (splitWalk [0, 1, 2, 3, 4, 5, 6, 7, 0] [-1, 5, -1, -1, -1, 1, -1, -1, -1] []
        ([0, 1, 2, 3, 4, 5, 6, 7, 0] : List Nat).length).map (fun s => s.newLines) =
      some [[0, 1, 6, 7, 0], [2, 3, 4, 5]] ∧
    ∃ (s : SplitState) (p : List (List Nat)),
      splitWalk [0, 1, 2, 3, 4, 5, 6, 7, 0] [-1, 5, -1, -1, -1, 1, -1, -1, -1] []
        ([0, 1, 2, 3, 4, 5, 6, 7, 0] : List Nat).length = some s ∧
      s.newLines = [] ++ p.map (idsAt [0, 1, 2, 3, 4, 5, 6, 7, 0]) ∧
      splitLine [0, 1, 2, 3, 4, 5, 6, 7, 0] [-1, 5, -1, -1, -1, 1, -1, -1, -1] [] =
        some ([] ++ (p.map (idsAt [0, 1, 2, 3, 4, 5, 6, 7, 0])).map reclose) ∧
      (∀ ps ∈ p, ps.Pairwise (fun x y => x < y) ∧
        ∀ k ∈ ps, k < ([0, 1, 2, 3, 4, 5, 6, 7, 0] : List Nat).length) ∧
      (∀ k : Nat, k < ([0, 1, 2, 3, 4, 5, 6, 7, 0] : List Nat).length →
        readAt ([-1, 5, -1, -1, -1, 1, -1, -1, -1] : List Int) k = some (-1) →
        ∃ a, a < p.length ∧ k ∈ p.getD a [] ∧ ∀ b, k ∈ p.getD b [] → b = a) ∧
      ∀ l ∈ p.map (idsAt [0, 1, 2, 3, 4, 5, 6, 7, 0]), ∀ id ∈ l,
        id ∈ ([0, 1, 2, 3, 4, 5, 6, 7, 0] : List Nat) :=
  ⟨by decide, by decide,
    C37_split_keeps_ordinary_points [0, 1, 2, 3, 4, 5, 6, 7, 0]
      [-1, 5, -1, -1, -1, 1, -1, -1, -1] [] (by decide)⟩

/-- C38: from every line `k` of a contour set `GetNumberOfLinesOnPlane`
returns the length `r ≥ 1` of the maximal run of consecutive lines from `k` on
that share the lower Z bound of line `k`: the lines `k` to `k + r - 1` share
it and line `k + r`, if there is one, does not.  On a working set none of
whose lines is empty (so that the bridging reads no point of an empty line),
every iteration of the loop of `Convert` over the pairs of consecutive planes
returns and moves to the plane that starts right after the plane it stood on,
a strictly later line; the loop is left within its budget, after fewer
iterations than there are lines, standing on the plane that ends with the last
line; the planes it has stood on, in the order of the iterations, each have at
least one line and start where the plane before ends, each is the run that
`GetNumberOfLinesOnPlane` counts from its first line, and every line lies on
exactly one of them. -/
theorem C38_planes_partition_lines (input : PolyData) (k : Int)
    (hk : InRange input.lines.length k) :
    (∃ r, GetNumberOfLinesOnPlane input input.lines.length k = some r ∧ 1 ≤ r ∧
      k + r ≤ input.lines.length ∧
      (∀ m, k ≤ m → m < k + r →
        (GetBounds input.points (lineAt input m)).zmin =
          (GetBounds input.points (lineAt input k)).zmin) ∧
      (k + r < input.lines.length →
        (GetBounds input.points (lineAt input (k + r))).zmin ≠
          (GetBounds input.points (lineAt input k)).zmin)) ∧
    ((∀ line ∈ input.lines, line ≠ []) →
      (∀ s : ConvertState, 0 ≤ s.firstLineOnPlane1Index → 1 ≤ s.numberOfLinesInPlane1 →
        s.firstLineOnPlane1Index + s.numberOfLinesInPlane1 < input.lines.length →
        s.lineTriganulatedToAbove.length = input.lines.length →
        s.lineTriganulatedToBelow.length = input.lines.length →
        ∃ s', planePairBody input input.lines.length s = some s' ∧
          s'.firstLineOnPlane1Index = s.firstLineOnPlane1Index + s.numberOfLinesInPlane1 ∧
          s.firstLineOnPlane1Index < s'.firstLineOnPlane1Index ∧
          GetNumberOfLinesOnPlane input input.lines.length s'.firstLineOnPlane1Index =
            some s'.numberOfLinesInPlane1 ∧
          s'.firstLineOnPlane1Index + s'.numberOfLinesInPlane1 ≤ input.lines.length ∧
          s'.lineTriganulatedToAbove.length = input.lines.length ∧
          s'.lineTriganulatedToBelow.length = input.lines.length) ∧
      ∃ (planes : List (Int × Int)) (s : ConvertState),
        bridgePlanes input = some s ∧ bridgeWalk input planes.length = some s ∧
        planes.length < input.lines.length ∧
        (∀ i < planes.length, ∃ si, bridgeWalk input i = some si ∧
          (si.firstLineOnPlane1Index, si.numberOfLinesInPlane1) = planes.getD i (0, 0) ∧
          si.firstLineOnPlane1Index + si.numberOfLinesInPlane1 < input.lines.length) ∧
        s.firstLineOnPlane1Index + s.numberOfLinesInPlane1 = input.lines.length ∧
        Tiles 0 (planes ++ [(s.firstLineOnPlane1Index, s.numberOfLinesInPlane1)])
          input.lines.length ∧
        (∀ plane ∈ planes ++ [(s.firstLineOnPlane1Index, s.numberOfLinesInPlane1)],
          GetNumberOfLinesOnPlane input input.lines.length plane.1 = some plane.2) ∧
        ∀ l, InRange input.lines.length l →
          ∃ plane ∈ planes ++ [(s.firstLineOnPlane1Index, s.numberOfLinesInPlane1)],
            plane.1 ≤ l ∧ l < plane.1 + plane.2 ∧
            ∀ other ∈ planes ++ [(s.firstLineOnPlane1Index, s.numberOfLinesInPlane1)],
              other.1 ≤ l → l < other.1 + other.2 → other = plane) := by
  have hne : input.lines ≠ [] := by
    intro h
    have h0 := hk.1
    have h1 := hk.2
    rw [h] at h1
    simp only [List.length_nil, Nat.cast_zero] at h1
    omega
  refine ⟨GetNumberOfLinesOnPlane_run input k hk, ?_⟩
  intro hlines
  constructor
  · intro s h0 h1 h2 ha hb
    obtain ⟨s', hs', hf, hrun, hpos, hle, ha', hb'⟩ := planePairBody_some input hlines s h0 h1
      h2 ha hb
    exact ⟨s', hs', hf, by omega, hrun, hle, ha', hb'⟩
  · obtain ⟨planes, s, hs, hwalk, htiles, hruns, hvisit⟩ := bridgePlanes_trace input hne hlines
    have hlen := Tiles.length_lt htiles
    refine ⟨planes, s, hs, hwalk, ?_, hvisit, Tiles.last_end htiles, htiles, hruns, ?_⟩
    · rw [List.length_append, List.length_singleton] at hlen
      omega
    · intro l hl
      exact Tiles.partition htiles l hl.1 hl.2

/-- Witness of C38: the trunk and the two branches of `branchData` from line 1
on: the run from line 1 has two lines, and the loop is left after one
iteration, having stood on the plane of line 0 and on the plane of the lines 1
and 2. -/
theorem C38_planes_partition_lines_witness :
    InRange branchData.lines.length 1 ∧
    GetNumberOfLinesOnPlane branchData branchData.lines.length 1 = some 2 ∧
    (∀ line ∈ branchData.lines, line ≠ []) ∧
    (bridgePlanes branchData).map
      (fun s => (s.firstLineOnPlane1Index, s.numberOfLinesInPlane1)) = some (1, 2) ∧
    (bridgeWalk branchData 0).map
      (fun s => (s.firstLineOnPlane1Index, s.numberOfLinesInPlane1)) = some (0, 1) ∧
    bridgeWalk branchData 1 = bridgePlanes branchData ∧
    (∃ r, GetNumberOfLinesOnPlane branchData branchData.lines.length 1 = some r ∧ 1 ≤ r ∧
      1 + r ≤ branchData.lines.length ∧
      (∀ m, 1 ≤ m → m < 1 + r →
        (GetBounds branchData.points (lineAt branchData m)).zmin =
          (GetBounds branchData.points (lineAt branchData 1)).zmin) ∧
      (1 + r < branchData.lines.length →
        (GetBounds branchData.points (lineAt branchData (1 + r))).zmin ≠
          (GetBounds branchData.points (lineAt branchData 1)).zmin)) ∧
    ((∀ line ∈ branchData.lines, line ≠ []) →
      (∀ s : ConvertState, 0 ≤ s.firstLineOnPlane1Index → 1 ≤ s.numberOfLinesInPlane1 →
        s.firstLineOnPlane1Index + s.numberOfLinesInPlane1 < branchData.lines.length →
        s.lineTriganulatedToAbove.length = branchData.lines.length →
        s.lineTriganulatedToBelow.length = branchData.lines.length →
        ∃ s', planePairBody branchData branchData.lines.length s = some s' ∧
          s'.firstLineOnPlane1Index = s.firstLineOnPlane1Index + s.numberOfLinesInPlane1 ∧
          s.firstLineOnPlane1Index < s'.firstLineOnPlane1Index ∧
          GetNumberOfLinesOnPlane branchData branchData.lines.length s'.firstLineOnPlane1Index =
            some s'.numberOfLinesInPlane1 ∧
          s'.firstLineOnPlane1Index + s'.numberOfLinesInPlane1 ≤ branchData.lines.length ∧
          s'.lineTriganulatedToAbove.length = branchData.lines.length ∧
          s'.lineTriganulatedToBelow.length = branchData.lines.length) ∧
      ∃ (planes : List (Int × Int)) (s : ConvertState),
        bridgePlanes branchData = some s ∧ bridgeWalk branchData planes.length = some s ∧
        planes.length < branchData.lines.length ∧
        (∀ i < planes.length, ∃ si, bridgeWalk branchData i = some si ∧
          (si.firstLineOnPlane1Index, si.numberOfLinesInPlane1) = planes.getD i (0, 0) ∧
          si.firstLineOnPlane1Index + si.numberOfLinesInPlane1 < branchData.lines.length) ∧
        s.firstLineOnPlane1Index + s.numberOfLinesInPlane1 = branchData.lines.length ∧
        Tiles 0 (planes ++ [(s.firstLineOnPlane1Index, s.numberOfLinesInPlane1)])
          branchData.lines.length ∧
        (∀ plane ∈ planes ++ [(s.firstLineOnPlane1Index, s.numberOfLinesInPlane1)],
          GetNumberOfLinesOnPlane branchData branchData.lines.length plane.1 = some plane.2) ∧
        ∀ l, InRange branchData.lines.length l →
          ∃ plane ∈ planes ++ [(s.firstLineOnPlane1Index, s.numberOfLinesInPlane1)],
            plane.1 ≤ l ∧ l < plane.1 + plane.2 ∧
            ∀ other ∈ planes ++ [(s.firstLineOnPlane1Index, s.numberOfLinesInPlane1)],
              other.1 ≤ l → l < other.1 + other.2 → other = plane) :=
  ⟨by unfold InRange; decide, by decide!, by decide, by decide!, by decide!, by decide!,
    C38_planes_partition_lines branchData 1 (by unfold InRange; decide)⟩

/-- C39: when chain 1 has exactly one point `TriangulateContours` emits no
triangle, whatever chain 2 is; when chain 2 has exactly one point and chain 1
at least two, it emits exactly `n1 - 1` triangles, all of them `up`
triangles: each has the single point of chain 2 as its second vertex, and
their chain edges are the pairs of ids at the consecutive walk positions `r`
and `r - 1` of chain 1, for `r` from `n1 - 1` down to `1`. -/
theorem C39_single_point_asymmetry (points : PointSet) (out : List Triangle)
    (one two many single : List Nat) (hone : one.length = 1) (hmany : 2 ≤ many.length)
    (hsingle : single.length = 1) :
    TriangulateContours points one two out = some out ∧
    ∃ c path new, bridgeInput points many single = some c ∧
      TriangulateContours points many single out = some (out ++ new) ∧
      new.length = many.length - 1 ∧
      new = upTriangles c path ∧ leftTriangles c path = [] ∧
      new.map Triangle.edge1 =
        (countdown (many.length - 1)).map (fun r => (c.id1 r, c.id1 (r - 1))) ∧
      ∀ t ∈ new, t.2.1 = idAt single 0 ∧ t.1 ∈ many ∧ t.2.2 ∈ many := by
  constructor
  · by_cases h2 : two = []
    · unfold TriangulateContours
      rw [if_pos (Or.inr (by rw [h2]; rfl))]
    · have h1 : one ≠ [] := by intro h; rw [h] at hone; simp at hone
      obtain ⟨new, hres, hlen, _⟩ := TriangulateContours_spec points one two out h1 h2
      rw [if_neg (by omega)] at hlen
      have hnil : new = [] := List.length_eq_zero.mp hlen
      rw [hres, hnil, List.append_nil]
  · have hs : single ≠ [] := by intro h; rw [h] at hsingle; simp at hsingle
    obtain ⟨c, path, new, hcin, hc, hanch, hl1, hl2, hres, hnew, hmono, _, _⟩ :=
      TriangulateContours_trace points many single out hmany hs
    obtain ⟨_, hup, hleft⟩ := hmono.steps c
    rw [List.reverse_reverse, show ((many.length : Int) - 1).toNat = many.length - 1 by omega]
      at hup
    rw [List.reverse_reverse, show ((single.length : Int) - 1).toNat = 0 by omega] at hleft
    have hnoleft : leftTriangles c path = [] := by
      simpa [countdown] using hleft
    have hrib : new = upTriangles c path := by
      rw [hnew]
      exact ribbonOf_eq_up c path hnoleft
    have hlen : new.length = many.length - 1 := by
      have := congrArg List.length hup
      simp only [List.length_map, countdown_length] at this
      rw [hrib]
      exact this
    refine ⟨c, path, new, hcin, hres, hlen, hrib, hnoleft, by rw [hrib]; exact hup, ?_⟩
    have hm : many ≠ [] := by intro h; rw [h] at hmany; simp at hmany
    obtain ⟨new', hres', _, hon⟩ := TriangulateContours_spec points many single out hm hs
    have hsame : new' = new := by
      have := Option.some.inj (hres'.symm.trans hres)
      exact List.append_cancel_left this
    rw [hsame] at hon
    intro t ht
    obtain ⟨h1, h2, h3⟩ := hon t ht
    obtain ⟨q, hq⟩ : ∃ q, single = [q] := by
      cases single with
      | nil => simp at hsingle
      | cons q rest =>
        cases rest with
        | nil => exact ⟨q, rfl⟩
        | cons r rs => simp at hsingle
    subst hq
    have ht2 : t.2.1 = q := by simpa using h2
    refine ⟨by rw [ht2]; simp [idAt, GetId, readAt], h1, ?_⟩
    have hmem : t.edge1 ∈ new.map Triangle.edge1 := List.mem_map_of_mem _ ht
    rw [hrib, hup, List.mem_map] at hmem
    obtain ⟨r, _, hr⟩ := hmem
    have h22 : t.2.2 = c.id1 (r - 1) := (congrArg Prod.snd hr).symm
    have hn1 : c.numberOfPointsInLine1 = many.length := by rw [hc.len1, hl1]
    have hpos := position1_inRange c hc (by rw [hn1]; exact_mod_cast hmany) (r - 1)
    rw [hn1] at hpos
    obtain ⟨v, hv, hvm⟩ := GetId_of_inRange many (c.position1 (r - 1)) hpos
    rw [h22]
    unfold BridgeInput.id1
    rw [hl1, idAt_of_GetId _ _ _ hv]
    exact hvm

/-- Witness of C39: the one-point chain `[0]` against `[2, 3]`, and the chain
`[0, 1]` against the one-point chain `[2]`, over `segmentPoints`. -/
theorem C39_single_point_asymmetry_witness :
    ([0] : List Nat).length = 1 ∧ 2 ≤ ([0, 1] : List Nat).length ∧ ([2] : List Nat).length = 1 ∧
    TriangulateContours segmentPoints [0, 1] [2] [] = some [(1, 2, 0)] ∧
    (TriangulateContours segmentPoints [0] [2, 3] [] = some [] ∧
      ∃ c path new, bridgeInput segmentPoints [0, 1] [2] = some c ∧
        TriangulateContours segmentPoints [0, 1] [2] [] = some ([] ++ new) ∧
        new.length = ([0, 1] : List Nat).length - 1 ∧
        new = upTriangles c path ∧ leftTriangles c path = [] ∧
        new.map Triangle.edge1 =
          (countdown (([0, 1] : List Nat).length - 1)).map (fun r => (c.id1 r, c.id1 (r - 1))) ∧
        ∀ t ∈ new, t.2.1 = idAt [2] 0 ∧ t.1 ∈ ([0, 1] : List Nat) ∧ t.2.2 ∈ ([0, 1] : List Nat)) :=
  ⟨by decide, by decide, by decide, by decide!,
    C39_single_point_asymmetry segmentPoints [] [0] [2, 3] [0, 1] [2] (by decide) (by decide)
      (by decide)⟩

/-- C40: on a line with as many flags as points, the splitting pass reaches
every point `k` of the line, in a state `s0`, and handles it; an iteration is
the step "Add a new line if necessary" followed by the handling of the point,
and after that step the current layer is not negative and is the number of
open sub-loops less one, so that the sub-loop it indexes exists: it is the
last open sub-loop, a line of `newLines`.  The iteration leaves the open and
the finished sub-loops as they are, or it moves that sub-loop from the open to
the finished ones; and the current layer is not negative afterwards. -/
theorem C40_layer_matches_open_loops (line : List Nat) (flags : List Int)
    (init : List (List Nat)) (hlen : flags.length = line.length) (k : Nat)
    (hk : k < line.length) :
    ∃ s0 s' handle, splitWalk line flags init k = some s0 ∧
      splitBody line flags k s0 = some s' ∧
      splitBody line flags k s0 = splitPoint line flags k (openLine s0) ∧
      splitWalk line flags init (k + 1) = some s' ∧
      0 ≤ s0.currentLayer ∧ 0 ≤ (openLine s0).currentLayer ∧
      (openLine s0).currentLayer = ((openLine s0).rawLinePointIds.length : Int) - 1 ∧
      readAt (openLine s0).rawLinePointIds (openLine s0).currentLayer = some handle ∧
      (openLine s0).rawLinePointIds.getLast? = some handle ∧
      handle < (openLine s0).newLines.length ∧
      ((s'.finishedLinePointIds = (openLine s0).finishedLinePointIds ∧
          s'.rawLinePointIds = (openLine s0).rawLinePointIds) ∨
        (s'.finishedLinePointIds = (openLine s0).finishedLinePointIds ++ [handle] ∧
          s'.rawLinePointIds = (openLine s0).rawLinePointIds.dropLast)) ∧
      0 ≤ s'.currentLayer := by
  obtain ⟨s0, p, hs0, hinv⟩ := splitWalk_inv line flags init hlen k (le_of_lt hk)
  obtain ⟨p1, h1, hlast, _⟩ := openLine_inv line flags init k s0 p hinv
  obtain ⟨s', p', handle, hs', hinv', hread, hgl, hlt, hcase⟩ :=
    splitPoint_step line flags init hlen k ⟨by omega, by omega⟩ _ p1 h1 hlast
  have hbody : splitBody line flags k s0 = some s' := by rw [splitBody_eq]; exact hs'
  refine ⟨s0, s', handle, hs0, hbody, splitBody_eq line flags k s0, ?_, hinv.layer_nonneg,
    h1.layer_nonneg, by omega, hread, hgl, hlt, hcase, hinv'.layer_nonneg⟩
  unfold splitWalk at hs0 ⊢
  rw [forLoop_snoc, hs0, Option.some_bind]
  have e : (0 : Int) + (k : Int) = k := by omega
  rw [e]
  exact hbody

/-- Witness of C40: the keyhole contour at its point 5, where the inner
sub-loop closes. -/
theorem C40_layer_matches_open_loops_witness :
    ([-1, 5, -1, -1, -1, 1, -1, -1, -1] : List Int).length =
      ([0, 1, 2, 3, 4, 5, 6, 7, 0] : List Nat).length ∧
    5 < ([0, 1, 2, 3, 4, 5, 6, 7, 0] : List Nat).length ∧
    splitWalk [0, 1, 2, 3, 4, 5, 6, 7, 0] [-1, 5, -1, -1, -1, 1, -1, -1, -1] [] 5 =
      some ⟨1, false, [[0, 1], [2, 3, 4]], [0, 1], []⟩ ∧
    splitWalk [0, 1, 2, 3, 4, 5, 6, 7, 0] [-1, 5, -1, -1, -1, 1, -1, -1, -1] [] (5 + 1) =
      some ⟨0, true, [[0, 1], [2, 3, 4, 5]], [0], [1]⟩ ∧
    ∃ s0 s' handle,
      splitWalk [0, 1, 2, 3, 4, 5, 6, 7, 0] [-1, 5, -1, -1, -1, 1, -1, -1, -1] [] 5 = some s0 ∧
      splitBody [0, 1, 2, 3, 4, 5, 6, 7, 0] [-1, 5, -1, -1, -1, 1, -1, -1, -1] (5 : Nat) s0 =
        some s' ∧
      splitBody [0, 1, 2, 3, 4, 5, 6, 7, 0] [-1, 5, -1, -1, -1, 1, -1, -1, -1] (5 : Nat) s0 =
        splitPoint [0, 1, 2, 3, 4, 5, 6, 7, 0] [-1, 5, -1, -1, -1, 1, -1, -1, -1] (5 : Nat)
          (openLine s0) ∧
      splitWalk [0, 1, 2, 3, 4, 5, 6, 7, 0] [-1, 5, -1, -1, -1, 1, -1, -1, -1] [] (5 + 1) =
        some s' ∧
      0 ≤ s0.currentLayer ∧ 0 ≤ (openLine s0).currentLayer ∧
      (openLine s0).currentLayer = ((openLine s0).rawLinePointIds.length : Int) - 1 ∧
      readAt (openLine s0).rawLinePointIds (openLine s0).currentLayer = some handle ∧
      (openLine s0).rawLinePointIds.getLast? = some handle ∧
      handle < (openLine s0).newLines.length ∧
      ((s'.finishedLinePointIds = (openLine s0).finishedLinePointIds ∧
          s'.rawLinePointIds = (openLine s0).rawLinePointIds) ∨
        (s'.finishedLinePointIds = (openLine s0).finishedLinePointIds ++ [handle] ∧
          s'.rawLinePointIds = (openLine s0).rawLinePointIds.dropLast)) ∧
      0 ≤ s'.currentLayer :=
  ⟨by decide, by decide, by decide, by decide,
    C40_layer_matches_open_loops [0, 1, 2, 3, 4, 5, 6, 7, 0]
      [-1, 5, -1, -1, -1, 1, -1, -1, -1] [] (by decide) 5 (by decide)⟩

end PlanarContour
